import Mathlib

/-!
# Portal game physics core: vectors, polygons, bodies and SAT collision

A shallow embedding of `library/vector.c`, `library/polygon.c`, `library/body.c`,
`library/collision.c` and the collision dispatcher of `library/forces.c`.

Number model.  A C `double` is an element of a linear ordered field `K`
(exact arithmetic, no rounding; every value of `K` is finite).  The definitions
are executable at `K = ℚ`.  Where rounding decides a property, the functions are
embedded a second time with every operation rounded to binary64 (section
"Rounded arithmetic", namespace `Binary64`).  The `INFINITY` sentinel, which the
code uses for the mass of immovable bodies and for the initial bounds of a
projection interval, is made explicit where it occurs.  The libm functions `sqrt`, `cos` and `sin` are
parameters of the definitions that call them.
-/

namespace PortalGame

/-! ## vector.c -/

/-- The struct `vector_t` of `vector.h`: a pair of doubles. -/
@[ext] structure vector_t (K : Type) where
  x : K
  y : K
deriving DecidableEq

variable {K : Type} [LinearOrderedField K]

/-- The constant `VEC_ZERO`. -/
def VEC_ZERO : vector_t K := ⟨0, 0⟩

/-- The function `vec_add`. -/
def vec_add (v1 v2 : vector_t K) : vector_t K := ⟨v1.x + v2.x, v1.y + v2.y⟩

/-- The function `vec_subtract`. -/
def vec_subtract (v1 v2 : vector_t K) : vector_t K := ⟨v1.x - v2.x, v1.y - v2.y⟩

/-- The function `vec_multiply`: the scalar multiplies from the right, as in the source. -/
def vec_multiply (scalar : K) (v : vector_t K) : vector_t K := ⟨v.x * scalar, v.y * scalar⟩

/-- The function `vec_negate`. -/
def vec_negate (v : vector_t K) : vector_t K := vec_multiply (-1) v

/-- The function `vec_dot`. -/
def vec_dot (v1 v2 : vector_t K) : K := v1.x * v2.x + v1.y * v2.y

/-- The function `vec_cross`. -/
def vec_cross (v1 v2 : vector_t K) : K := v1.x * v2.y - v1.y * v2.x

/-- The function `vec_rotate`; `cos` and `sin` stand for the libm functions. -/
def vec_rotate (cos sin : K → K) (v : vector_t K) (angle : K) : vector_t K :=
  ⟨v.x * cos angle - v.y * sin angle, v.x * sin angle + v.y * cos angle⟩

/-! ## polygon.c -/

/-- The vertex at index `i`, as `*(vector_t *)list_get(polygon, i)`.  Every index
the embedded loops use is below the size, so the default is never returned. -/
def list_get (polygon : List (vector_t K)) (i : Nat) : vector_t K := polygon.getD i VEC_ZERO

/-- The function `polygon_area`: the loop accumulates
`(curr.y + next.y) * (curr.x - next.x)` over the indices in increasing order. -/
def polygon_area (polygon : List (vector_t K)) : K :=
  (List.range polygon.length).foldl
    (fun sum_area i =>
      let curr := list_get polygon i
      let next := list_get polygon ((i + 1) % polygon.length)
      sum_area + (curr.y + next.y) * (curr.x - next.x)) 0 / 2

/-- The function `polygon_centroid`: both coordinate sums are accumulated in one loop
and divided by `6 * area`. -/
def polygon_centroid (polygon : List (vector_t K)) : vector_t K :=
  let area := polygon_area polygon
  let c := (List.range polygon.length).foldl
    (fun (c : K × K) i =>
      let curr := list_get polygon i
      let next := list_get polygon ((i + 1) % polygon.length)
      (c.1 + (curr.x + next.x) * (curr.x * next.y - next.x * curr.y),
       c.2 + (curr.y + next.y) * (curr.x * next.y - next.x * curr.y))) (0, 0)
  ⟨c.1 / (6 * area), c.2 / (6 * area)⟩

/-- The function `polygon_translate`: every vertex is replaced, in place and in order,
by its sum with the translation.  The sums are exact here; `Binary64.polygon_translate`
rounds them. -/
def polygon_translate (polygon : List (vector_t K)) (translation : vector_t K) :
    List (vector_t K) :=
  polygon.map (fun v => vec_add v translation)

/-- The function `polygon_rotate`: translate the pivot to the origin, rotate every
vertex, translate back. -/
def polygon_rotate (cos sin : K → K) (polygon : List (vector_t K)) (angle : K)
    (point : vector_t K) : List (vector_t K) :=
  polygon_translate
    ((polygon_translate polygon (vec_negate point)).map (fun v => vec_rotate cos sin v angle))
    point

/-! ## body.c -/

/-- The value of the `mass` field: a finite double, or the sentinel `INFINITY`. -/
inductive Mass (K : Type) where
  | finite (m : K)
  | infinity
deriving DecidableEq

/-- The expression `1 / body->mass`.  IEEE division gives `1 / INFINITY = 0`.  For a
finite mass this is the field inverse; it agrees with the C value whenever the mass is
not zero (the C value at mass zero is infinite and lies outside the model). -/
def inv_mass : Mass K → K
  | Mass.finite m => 1 / m
  | Mass.infinity => 0

/-- The struct `body_t`, without the presentational fields (colour, info pointer,
textures, image path), which no function of the physics core reads. -/
structure body_t (K : Type) where
  shape : List (vector_t K)
  mass : Mass K
  vel : vector_t K
  centroid : vector_t K
  force : vector_t K
  impulse : vector_t K
  is_removed : Bool
  rotation : K
  is_visible : Bool
deriving DecidableEq

/-- The function `body_init` (through `body_init_with_image`). -/
def body_init (shape : List (vector_t K)) (mass : Mass K) : body_t K :=
  { shape := shape, mass := mass, vel := ⟨0, 0⟩, centroid := polygon_centroid shape,
    force := ⟨0, 0⟩, impulse := ⟨0, 0⟩, is_removed := false, rotation := 0,
    is_visible := true }

/-- The function `body_set_centroid`. -/
def body_set_centroid (body : body_t K) (x : vector_t K) : body_t K :=
  let translation := vec_subtract x body.centroid
  { body with shape := polygon_translate body.shape translation, centroid := x }

/-- The function `body_set_velocity`. -/
def body_set_velocity (body : body_t K) (v : vector_t K) : body_t K := { body with vel := v }

/-- The function `body_set_rotation_around_point`. -/
def body_set_rotation_around_point (cos sin : K → K) (body : body_t K) (angle : K)
    (point : vector_t K) : body_t K :=
  { body with rotation := body.rotation + angle,
              shape := polygon_rotate cos sin body.shape angle point }

/-- The function `body_set_rotation`: a rotation about the stored centroid. -/
def body_set_rotation (cos sin : K → K) (body : body_t K) (angle : K) : body_t K :=
  body_set_rotation_around_point cos sin body angle body.centroid

/-- The function `body_add_force`. -/
def body_add_force (body : body_t K) (force : vector_t K) : body_t K :=
  { body with force := vec_add body.force force }

/-- The function `body_add_impulse`. -/
def body_add_impulse (body : body_t K) (impulse : vector_t K) : body_t K :=
  { body with impulse := vec_add body.impulse impulse }

/-- The function `body_tick`. -/
def body_tick (body : body_t K) (dt : K) : body_t K :=
  let acceleration := vec_multiply (inv_mass body.mass) body.force
  let new_vel := vec_add body.vel (vec_multiply dt acceleration)
  let new_vel := vec_add new_vel (vec_multiply (inv_mass body.mass) body.impulse)
  let avg_vel := vec_multiply (1 / 2) (vec_add new_vel body.vel)
  let new_centroid := vec_add body.centroid (vec_multiply dt avg_vel)
  let body := body_set_centroid body new_centroid
  let body := body_set_velocity body new_vel
  { body with force := ⟨0, 0⟩, impulse := ⟨0, 0⟩ }

/-- One call a client can make on a body between and including integration steps. -/
inductive body_call (K : Type) where
  | tick (dt : K)
  | add_force (f : vector_t K)
  | add_impulse (j : vector_t K)

/-- Runs one call on a body. -/
def body_call.run (c : body_call K) (body : body_t K) : body_t K :=
  match c with
  | body_call.tick dt => body_tick body dt
  | body_call.add_force f => body_add_force body f
  | body_call.add_impulse j => body_add_impulse body j

/-- Runs a sequence of calls on a body, in order. -/
def run_calls (calls : List (body_call K)) (body : body_t K) : body_t K :=
  calls.foldl (fun b c => c.run b) body

/-- The sum of the time steps of the `body_tick` calls of a sequence. -/
def total_dt : List (body_call K) → K
  | [] => 0
  | body_call.tick dt :: cs => dt + total_dt cs
  | _ :: cs => total_dt cs

/-- The square of `make_shape` in the test file. -/
def make_shape : List (vector_t K) := [⟨-1, -1⟩, ⟨1, -1⟩, ⟨1, 1⟩, ⟨-1, 1⟩]

/-! ## collision.c -/

/-- The function `compute_normal`; `sqrt` stands for the libm function.  It agrees with
the C value whenever the edge has non-zero length; for `v1 = v2` the C value has NaN
components (`0 * inf`) and lies outside this model, in which `1 / 0 = 0`. -/
def compute_normal (sqrt : K → K) (v1 v2 : vector_t K) : vector_t K :=
  let edge := vec_subtract v1 v2
  let dist := sqrt (vec_dot edge edge)
  let unit := vec_multiply (1 / dist) edge
  ⟨-unit.y, unit.x⟩

/-- The function `find_min_max_interval`.  The loop state `(min, max)` starts at
`(inf, -inf)`, written `none`; the first vertex passes both comparisons and sets both
bounds to its projection, later vertices update each bound by its own comparison.  The
result is `none` exactly for a shape without vertices. -/
def find_min_max_interval (shape : List (vector_t K)) (normal : vector_t K) : Option (K × K) :=
  shape.foldl
    (fun interval v =>
      let proj := vec_dot v normal
      match interval with
      | none => some (proj, proj)
      | some (lo, hi) => some (if proj < lo then proj else lo, if proj > hi then proj else hi))
    none

/-- The struct `collision_info_t`.  The axis is `none` while the field has not been
written. -/
structure collision_info_t (K : Type) where
  collided : Bool
  axis : Option (vector_t K)
deriving DecidableEq

/-- The two end points `v1`, `v2` of the edge visited by iteration `i` of the loop of
`find_collision`: the edges of `shape1` first, then those of `shape2`. -/
def edge_ends (shape1 shape2 : List (vector_t K)) (i : Nat) : vector_t K × vector_t K :=
  let j := if i < shape1.length then i else i - shape1.length
  let shape := if i < shape1.length then shape1 else shape2
  (list_get shape j, list_get shape ((j + 1) % shape.length))

/-- The normal computed by iteration `i` of the loop of `find_collision`. -/
def edge_normal (sqrt : K → K) (shape1 shape2 : List (vector_t K)) (i : Nat) : vector_t K :=
  compute_normal sqrt (edge_ends shape1 shape2 i).1 (edge_ends shape1 shape2 i).2

/-- The interval test of iteration `i` of the loop of `find_collision`: `none` when the
condition `max1 < min2 || max2 < min1` holds (the function returns), the overlap
`fabs(fmax(min1, min2) - fmin(max1, max2))` otherwise.  An interval `(inf, -inf)` of a
shape without vertices makes the condition hold. -/
def edge_test (sqrt : K → K) (shape1 shape2 : List (vector_t K)) (i : Nat) : Option K :=
  let shape := if i < shape1.length then shape1 else shape2
  let other_shape := if i < shape1.length then shape2 else shape1
  let normal := edge_normal sqrt shape1 shape2 i
  match find_min_max_interval shape normal, find_min_max_interval other_shape normal with
  | some (min1, max1), some (min2, max2) =>
    if max1 < min2 ∨ max2 < min1 then none else some |max min1 min2 - min max1 max2|
  | _, _ => none

/-- The comparison `overlap < shortest_overlap`, where `none` is the initial `inf`. -/
def lt_shortest (overlap : K) : Option K → Bool
  | none => true
  | some shortest_overlap => decide (overlap < shortest_overlap)

/-- The loop of `find_collision` over the remaining iterations, with the current
`shortest_overlap` and `collision_info.axis`. -/
def find_collision_loop (sqrt : K → K) (shape1 shape2 : List (vector_t K)) :
    List Nat → Option K → Option (vector_t K) → collision_info_t K
  | [], _, axis => ⟨true, axis⟩
  | i :: rest, shortest_overlap, axis =>
    match edge_test sqrt shape1 shape2 i with
    | none => ⟨false, axis⟩
    | some overlap =>
      if lt_shortest overlap shortest_overlap then
        find_collision_loop sqrt shape1 shape2 rest (some overlap)
          (some (edge_normal sqrt shape1 shape2 i))
      else find_collision_loop sqrt shape1 shape2 rest shortest_overlap axis

/-- The function `find_collision`.  Normals and projections are exact here;
`Binary64.find_collision` rounds every operation, and its verdict can differ when two
projections lie within rounding of each other. -/
def find_collision (sqrt : K → K) (shape1 shape2 : List (vector_t K)) : collision_info_t K :=
  find_collision_loop sqrt shape1 shape2 (List.range (shape1.length + shape2.length)) none none

/-- Whether the projection intervals of two shapes on a normal are disjoint: the maximum
of one lies strictly below the minimum of the other. -/
def separating (shape1 shape2 : List (vector_t K)) (normal : vector_t K) : Bool :=
  match find_min_max_interval shape1 normal, find_min_max_interval shape2 normal with
  | some (min1, max1), some (min2, max2) => decide (max1 < min2 ∨ max2 < min1)
  | _, _ => true

/-- The overlap `|max(min1, min2) - min(max1, max2)|` of the projection intervals of two
shapes with vertices on a normal. -/
def overlap_on (shape1 shape2 : List (vector_t K)) (normal : vector_t K) : K :=
  match find_min_max_interval shape1 normal, find_min_max_interval shape2 normal with
  | some (min1, max1), some (min2, max2) => |max min1 min2 - min max1 max2|
  | _, _ => 0

/-- The combination of the vertices of a shape with the given weights. -/
def weighted_sum : List K → List (vector_t K) → vector_t K
  | w :: ws, v :: vs => vec_add (vec_multiply w v) (weighted_sum ws vs)
  | _, _ => VEC_ZERO

/-- A point of the convex hull of the vertices of a shape: a combination with
non-negative weights that add up to one. -/
def in_hull (p : vector_t K) (shape : List (vector_t K)) : Prop :=
  ∃ w : List K, w.length = shape.length ∧ (∀ a ∈ w, 0 ≤ a) ∧ w.sum = 1 ∧ weighted_sum w shape = p

/-! ## forces.c: the collision dispatcher -/

/-- The function `apply_collision` on the two bodies and the flag `collided_last_tick` of
its `force_aux_t`; the handler returns the two bodies as it leaves them.  The result is
`none` when the handler would be called with an axis that was never written (two shapes
without vertices). -/
def apply_collision (sqrt : K → K)
    (handler : body_t K → body_t K → vector_t K → body_t K × body_t K)
    (body1 body2 : body_t K) (collided_last_tick : Bool) :
    Option (body_t K × body_t K × Bool) :=
  let collision_info := find_collision sqrt body1.shape body2.shape
  if collision_info.collided && !collided_last_tick then
    match collision_info.axis with
    | some axis => some ((handler body1 body2 axis).1, (handler body1 body2 axis).2, true)
    | none => none
  else if collision_info.collided then some (body1, body2, true)
  else some (body1, body2, false)

/-- The sum over the vertex pairs `(polygon[i], polygon[(i + 1) % size])` that the loops
of `polygon_area` and `polygon_centroid` visit. -/
def cyc_sum (f : vector_t K → vector_t K → K) (polygon : List (vector_t K)) : K :=
  ∑ i in Finset.range polygon.length,
    f (list_get polygon i) (list_get polygon ((i + 1) % polygon.length))

/-- The summand of `polygon_area`. -/
def area_term (curr next : vector_t K) : K := (curr.y + next.y) * (curr.x - next.x)

/-- The summand of the x coordinate in `polygon_centroid`. -/
def cx_term (curr next : vector_t K) : K :=
  (curr.x + next.x) * (curr.x * next.y - next.x * curr.y)

/-- The summand of the y coordinate in `polygon_centroid`. -/
def cy_term (curr next : vector_t K) : K :=
  (curr.y + next.y) * (curr.x * next.y - next.x * curr.y)

/-- An infinite-mass body with unit velocity along x, as `body_set_velocity` leaves it. -/
def moving_anchor : body_t ℚ :=
  body_set_velocity (body_init make_shape Mass.infinity) ⟨1, 0⟩

/-- The body of the tests: the square of `make_shape` with unit mass. -/
def unit_square_body : body_t ℚ := body_init make_shape (Mass.finite 1)

/-- The cosine of a quarter turn, as a constant function. -/
def quarter_cos : ℚ → ℚ := fun _ => 0

/-- The sine of a quarter turn, as a constant function. -/
def quarter_sin : ℚ → ℚ := fun _ => 1

/-- A square root that is exact on the squared edge length 4 of the test squares. -/
def sqrt_table : ℚ → ℚ := fun x => if x = 4 then 2 else 0

/-- The square of `make_shape` after `body_set_centroid` to `(d, 0)`. -/
def square_at (d : K) : List (vector_t K) := polygon_translate make_shape ⟨d, 0⟩

/-- The unit square body after `body_set_centroid` to (-1, 0). -/
def left_square_body : body_t ℚ := body_set_centroid unit_square_body ⟨-1, 0⟩

/-! ## body.c: soft deletion -/

/-- The function `body_remove`. -/
def body_remove (body : body_t K) : body_t K := { body with is_removed := true }

/-- The function `body_is_removed`. -/
def body_is_removed (body : body_t K) : Bool := body.is_removed

/-! ## forces.c: force laws

Bodies live in memory and are referred to by pointers.  A pointer is a natural
number and the memory maps each pointer to the body it points to. -/

/-- A pointer `body_t *`. -/
abbrev body_ptr := Nat

/-- The memory of bodies: the struct each `body_t *` points to. -/
abbrev body_mem (K : Type) := body_ptr → body_t K

/-- The constant `MINIMUM_DISTANCE`. -/
def MINIMUM_DISTANCE : K := 5

/-- The constant `GRAVITY_FORCE_THRESHOLD`. -/
def GRAVITY_FORCE_THRESHOLD : K := 100

/-- The struct `force_aux_t`.  The handler is a closure over its own `aux` pointer (for
`physics_collision_handler`, the elasticity); `none` is the `NULL` handler. -/
structure force_aux_t (K : Type) where
  force_constant : K
  body1 : body_ptr
  body2 : body_ptr
  collision_handler : Option (body_t K → body_t K → vector_t K → body_t K × body_t K)
  collided_last_tick : Bool

/-- The struct `force_applier_t`.  The forcer is called with the `aux` and acts on the
memory of bodies and on the `force_aux_t` the `aux` points to; it returns `none` when
the call fails or leaves the model.  The field `bodies` is `none` for a `NULL` list. -/
structure force_applier_t (K : Type) where
  forcer : force_aux_t K → body_mem K → Option (force_aux_t K × body_mem K)
  aux : force_aux_t K
  bodies : Option (List body_ptr)

/-- The function `apply_newtonian_gravity`.  With `distance >= MINIMUM_DISTANCE` and a
mass `INFINITY` the force is not finite: the result is `none`.  `pow(distance, 2)` is the
square. -/
def apply_newtonian_gravity (sqrt : K → K) (aux : force_aux_t K) (mem : body_mem K) :
    Option (force_aux_t K × body_mem K) :=
  let G := aux.force_constant
  let centroid1 := (mem aux.body1).centroid
  let centroid2 := (mem aux.body2).centroid
  let displacement := vec_subtract centroid2 centroid1
  let distance := sqrt (vec_dot displacement displacement)
  if distance ≥ MINIMUM_DISTANCE then
    match (mem aux.body1).mass, (mem aux.body2).mass with
    | Mass.finite mass1, Mass.finite mass2 =>
      let unit_vector := vec_multiply (1 / distance) displacement
      let force_magnitude := G * mass1 * mass2 / distance ^ 2
      let gravity_force := vec_multiply force_magnitude unit_vector
      let gravity_force : vector_t K :=
        ⟨if |gravity_force.x| < GRAVITY_FORCE_THRESHOLD then 0 else gravity_force.x,
          gravity_force.y⟩
      let gravity_force : vector_t K :=
        ⟨gravity_force.x,
          if |gravity_force.y| < GRAVITY_FORCE_THRESHOLD then 0 else gravity_force.y⟩
      let mem := Function.update mem aux.body1 (body_add_force (mem aux.body1) gravity_force)
      some (aux, Function.update mem aux.body2
        (body_add_force (mem aux.body2) (vec_negate gravity_force)))
    | _, _ => none
  else some (aux, mem)

/-- The function `apply_spring`. -/
def apply_spring (aux : force_aux_t K) (mem : body_mem K) :
    Option (force_aux_t K × body_mem K) :=
  let k := aux.force_constant
  let centroid1 := (mem aux.body1).centroid
  let centroid2 := (mem aux.body2).centroid
  let displacement := vec_subtract centroid2 centroid1
  let spring_force := vec_multiply k displacement
  let mem := Function.update mem aux.body1 (body_add_force (mem aux.body1) spring_force)
  some (aux, Function.update mem aux.body2
    (body_add_force (mem aux.body2) (vec_negate spring_force)))

/-- The function `apply_drag`. -/
def apply_drag (aux : force_aux_t K) (mem : body_mem K) :
    Option (force_aux_t K × body_mem K) :=
  let gamma := aux.force_constant
  let body_vel := (mem aux.body1).vel
  let drag_force := vec_multiply (-gamma) body_vel
  some (aux, Function.update mem aux.body1 (body_add_force (mem aux.body1) drag_force))

/-- The function `apply_collision` as a force creator: `apply_collision` above on the two
bodies the `force_aux_t` points to (two distinct bodies), the bodies written back and
the flag stored.  A `NULL` handler is not supported. -/
def apply_collision_forcer (sqrt : K → K) (aux : force_aux_t K) (mem : body_mem K) :
    Option (force_aux_t K × body_mem K) :=
  match aux.collision_handler with
  | none => none
  | some handler =>
    match apply_collision sqrt handler (mem aux.body1) (mem aux.body2)
        aux.collided_last_tick with
    | none => none
    | some (body1, body2, flag) =>
      some ({ aux with collided_last_tick := flag },
        Function.update (Function.update mem aux.body1 body1) aux.body2 body2)

/-- The function `destructive_collision_handler`. -/
def destructive_collision_handler (body1 body2 : body_t K) (_axis : vector_t K) :
    body_t K × body_t K :=
  (body_remove body1, body_remove body2)

/-- The reduced mass computed by `physics_collision_handler`; `none` when the C value is
not a finite double (both masses `INFINITY`, or finite masses that add up to zero). -/
def reduced_mass : Mass K → Mass K → Option K
  | Mass.infinity, Mass.infinity => none
  | Mass.infinity, Mass.finite mass2 => some mass2
  | Mass.finite mass1, Mass.infinity => some mass1
  | Mass.finite mass1, Mass.finite mass2 =>
    if mass1 + mass2 = 0 then none else some (mass1 * mass2 / (mass1 + mass2))

/-- The function `physics_collision_handler`, with the elasticity its `aux` points to;
`none` when the reduced mass, and with it the impulse, is not finite. -/
def physics_collision_handler (body1 body2 : body_t K) (axis : vector_t K) (elasticity : K) :
    Option (body_t K × body_t K) :=
  let v_1 := body1.vel
  let v_2 := body2.vel
  match reduced_mass body1.mass body2.mass with
  | none => none
  | some reduced_mass =>
    let u_1 := vec_dot v_1 axis
    let u_2 := vec_dot v_2 axis
    let J_n := reduced_mass * (1 + elasticity) * (u_2 - u_1)
    let impulse := vec_multiply J_n axis
    some (body_add_impulse body1 impulse, body_add_impulse body2 (vec_negate impulse))

/-! ## scene.c -/

/-- The struct `scene_t` together with the memory of bodies its pointers refer to.  The
last two fields are ghost state: the arguments of the calls of `body_free` and of
`force_applier_free` made so far, in call order. -/
structure scene_t (K : Type) where
  mem : body_mem K
  bodies : List body_ptr
  force_appliers : List (force_applier_t K)
  freed_bodies : List body_ptr
  freed_appliers : List (force_applier_t K)

/-- The function `scene_init`, on a given memory. -/
def scene_init (mem : body_mem K) : scene_t K :=
  { mem := mem, bodies := [], force_appliers := [], freed_bodies := [], freed_appliers := [] }

/-- The function `scene_bodies`. -/
def scene_bodies (scene : scene_t K) : Nat := scene.bodies.length

/-- The function `scene_get_body`; `none` when the assertion of `list_get` fails. -/
def scene_get_body (scene : scene_t K) (index : Nat) : Option body_ptr := scene.bodies.get? index

/-- The function `scene_add_body`. -/
def scene_add_body (scene : scene_t K) (body : body_ptr) : scene_t K :=
  { scene with bodies := scene.bodies ++ [body] }

/-- The function `scene_remove_body`; `none` when the assertion of `list_get` fails. -/
def scene_remove_body (scene : scene_t K) (index : Nat) : Option (scene_t K) :=
  match scene_get_body scene index with
  | none => none
  | some body =>
    some { scene with mem := Function.update scene.mem body (body_remove (scene.mem body)) }

/-- The function `scene_add_bodies_force_creator`. -/
def scene_add_bodies_force_creator (scene : scene_t K)
    (forcer : force_aux_t K → body_mem K → Option (force_aux_t K × body_mem K))
    (aux : force_aux_t K) (bodies : Option (List body_ptr)) : scene_t K :=
  { scene with force_appliers := scene.force_appliers ++ [⟨forcer, aux, bodies⟩] }

/-- The function `scene_add_force_creator`: the list of bodies is `NULL`. -/
def scene_add_force_creator (scene : scene_t K)
    (forcer : force_aux_t K → body_mem K → Option (force_aux_t K × body_mem K))
    (aux : force_aux_t K) : scene_t K :=
  scene_add_bodies_force_creator scene forcer aux none

/-- The function `create_newtonian_gravity`. -/
def create_newtonian_gravity (sqrt : K → K) (scene : scene_t K) (G : K)
    (body1 body2 : body_ptr) : scene_t K :=
  scene_add_bodies_force_creator scene (apply_newtonian_gravity sqrt)
    ⟨G, body1, body2, none, false⟩ (some [body1, body2])

/-- The function `create_spring`. -/
def create_spring (scene : scene_t K) (k : K) (body1 body2 : body_ptr) : scene_t K :=
  scene_add_bodies_force_creator scene apply_spring ⟨k, body1, body2, none, false⟩
    (some [body1, body2])

/-- The function `create_drag`; the second body pointer of its `force_aux_t` is `NULL`,
written 0, and never read. -/
def create_drag (scene : scene_t K) (gamma : K) (body : body_ptr) : scene_t K :=
  scene_add_bodies_force_creator scene apply_drag ⟨gamma, body, 0, none, false⟩ (some [body])

/-- The function `create_collision`. -/
def create_collision (sqrt : K → K) (scene : scene_t K) (body1 body2 : body_ptr)
    (handler : body_t K → body_t K → vector_t K → body_t K × body_t K) : scene_t K :=
  scene_add_bodies_force_creator scene (apply_collision_forcer sqrt)
    ⟨0, body1, body2, some handler, false⟩ (some [body1, body2])

/-- The function `create_destructive_collision`. -/
def create_destructive_collision (sqrt : K → K) (scene : scene_t K) (body1 body2 : body_ptr) :
    scene_t K :=
  create_collision sqrt scene body1 body2 destructive_collision_handler

/-- Whether the list of bodies of a force applier holds the pointer: the loop over `k` in
`scene_tick`. -/
def depends_on (force_applier : force_applier_t K) (body : body_ptr) : Bool :=
  match force_applier.bodies with
  | none => false
  | some bodies => decide (body ∈ bodies)

/-- The first loop of `scene_tick`: every force applier is called once, in order, on the
memory the previous ones left. -/
def scene_tick_forces : List (force_applier_t K) → body_mem K →
    Option (List (force_applier_t K) × body_mem K)
  | [], mem => some ([], mem)
  | force_applier :: rest, mem =>
    match force_applier.forcer force_applier.aux mem with
    | none => none
    | some (aux, mem) =>
      match scene_tick_forces rest mem with
      | none => none
      | some (rest, mem) => some ({ force_applier with aux := aux } :: rest, mem)

/-- The loop over `j` of `scene_tick` for one removed body, from `j` down to 1: the force
applier at `j - 1` is removed and freed when its list of bodies holds the body.  Reading
the size of a `NULL` list of bodies fails. -/
def scene_tick_appliers (body : body_ptr) :
    Nat → List (force_applier_t K) → List (force_applier_t K) →
    Option (List (force_applier_t K) × List (force_applier_t K))
  | 0, force_appliers, freed => some (force_appliers, freed)
  | j + 1, force_appliers, freed =>
    match force_appliers.get? j with
    | none => none
    | some force_applier =>
      match force_applier.bodies with
      | none => none
      | some bodies =>
        if body ∈ bodies then
          scene_tick_appliers body j (force_appliers.eraseIdx j) (freed ++ [force_applier])
        else scene_tick_appliers body j force_appliers freed

/-- The loop over `i` of `scene_tick`, from `i` down to 1: the body at `i - 1` is removed
and freed after its force appliers when it is flagged removed, and ticked otherwise. -/
def scene_tick_bodies (dt : K) : Nat → scene_t K → Option (scene_t K)
  | 0, scene => some scene
  | i + 1, scene =>
    match scene.bodies.get? i with
    | none => none
    | some body =>
      if body_is_removed (scene.mem body) then
        match scene_tick_appliers body scene.force_appliers.length scene.force_appliers
            scene.freed_appliers with
        | none => none
        | some (force_appliers, freed) =>
          scene_tick_bodies dt i
            { scene with force_appliers := force_appliers, freed_appliers := freed,
                         bodies := scene.bodies.eraseIdx i,
                         freed_bodies := scene.freed_bodies ++ [body] }
      else
        scene_tick_bodies dt i
          { scene with mem := Function.update scene.mem body (body_tick (scene.mem body) dt) }

/-- The function `scene_tick`. -/
def scene_tick (scene : scene_t K) (dt : K) : Option (scene_t K) :=
  match scene_tick_forces scene.force_appliers scene.mem with
  | none => none
  | some (force_appliers, mem) =>
    scene_tick_bodies dt scene.bodies.length
      { scene with force_appliers := force_appliers, mem := mem }

/-- Repeated calls of `scene_tick` with the same time step. -/
def scene_ticks (dt : K) : Nat → scene_t K → Option (scene_t K)
  | 0, scene => some scene
  | n + 1, scene =>
    match scene_tick scene dt with
    | none => none
    | some scene => scene_ticks dt n scene

/-! ## tests: energies -/

/-- The function `kinetic_energy` of the tests; `none` for a mass `INFINITY`. -/
def kinetic_energy (body : body_t K) : Option K :=
  match body.mass with
  | Mass.finite m => some (m * vec_dot body.vel body.vel / 2)
  | Mass.infinity => none

/-- The function `gravity_potential` of the tests; `none` for a mass `INFINITY`. -/
def gravity_potential (sqrt : K → K) (G : K) (body1 body2 : body_t K) : Option K :=
  let r := vec_subtract body2.centroid body1.centroid
  match body1.mass, body2.mass with
  | Mass.finite m1, Mass.finite m2 => some (-G * m1 * m2 / sqrt (vec_dot r r))
  | _, _ => none

/-- Whether a force applier depends on a body of the list that is flagged removed in the
memory. -/
def removed_dependency (mem : body_mem K) (bodies : List body_ptr)
    (force_applier : force_applier_t K) : Bool :=
  bodies.any (fun p => body_is_removed (mem p) && depends_on force_applier p)

/-- A memory of unit square bodies in which the body at pointer 1 is flagged removed. -/
def demo_mem : body_mem ℚ :=
  fun p => if p = 1 then body_remove unit_square_body else unit_square_body

/-- A scene of three bodies with a spring between the first two and drag on the third. -/
def demo_scene : scene_t ℚ :=
  create_drag
    (create_spring
      (scene_add_body (scene_add_body (scene_add_body (scene_init demo_mem) 0) 1) 2) 2 0 1)
    3 2

/-- A force applier whose forcer always succeeds and leaves the shape and the removed flag
of every body as they are, as the force laws do. -/
def keeps_shapes_and_flags (force_applier : force_applier_t K) : Prop :=
  ∀ aux mem, ∃ aux2 mem2, force_applier.forcer aux mem = some (aux2, mem2) ∧
    ∀ p, (mem2 p).shape = (mem p).shape ∧ (mem2 p).is_removed = (mem p).is_removed

/-- The force applier that `create_destructive_collision` adds to a scene. -/
def destructive_collision_applier (sqrt : K → K) (body1 body2 : body_ptr) :
    force_applier_t K :=
  ⟨apply_collision_forcer sqrt, ⟨0, body1, body2, some destructive_collision_handler, false⟩,
    some [body1, body2]⟩

/-- A memory of unit square bodies, the one at pointer 1 moved to (-1, 0). -/
def overlap_mem : body_mem ℚ := fun p => if p = 1 then left_square_body else unit_square_body

/-- A scene of three bodies with a spring between the first and the third and a
destructive collision between the first two, which overlap. -/
def overlap_scene : scene_t ℚ :=
  create_destructive_collision sqrt_table
    (create_spring
      (scene_add_body (scene_add_body (scene_add_body (scene_init overlap_mem) 0) 1) 2) 2 0 2)
    0 1

/-- The function `apply_collision` called on a sequence of ticks: each tick gives the two
bodies as they stand at the call, the flag `collided_last_tick` is carried from one call
to the next, and the two bodies as each call leaves them are collected. -/
def apply_collision_ticks (sqrt : K → K)
    (handler : body_t K → body_t K → vector_t K → body_t K × body_t K) :
    List (body_t K × body_t K) → Bool → Option (List (body_t K × body_t K) × Bool)
  | [], collided_last_tick => some ([], collided_last_tick)
  | (body1, body2) :: rest, collided_last_tick =>
    match apply_collision sqrt handler body1 body2 collided_last_tick with
    | none => none
    | some (body1, body2, flag) =>
      match apply_collision_ticks sqrt handler rest flag with
      | none => none
      | some (outs, flag) => some ((body1, body2) :: outs, flag)

/-- The results of the separating axis test on a sequence of ticks. -/
def sat_results (sqrt : K → K) (ticks : List (body_t K × body_t K)) : List Bool :=
  ticks.map (fun t => (find_collision sqrt t.1.shape t.2.shape).collided)

/-- The rising edges of a sequence of results: the result is true and the previous one,
`prev` for the first, is false. -/
def rising_edges : List Bool → Bool → List Bool
  | [], _ => []
  | s :: rest, prev => (s && !prev) :: rising_edges rest s

/-- The two bodies after a tick on which the handler is or is not called. -/
def handler_output (sqrt : K → K)
    (handler : body_t K → body_t K → vector_t K → body_t K × body_t K)
    (t : body_t K × body_t K) (fires : Bool) : body_t K × body_t K :=
  if fires then
    handler t.1 t.2 ((find_collision sqrt t.1.shape t.2.shape).axis.getD VEC_ZERO)
  else t

/-- The impulse `J * axis` with `J = mu * (1 + e) * (u2 - u1)`, where `u1` and `u2` are the
components of the two velocities along the axis. -/
def collision_impulse (body1 body2 : body_t K) (axis : vector_t K) (e mu : K) : vector_t K :=
  vec_multiply (mu * (1 + e) * (vec_dot body2.vel axis - vec_dot body1.vel axis)) axis

/-- The distance `|cB - cA|` between two centroids. -/
def centroid_distance (sqrt : K → K) (cA cB : vector_t K) : K :=
  sqrt (vec_dot (vec_subtract cB cA) (vec_subtract cB cA))

/-- The vector `(G * mA * mB / d^2) * (cB - cA) / d`, where `d` is the distance of the
centroids. -/
def gravity_vector (sqrt : K → K) (G mA mB : K) (cA cB : vector_t K) : vector_t K :=
  ⟨G * mA * mB / centroid_distance sqrt cA cB ^ 2
      * ((cB.x - cA.x) / centroid_distance sqrt cA cB),
    G * mA * mB / centroid_distance sqrt cA cB ^ 2
      * ((cB.y - cA.y) / centroid_distance sqrt cA cB)⟩

/-- A vector with every component of absolute value below 100 replaced by 0. -/
def snap_small (v : vector_t K) : vector_t K :=
  ⟨if |v.x| < 100 then 0 else v.x, if |v.y| < 100 then 0 else v.y⟩

/-- The force applier that `create_drag` adds to a scene. -/
def drag_applier (gamma : K) (body : body_ptr) : force_applier_t K :=
  ⟨apply_drag, ⟨gamma, body, 0, none, false⟩, some [body]⟩

/-- A scene whose only body is `p`, of finite mass `m`, live and with empty accumulators,
and whose only force creator is drag on `p` with constant `gamma`. -/
def drag_scene (scene : scene_t K) (gamma m : K) (p : body_ptr) : Prop :=
  scene.bodies = [p] ∧ scene.force_appliers = [drag_applier gamma p] ∧
    (scene.mem p).mass = Mass.finite m ∧ (scene.mem p).force = ⟨0, 0⟩ ∧
    (scene.mem p).impulse = ⟨0, 0⟩ ∧ (scene.mem p).is_removed = false

/-- The scene of `test_drag_reduces_energy`: the square of mass 1 with velocity (10, 0)
at pointer 0 and drag with constant 0.99. -/
def drag_test_scene : scene_t ℚ :=
  create_drag
    (scene_add_body
      (scene_init (fun _ => body_set_velocity (body_init make_shape (Mass.finite 1)) ⟨10, 0⟩)) 0)
    (99 / 100) 0

/-- The memory of `test_energy_conservation_3_body_system`: squares of masses 8, 3.7 and
5.5 at rest, set to the centroids (0, 50), (10, 20) and (30, 15), at pointers 0, 1 and
2. -/
def three_body_mem : body_mem K := fun p =>
  if p = 0 then body_set_centroid (body_init make_shape (Mass.finite 8)) ⟨0, 50⟩
  else if p = 1 then body_set_centroid (body_init make_shape (Mass.finite (37 / 10))) ⟨10, 20⟩
  else body_set_centroid (body_init make_shape (Mass.finite (11 / 2))) ⟨30, 15⟩

/-- The scene of `test_energy_conservation_3_body_system`, with `G = 1000`. -/
def three_body_scene (sqrt : K → K) : scene_t K :=
  create_newtonian_gravity sqrt
    (create_newtonian_gravity sqrt
      (create_newtonian_gravity sqrt
        (scene_add_body (scene_add_body (scene_add_body (scene_init three_body_mem) 0) 1) 2)
        1000 0 1)
      1000 0 2)
    1000 1 2

/-- The value `initial_energy` of the test: the three potentials. -/
def test_initial_energy (sqrt : K → K) (G : K) (mem : body_mem K) : Option K :=
  match gravity_potential sqrt G (mem 0) (mem 1), gravity_potential sqrt G (mem 0) (mem 2),
    gravity_potential sqrt G (mem 1) (mem 2) with
  | some u01, some u02, some u12 => some (u01 + u02 + u12)
  | _, _, _ => none

/-- The value `total_energy` of the test: the three potentials and the three kinetic
energies. -/
def test_total_energy (sqrt : K → K) (G : K) (mem : body_mem K) : Option K :=
  match gravity_potential sqrt G (mem 0) (mem 1), gravity_potential sqrt G (mem 0) (mem 2),
    gravity_potential sqrt G (mem 1) (mem 2), kinetic_energy (mem 0), kinetic_energy (mem 1),
    kinetic_energy (mem 2) with
  | some u01, some u02, some u12, some k0, some k1, some k2 =>
    some (u01 + u02 + u12 + k0 + k1 + k2)
  | _, _, _, _, _, _ => none

/-- Lower bounds of the square roots of the three squared distances of the test. -/
def sqrt_lower : ℚ → ℚ := fun x => if x = 1000 then 31 else if x = 2125 then 46 else 20

/-- A scene that stands as the three-body scene of the test does at its start: the three
bodies, the three gravity force creators, and the bodies at rest at their places. -/
def three_body_state (sqrt : K → K) (scene : scene_t K) : Prop :=
  scene.bodies = [0, 1, 2] ∧
    scene.force_appliers = (three_body_scene sqrt).force_appliers ∧
    scene.mem = three_body_mem

/-! ## forces.c: normal force and jump force

The pointer `force_aux->aux` of these two force creators points to a flag of the game.
The flag is passed to the function next to the `force_aux_t`. -/

/-- The function `apply_normal_force`.  The argument `is_teleporting` is the pointer
`force_aux->aux`: `none` for `NULL`, the flag it points to otherwise.  The result is
`none` when the axis is used before it was written (two shapes without vertices). -/
def apply_normal_force (sqrt : K → K) (is_teleporting : Option Bool) (aux : force_aux_t K)
    (mem : body_mem K) : Option (force_aux_t K × body_mem K) :=
  let collision_info := find_collision sqrt (mem aux.body1).shape (mem aux.body2).shape
  let can_apply_normal_force :=
    match is_teleporting with
    | none => collision_info.collided
    | some is_teleporting => collision_info.collided && !is_teleporting
  if can_apply_normal_force then
    match collision_info.axis with
    | none => none
    | some axis =>
      let direction_vec := vec_subtract (mem aux.body2).centroid (mem aux.body1).centroid
      let axis := if vec_dot direction_vec axis < 0 then vec_negate axis else axis
      let net_force_1_along_axis := vec_dot (mem aux.body1).force axis
      let net_force_2_along_axis := vec_dot (mem aux.body2).force (vec_negate axis)
      let net_force_1_along_axis :=
        if net_force_1_along_axis < 0 then 0 else net_force_1_along_axis
      let net_force_2_along_axis :=
        if net_force_2_along_axis < 0 then 0 else net_force_2_along_axis
      let normal_force_1 := vec_multiply net_force_1_along_axis (vec_negate axis)
      let normal_force_2 := vec_multiply net_force_2_along_axis axis
      let mem := Function.update mem aux.body1 (body_add_force (mem aux.body1) normal_force_1)
      some (aux, Function.update mem aux.body2 (body_add_force (mem aux.body2) normal_force_2))
  else some (aux, mem)

/-- The function `create_normal_force`. -/
def create_normal_force (sqrt : K → K) (scene : scene_t K) (body1 body2 : body_ptr)
    (is_teleporting : Option Bool) : scene_t K :=
  scene_add_bodies_force_creator scene (apply_normal_force sqrt is_teleporting)
    ⟨0, body1, body2, none, false⟩ (some [body1, body2])

/-- The function `apply_jump_force`.  The argument `is_jumping` is the flag that
`force_aux->aux` points to; the first component of the result is the flag after the
call. -/
def apply_jump_force (sqrt : K → K) (is_jumping : Bool) (aux : force_aux_t K)
    (mem : body_mem K) : Bool × force_aux_t K × body_mem K :=
  let jump_speed := aux.force_constant
  let jump_body := aux.body1
  let stationary_body := aux.body2
  let centroid_jump := (mem jump_body).centroid
  let centroid_stationary := (mem stationary_body).centroid
  let collision_info := find_collision sqrt (mem jump_body).shape (mem stationary_body).shape
  if collision_info.collided && is_jumping
      && decide (centroid_jump.y ≥ centroid_stationary.y) then
    let new_velocity : vector_t K := ⟨(mem jump_body).vel.x, jump_speed⟩
    (false, aux,
      Function.update mem jump_body (body_set_velocity (mem jump_body) new_velocity))
  else (is_jumping, aux, mem)

/-! ## list.c

The growable array behind `scene->bodies`.  Sizes are far below the range of `size_t`,
so they are natural numbers. -/

/-- The constant `GROWTH_FACTOR`. -/
def GROWTH_FACTOR : Nat := 2

/-- The constant `INITIAL_NUM_BODIES` of scene.c. -/
def INITIAL_NUM_BODIES : Nat := 10

/-- The struct `list_t` without the freer: the array `arr` of `capacity` slots, a slot
being `none` while no pointer has been written to it, and the size. -/
structure list_t (α : Type) where
  arr : List (Option α)
  size : Nat
  capacity : Nat

/-- The function `list_init`: `calloc` leaves every slot empty. -/
def list_init {α : Type} (capacity : Nat) : list_t α :=
  let capacity := if capacity < 1 then 1 else capacity
  { arr := List.replicate capacity none, size := 0, capacity := capacity }

/-- The function `list_size`. -/
def list_t.list_size {α : Type} (lst : list_t α) : Nat := lst.size

/-- The function `list_get` of list.c; `none` when its assertion fails, or when the slot
read was never written. -/
def list_t.list_get {α : Type} (lst : list_t α) (index : Nat) : Option α :=
  if index < lst.list_size then lst.arr.getD index none else none

/-- The function `list_ensure_capacity`: the new array holds a copy of the first `size`
slots of the old one, the other slots are not written. -/
def list_t.list_ensure_capacity {α : Type} (lst : list_t α) : list_t α :=
  if lst.list_size = lst.capacity then
    let new_capacity := lst.list_size * GROWTH_FACTOR
    let new_arr := lst.arr.take lst.list_size
      ++ List.replicate (new_capacity - lst.list_size) none
    { lst with arr := new_arr, capacity := new_capacity }
  else lst

/-- The function `list_add` for a pointer that is not `NULL`; `none` when the assertion
`list_size(lst) < lst->capacity` fails. -/
def list_t.list_add {α : Type} (lst : list_t α) (value : α) : Option (list_t α) :=
  let lst := lst.list_ensure_capacity
  if lst.list_size < lst.capacity then
    some { lst with arr := lst.arr.set lst.list_size (some value), size := lst.size + 1 }
  else none

/-- Calls of `list_add` on the same list with the given values, in order. -/
def list_t.list_add_all {α : Type} : list_t α → List α → Option (list_t α)
  | lst, [] => some lst
  | lst, value :: rest =>
    match lst.list_add value with
    | none => none
    | some lst => list_t.list_add_all lst rest

/-! ## Rotation by an angle whose cosine and sine are rational -/

/-- The cosine of the angles `t` and `-t` with `cos t = 3 / 5`, as a constant function. -/
def pyth_cos : ℚ → ℚ := fun _ => 3 / 5

/-- The sine of the angles `t > 0` and `-t` with `sin t = 4 / 5`. -/
def pyth_sin : ℚ → ℚ := fun a => if a < 0 then -(4 / 5) else 4 / 5

/-! ## Normal force and jump: the quantities of the claims -/

/-- The collision axis after the orientation step of `apply_normal_force`: it points from
the centroid `c1` towards the centroid `c2`. -/
def oriented_axis (c1 c2 axis : vector_t K) : vector_t K :=
  if vec_dot (vec_subtract c2 c1) axis < 0 then vec_negate axis else axis

/-- The two overlapping squares of `overlap_mem` with forces in their accumulators:
(3, 1) on the left square (pointer 1) and (-2, 5) on the square at the origin. -/
def pressed_mem : body_mem ℚ := fun p =>
  if p = 1 then body_add_force left_square_body ⟨3, 1⟩
  else body_add_force unit_square_body ⟨-2, 5⟩

/-! ## list.c: the values a list holds -/

/-- The list holds the values `xs`: the array has `capacity` slots, at least one, the size
is the number of values and does not exceed the capacity, and the slot at every index
below the size holds the value of `xs` at that index. -/
def list_t.holds {α : Type} (lst : list_t α) (xs : List α) : Prop :=
  lst.arr.length = lst.capacity ∧ 1 ≤ lst.capacity ∧ lst.size = xs.length
    ∧ lst.size ≤ lst.capacity ∧ ∀ i, i < lst.size → lst.arr.getD i none = xs.get? i

/-! ## tests: the spring -/

/-- The memory of `test_spring_velocity`: the mass, a square of mass 10 at rest set to
the centroid (3, 0), at pointer 0, and the anchor, a square of infinite mass, at
pointer 1. -/
def spring_mem : body_mem K := fun p =>
  if p = 0 then body_set_centroid (body_init make_shape (Mass.finite 10)) ⟨3, 0⟩
  else body_init make_shape Mass.infinity

/-- The scene of `test_spring_velocity`, with the spring constant 2. -/
def spring_scene : scene_t K :=
  create_spring (scene_add_body (scene_add_body (scene_init spring_mem) 0) 1) 2 0 1

/-- The force applier that `create_spring` adds to a scene. -/
def spring_applier (k : K) (body1 body2 : body_ptr) : force_applier_t K :=
  ⟨apply_spring, ⟨k, body1, body2, none, false⟩, some [body1, body2]⟩

/-- A scene that stands as the spring scene of the test does between two ticks: the mass
with centroid `(x, 0)` and velocity `(v, 0)`, the anchor at rest at the origin, both live
and with empty accumulators, and the spring as only force creator. -/
def spring_state (scene : scene_t K) (x v : K) : Prop :=
  scene.bodies = [0, 1] ∧ scene.force_appliers = [spring_applier 2 0 1] ∧
    ((scene.mem 0).mass = Mass.finite 10 ∧ (scene.mem 0).centroid = ⟨x, 0⟩ ∧
      (scene.mem 0).vel = ⟨v, 0⟩ ∧ (scene.mem 0).force = ⟨0, 0⟩ ∧
      (scene.mem 0).impulse = ⟨0, 0⟩ ∧ (scene.mem 0).is_removed = false) ∧
    ((scene.mem 1).mass = Mass.infinity ∧ (scene.mem 1).centroid = ⟨0, 0⟩ ∧
      (scene.mem 1).vel = ⟨0, 0⟩ ∧ (scene.mem 1).force = ⟨0, 0⟩ ∧
      (scene.mem 1).impulse = ⟨0, 0⟩ ∧ (scene.mem 1).is_removed = false)

/-- The x coordinates of the centroid and of the velocity of the mass after one tick of
the spring scene with time step `dt`, from those before it. -/
def spring_step (dt : K) (s : K × K) : K × K :=
  (s.1 + dt * ((s.2 - dt * s.1 / 5 + s.2) / 2), s.2 - dt * s.1 / 5)

/-- The x coordinates of the centroid and of the velocity of the mass after `n` ticks of
the spring scene. -/
def spring_orbit (dt : K) : Nat → K × K
  | 0 => (3, 0)
  | n + 1 => spring_step dt (spring_orbit dt n)

/-! ## vector.c: the direction angle -/

/-- The expression `atan(v.y / v.x)` of `vec_direction_angle`, evaluated for `y` not zero;
`atan` and `pi` stand for the libm function and the constant `M_PI`.  A zero `x` is the
positive zero the function has just stored, the IEEE quotient is the infinity with the
sign of `y`, and its arc tangent is `pi / 2` with that sign. -/
def atan_div (atan : K → K) (pi : K) (y x : K) : K :=
  if x = 0 then (if 0 < y then pi / 2 else -(pi / 2)) else atan (y / x)

/-- The function `vec_direction_angle`. -/
def vec_direction_angle (atan : K → K) (pi : K) (v : vector_t K) : K :=
  let x := if |v.x| ≤ 1 / 1000 then 0 else v.x
  let y := if |v.y| ≤ 1 / 1000 then 0 else v.y
  if x ≥ 0 then
    if y > 0 then atan_div atan pi y x
    else if y < 0 then 2 * pi + atan_div atan pi y x
    else 0
  else
    if y > 0 then pi + atan_div atan pi y x
    else if y < 0 then pi + atan_div atan pi y x
    else pi

/-- A component as `vec_direction_angle` reads it: zero when its absolute value is at
most 1e-3. -/
def snap_component (x : K) : K := if |x| ≤ 1 / 1000 then 0 else x

/-! ## shapes.c -/

/-- The function `make_rect_shape`. -/
def make_rect_shape (width height : K) : List (vector_t K) :=
  [⟨0, 0⟩, ⟨width, 0⟩, ⟨width, height⟩, ⟨0, height⟩]

/-- The rectangle with corner `(x0, y0)`, width `w` and height `h`. -/
def rectangle (x0 y0 w h : K) : List (vector_t K) :=
  [⟨x0, y0⟩, ⟨x0 + w, y0⟩, ⟨x0 + w, y0 + h⟩, ⟨x0, y0 + h⟩]

/-! ## forces.c: frame of the force laws, physics collisions -/

/-- The memory `mem2` differs from `mem` at most in force accumulators, and in those only
at the pointers of `touched`. -/
def only_forces (mem mem2 : body_mem K) (touched : List body_ptr) : Prop :=
  ∀ p, (mem2 p).centroid = (mem p).centroid ∧ (mem2 p).vel = (mem p).vel
    ∧ (mem2 p).impulse = (mem p).impulse ∧ (mem2 p).shape = (mem p).shape
    ∧ (mem2 p).mass = (mem p).mass ∧ (mem2 p).is_removed = (mem p).is_removed
    ∧ (mem2 p).rotation = (mem p).rotation
    ∧ (p ∉ touched → (mem2 p).force = (mem p).force)

/-- The function `apply_collision` of a force creator made by `create_physics_collision`:
the handler is `physics_collision_handler` and its `aux` points to the elasticity.  The
result is `none` when the handler is called with an axis that was never written, or when
the handler leaves the model. -/
def apply_physics_collision (sqrt : K → K) (elasticity : K) (aux : force_aux_t K)
    (mem : body_mem K) : Option (force_aux_t K × body_mem K) :=
  let collision_info := find_collision sqrt (mem aux.body1).shape (mem aux.body2).shape
  if collision_info.collided && !aux.collided_last_tick then
    match collision_info.axis with
    | none => none
    | some axis =>
      match physics_collision_handler (mem aux.body1) (mem aux.body2) axis elasticity with
      | none => none
      | some (body1, body2) =>
        some ({ aux with collided_last_tick := true },
          Function.update (Function.update mem aux.body1 body1) aux.body2 body2)
  else if collision_info.collided then some ({ aux with collided_last_tick := true }, mem)
  else some ({ aux with collided_last_tick := false }, mem)

/-- The function `create_physics_collision`. -/
def create_physics_collision (sqrt : K → K) (scene : scene_t K) (elasticity : K)
    (body1 body2 : body_ptr) : scene_t K :=
  scene_add_bodies_force_creator scene (apply_physics_collision sqrt elasticity)
    ⟨0, body1, body2, none, false⟩ (some [body1, body2])

/-- The force applier that `create_newtonian_gravity` adds to a scene. -/
def gravity_applier (sqrt : K → K) (G : K) (body1 body2 : body_ptr) : force_applier_t K :=
  ⟨apply_newtonian_gravity sqrt, ⟨G, body1, body2, none, false⟩, some [body1, body2]⟩

/-- The force applier of a physics collision, with the flag `collided_last_tick` as some
earlier tick left it. -/
def physics_applier (sqrt : K → K) (elasticity : K) (body1 body2 : body_ptr)
    (collided_last_tick : Bool) : force_applier_t K :=
  ⟨apply_physics_collision sqrt elasticity, ⟨0, body1, body2, none, collided_last_tick⟩,
    some [body1, body2]⟩

/-- The total momentum `m1 * v1 + m2 * v2` of the bodies at two pointers. -/
def momentum (m1 m2 : K) (mem : body_mem K) (p1 p2 : body_ptr) : vector_t K :=
  vec_add (vec_multiply m1 (mem p1).vel) (vec_multiply m2 (mem p2).vel)

/-- A scene of the two live bodies `p1` and `p2`, of finite masses `m1` and `m2` and with
empty accumulators. -/
def pair_state (scene : scene_t K) (p1 p2 : body_ptr) (m1 m2 : K) : Prop :=
  scene.bodies = [p1, p2] ∧
    ((scene.mem p1).mass = Mass.finite m1 ∧ (scene.mem p1).force = ⟨0, 0⟩ ∧
      (scene.mem p1).impulse = ⟨0, 0⟩ ∧ (scene.mem p1).is_removed = false) ∧
    ((scene.mem p2).mass = Mass.finite m2 ∧ (scene.mem p2).force = ⟨0, 0⟩ ∧
      (scene.mem p2).impulse = ⟨0, 0⟩ ∧ (scene.mem p2).is_removed = false)

/-! ## scene.c: a force creator without a list of bodies -/

/-- A scene with the one body at pointer 1, flagged removed, and a drag force creator
registered through `scene_add_force_creator`. -/
def null_list_scene : scene_t ℚ :=
  scene_add_force_creator (scene_add_body (scene_init demo_mem) 1) apply_drag
    ⟨1, 1, 0, none, false⟩

/-- A scene of the two overlapping unit squares of `overlap_mem` joined by a spring of
constant 2. -/
def pair_spring_scene : scene_t ℚ :=
  create_spring (scene_add_body (scene_add_body (scene_init overlap_mem) 0) 1) 2 0 1

/-! ## collision.c: convex polygons -/

/-- The vector `(e.y, -e.x)`: the edge turned by a quarter turn, the direction of the
normal that `compute_normal` gives the edge. -/
def edge_perp (e : vector_t K) : vector_t K := ⟨e.y, -e.x⟩

/-- The edge of a polygon that starts at the vertex with index `i`. -/
def edge_vec (polygon : List (vector_t K)) (i : Nat) : vector_t K :=
  vec_subtract (list_get polygon ((i + 1) % polygon.length)) (list_get polygon i)

/-- A convex polygon with at least three vertices, non-zero area and no zero-length edge:
for one orientation, counter-clockwise (`σ = 1`) or clockwise (`σ = -1`), every vertex
lies on the inner side of the line through every edge, or on that line.  Successive
edges may lie on one line. -/
def convex_polygon (polygon : List (vector_t K)) : Prop :=
  3 ≤ polygon.length ∧ polygon_area polygon ≠ 0
    ∧ (∀ i, i < polygon.length → edge_vec polygon i ≠ VEC_ZERO)
    ∧ ∃ σ : K, (σ = 1 ∨ σ = -1) ∧
        ∀ i j, i < polygon.length → j < polygon.length →
          0 ≤ σ * vec_cross (edge_vec polygon i)
            (vec_subtract (list_get polygon j) (list_get polygon i))

/-- A direction normal to an edge of the polygon: the quarter turn of an edge, or its
negation. -/
def is_edge_normal (polygon : List (vector_t K)) (c : vector_t K) : Prop :=
  ∃ i, i < polygon.length ∧ ∃ τ : K, (τ = 1 ∨ τ = -1)
    ∧ c = vec_multiply τ (edge_perp (edge_vec polygon i))

/-! ## Rounded arithmetic: IEEE 754 binary64

The definitions above read a `double` as an exact number.  The definitions of this
section round the result of every arithmetic operation to the nearest binary64 value,
ties to even, one operation at a time (no fused multiply-add), as IEEE 754 prescribes for
`+`, `-`, `*`, `/` and `sqrt`.  A finite double is the rational number it stands for.  The
exponent range is not bounded: the model agrees with the doubles as long as no computed
value overflows or falls below the normal range.  The relative error of one rounding is
at most `2 ^ -53` (`round64_error`). -/

/-- The number of binary digits of `n`, by at most `fuel` halvings; `bit_length n n` is
the number of binary digits of `n`. -/
def bit_length : Nat → Nat → Nat
  | 0, _ => 0
  | fuel + 1, n => if n = 0 then 0 else bit_length fuel (n / 2) + 1

/-- The integer `l` with `2 ^ l ≤ n / d < 2 ^ (l + 1)`, for positive `n` and `d`. -/
def floor_log2 (n d : Nat) : Int :=
  let k : Int := (bit_length n n : Int) - (bit_length d d : Int)
  if d * 2 ^ k.toNat ≤ n * 2 ^ (-k).toNat then k else k - 1

/-- The positive quotient `n / d` rounded to 53 significant binary digits, to the nearest
such number and to the one with an even last digit when two are equally near. -/
def round64_pos (n d : Nat) : ℚ :=
  let e : Int := floor_log2 n d - 52
  let N := n * 2 ^ (-e).toNat
  let D := d * 2 ^ e.toNat
  let q := N / D
  let r := N % D
  let m := if 2 * r < D then q else if 2 * r = D then q + q % 2 else q + 1
  mkRat ((m * 2 ^ e.toNat : Nat) : Int) (2 ^ (-e).toNat)

/-- Rounding to binary64: the double nearest to `x`, ties to even. -/
def round64 (x : ℚ) : ℚ :=
  if x.num = 0 then 0
  else if 0 < x.num then round64_pos x.num.natAbs x.den
  else -round64_pos x.num.natAbs x.den

/-- The greatest `s` below `2 ^ b` more than the start value with `s * s ≤ n`, found one
binary digit at a time from digit `b - 1` downwards. -/
def isqrt_loop (n : Nat) : Nat → Nat → Nat
  | 0, s => s
  | b + 1, s =>
    if (s + 2 ^ b) * (s + 2 ^ b) ≤ n then isqrt_loop n b (s + 2 ^ b) else isqrt_loop n b s

/-- The libm function `sqrt` on a double that is not negative: the double nearest to the
square root, as IEEE 754 prescribes, and 0 at 0.  The square root is scaled to an integer
part `s` of 53 binary digits and the remainder is compared with one half.  The C value at
a negative argument is NaN and lies outside the model. -/
def sqrt64 (x : ℚ) : ℚ :=
  if x.num ≤ 0 then 0
  else
    let n := x.num.natAbs
    let d := x.den
    let e : Int := Int.fdiv (floor_log2 n d) 2 - 52
    let N := n * 2 ^ (-(2 * e)).toNat
    let D := d * 2 ^ (2 * e).toNat
    let s := isqrt_loop (N / D) 53 0
    let m := if 4 * N < (4 * s * s + 4 * s + 1) * D then s
      else if 4 * N = (4 * s * s + 4 * s + 1) * D then s + s % 2 else s + 1
    mkRat ((m * 2 ^ e.toNat : Nat) : Int) (2 ^ (-e).toNat)

namespace Binary64

/-- The function `vec_add` on doubles. -/
def vec_add (v1 v2 : vector_t ℚ) : vector_t ℚ :=
  ⟨round64 (v1.x + v2.x), round64 (v1.y + v2.y)⟩

/-- The function `vec_subtract` on doubles. -/
def vec_subtract (v1 v2 : vector_t ℚ) : vector_t ℚ :=
  ⟨round64 (v1.x - v2.x), round64 (v1.y - v2.y)⟩

/-- The function `vec_multiply` on doubles. -/
def vec_multiply (scalar : ℚ) (v : vector_t ℚ) : vector_t ℚ :=
  ⟨round64 (v.x * scalar), round64 (v.y * scalar)⟩

/-- The function `vec_negate` on doubles. -/
def vec_negate (v : vector_t ℚ) : vector_t ℚ := vec_multiply (-1) v

/-- The function `vec_dot` on doubles: two rounded products and their rounded sum. -/
def vec_dot (v1 v2 : vector_t ℚ) : ℚ :=
  round64 (round64 (v1.x * v2.x) + round64 (v1.y * v2.y))

/-- The function `polygon_area` on doubles. -/
def polygon_area (polygon : List (vector_t ℚ)) : ℚ :=
  round64 ((List.range polygon.length).foldl
    (fun sum_area i =>
      let curr := list_get polygon i
      let next := list_get polygon ((i + 1) % polygon.length)
      round64 (sum_area + round64 (round64 (curr.y + next.y) * round64 (curr.x - next.x)))) 0 / 2)

/-- The function `polygon_centroid` on doubles. -/
def polygon_centroid (polygon : List (vector_t ℚ)) : vector_t ℚ :=
  let area := polygon_area polygon
  let c := (List.range polygon.length).foldl
    (fun (c : ℚ × ℚ) i =>
      let curr := list_get polygon i
      let next := list_get polygon ((i + 1) % polygon.length)
      let cross := round64 (round64 (curr.x * next.y) - round64 (next.x * curr.y))
      (round64 (c.1 + round64 (round64 (curr.x + next.x) * cross)),
       round64 (c.2 + round64 (round64 (curr.y + next.y) * cross)))) (0, 0)
  ⟨round64 (c.1 / round64 (6 * area)), round64 (c.2 / round64 (6 * area))⟩

/-- The function `polygon_translate` on doubles. -/
def polygon_translate (polygon : List (vector_t ℚ)) (translation : vector_t ℚ) :
    List (vector_t ℚ) :=
  polygon.map (fun v => vec_add v translation)

/-- The function `body_init` on doubles. -/
def body_init (shape : List (vector_t ℚ)) (mass : Mass ℚ) : body_t ℚ :=
  { shape := shape, mass := mass, vel := ⟨0, 0⟩, centroid := polygon_centroid shape,
    force := ⟨0, 0⟩, impulse := ⟨0, 0⟩, is_removed := false, rotation := 0,
    is_visible := true }

/-- The function `body_set_centroid` on doubles. -/
def body_set_centroid (body : body_t ℚ) (x : vector_t ℚ) : body_t ℚ :=
  let translation := vec_subtract x body.centroid
  { body with shape := polygon_translate body.shape translation, centroid := x }

/-- The function `compute_normal` on doubles.  With `v1 = v2` the edge is the zero vector,
`dist` is 0, `1.0 / dist` is infinite and both components of the normal are NaN: the
result is `none`. -/
def compute_normal (v1 v2 : vector_t ℚ) : Option (vector_t ℚ) :=
  let edge := vec_subtract v1 v2
  let dist := sqrt64 (vec_dot edge edge)
  if dist = 0 then none
  else
    let unit := vec_multiply (round64 (1 / dist)) edge
    some ⟨-unit.y, unit.x⟩

/-- The function `find_min_max_interval` on doubles, `none` for `(inf, -inf)`. -/
def find_min_max_interval (shape : List (vector_t ℚ)) (normal : vector_t ℚ) :
    Option (ℚ × ℚ) :=
  shape.foldl
    (fun interval v =>
      let proj := vec_dot v normal
      match interval with
      | none => some (proj, proj)
      | some (lo, hi) => some (if proj < lo then proj else lo, if proj > hi then proj else hi))
    none

/-- The normal computed by iteration `i` of the loop of `find_collision`. -/
def edge_normal (shape1 shape2 : List (vector_t ℚ)) (i : Nat) : Option (vector_t ℚ) :=
  compute_normal (edge_ends shape1 shape2 i).1 (edge_ends shape1 shape2 i).2

/-- The interval test of iteration `i` of the loop of `find_collision` on doubles: `none`
when the condition `max1 < min2 || max2 < min1` holds, the overlap otherwise.  With a NaN
normal every projection is NaN, no comparison holds, both intervals stay `(inf, -inf)`
and the condition holds. -/
def edge_test (shape1 shape2 : List (vector_t ℚ)) (i : Nat) : Option ℚ :=
  let shape := if i < shape1.length then shape1 else shape2
  let other_shape := if i < shape1.length then shape2 else shape1
  match edge_normal shape1 shape2 i with
  | none => none
  | some normal =>
    match find_min_max_interval shape normal, find_min_max_interval other_shape normal with
    | some (min1, max1), some (min2, max2) =>
      if max1 < min2 ∨ max2 < min1 then none
      else some |round64 (max min1 min2 - min max1 max2)|
    | _, _ => none

/-- The loop of `find_collision` on doubles. -/
def find_collision_loop (shape1 shape2 : List (vector_t ℚ)) :
    List Nat → Option ℚ → Option (vector_t ℚ) → collision_info_t ℚ
  | [], _, axis => ⟨true, axis⟩
  | i :: rest, shortest_overlap, axis =>
    match edge_test shape1 shape2 i with
    | none => ⟨false, axis⟩
    | some overlap =>
      if lt_shortest overlap shortest_overlap then
        find_collision_loop shape1 shape2 rest (some overlap) (edge_normal shape1 shape2 i)
      else find_collision_loop shape1 shape2 rest shortest_overlap axis

/-- The function `find_collision` on doubles. -/
def find_collision (shape1 shape2 : List (vector_t ℚ)) : collision_info_t ℚ :=
  find_collision_loop shape1 shape2 (List.range (shape1.length + shape2.length)) none none

end Binary64

/-- The body of the tests as `body_init` leaves it on doubles: the square of `make_shape`
with unit mass. -/
def rounded_square_body : body_t ℚ := Binary64.body_init make_shape (Mass.finite 1)

/-- The point `(0.1, 0.2)` as the C literals denote it: the doubles nearest to one tenth
and to two tenths. -/
def tenth_point : vector_t ℚ := ⟨round64 (1 / 10), round64 (2 / 10)⟩

/-- A right triangle with legs 12 and 9. -/
def triangle_12_9 : List (vector_t K) := [⟨0, 0⟩, ⟨12, 0⟩, ⟨0, 9⟩]

/-- A triangle whose first vertex lies on the hypotenuse of `triangle_12_9`. -/
def triangle_touching : List (vector_t K) := [⟨4, 6⟩, ⟨16, 15⟩, ⟨17, 15⟩]

/-- A right triangle with legs 3 and 3. -/
def triangle_3_3 : List (vector_t K) := [⟨0, 0⟩, ⟨3, 0⟩, ⟨0, 3⟩]

/-- A triangle whose first vertex lies `2 ^ -51` beyond the hypotenuse of
`triangle_3_3`. -/
def triangle_beyond : List (vector_t K) := [⟨1 + 1 / 2 ^ 51, 2⟩, ⟨4, 5⟩, ⟨5, 5⟩]

/-- A square whose first vertex lies `2 ^ -60` to the right of the origin. -/
def near_square : List (vector_t ℚ) := [⟨1 / 2 ^ 60, 0⟩, ⟨1, 0⟩, ⟨1, 1⟩, ⟨0, 1⟩]

/-! ## scene.c: two destructive collisions on one body -/

/-- The unit square body after `body_set_centroid` to (1, 0). -/
def right_square_body : body_t ℚ := body_set_centroid unit_square_body ⟨1, 0⟩

/-- A memory of unit square bodies, the one at pointer 1 moved to (-1, 0) and the one at
pointer 2 moved to (1, 0). -/
def chain_mem : body_mem ℚ :=
  fun p => if p = 1 then left_square_body else if p = 2 then right_square_body
    else unit_square_body

/-- A scene of three bodies with a destructive collision between the first and the
second and one between the first and the third; both pairs overlap. -/
def chain_scene : scene_t ℚ :=
  create_destructive_collision sqrt_table
    (create_destructive_collision sqrt_table
      (scene_add_body (scene_add_body (scene_add_body (scene_init chain_mem) 0) 1) 2) 0 1)
    0 2

/-! ## Integrator -/

/-- C1: for a body of finite non-zero mass `m`, `body_tick` leaves the velocity
`v + dt*F/m + J/m`, the centroid `c + dt*(v + v_new)/2`, and both accumulators zero. -/
theorem body_tick_finite_mass (b : body_t K) (m dt : K) (hmass : b.mass = Mass.finite m)
    (hm : m ≠ 0) :
    (body_tick b dt).vel.x = b.vel.x + dt * b.force.x / m + b.impulse.x / m ∧
    (body_tick b dt).vel.y = b.vel.y + dt * b.force.y / m + b.impulse.y / m ∧
    (body_tick b dt).centroid.x = b.centroid.x + dt * (b.vel.x + (body_tick b dt).vel.x) / 2 ∧
    (body_tick b dt).centroid.y = b.centroid.y + dt * (b.vel.y + (body_tick b dt).vel.y) / 2 ∧
    (body_tick b dt).force = ⟨0, 0⟩ ∧ (body_tick b dt).impulse = ⟨0, 0⟩ := by
  refine ⟨?_, ?_, ?_, ?_, rfl, rfl⟩ <;>
    simp only [body_tick, body_set_centroid, body_set_velocity, vec_add, vec_multiply, hmass,
      inv_mass] <;> field_simp <;> ring

/-- Witness of C1 on the square of mass 2 pushed along x. -/
theorem body_tick_finite_mass_witness :
    (body_tick ({ body_init make_shape (Mass.finite (2 : ℚ)) with
        force := ⟨4, 0⟩, impulse := ⟨2, 0⟩ }) 1).vel = ⟨3, 0⟩ := by
  have h := body_tick_finite_mass ({ body_init make_shape (Mass.finite (2 : ℚ)) with
        force := ⟨4, 0⟩, impulse := ⟨2, 0⟩ }) 2 1 rfl (by norm_num)
  ext
  · rw [h.1]; norm_num [body_init]
  · rw [h.2.1]; norm_num [body_init]

/-- C2: with the infinite-mass sentinel, `body_tick` gives the velocity, centroid and
shape it gives with both accumulators zero: the force and the impulse have no effect. -/
theorem body_tick_infinite_mass (b : body_t K) (F J : vector_t K) (dt : K)
    (hmass : b.mass = Mass.infinity) :
    (body_tick { b with force := F, impulse := J } dt).vel
      = (body_tick { b with force := ⟨0, 0⟩, impulse := ⟨0, 0⟩ } dt).vel ∧
    (body_tick { b with force := F, impulse := J } dt).centroid
      = (body_tick { b with force := ⟨0, 0⟩, impulse := ⟨0, 0⟩ } dt).centroid ∧
    (body_tick { b with force := F, impulse := J } dt).shape
      = (body_tick { b with force := ⟨0, 0⟩, impulse := ⟨0, 0⟩ } dt).shape := by
  simp [body_tick, body_set_centroid, body_set_velocity, vec_add, vec_multiply, hmass,
    inv_mass]

/-- Witness of C2 on the anchor of the spring test, loaded with a force and an impulse. -/
theorem body_tick_infinite_mass_witness :
    (body_tick ({ body_init make_shape (Mass.infinity : Mass ℚ) with
        force := ⟨5, 7⟩, impulse := ⟨3, 4⟩ }) 1).vel
      = (body_tick ({ body_init make_shape (Mass.infinity : Mass ℚ) with
        force := ⟨0, 0⟩, impulse := ⟨0, 0⟩ }) 1).vel :=
  (body_tick_infinite_mass (body_init make_shape (Mass.infinity : Mass ℚ)) ⟨5, 7⟩ ⟨3, 4⟩ 1
    rfl).1

/-- Every call leaves the mass of a body unchanged. -/
theorem body_call_run_mass (c : body_call K) (b : body_t K) : (c.run b).mass = b.mass := by
  cases c <;> rfl

/-- On an infinite-mass body every call leaves the velocity unchanged. -/
theorem body_call_run_vel (c : body_call K) (b : body_t K) (hmass : b.mass = Mass.infinity) :
    (c.run b).vel = b.vel := by
  cases c with
  | tick dt =>
    ext <;> simp [body_call.run, body_tick, body_set_centroid, body_set_velocity, vec_add,
      vec_multiply, hmass, inv_mass]
  | add_force f => rfl
  | add_impulse j => rfl

/-- On an infinite-mass body a call moves the centroid by its time step times the
velocity. -/
theorem body_call_run_centroid (c : body_call K) (b : body_t K)
    (hmass : b.mass = Mass.infinity) :
    (c.run b).centroid = vec_add b.centroid (vec_multiply (total_dt [c]) b.vel) := by
  cases c with
  | tick dt =>
    ext <;> simp only [body_call.run, body_tick, body_set_centroid, body_set_velocity, vec_add,
      vec_multiply, hmass, inv_mass, total_dt] <;> ring
  | add_force f =>
    ext <;> simp only [body_call.run, body_add_force, vec_add, vec_multiply, total_dt] <;> ring
  | add_impulse j =>
    ext <;> simp only [body_call.run, body_add_impulse, vec_add, vec_multiply, total_dt] <;> ring

/-- The time steps of a sequence add up call by call. -/
theorem total_dt_cons (c : body_call K) (cs : List (body_call K)) :
    total_dt (c :: cs) = total_dt [c] + total_dt cs := by
  cases c <;> simp [total_dt]

/-- C3, counterexample: an infinite-mass body with velocity (1,0) has a different
centroid after one `body_tick` of step 1. -/
theorem infinite_mass_centroid_moves :
    moving_anchor.mass = Mass.infinity ∧
    (run_calls [body_call.tick 1] moving_anchor).centroid ≠ moving_anchor.centroid := by
  refine ⟨rfl, ?_⟩
  intro h
  have hx := congrArg vector_t.x h
  simp [run_calls, body_call.run, body_tick, body_set_centroid, body_set_velocity, vec_add,
    vec_multiply, moving_anchor, body_init, inv_mass] at hx

/-- C3, amended: on an infinite-mass body, after any sequence of `body_tick`,
`body_add_force` and `body_add_impulse` calls the velocity is the initial one and the
centroid is the initial one displaced by (sum of the time steps) times the velocity; so
the centroid is unchanged when the body starts at rest. -/
theorem infinite_mass_run_calls (calls : List (body_call K)) (b : body_t K)
    (hmass : b.mass = Mass.infinity) :
    (run_calls calls b).vel = b.vel ∧
    (run_calls calls b).centroid = vec_add b.centroid (vec_multiply (total_dt calls) b.vel) ∧
    (b.vel = ⟨0, 0⟩ → (run_calls calls b).centroid = b.centroid) := by
  have key : ∀ (cs : List (body_call K)) (b : body_t K), b.mass = Mass.infinity →
      (run_calls cs b).vel = b.vel ∧
      (run_calls cs b).centroid = vec_add b.centroid (vec_multiply (total_dt cs) b.vel) := by
    intro cs
    induction cs with
    | nil => intro b _; refine ⟨rfl, ?_⟩; ext <;> simp [run_calls, total_dt, vec_add, vec_multiply]
    | cons c cs ih =>
      intro b hb
      have hm : (c.run b).mass = Mass.infinity := by rw [body_call_run_mass, hb]
      obtain ⟨hv, hc⟩ := ih (c.run b) hm
      have hv1 := body_call_run_vel c b hb
      have hc1 := body_call_run_centroid c b hb
      have hrun : run_calls (c :: cs) b = run_calls cs (c.run b) := rfl
      rw [hrun, hv, hc, hv1, hc1, total_dt_cons c cs]
      refine ⟨rfl, ?_⟩
      ext <;> simp only [vec_add, vec_multiply] <;> ring
  obtain ⟨hv, hc⟩ := key calls b hmass
  refine ⟨hv, hc, ?_⟩
  intro h0
  rw [hc, h0]
  ext <;> simp [vec_add, vec_multiply]

/-- Witness of the amended C3 on the resting anchor of the spring test. -/
theorem infinite_mass_run_calls_witness :
    (run_calls [body_call.add_force ⟨2, 3⟩, body_call.tick 1, body_call.add_impulse ⟨1, 1⟩,
        body_call.tick 2] (body_init make_shape (Mass.infinity : Mass ℚ))).centroid
      = (body_init make_shape (Mass.infinity : Mass ℚ)).centroid :=
  (infinite_mass_run_calls _ (body_init make_shape (Mass.infinity : Mass ℚ)) rfl).2.2 rfl

/-- C4: `body_set_centroid body p` sets the centroid field to `p`, replaces each vertex
by its old value plus `p - old centroid` keeping count and order, and leaves velocity,
mass and both accumulators unchanged. -/
theorem body_set_centroid_spec (b : body_t K) (p : vector_t K) :
    (body_set_centroid b p).centroid = p ∧
    (body_set_centroid b p).shape.length = b.shape.length ∧
    (∀ i, i < b.shape.length →
      list_get (body_set_centroid b p).shape i
        = vec_add (list_get b.shape i) (vec_subtract p b.centroid)) ∧
    (body_set_centroid b p).vel = b.vel ∧
    (body_set_centroid b p).mass = b.mass ∧
    (body_set_centroid b p).force = b.force ∧
    (body_set_centroid b p).impulse = b.impulse := by
  refine ⟨rfl, ?_, ?_, rfl, rfl, rfl, rfl⟩
  · simp [body_set_centroid, polygon_translate]
  · intro i hi
    simp [body_set_centroid, polygon_translate, list_get, List.getD_eq_getElem?_getD, hi]

/-! ## Polygon sums -/

/-- An accumulating loop over `0..n-1` computes the finite sum of its summands. -/
theorem foldl_range_add (g : ℕ → K) (a : K) (n : ℕ) :
    (List.range n).foldl (fun acc i => acc + g i) a = a + ∑ i in Finset.range n, g i := by
  induction n with
  | zero => simp
  | succ n ih => rw [List.range_succ, List.foldl_append, ih, Finset.sum_range_succ]; simp; ring

/-- A loop accumulating two sums at once computes both finite sums. -/
theorem foldl_range_add2 (g h : ℕ → K) (a b : K) (n : ℕ) :
    (List.range n).foldl (fun (c : K × K) i => (c.1 + g i, c.2 + h i)) (a, b)
      = (a + ∑ i in Finset.range n, g i, b + ∑ i in Finset.range n, h i) := by
  induction n with
  | zero => simp
  | succ n ih =>
    rw [List.range_succ, List.foldl_append, ih, Finset.sum_range_succ, Finset.sum_range_succ]
    simp [add_assoc]

/-- The area is half the cyclic sum of its summand. -/
theorem polygon_area_eq (l : List (vector_t K)) : polygon_area l = cyc_sum area_term l / 2 := by
  unfold polygon_area cyc_sum area_term
  rw [foldl_range_add (fun i => ((list_get l i).y + (list_get l ((i + 1) % l.length)).y) *
    ((list_get l i).x - (list_get l ((i + 1) % l.length)).x)) 0 l.length]
  simp

/-- The centroid is the pair of cyclic sums divided by six times the area. -/
theorem polygon_centroid_eq (l : List (vector_t K)) :
    polygon_centroid l
      = ⟨cyc_sum cx_term l / (6 * polygon_area l), cyc_sum cy_term l / (6 * polygon_area l)⟩ := by
  unfold polygon_centroid cyc_sum cx_term cy_term
  simp only []
  rw [foldl_range_add2
    (fun i => ((list_get l i).x + (list_get l ((i + 1) % l.length)).x) *
      ((list_get l i).x * (list_get l ((i + 1) % l.length)).y
        - (list_get l ((i + 1) % l.length)).x * (list_get l i).y))
    (fun i => ((list_get l i).y + (list_get l ((i + 1) % l.length)).y) *
      ((list_get l i).x * (list_get l ((i + 1) % l.length)).y
        - (list_get l ((i + 1) % l.length)).x * (list_get l i).y)) 0 0 l.length]
  simp

/-- Reading the successor vertex cyclically visits every vertex once. -/
theorem sum_next_eq (h : vector_t K → K) (l : List (vector_t K)) :
    ∑ i in Finset.range l.length, h (list_get l ((i + 1) % l.length))
      = ∑ i in Finset.range l.length, h (list_get l i) := by
  cases hn : l.length with
  | zero => simp
  | succ m =>
    rw [Finset.sum_range_succ, Finset.sum_range_succ']
    congr 1
    · apply Finset.sum_congr rfl
      intro i hi
      rw [Nat.mod_eq_of_lt (by have := Finset.mem_range.mp hi; omega)]
    · simp

/-- Summands that differ by a telescoping term and a multiple of another summand. -/
theorem cyc_sum_tele (f g k : vector_t K → vector_t K → K) (c : K) (h : vector_t K → K)
    (hfg : ∀ u v, f u v = g u v + c * k u v + (h v - h u)) (l : List (vector_t K)) :
    cyc_sum f l = cyc_sum g l + c * cyc_sum k l := by
  unfold cyc_sum
  have e := sum_next_eq h l
  simp only [hfg, Finset.sum_add_distrib, Finset.sum_sub_distrib, ← Finset.mul_sum, e]
  ring

/-- The cyclic sum over a vertex-wise image of a polygon. -/
theorem cyc_sum_map (f : vector_t K → vector_t K → K) (φ : vector_t K → vector_t K)
    (l : List (vector_t K)) : cyc_sum f (l.map φ) = cyc_sum (fun u v => f (φ u) (φ v)) l := by
  unfold cyc_sum
  rw [List.length_map]
  apply Finset.sum_congr rfl
  intro i hi
  have hi1 : i < l.length := Finset.mem_range.mp hi
  have hi2 : (i + 1) % l.length < l.length := Nat.mod_lt _ (by omega)
  simp [list_get, List.getD_eq_getElem?_getD, hi1, hi2]

/-- A constant factor moves out of a cyclic sum. -/
theorem cyc_sum_mul_left (f : vector_t K → vector_t K → K) (c : K) (l : List (vector_t K)) :
    cyc_sum (fun u v => c * f u v) l = c * cyc_sum f l := by
  unfold cyc_sum
  rw [Finset.mul_sum]

/-- Translation leaves the area unchanged. -/
theorem polygon_area_translate (l : List (vector_t K)) (t : vector_t K) :
    polygon_area (polygon_translate l t) = polygon_area l := by
  rw [polygon_area_eq, polygon_area_eq, polygon_translate, cyc_sum_map]
  rw [cyc_sum_tele _ area_term area_term 0 (fun w => -(2 * t.y * w.x))]
  · ring
  · intro u v
    simp only [area_term, vec_add]
    ring

/-- Translation moves the centroid of a polygon of non-zero area by the translation. -/
theorem polygon_centroid_translate (l : List (vector_t K)) (t : vector_t K)
    (harea : polygon_area l ≠ 0) :
    polygon_centroid (polygon_translate l t) = vec_add (polygon_centroid l) t := by
  rw [polygon_centroid_eq, polygon_centroid_eq, polygon_area_translate]
  have hx : cyc_sum cx_term (polygon_translate l t)
      = cyc_sum cx_term l + (3 * t.x) * cyc_sum area_term l := by
    rw [polygon_translate, cyc_sum_map]
    apply cyc_sum_tele _ cx_term area_term (3 * t.x)
      (fun w => -(t.y * w.x ^ 2) + 4 * t.x * (w.x * w.y) - 2 * t.x * t.y * w.x
        + 2 * t.x ^ 2 * w.y)
    intro u v
    simp only [cx_term, area_term, vec_add]
    ring
  have hy : cyc_sum cy_term (polygon_translate l t)
      = cyc_sum cy_term l + (3 * t.y) * cyc_sum area_term l := by
    rw [polygon_translate, cyc_sum_map]
    apply cyc_sum_tele _ cy_term area_term (3 * t.y)
      (fun w => t.x * w.y ^ 2 + 2 * t.y * (w.x * w.y) - 2 * t.y ^ 2 * w.x
        + 2 * t.x * t.y * w.y)
    intro u v
    simp only [cy_term, area_term, vec_add]
    ring
  have h2 : cyc_sum area_term l = 2 * polygon_area l := by rw [polygon_area_eq]; ring
  rw [hx, hy, h2]
  ext <;> simp only [vec_add] <;> field_simp <;> ring

/-- A rotation about the origin leaves the area unchanged. -/
theorem polygon_area_rotate (cos sin : K → K) (angle : K)
    (hcs : cos angle ^ 2 + sin angle ^ 2 = 1) (l : List (vector_t K)) :
    polygon_area (l.map (fun v => vec_rotate cos sin v angle)) = polygon_area l := by
  rw [polygon_area_eq, polygon_area_eq, cyc_sum_map]
  rw [cyc_sum_tele _ area_term area_term 0
    (fun w => w.x * w.y
      - (w.x * cos angle - w.y * sin angle) * (w.x * sin angle + w.y * cos angle))]
  · ring
  · intro u v
    simp only [area_term, vec_rotate]
    linear_combination (u.x * v.y - v.x * u.y) * hcs

/-- A rotation about the origin rotates the centroid. -/
theorem polygon_centroid_rotate (cos sin : K → K) (angle : K)
    (hcs : cos angle ^ 2 + sin angle ^ 2 = 1) (l : List (vector_t K)) :
    polygon_centroid (l.map (fun v => vec_rotate cos sin v angle))
      = vec_rotate cos sin (polygon_centroid l) angle := by
  rw [polygon_centroid_eq, polygon_centroid_eq, polygon_area_rotate cos sin angle hcs]
  have hx : cyc_sum cx_term (l.map (fun v => vec_rotate cos sin v angle))
      = cos angle * cyc_sum cx_term l + (-sin angle) * cyc_sum cy_term l := by
    rw [cyc_sum_map]
    rw [cyc_sum_tele _ (fun u v => cos angle * cx_term u v) cy_term (-sin angle) (fun _ => 0)]
    · rw [cyc_sum_mul_left]
    · intro u v
      simp only [cx_term, cy_term, vec_rotate]
      linear_combination
        ((u.x + v.x) * cos angle - (u.y + v.y) * sin angle) * (u.x * v.y - v.x * u.y) * hcs
  have hy : cyc_sum cy_term (l.map (fun v => vec_rotate cos sin v angle))
      = cos angle * cyc_sum cy_term l + sin angle * cyc_sum cx_term l := by
    rw [cyc_sum_map]
    rw [cyc_sum_tele _ (fun u v => cos angle * cy_term u v) cx_term (sin angle) (fun _ => 0)]
    · rw [cyc_sum_mul_left]
    · intro u v
      simp only [cx_term, cy_term, vec_rotate]
      linear_combination
        ((u.x + v.x) * sin angle + (u.y + v.y) * cos angle) * (u.x * v.y - v.x * u.y) * hcs
  rw [hx, hy]
  ext <;> simp only [vec_rotate] <;> ring

/-- A rotation about any pivot leaves the area unchanged. -/
theorem polygon_area_polygon_rotate (cos sin : K → K) (angle : K)
    (hcs : cos angle ^ 2 + sin angle ^ 2 = 1) (l : List (vector_t K)) (p : vector_t K) :
    polygon_area (polygon_rotate cos sin l angle p) = polygon_area l := by
  rw [polygon_rotate, polygon_area_translate, polygon_area_rotate cos sin angle hcs,
    polygon_area_translate]

/-- A rotation about a pivot `p` sends the centroid `c` of a polygon of non-zero area to
`p + R(c - p)`. -/
theorem polygon_centroid_polygon_rotate (cos sin : K → K) (angle : K)
    (hcs : cos angle ^ 2 + sin angle ^ 2 = 1) (l : List (vector_t K)) (p : vector_t K)
    (harea : polygon_area l ≠ 0) :
    polygon_centroid (polygon_rotate cos sin l angle p)
      = vec_add (vec_rotate cos sin (vec_add (polygon_centroid l) (vec_negate p)) angle) p := by
  have h1 : polygon_area ((polygon_translate l (vec_negate p)).map
      (fun v => vec_rotate cos sin v angle)) ≠ 0 := by
    rw [polygon_area_rotate cos sin angle hcs, polygon_area_translate]; exact harea
  rw [polygon_rotate, polygon_centroid_translate _ _ h1,
    polygon_centroid_rotate cos sin angle hcs, polygon_centroid_translate _ _ harea]

/-! ## The centroid invariant -/

/-- Setting the centroid of a body whose centroid field is the geometric centroid of a
shape of non-zero area keeps the two equal. -/
theorem body_set_centroid_invariant (b : body_t K) (p : vector_t K)
    (hinv : b.centroid = polygon_centroid b.shape) (harea : polygon_area b.shape ≠ 0) :
    (body_set_centroid b p).centroid = polygon_centroid (body_set_centroid b p).shape := by
  simp only [body_set_centroid]
  rw [polygon_centroid_translate _ _ harea, ← hinv]
  ext <;> simp only [vec_add, vec_subtract] <;> ring

/-- The area of the square of `make_shape` is 4. -/
theorem polygon_area_make_shape : polygon_area (make_shape : List (vector_t K)) = 4 := by
  simp [polygon_area, make_shape, list_get, List.range_succ]
  norm_num

/-- C5, amended: in exact arithmetic (no operation rounds), if the centroid field equals
`polygon_centroid` of the shape and the area is not zero, then after `body_set_centroid`,
after `body_tick` and after `body_set_rotation` (cos and sin of the angle satisfying the
Pythagorean identity) the centroid field still equals `polygon_centroid` of the current
shape. -/
theorem centroid_invariant (cos sin : K → K) (b : body_t K) (p : vector_t K) (dt angle : K)
    (hinv : b.centroid = polygon_centroid b.shape) (harea : polygon_area b.shape ≠ 0)
    (hcs : cos angle ^ 2 + sin angle ^ 2 = 1) :
    (body_set_centroid b p).centroid = polygon_centroid (body_set_centroid b p).shape ∧
    (body_tick b dt).centroid = polygon_centroid (body_tick b dt).shape ∧
    (body_set_rotation cos sin b angle).centroid
      = polygon_centroid (body_set_rotation cos sin b angle).shape := by
  refine ⟨body_set_centroid_invariant b p hinv harea, ?_, ?_⟩
  · exact body_set_centroid_invariant b _ hinv harea
  · simp only [body_set_rotation, body_set_rotation_around_point]
    rw [polygon_centroid_polygon_rotate cos sin angle hcs _ _ harea, ← hinv]
    ext <;> simp only [vec_add, vec_rotate, vec_negate, vec_multiply] <;> ring

/-- Witness of C5 on the unit square body, moved to (3,4), ticked, and turned a quarter. -/
theorem centroid_invariant_witness :
    (body_set_centroid unit_square_body ⟨3, 4⟩).centroid
      = polygon_centroid (body_set_centroid unit_square_body ⟨3, 4⟩).shape ∧
    (body_tick unit_square_body 1).centroid
      = polygon_centroid (body_tick unit_square_body 1).shape ∧
    (body_set_rotation quarter_cos quarter_sin unit_square_body 1).centroid
      = polygon_centroid (body_set_rotation quarter_cos quarter_sin unit_square_body 1).shape :=
  centroid_invariant quarter_cos quarter_sin unit_square_body ⟨3, 4⟩ 1 1 rfl
    (by rw [unit_square_body, body_init, polygon_area_make_shape]; norm_num)
    (by norm_num [quarter_cos, quarter_sin])

/-- C6, the code at the failing input: a quarter turn of the unit square body about the
pivot (1,0) leaves the centroid field at (0,0) while the geometric centroid of the
rotated shape is (1,-1). -/
theorem rotation_around_point_stale_centroid :
    unit_square_body.centroid = polygon_centroid unit_square_body.shape ∧
    polygon_area unit_square_body.shape ≠ 0 ∧
    (body_set_rotation_around_point quarter_cos quarter_sin unit_square_body 1 ⟨1, 0⟩).centroid
      = ⟨0, 0⟩ ∧
    polygon_centroid
      (body_set_rotation_around_point quarter_cos quarter_sin unit_square_body 1 ⟨1, 0⟩).shape
      = ⟨1, -1⟩ := by
  have harea : polygon_area unit_square_body.shape ≠ 0 := by
    rw [unit_square_body, body_init, polygon_area_make_shape]; norm_num
  have hc : unit_square_body.centroid = ⟨0, 0⟩ := by
    simp [unit_square_body, body_init, polygon_centroid, polygon_area, make_shape, list_get,
      List.range_succ]
    norm_num
  refine ⟨rfl, harea, hc, ?_⟩
  simp only [body_set_rotation_around_point]
  rw [polygon_centroid_polygon_rotate quarter_cos quarter_sin 1 (by norm_num [quarter_cos,
    quarter_sin]) _ _ harea]
  have hc2 : polygon_centroid unit_square_body.shape = ⟨0, 0⟩ := hc
  rw [hc2]
  simp [vec_add, vec_rotate, vec_negate, vec_multiply, quarter_cos, quarter_sin]

/-! ## Separating axis test -/

/-- The loop answers `collided = false` exactly when one of its iterations finds disjoint
intervals. -/
theorem find_collision_loop_collided (sqrt : K → K) (s1 s2 : List (vector_t K))
    (l : List Nat) (sh : Option K) (ax : Option (vector_t K)) :
    (find_collision_loop sqrt s1 s2 l sh ax).collided = false
      ↔ ∃ i ∈ l, edge_test sqrt s1 s2 i = none := by
  induction l generalizing sh ax with
  | nil => simp [find_collision_loop]
  | cons i rest ih =>
    rw [find_collision_loop]
    cases h : edge_test sqrt s1 s2 i with
    | none => simp [h]
    | some ov =>
      simp only []
      split_ifs <;> rw [ih] <;> simp [h]

/-- The axis the loop leaves when no iteration finds disjoint intervals: either the
initial one, no overlap being below the initial shortest overlap, or the normal of the
first iteration whose overlap is the least. -/
theorem find_collision_loop_axis (sqrt : K → K) (s1 s2 : List (vector_t K))
    (l : List Nat) (sh : Option K) (ax : Option (vector_t K)) :
    ((find_collision_loop sqrt s1 s2 l sh ax).axis = ax ∧
      ∀ i ∈ l, ∀ ov, edge_test sqrt s1 s2 i = some ov → lt_shortest ov sh = false) ∨
    (∃ pre k post ov, l = pre ++ k :: post ∧ edge_test sqrt s1 s2 k = some ov ∧
      (find_collision_loop sqrt s1 s2 l sh ax).axis = some (edge_normal sqrt s1 s2 k) ∧
      lt_shortest ov sh = true ∧
      (∀ i ∈ pre, ∀ ov2, edge_test sqrt s1 s2 i = some ov2 → ov < ov2) ∧
      (∀ i ∈ post, ∀ ov2, edge_test sqrt s1 s2 i = some ov2 → ov ≤ ov2)) ∨
    (∃ i ∈ l, edge_test sqrt s1 s2 i = none) := by
  induction l generalizing sh ax with
  | nil => left; simp [find_collision_loop]
  | cons i rest ih =>
    rw [find_collision_loop]
    cases h : edge_test sqrt s1 s2 i with
    | none => right; right; exact ⟨i, List.mem_cons_self _ _, h⟩
    | some ovi =>
      simp only []
      by_cases hlt : lt_shortest ovi sh = true
      · rw [if_pos hlt]
        rcases ih (some ovi) (some (edge_normal sqrt s1 s2 i)) with hA | hB | hC
        · right; left
          refine ⟨[], i, rest, ovi, rfl, h, hA.1, hlt, by simp, ?_⟩
          intro j hj ov2 h2
          have := hA.2 j hj ov2 h2
          simpa [lt_shortest] using this
        · obtain ⟨pre, k, post, ov, hl, hk, hax, hlt2, hpre, hpost⟩ := hB
          right; left
          have hlt3 : ov < ovi := by simpa [lt_shortest] using hlt2
          refine ⟨i :: pre, k, post, ov, by rw [hl]; rfl, hk, hax, ?_, ?_, hpost⟩
          · cases sh with
            | none => rfl
            | some s =>
              have : ovi < s := by simpa [lt_shortest] using hlt
              simpa [lt_shortest] using lt_trans hlt3 this
          · intro j hj ov2 h2
            rcases List.mem_cons.mp hj with rfl | hj
            · rw [h] at h2; cases h2; exact hlt3
            · exact hpre j hj ov2 h2
        · obtain ⟨j, hj, h2⟩ := hC
          right; right; exact ⟨j, List.mem_cons_of_mem _ hj, h2⟩
      · rw [if_neg hlt]
        have hlt1 : lt_shortest ovi sh = false := by simpa using hlt
        rcases ih sh ax with hA | hB | hC
        · left
          refine ⟨hA.1, ?_⟩
          intro j hj ov2 h2
          rcases List.mem_cons.mp hj with rfl | hj
          · rw [h] at h2; cases h2; exact hlt1
          · exact hA.2 j hj ov2 h2
        · obtain ⟨pre, k, post, ov, hl, hk, hax, hlt2, hpre, hpost⟩ := hB
          right; left
          refine ⟨i :: pre, k, post, ov, by rw [hl]; rfl, hk, hax, hlt2, ?_, hpost⟩
          intro j hj ov2 h2
          rcases List.mem_cons.mp hj with rfl | hj
          · rw [h] at h2; cases h2
            cases sh with
            | none => simp [lt_shortest] at hlt1
            | some s =>
              have h3 : ov < s := by simpa [lt_shortest] using hlt2
              have h4 : s ≤ ovi := by simpa [lt_shortest] using hlt1
              exact lt_of_lt_of_le h3 h4
          · exact hpre j hj ov2 h2
        · obtain ⟨j, hj, h2⟩ := hC
          right; right; exact ⟨j, List.mem_cons_of_mem _ hj, h2⟩

/-- The interval test of an iteration, in terms of the two shapes in argument order. -/
theorem edge_test_eq (sqrt : K → K) (s1 s2 : List (vector_t K)) (i : Nat) :
    edge_test sqrt s1 s2 i
      = if separating s1 s2 (edge_normal sqrt s1 s2 i) = true then none
        else some (overlap_on s1 s2 (edge_normal sqrt s1 s2 i)) := by
  unfold edge_test separating overlap_on
  by_cases hi : i < s1.length
  · simp only [hi, if_true]
    cases find_min_max_interval s1 (edge_normal sqrt s1 s2 i) <;>
      cases find_min_max_interval s2 (edge_normal sqrt s1 s2 i) <;> simp
  · simp only [hi, if_false]
    cases find_min_max_interval s1 (edge_normal sqrt s1 s2 i) <;>
      cases find_min_max_interval s2 (edge_normal sqrt s1 s2 i) <;>
      simp [or_comm, max_comm, min_comm]

/-- The normal of an edge of non-zero length is a unit vector when `sqrt` returns a
square root of the squared length. -/
theorem compute_normal_unit (sqrt : K → K) (v1 v2 : vector_t K)
    (hne : vec_dot (vec_subtract v1 v2) (vec_subtract v1 v2) ≠ 0)
    (hs : sqrt (vec_dot (vec_subtract v1 v2) (vec_subtract v1 v2))
        * sqrt (vec_dot (vec_subtract v1 v2) (vec_subtract v1 v2))
      = vec_dot (vec_subtract v1 v2) (vec_subtract v1 v2)) :
    vec_dot (compute_normal sqrt v1 v2) (compute_normal sqrt v1 v2) = 1 := by
  have hd : sqrt (vec_dot (vec_subtract v1 v2) (vec_subtract v1 v2)) ≠ 0 := by
    intro h0
    rw [h0, mul_zero] at hs
    exact hne hs.symm
  simp only [compute_normal, vec_multiply]
  generalize sqrt (vec_dot (vec_subtract v1 v2) (vec_subtract v1 v2)) = d at hd hs
  simp only [vec_dot] at hs ⊢
  field_simp
  linear_combination -hs

/-- C7: `find_collision` returns `collided = false` exactly when the normal of some edge of
the first or the second shape has disjoint projection intervals; otherwise, for shapes
with an edge, none of zero length, the axis is the unit normal of the first edge, in the
order first shape then second shape, whose overlap is the least over all edges. -/
theorem find_collision_spec (sqrt : K → K) (s1 s2 : List (vector_t K))
    (hedges : ∀ i, i < s1.length + s2.length →
      vec_dot (vec_subtract (edge_ends s1 s2 i).1 (edge_ends s1 s2 i).2)
          (vec_subtract (edge_ends s1 s2 i).1 (edge_ends s1 s2 i).2) ≠ 0 ∧
      sqrt (vec_dot (vec_subtract (edge_ends s1 s2 i).1 (edge_ends s1 s2 i).2)
          (vec_subtract (edge_ends s1 s2 i).1 (edge_ends s1 s2 i).2))
        * sqrt (vec_dot (vec_subtract (edge_ends s1 s2 i).1 (edge_ends s1 s2 i).2)
          (vec_subtract (edge_ends s1 s2 i).1 (edge_ends s1 s2 i).2))
        = vec_dot (vec_subtract (edge_ends s1 s2 i).1 (edge_ends s1 s2 i).2)
          (vec_subtract (edge_ends s1 s2 i).1 (edge_ends s1 s2 i).2)) :
    ((find_collision sqrt s1 s2).collided = false
      ↔ ∃ i, i < s1.length + s2.length ∧ separating s1 s2 (edge_normal sqrt s1 s2 i) = true) ∧
    ((find_collision sqrt s1 s2).collided = true → 0 < s1.length + s2.length →
      ∃ k, k < s1.length + s2.length ∧
        (find_collision sqrt s1 s2).axis = some (edge_normal sqrt s1 s2 k) ∧
        vec_dot (edge_normal sqrt s1 s2 k) (edge_normal sqrt s1 s2 k) = 1 ∧
        (∀ i, i < s1.length + s2.length →
          overlap_on s1 s2 (edge_normal sqrt s1 s2 k)
            ≤ overlap_on s1 s2 (edge_normal sqrt s1 s2 i)) ∧
        (∀ i, i < k →
          overlap_on s1 s2 (edge_normal sqrt s1 s2 k)
            < overlap_on s1 s2 (edge_normal sqrt s1 s2 i))) := by
  have hnone : ∀ i, edge_test sqrt s1 s2 i = none
      ↔ separating s1 s2 (edge_normal sqrt s1 s2 i) = true := by
    intro i
    rw [edge_test_eq]
    split_ifs with h <;> simp [h]
  have hiff : (find_collision sqrt s1 s2).collided = false
      ↔ ∃ i, i < s1.length + s2.length ∧
          separating s1 s2 (edge_normal sqrt s1 s2 i) = true := by
    rw [find_collision, find_collision_loop_collided]
    constructor
    · rintro ⟨i, hi, h⟩
      exact ⟨i, List.mem_range.mp hi, (hnone i).mp h⟩
    · rintro ⟨i, hi, h⟩
      exact ⟨i, List.mem_range.mpr hi, (hnone i).mpr h⟩
  refine ⟨hiff, ?_⟩
  intro hcol hpos
  have hsome : ∀ i, i < s1.length + s2.length →
      edge_test sqrt s1 s2 i = some (overlap_on s1 s2 (edge_normal sqrt s1 s2 i)) := by
    intro i hi
    rw [edge_test_eq]
    have hns : ¬ separating s1 s2 (edge_normal sqrt s1 s2 i) = true := by
      intro h
      have := hiff.mpr ⟨i, hi, h⟩
      rw [hcol] at this
      cases this
    rw [if_neg hns]
  rcases find_collision_loop_axis sqrt s1 s2 (List.range (s1.length + s2.length)) none none
    with hA | hB | hC
  · have := hA.2 0 (List.mem_range.mpr hpos) _ (hsome 0 hpos)
    simp [lt_shortest] at this
  · obtain ⟨pre, k, post, ov, hl, hk, hax, -, hpre, hpost⟩ := hB
    have hkmem : k ∈ List.range (s1.length + s2.length) := by rw [hl]; simp
    have hkn : k < s1.length + s2.length := List.mem_range.mp hkmem
    have hov : ov = overlap_on s1 s2 (edge_normal sqrt s1 s2 k) := by
      have := hsome k hkn
      rw [hk] at this
      exact Option.some.inj this
    have hsorted : List.Pairwise (· < ·) (pre ++ k :: post) := by
      rw [← hl]; exact List.pairwise_lt_range _
    rw [List.pairwise_append] at hsorted
    obtain ⟨-, hkpost, hprek⟩ := hsorted
    have hpost_gt : ∀ j ∈ post, k < j := (List.pairwise_cons.mp hkpost).1
    have hpre_lt : ∀ j ∈ pre, j < k := fun j hj => hprek j hj k (List.mem_cons_self _ _)
    have hcases : ∀ i, i < s1.length + s2.length → i ∈ pre ∨ i = k ∨ i ∈ post := by
      intro i hi
      have : i ∈ pre ++ k :: post := by rw [← hl]; exact List.mem_range.mpr hi
      simpa [List.mem_append, List.mem_cons] using this
    refine ⟨k, hkn, hax, ?_, ?_, ?_⟩
    · exact compute_normal_unit sqrt _ _ (hedges k hkn).1 (hedges k hkn).2
    · intro i hi
      rw [← hov]
      rcases hcases i hi with h | h | h
      · exact le_of_lt (hpre i h _ (hsome i hi))
      · rw [h, hov]
      · exact hpost i h _ (hsome i hi)
    · intro i hik
      have hi : i < s1.length + s2.length := lt_trans hik hkn
      rw [← hov]
      rcases hcases i hi with h | h | h
      · exact hpre i h _ (hsome i hi)
      · omega
      · have := hpost_gt i h; omega
  · obtain ⟨i, hi, h⟩ := hC
    have := hsome i (List.mem_range.mp hi)
    rw [h] at this
    cases this

/-- The squared edge lengths of two test squares are 4, where `sqrt_table` is exact. -/
theorem sqrt_table_edges (d : ℚ) (i : Nat)
    (hi : i < (make_shape : List (vector_t ℚ)).length + (square_at d).length) :
    vec_dot (vec_subtract (edge_ends make_shape (square_at d) i).1
          (edge_ends make_shape (square_at d) i).2)
        (vec_subtract (edge_ends make_shape (square_at d) i).1
          (edge_ends make_shape (square_at d) i).2) = 4 := by
  have hi8 : i < 8 := by simpa [make_shape, square_at, polygon_translate] using hi
  interval_cases i <;>
    simp [edge_ends, make_shape, square_at, polygon_translate, list_get, vec_add, vec_subtract,
      vec_dot] <;> norm_num

/-- Witness of C7 on the test squares centred at (0,0) and (1,0). -/
theorem find_collision_spec_witness :
    (find_collision sqrt_table make_shape (square_at 1)).collided = false
      ↔ ∃ i, i < (make_shape : List (vector_t ℚ)).length + (square_at (1 : ℚ)).length ∧
          separating make_shape (square_at 1)
            (edge_normal sqrt_table make_shape (square_at 1) i) = true :=
  (find_collision_spec sqrt_table make_shape (square_at 1) (by
    intro i hi
    rw [sqrt_table_edges 1 i hi]
    norm_num [sqrt_table])).1

/-! ## Soundness of the separating axis test -/

/-- Continuing the interval loop from finite bounds gives finite bounds that enclose the
old ones and the projection of every further vertex. -/
theorem interval_foldl_some (normal : vector_t K) (shape : List (vector_t K)) (lo hi : K) :
    ∃ lo2 hi2,
      shape.foldl
        (fun interval v =>
          match interval with
          | none => some (vec_dot v normal, vec_dot v normal)
          | some (lo, hi) =>
            some (if vec_dot v normal < lo then vec_dot v normal else lo,
              if vec_dot v normal > hi then vec_dot v normal else hi))
        (some (lo, hi)) = some (lo2, hi2) ∧
      lo2 ≤ lo ∧ hi ≤ hi2 ∧ ∀ v ∈ shape, lo2 ≤ vec_dot v normal ∧ vec_dot v normal ≤ hi2 := by
  induction shape generalizing lo hi with
  | nil => exact ⟨lo, hi, rfl, le_refl _, le_refl _, by simp⟩
  | cons v rest ih =>
    simp only [List.foldl_cons]
    obtain ⟨lo2, hi2, he, hlo, hhi, hall⟩ :=
      ih (if vec_dot v normal < lo then vec_dot v normal else lo)
        (if vec_dot v normal > hi then vec_dot v normal else hi)
    refine ⟨lo2, hi2, he, ?_, ?_, ?_⟩
    · split_ifs at hlo <;> linarith
    · split_ifs at hhi <;> linarith
    · intro w hw
      rcases List.mem_cons.mp hw with rfl | hw
      · constructor
        · split_ifs at hlo <;> linarith
        · split_ifs at hhi <;> linarith
      · exact hall w hw

/-- The interval of a shape with a vertex is finite and contains the projection of every
vertex. -/
theorem find_min_max_interval_bounds (normal : vector_t K) (shape : List (vector_t K))
    (hne : shape ≠ []) :
    ∃ lo hi, find_min_max_interval shape normal = some (lo, hi) ∧
      ∀ v ∈ shape, lo ≤ vec_dot v normal ∧ vec_dot v normal ≤ hi := by
  cases shape with
  | nil => exact absurd rfl hne
  | cons v rest =>
    obtain ⟨lo2, hi2, he, hlo, hhi, hall⟩ :=
      interval_foldl_some normal rest (vec_dot v normal) (vec_dot v normal)
    refine ⟨lo2, hi2, ?_, ?_⟩
    · simpa [find_min_max_interval] using he
    · intro w hw
      rcases List.mem_cons.mp hw with rfl | hw
      · exact ⟨hlo, hhi⟩
      · exact hall w hw

/-- The projection of a combination with non-negative weights lies between the bounds of
the projections of the vertices, scaled by the total weight. -/
theorem weighted_sum_dot_bounds (normal : vector_t K) (lo hi : K) (w : List K)
    (shape : List (vector_t K)) (hlen : w.length = shape.length) (hw : ∀ a ∈ w, 0 ≤ a)
    (hb : ∀ v ∈ shape, lo ≤ vec_dot v normal ∧ vec_dot v normal ≤ hi) :
    lo * w.sum ≤ vec_dot (weighted_sum w shape) normal ∧
      vec_dot (weighted_sum w shape) normal ≤ hi * w.sum := by
  induction w generalizing shape with
  | nil => simp [weighted_sum, VEC_ZERO, vec_dot]
  | cons a ws ih =>
    cases shape with
    | nil => simp at hlen
    | cons v vs =>
      have hlen2 : ws.length = vs.length := by simpa using hlen
      obtain ⟨h1, h2⟩ := ih vs hlen2 (fun x hx => hw x (List.mem_cons_of_mem _ hx))
        (fun x hx => hb x (List.mem_cons_of_mem _ hx))
      have ha : 0 ≤ a := hw a (List.mem_cons_self _ _)
      obtain ⟨hv1, hv2⟩ := hb v (List.mem_cons_self _ _)
      have e : vec_dot (weighted_sum (a :: ws) (v :: vs)) normal
          = a * vec_dot v normal + vec_dot (weighted_sum ws vs) normal := by
        simp only [weighted_sum, vec_dot, vec_add, vec_multiply]; ring
      rw [e, List.sum_cons]
      constructor
      · nlinarith [mul_le_mul_of_nonneg_left hv1 ha]
      · nlinarith [mul_le_mul_of_nonneg_left hv2 ha]

/-- The intervals of two shapes whose hulls share a point are not disjoint on any
normal. -/
theorem separating_of_common_point (s1 s2 : List (vector_t K)) (p normal : vector_t K)
    (h1 : in_hull p s1) (h2 : in_hull p s2) : separating s1 s2 normal = false := by
  obtain ⟨w1, hl1, hw1, hs1, hp1⟩ := h1
  obtain ⟨w2, hl2, hw2, hs2, hp2⟩ := h2
  have hne1 : s1 ≠ [] := by
    rintro rfl
    have : w1 = [] := List.length_eq_zero.mp (by simpa using hl1)
    rw [this] at hs1; simp at hs1
  have hne2 : s2 ≠ [] := by
    rintro rfl
    have : w2 = [] := List.length_eq_zero.mp (by simpa using hl2)
    rw [this] at hs2; simp at hs2
  obtain ⟨lo1, hi1, e1, b1⟩ := find_min_max_interval_bounds normal s1 hne1
  obtain ⟨lo2, hi2, e2, b2⟩ := find_min_max_interval_bounds normal s2 hne2
  have c1 := weighted_sum_dot_bounds normal lo1 hi1 w1 s1 hl1 hw1 b1
  have c2 := weighted_sum_dot_bounds normal lo2 hi2 w2 s2 hl2 hw2 b2
  rw [hs1, hp1, mul_one, mul_one] at c1
  rw [hs2, hp2, mul_one, mul_one] at c2
  simp only [separating, e1, e2, decide_eq_false_iff_not, not_or, not_lt]
  exact ⟨le_trans c2.1 c1.2, le_trans c1.1 c2.2⟩

/-- C8, amended: in exact arithmetic (no operation rounds), for two shapes with no edge of
zero length, if some point is a convex combination of the vertices of both shapes, then
`find_collision` returns `collided = true`. -/
theorem find_collision_of_common_point (sqrt : K → K) (s1 s2 : List (vector_t K))
    (p : vector_t K)
    (_hedges : ∀ i, i < s1.length + s2.length →
      (edge_ends s1 s2 i).1 ≠ (edge_ends s1 s2 i).2)
    (h1 : in_hull p s1) (h2 : in_hull p s2) :
    (find_collision sqrt s1 s2).collided = true := by
  have hnot : ¬ (find_collision sqrt s1 s2).collided = false := by
    rw [find_collision, find_collision_loop_collided]
    rintro ⟨i, -, h⟩
    rw [edge_test_eq, separating_of_common_point s1 s2 p _ h1 h2] at h
    simp at h
  simpa using hnot

/-- Witness of C8: the corner (1,1) of the square at the origin lies on the top edge of
the square centred at (1,0). -/
theorem find_collision_of_common_point_witness :
    (find_collision sqrt_table make_shape (square_at 1)).collided = true :=
  find_collision_of_common_point sqrt_table make_shape (square_at 1) ⟨1, 1⟩
    (by
      intro i hi
      have hi8 : i < 8 := by simpa [make_shape, square_at, polygon_translate] using hi
      interval_cases i <;>
        simp [edge_ends, make_shape, square_at, polygon_translate, list_get, vec_add] <;>
        norm_num)
    ⟨[0, 0, 1, 0], rfl, by simp, by norm_num,
      by simp [weighted_sum, make_shape, vec_add, vec_multiply, VEC_ZERO]⟩
    ⟨[0, 0, 1 / 2, 1 / 2], rfl, by simp, by norm_num,
      by simp [weighted_sum, square_at, polygon_translate, make_shape, vec_add, vec_multiply,
        VEC_ZERO]; norm_num⟩

/-! ## The test squares -/

/-- The normals of the eight edges of two test squares. -/
theorem edge_normal_squares (sqrt : K → K) (hs : sqrt 4 = 2) (d : K) (i : Nat) (hi : i < 8) :
    edge_normal sqrt make_shape (square_at d) i
      = if i % 4 = 0 then ⟨0, -1⟩ else if i % 4 = 1 then ⟨1, 0⟩
        else if i % 4 = 2 then ⟨0, 1⟩ else ⟨-1, 0⟩ := by
  interval_cases i <;>
    simp [edge_normal, edge_ends, compute_normal, make_shape, square_at, polygon_translate,
      list_get, vec_add, vec_subtract, vec_dot, vec_multiply] <;> norm_num [hs]

/-- The projection intervals of the square at the origin on the four normals. -/
theorem interval_make_shape :
    find_min_max_interval (make_shape : List (vector_t K)) ⟨0, -1⟩ = some (-1, 1) ∧
    find_min_max_interval (make_shape : List (vector_t K)) ⟨1, 0⟩ = some (-1, 1) ∧
    find_min_max_interval (make_shape : List (vector_t K)) ⟨0, 1⟩ = some (-1, 1) ∧
    find_min_max_interval (make_shape : List (vector_t K)) ⟨-1, 0⟩ = some (-1, 1) := by
  refine ⟨?_, ?_, ?_, ?_⟩ <;> simp [find_min_max_interval, make_shape, vec_dot] <;> norm_num

/-- The projection intervals of the square centred at `(d, 0)` on the four normals. -/
theorem interval_square_at (d : K) :
    find_min_max_interval (square_at d) ⟨0, -1⟩ = some (-1, 1) ∧
    find_min_max_interval (square_at d) ⟨1, 0⟩ = some (d - 1, d + 1) ∧
    find_min_max_interval (square_at d) ⟨0, 1⟩ = some (-1, 1) ∧
    find_min_max_interval (square_at d) ⟨-1, 0⟩ = some (-d - 1, -d + 1) := by
  refine ⟨?_, ?_, ?_, ?_⟩ <;>
    simp only [find_min_max_interval, make_shape, square_at, polygon_translate, vec_add, vec_dot,
      List.map, List.foldl] <;>
    refine congrArg some (Prod.ext ?_ ?_) <;> simp only [] <;> split_ifs <;>
    first
    | ring1
    | (exfalso; linarith)

/-- The overlap of the intervals `[-1, 1]` and `[d - 1, d + 1]`. -/
theorem overlap_shifted (d : K) (h : ¬ 2 < |d|) :
    |max (-1) (d - 1) - min 1 (d + 1)| = 2 - |d| := by
  have h2 : |d| ≤ 2 := not_lt.mp h
  obtain ⟨hl, hu⟩ := abs_le.mp h2
  rcases le_total 0 d with h0 | h0
  · rw [max_eq_right (by linarith), min_eq_left (by linarith), abs_of_nonneg h0,
      abs_of_nonpos (by linarith)]
    ring
  · rw [max_eq_left (by linarith), min_eq_right (by linarith), abs_of_nonpos h0,
      abs_of_nonpos (by linarith)]
    ring

/-- Disjointness and overlap of the two test squares on the four normals. -/
theorem squares_on_normals (d : K) :
    (separating make_shape (square_at d) ⟨0, -1⟩ = false ∧
      overlap_on make_shape (square_at d) ⟨0, -1⟩ = 2) ∧
    (separating make_shape (square_at d) ⟨0, 1⟩ = false ∧
      overlap_on make_shape (square_at d) ⟨0, 1⟩ = 2) ∧
    (separating make_shape (square_at d) ⟨1, 0⟩ = decide (2 < |d|) ∧
      (¬ 2 < |d| → overlap_on make_shape (square_at d) ⟨1, 0⟩ = 2 - |d|)) ∧
    (separating make_shape (square_at d) ⟨-1, 0⟩ = decide (2 < |d|) ∧
      (¬ 2 < |d| → overlap_on make_shape (square_at d) ⟨-1, 0⟩ = 2 - |d|)) := by
  obtain ⟨a1, a2, a3, a4⟩ := interval_make_shape (K := K)
  obtain ⟨b1, b2, b3, b4⟩ := interval_square_at d
  have hsep : (1 < d - 1 ∨ d + 1 < -1) ↔ 2 < |d| := by
    rw [lt_abs]
    constructor
    · rintro (h | h)
      · left; linarith
      · right; linarith
    · rintro (h | h)
      · left; linarith
      · right; linarith
  have hsep2 : (1 < -d - 1 ∨ -d + 1 < -1) ↔ 2 < |d| := by
    rw [lt_abs]
    constructor
    · rintro (h | h)
      · right; linarith
      · left; linarith
    · rintro (h | h)
      · right; linarith
      · left; linarith
  refine ⟨⟨?_, ?_⟩, ⟨?_, ?_⟩, ⟨?_, ?_⟩, ⟨?_, ?_⟩⟩
  · simp only [separating, a1, b1]; norm_num
  · simp only [overlap_on, a1, b1]; norm_num
  · simp only [separating, a3, b3]; norm_num
  · simp only [overlap_on, a3, b3]; norm_num
  · simp only [separating, a2, b2, hsep]
  · intro h
    simp only [overlap_on, a2, b2]
    exact overlap_shifted d h
  · simp only [separating, a4, b4, hsep2]
  · intro h
    simp only [overlap_on, a4, b4]
    have := overlap_shifted (-d) (by rwa [abs_neg])
    rw [abs_neg] at this
    exact this

/-- The interval test of each of the eight edges of two test squares. -/
theorem edge_test_squares (sqrt : K → K) (hs : sqrt 4 = 2) (d : K) (i : Nat) (hi : i < 8) :
    edge_test sqrt make_shape (square_at d) i
      = if i % 2 = 0 then some 2 else if 2 < |d| then none else some (2 - |d|) := by
  obtain ⟨⟨s1, o1⟩, ⟨s2, o2⟩, ⟨s3, o3⟩, ⟨s4, o4⟩⟩ := squares_on_normals d
  interval_cases i <;> rw [edge_test_eq, edge_normal_squares sqrt hs d _ hi] <;> norm_num <;>
    by_cases h : 2 < |d| <;> simp [h, s1, s2, s3, s4, o1, o2, o3, o4]

/-- The result of `find_collision` on two test squares. -/
theorem find_collision_squares (sqrt : K → K) (hs : sqrt 4 = 2) (d : K) :
    find_collision sqrt make_shape (square_at d)
      = if 2 < |d| then ⟨false, some ⟨0, -1⟩⟩
        else if d = 0 then ⟨true, some ⟨0, -1⟩⟩ else ⟨true, some ⟨1, 0⟩⟩ := by
  have hr : List.range ((make_shape : List (vector_t K)).length + (square_at d).length)
      = [0, 1, 2, 3, 4, 5, 6, 7] := by
    simp [make_shape, square_at, polygon_translate, List.range_succ]
  have n0 : edge_normal sqrt make_shape (square_at d) 0 = ⟨0, -1⟩ := by
    rw [edge_normal_squares sqrt hs d 0 (by norm_num)]; norm_num
  have n1 : edge_normal sqrt make_shape (square_at d) 1 = ⟨1, 0⟩ := by
    rw [edge_normal_squares sqrt hs d 1 (by norm_num)]; norm_num
  have t0 : edge_test sqrt make_shape (square_at d) 0 = some 2 := by
    rw [edge_test_squares sqrt hs d 0 (by norm_num)]; norm_num
  rw [find_collision, hr]
  by_cases h2 : 2 < |d|
  · have t1 : edge_test sqrt make_shape (square_at d) 1 = none := by
      rw [edge_test_squares sqrt hs d 1 (by norm_num)]; norm_num [h2]
    rw [if_pos h2]
    simp [find_collision_loop, t0, t1, n0, lt_shortest]
  · have t1 : edge_test sqrt make_shape (square_at d) 1 = some (2 - |d|) := by
      rw [edge_test_squares sqrt hs d 1 (by norm_num)]; norm_num [h2]
    have t2 : edge_test sqrt make_shape (square_at d) 2 = some 2 := by
      rw [edge_test_squares sqrt hs d 2 (by norm_num)]; norm_num
    have t3 : edge_test sqrt make_shape (square_at d) 3 = some (2 - |d|) := by
      rw [edge_test_squares sqrt hs d 3 (by norm_num)]; norm_num [h2]
    have t4 : edge_test sqrt make_shape (square_at d) 4 = some 2 := by
      rw [edge_test_squares sqrt hs d 4 (by norm_num)]; norm_num
    have t5 : edge_test sqrt make_shape (square_at d) 5 = some (2 - |d|) := by
      rw [edge_test_squares sqrt hs d 5 (by norm_num)]; norm_num [h2]
    have t6 : edge_test sqrt make_shape (square_at d) 6 = some 2 := by
      rw [edge_test_squares sqrt hs d 6 (by norm_num)]; norm_num
    have t7 : edge_test sqrt make_shape (square_at d) 7 = some (2 - |d|) := by
      rw [edge_test_squares sqrt hs d 7 (by norm_num)]; norm_num [h2]
    have c2 : ¬ (2 < 2 - |d|) := by linarith [abs_nonneg d]
    by_cases h0 : d = 0
    · have c1 : ¬ (2 - |d| < 2) := by rw [h0, abs_zero]; norm_num
      rw [if_neg h2, if_pos h0]
      simp [find_collision_loop, t0, t1, t2, t3, t4, t5, t6, t7, n0, lt_shortest, c1, c2]
    · have hpos : 0 < |d| := abs_pos.mpr h0
      have c1 : 2 - |d| < 2 := by linarith
      rw [if_neg h2, if_neg h0]
      simp [find_collision_loop, t0, t1, t2, t3, t4, t5, t6, t7, n0, n1, lt_shortest, c1, c2]

/-- C9: on the squares of half-extent 1 centred at (0,0) and (d,0), `find_collision`
returns `collided = false` when |d| > 2 and `collided = true` when |d| <= 2; for
0 < |d| <= 2 the axis is (1,0), its overlap is 2 - |d|, and no edge normal has a smaller
overlap. -/
theorem find_collision_squares_spec (sqrt : K → K) (hs : sqrt 4 = 2) (d : K) :
    (2 < |d| → (find_collision sqrt make_shape (square_at d)).collided = false) ∧
    (|d| ≤ 2 → (find_collision sqrt make_shape (square_at d)).collided = true) ∧
    (0 < |d| → |d| ≤ 2 →
      (find_collision sqrt make_shape (square_at d)).axis = some ⟨1, 0⟩ ∧
      overlap_on make_shape (square_at d) ⟨1, 0⟩ = 2 - |d| ∧
      ∀ i, i < 8 →
        2 - |d| ≤ overlap_on make_shape (square_at d)
          (edge_normal sqrt make_shape (square_at d) i)) := by
  have hfc := find_collision_squares sqrt hs d
  obtain ⟨⟨-, o1⟩, ⟨-, o2⟩, ⟨-, o3⟩, ⟨-, o4⟩⟩ := squares_on_normals d
  refine ⟨?_, ?_, ?_⟩
  · intro h2
    rw [hfc, if_pos h2]
  · intro h2
    rw [hfc, if_neg (not_lt.mpr h2)]
    split_ifs <;> rfl
  · intro hpos h2
    have hn2 : ¬ 2 < |d| := not_lt.mpr h2
    have h0 : d ≠ 0 := abs_pos.mp hpos
    refine ⟨?_, o3 hn2, ?_⟩
    · rw [hfc, if_neg hn2, if_neg h0]
    · intro i hi
      rw [edge_normal_squares sqrt hs d i hi]
      interval_cases i <;> norm_num <;>
        first
        | (rw [o1]; linarith)
        | (rw [o2]; linarith)
        | (rw [o3 hn2]; linarith)
        | (rw [o4 hn2]; linarith)

/-- Witness of C9: centres 3 apart give no collision, centres 1 apart give a collision
along (1,0) with overlap 1. -/
theorem find_collision_squares_spec_witness :
    (find_collision sqrt_table make_shape (square_at 3)).collided = false ∧
    (find_collision sqrt_table make_shape (square_at 1)).collided = true ∧
    (find_collision sqrt_table make_shape (square_at 1)).axis = some ⟨1, 0⟩ ∧
    overlap_on make_shape (square_at (1 : ℚ)) ⟨1, 0⟩ = 2 - |1| :=
  ⟨(find_collision_squares_spec sqrt_table (by norm_num [sqrt_table]) 3).1 (by norm_num),
   (find_collision_squares_spec sqrt_table (by norm_num [sqrt_table]) 1).2.1 (by norm_num),
   ((find_collision_squares_spec sqrt_table (by norm_num [sqrt_table]) 1).2.2
      (by norm_num) (by norm_num)).1,
   ((find_collision_squares_spec sqrt_table (by norm_num [sqrt_table]) 1).2.2
      (by norm_num) (by norm_num)).2.1⟩

/-! ## The axis handed to collision handlers -/

/-- The shape of the unit square body moved to (-1, 0). -/
theorem left_square_body_shape : left_square_body.shape = square_at (-1) := by
  have hc : unit_square_body.centroid = ⟨0, 0⟩ := by
    simp [unit_square_body, body_init, polygon_centroid, polygon_area, make_shape, list_get,
      List.range_succ]
    norm_num
  simp only [left_square_body, body_set_centroid, hc, square_at]
  simp [unit_square_body, body_init, vec_subtract]

/-- C10, the code at the failing input: with body1 the unit square at the origin and body2
the unit square at (-1, 0), `apply_collision` calls every handler with the axis (1, 0),
whose dot product with (centroid of body2 - centroid of body1) is negative. -/
theorem apply_collision_axis_unoriented
    (handler : body_t ℚ → body_t ℚ → vector_t ℚ → body_t ℚ × body_t ℚ) :
    apply_collision sqrt_table handler unit_square_body left_square_body false
      = some ((handler unit_square_body left_square_body ⟨1, 0⟩).1,
          (handler unit_square_body left_square_body ⟨1, 0⟩).2, true) ∧
    vec_dot ⟨1, 0⟩ (vec_subtract left_square_body.centroid unit_square_body.centroid) < 0 := by
  have hs : sqrt_table 4 = 2 := by norm_num [sqrt_table]
  have hfc : find_collision sqrt_table unit_square_body.shape left_square_body.shape
      = ⟨true, some ⟨1, 0⟩⟩ := by
    rw [left_square_body_shape]
    have := find_collision_squares sqrt_table hs (-1)
    rw [if_neg (by norm_num), if_neg (by norm_num)] at this
    exact this
  constructor
  · simp [apply_collision, hfc]
  · have hc : unit_square_body.centroid = ⟨0, 0⟩ := by
      simp [unit_square_body, body_init, polygon_centroid, polygon_area, make_shape, list_get,
        List.range_succ]
      norm_num
    rw [hc]
    simp [left_square_body, body_set_centroid, vec_dot, vec_subtract]

/-! ## Scene sweep -/

/-- The loop over the force appliers of a removed body, run over a front part `pre` of
the list: the appliers of `pre` that depend on the body are removed and logged, last
first, and the others keep their order. -/
theorem scene_tick_appliers_spec (body : body_ptr) (pre suf freed : List (force_applier_t K))
    (hdeps : ∀ fa ∈ pre, fa.bodies ≠ none) :
    scene_tick_appliers body pre.length (pre ++ suf) freed
      = some (pre.filter (fun fa => !depends_on fa body) ++ suf,
          freed ++ (pre.filter (fun fa => depends_on fa body)).reverse) := by
  induction pre using List.reverseRecOn generalizing suf freed with
  | nil => simp [scene_tick_appliers]
  | append_singleton pre fa ih =>
    have hpre : ∀ fa ∈ pre, fa.bodies ≠ none :=
      fun x hx => hdeps x (List.mem_append_left _ hx)
    have hfa : fa.bodies ≠ none := hdeps fa (by simp)
    obtain ⟨deps, hd⟩ := Option.ne_none_iff_exists'.mp hfa
    have hget : (pre ++ [fa] ++ suf).get? pre.length = some fa := by
      rw [List.append_assoc, List.get?_eq_getElem?, List.getElem?_append_right (le_refl _)]
      simp
    rw [List.length_append, List.length_singleton, scene_tick_appliers, hget]
    simp only [hd]
    by_cases hmem : body ∈ deps
    · have hdep : depends_on fa body = true := by simp [depends_on, hd, hmem]
      have herase : (pre ++ [fa] ++ suf).eraseIdx pre.length = pre ++ suf := by
        rw [List.append_assoc, List.eraseIdx_append_of_length_le (le_refl _)]
        simp
      rw [if_pos hmem, herase, ih suf (freed ++ [fa]) hpre]
      simp [List.filter_append, hdep]
    · have hdep : depends_on fa body = false := by simp [depends_on, hd, hmem]
      rw [if_neg hmem, List.append_assoc, ih ([fa] ++ suf) freed hpre]
      simp [List.filter_append, hdep]

/-- The integration step leaves the removed flag as it is. -/
theorem body_tick_is_removed (b : body_t K) (dt : K) :
    (body_tick b dt).is_removed = b.is_removed := rfl

/-- Filtering by a disjunction, up to the order of the elements. -/
theorem perm_filter_or {α : Type} (p q : α → Bool) (l : List α) :
    (l.filter (fun a => p a || q a)).Perm
      ((l.filter q).reverse ++ (l.filter (fun a => !q a)).filter p) := by
  induction l with
  | nil => simp
  | cons a l ih =>
    by_cases hq : q a = true
    · simp only [List.filter_cons, hq, Bool.or_true, Bool.not_true, if_true, List.reverse_cons,
        Bool.false_eq_true, if_false, List.append_assoc, List.singleton_append]
      exact (List.Perm.cons a ih).trans List.perm_middle.symm
    · have hq2 : q a = false := by simpa using hq
      by_cases hp : p a = true
      · simp only [List.filter_cons, hq2, hp, Bool.or_false, Bool.not_false, if_true,
          Bool.false_eq_true, if_false]
        exact (List.Perm.cons a ih).trans List.perm_middle.symm
      · have hp2 : p a = false := by simpa using hp
        simp only [List.filter_cons, hq2, hp2, Bool.or_false, Bool.not_false, if_true,
          Bool.false_eq_true, if_false]
        exact ih

/-- The loop over the bodies, run over a front part `pre` of the list of bodies that has
no pointer twice, in a scene whose force appliers all have a list of bodies when a body
of `pre` is flagged: it succeeds,
the flagged bodies of `pre` leave the list, the others are ticked once, and the force
appliers that depend on a flagged body of `pre` leave their list and are logged. -/
theorem scene_tick_bodies_spec (dt : K) (pre suf : List body_ptr) (s : scene_t K)
    (hb : s.bodies = pre ++ suf) (hnodup : pre.Nodup)
    (hdeps : (∃ p ∈ pre, body_is_removed (s.mem p) = true) →
      ∀ fa ∈ s.force_appliers, fa.bodies ≠ none) :
    ∃ s2, scene_tick_bodies dt pre.length s = some s2 ∧
      s2.bodies = pre.filter (fun p => !body_is_removed (s.mem p)) ++ suf ∧
      (∀ p, s2.mem p = if p ∈ pre ∧ body_is_removed (s.mem p) = false
        then body_tick (s.mem p) dt else s.mem p) ∧
      s2.force_appliers
        = s.force_appliers.filter (fun fa => !removed_dependency s.mem pre fa) ∧
      s2.freed_appliers.Perm
        (s.freed_appliers ++ s.force_appliers.filter (removed_dependency s.mem pre)) ∧
      s2.freed_bodies
        = s.freed_bodies ++ (pre.filter (fun p => body_is_removed (s.mem p))).reverse := by
  induction pre using List.reverseRecOn generalizing suf s with
  | nil =>
    have he : removed_dependency s.mem [] = fun _ => false := by
      funext fa
      simp [removed_dependency]
    refine ⟨s, rfl, by simpa using hb, by simp, ?_, ?_, by simp⟩
    · simp [he]
    · simp [he]
  | append_singleton pre b ih =>
    have hnd : pre.Nodup ∧ b ∉ pre := by
      have := List.nodup_append.mp hnodup
      refine ⟨this.1, ?_⟩
      intro hmem
      exact this.2.2 hmem (List.mem_singleton_self b)
    have hget : s.bodies.get? pre.length = some b := by
      rw [hb, List.append_assoc, List.get?_eq_getElem?,
        List.getElem?_append_right (le_refl _)]
      simp
    rw [List.length_append, List.length_singleton, scene_tick_bodies, hget]
    simp only []
    by_cases hr : body_is_removed (s.mem b) = true
    · rw [if_pos hr]
      have hdeps2 : ∀ fa ∈ s.force_appliers, fa.bodies ≠ none :=
        hdeps ⟨b, by simp, hr⟩
      have hin := scene_tick_appliers_spec b s.force_appliers [] s.freed_appliers hdeps2
      rw [List.append_nil] at hin
      rw [hin]
      simp only [List.append_nil]
      have herase : s.bodies.eraseIdx pre.length = pre ++ suf := by
        rw [hb, List.append_assoc, List.eraseIdx_append_of_length_le (le_refl _)]
        simp
      obtain ⟨s2, hs2, hbod, hmem, hfa, hfreed, hfb⟩ := ih suf
        { s with force_appliers := s.force_appliers.filter (fun fa => !depends_on fa b),
                 freed_appliers := s.freed_appliers
                   ++ (s.force_appliers.filter (fun fa => depends_on fa b)).reverse,
                 bodies := s.bodies.eraseIdx pre.length,
                 freed_bodies := s.freed_bodies ++ [b] }
        herase hnd.1 (fun _ fa h => hdeps2 fa (List.mem_filter.mp h).1)
      refine ⟨s2, hs2, ?_, ?_, ?_, ?_, ?_⟩
      · rw [hbod]
        simp [List.filter_append, hr]
      · intro p
        rw [hmem p]
        by_cases hpb : p = b
        · subst hpb
          simp [hnd.2, hr]
        · simp [hpb]
      · rw [hfa, List.filter_filter]
        congr 1
        funext fa
        simp [removed_dependency, List.any_append, hr, Bool.and_comm]
      · refine hfreed.trans ?_
        simp only [List.append_assoc]
        refine List.Perm.append_left _ ?_
        have hp := perm_filter_or (removed_dependency s.mem pre) (fun fa => depends_on fa b)
          s.force_appliers
        have he : removed_dependency s.mem (pre ++ [b])
            = fun fa => removed_dependency s.mem pre fa || depends_on fa b := by
          funext fa
          simp [removed_dependency, List.any_append, hr]
        rw [he]
        exact hp.symm
      · rw [hfb]
        simp [List.filter_append, hr]
    · rw [if_neg hr]
      have hr2 : body_is_removed (s.mem b) = false := by simpa using hr
      have hflag : ∀ p, body_is_removed (Function.update s.mem b (body_tick (s.mem b) dt) p)
          = body_is_removed (s.mem p) := by
        intro p
        by_cases hpb : p = b
        · subst hpb; simp [body_is_removed, body_tick_is_removed]
        · simp [Function.update_noteq hpb]
      obtain ⟨s2, hs2, hbod, hmem, hfa, hfreed, hfb⟩ := ih (b :: suf)
        { s with mem := Function.update s.mem b (body_tick (s.mem b) dt) }
        (by simpa using hb) hnd.1
        (by
          rintro ⟨p, hp, hpr⟩
          rw [hflag] at hpr
          exact hdeps ⟨p, List.mem_append_left _ hp, hpr⟩)
      simp only [hflag] at hbod hmem hfb
      have hrd : ∀ l, removed_dependency (Function.update s.mem b (body_tick (s.mem b) dt)) l
          = removed_dependency s.mem l := by
        intro l
        funext fa
        simp [removed_dependency, hflag]
      simp only [hrd] at hfa hfreed
      refine ⟨s2, hs2, ?_, ?_, ?_, ?_, ?_⟩
      · rw [hbod]
        simp [List.filter_append, hr2]
      · intro p
        rw [hmem p]
        by_cases hpb : p = b
        · subst hpb
          simp [hnd.2, hr2]
        · simp [hpb, Function.update_noteq hpb]
      · rw [hfa]
        congr 1
        funext fa
        simp [removed_dependency, List.any_append, hr2]
      · have he : removed_dependency s.mem (pre ++ [b]) = removed_dependency s.mem pre := by
          funext fa
          simp [removed_dependency, List.any_append, hr2]
        rw [he]
        exact hfreed
      · rw [hfb]
        simp [List.filter_append, hr2]

/-- The first loop keeps the forcer and the list of bodies of every force applier. -/
theorem scene_tick_forces_same (l : List (force_applier_t K)) (mem : body_mem K)
    (l2 : List (force_applier_t K)) (mem2 : body_mem K)
    (h : scene_tick_forces l mem = some (l2, mem2)) :
    List.Forall₂ (fun a b => b.forcer = a.forcer ∧ b.bodies = a.bodies) l l2 := by
  induction l generalizing mem l2 mem2 with
  | nil =>
    simp only [scene_tick_forces, Option.some.injEq, Prod.mk.injEq] at h
    rw [← h.1]
    exact List.Forall₂.nil
  | cons fa rest ih =>
    rw [scene_tick_forces] at h
    cases h1 : fa.forcer fa.aux mem with
    | none => rw [h1] at h; cases h
    | some r =>
      obtain ⟨aux, mem1⟩ := r
      rw [h1] at h
      simp only [] at h
      cases h2 : scene_tick_forces rest mem1 with
      | none => rw [h2] at h; cases h
      | some r2 =>
        obtain ⟨rest2, mem3⟩ := r2
        rw [h2] at h
        simp only [Option.some.injEq, Prod.mk.injEq] at h
        rw [← h.1]
        exact List.Forall₂.cons ⟨rfl, rfl⟩ (ih mem1 rest2 mem3 h2)

/-- The lists of bodies of the force appliers after the first loop are those before. -/
theorem scene_tick_forces_bodies (l : List (force_applier_t K)) (mem : body_mem K)
    (l2 : List (force_applier_t K)) (mem2 : body_mem K)
    (h : scene_tick_forces l mem = some (l2, mem2))
    (hdeps : ∀ fa ∈ l, fa.bodies ≠ none) : ∀ fa ∈ l2, fa.bodies ≠ none := by
  have hf := scene_tick_forces_same l mem l2 mem2 h
  clear h
  induction hf with
  | nil => simp
  | cons hab _ ih =>
    intro fa hfa
    rcases List.mem_cons.mp hfa with rfl | hfa
    · rw [hab.2]; exact hdeps _ (List.mem_cons_self _ _)
    · exact ih (fun x hx => hdeps x (List.mem_cons_of_mem _ hx)) fa hfa

/-- C11: when the force-creator phase of `scene_tick` leaves the memory `mem1`, the list
of bodies has no pointer twice, and every force creator has a list of bodies in case a
body is flagged removed, the body sweep succeeds and leaves the list of bodies with
every flagged body deleted, in unchanged order; every surviving body is advanced by one
`body_tick`, and bodies outside the scene are untouched. -/
theorem scene_tick_body_sweep (s : scene_t K) (dt : K) (fas : List (force_applier_t K))
    (mem1 : body_mem K)
    (hforce : scene_tick_forces s.force_appliers s.mem = some (fas, mem1))
    (hnodup : s.bodies.Nodup)
    (hdeps : (∃ p ∈ s.bodies, body_is_removed (mem1 p) = true) →
      ∀ fa ∈ s.force_appliers, fa.bodies ≠ none) :
    ∃ s2, scene_tick s dt = some s2 ∧
      s2.bodies = s.bodies.filter (fun p => !body_is_removed (mem1 p)) ∧
      s2.bodies.Sublist s.bodies ∧
      (∀ p ∈ s2.bodies, s2.mem p = body_tick (mem1 p) dt) ∧
      (∀ p, p ∉ s.bodies → s2.mem p = mem1 p) := by
  obtain ⟨s2, hs2, hbod, hmem, -, -, -⟩ := scene_tick_bodies_spec dt s.bodies []
    { s with force_appliers := fas, mem := mem1 } (by simp) hnodup
    (fun h => scene_tick_forces_bodies _ _ _ _ hforce (hdeps h))
  rw [List.append_nil] at hbod
  refine ⟨s2, ?_, hbod, ?_, ?_, ?_⟩
  · rw [scene_tick, hforce]
    exact hs2
  · rw [hbod]
    exact List.filter_sublist _
  · intro p hp
    rw [hbod, List.mem_filter] at hp
    rw [hmem p, if_pos ⟨hp.1, by simpa using hp.2⟩]
  · intro p hp
    rw [hmem p, if_neg (fun h => hp h.1)]

/-- C12: in a scene whose force creators all have a list of bodies, `scene_tick` leaves
the force creators of the force-creator phase with exactly those deleted whose list of
bodies holds a body of the scene that is flagged removed, in unchanged order, and the
log of `force_applier_free` grows by the deleted ones, each once. -/
theorem scene_tick_force_appliers (s : scene_t K) (dt : K) (fas : List (force_applier_t K))
    (mem1 : body_mem K)
    (hforce : scene_tick_forces s.force_appliers s.mem = some (fas, mem1))
    (hnodup : s.bodies.Nodup)
    (hdeps : ∀ fa ∈ s.force_appliers, fa.bodies ≠ none) :
    List.Forall₂ (fun a b => b.forcer = a.forcer ∧ b.bodies = a.bodies) s.force_appliers fas ∧
    ∃ s2, scene_tick s dt = some s2 ∧
      s2.force_appliers = fas.filter (fun fa => !removed_dependency mem1 s.bodies fa) ∧
      s2.force_appliers.Sublist fas ∧
      s2.freed_appliers.Perm
        (s.freed_appliers ++ fas.filter (removed_dependency mem1 s.bodies)) := by
  refine ⟨scene_tick_forces_same _ _ _ _ hforce, ?_⟩
  obtain ⟨s2, hs2, -, -, hfa, hfreed, -⟩ := scene_tick_bodies_spec dt s.bodies []
    { s with force_appliers := fas, mem := mem1 } (by simp) hnodup
    (fun _ => scene_tick_forces_bodies _ _ _ _ hforce hdeps)
  refine ⟨s2, ?_, hfa, ?_, hfreed⟩
  · rw [scene_tick, hforce]
    exact hs2
  · rw [hfa]
    exact List.filter_sublist _

/-- The force-creator phase on the demo scene. -/
theorem demo_scene_forces :
    ∃ mem1, scene_tick_forces demo_scene.force_appliers demo_scene.mem
        = some (demo_scene.force_appliers, mem1) ∧
      ∀ p, body_is_removed (mem1 p) = decide (p = 1) := by
  refine ⟨_, rfl, ?_⟩
  intro p
  by_cases h0 : p = 0
  · subst h0; simp [Function.update, body_is_removed, body_add_force, demo_scene, scene_init,
      scene_add_body, create_spring, create_drag, scene_add_bodies_force_creator, demo_mem,
      unit_square_body, body_init]
  · by_cases h1 : p = 1
    · subst h1; simp [Function.update, body_is_removed, body_add_force, demo_scene,
        scene_init, scene_add_body, create_spring, create_drag,
        scene_add_bodies_force_creator, demo_mem, unit_square_body, body_init, body_remove]
    · by_cases h2 : p = 2
      · subst h2; simp [Function.update, body_is_removed, body_add_force, demo_scene,
          scene_init, scene_add_body, create_spring, create_drag,
          scene_add_bodies_force_creator, demo_mem, unit_square_body, body_init]
      · simp [Function.update, body_is_removed, body_add_force, demo_scene, scene_init,
          scene_add_body, create_spring, create_drag, scene_add_bodies_force_creator,
          demo_mem, unit_square_body, body_init, h0, h1, h2]

/-- Witness of C11 on the demo scene: the flagged body 1 leaves the list. -/
theorem scene_tick_body_sweep_witness :
    ∃ s2, scene_tick demo_scene 1 = some s2 ∧ s2.bodies = [0, 2] := by
  obtain ⟨mem1, hf, hflag⟩ := demo_scene_forces
  obtain ⟨s2, h1, h2, -, -, -⟩ := scene_tick_body_sweep demo_scene 1 _ mem1 hf
    (by decide) (fun _ fa hfa => by
      simp [demo_scene, scene_init, scene_add_body, create_spring, create_drag,
        scene_add_bodies_force_creator] at hfa
      rcases hfa with rfl | rfl <;> simp)
  refine ⟨s2, h1, ?_⟩
  rw [h2]
  simp [hflag, demo_scene, scene_init, scene_add_body, create_spring, create_drag,
    scene_add_bodies_force_creator, List.filter]

/-- Witness of C12 on the demo scene: the spring on the flagged body 1 is deleted and
the drag on body 2 stays. -/
theorem scene_tick_force_appliers_witness :
    ∃ s2, scene_tick demo_scene 1 = some s2 ∧
      s2.force_appliers.map (fun fa => fa.bodies) = [some [2]] := by
  obtain ⟨mem1, hf, hflag⟩ := demo_scene_forces
  obtain ⟨-, s2, h1, h2, -, -⟩ := scene_tick_force_appliers demo_scene 1 _ mem1 hf
    (by decide) (fun fa hfa => by
      simp [demo_scene, scene_init, scene_add_body, create_spring, create_drag,
        scene_add_bodies_force_creator] at hfa
      rcases hfa with rfl | rfl <;> simp)
  refine ⟨s2, h1, ?_⟩
  rw [h2]
  simp [hflag, removed_dependency, depends_on, demo_scene, scene_init, scene_add_body,
    create_spring, create_drag, scene_add_bodies_force_creator, List.filter]

/-! ## Destructive collisions -/

/-- A collision of two shapes with an edge comes with an axis. -/
theorem find_collision_axis_some (sqrt : K → K) (s1 s2 : List (vector_t K))
    (hcol : (find_collision sqrt s1 s2).collided = true) (hpos : 0 < s1.length + s2.length) :
    ∃ axis, (find_collision sqrt s1 s2).axis = some axis := by
  have hno : ¬ ∃ i ∈ List.range (s1.length + s2.length), edge_test sqrt s1 s2 i = none := by
    intro h
    have := (find_collision_loop_collided sqrt s1 s2 _ none none).mpr h
    rw [find_collision] at hcol
    rw [hcol] at this
    cases this
  rcases find_collision_loop_axis sqrt s1 s2 (List.range (s1.length + s2.length)) none none
    with hA | hB | hC
  · exfalso
    cases h0 : edge_test sqrt s1 s2 0 with
    | none => exact hno ⟨0, List.mem_range.mpr hpos, h0⟩
    | some ov =>
      have := hA.2 0 (List.mem_range.mpr hpos) ov h0
      simp [lt_shortest] at this
  · obtain ⟨pre, k, post, ov, -, -, hax, -⟩ := hB
    exact ⟨_, hax⟩
  · exact absurd hC hno

/-- The first loop of `scene_tick` over two lists in a row. -/
theorem scene_tick_forces_append (l1 l2 l1b l2b : List (force_applier_t K))
    (mem mem1 mem2 : body_mem K)
    (h1 : scene_tick_forces l1 mem = some (l1b, mem1))
    (h2 : scene_tick_forces l2 mem1 = some (l2b, mem2)) :
    scene_tick_forces (l1 ++ l2) mem = some (l1b ++ l2b, mem2) := by
  induction l1 generalizing mem l1b with
  | nil =>
    simp only [scene_tick_forces, Option.some.injEq, Prod.mk.injEq] at h1
    rw [← h1.1, h1.2]
    simpa using h2
  | cons fa rest ih =>
    rw [scene_tick_forces] at h1
    rw [List.cons_append, scene_tick_forces]
    cases hf : fa.forcer fa.aux mem with
    | none => rw [hf] at h1; cases h1
    | some r =>
      obtain ⟨aux, memA⟩ := r
      rw [hf] at h1
      simp only [] at h1 ⊢
      cases hr : scene_tick_forces rest memA with
      | none => rw [hr] at h1; cases h1
      | some r2 =>
        obtain ⟨rest2, memB⟩ := r2
        rw [hr] at h1
        simp only [Option.some.injEq, Prod.mk.injEq] at h1
        rw [ih rest2 memA (by rw [hr, h1.2])]
        rw [← h1.1]
        rfl

/-- The first loop of `scene_tick` over force appliers that keep shapes and flags
succeeds and keeps the shape and the removed flag of every body. -/
theorem scene_tick_forces_keeps (l : List (force_applier_t K))
    (hl : ∀ fa ∈ l, keeps_shapes_and_flags fa) (mem : body_mem K) :
    ∃ l2 mem2, scene_tick_forces l mem = some (l2, mem2) ∧
      ∀ p, (mem2 p).shape = (mem p).shape ∧ (mem2 p).is_removed = (mem p).is_removed := by
  induction l generalizing mem with
  | nil => exact ⟨[], mem, rfl, fun p => ⟨rfl, rfl⟩⟩
  | cons fa rest ih =>
    obtain ⟨aux2, memA, hf, hA⟩ := hl fa (List.mem_cons_self _ _) fa.aux mem
    obtain ⟨rest2, memB, hr, hB⟩ := ih (fun x hx => hl x (List.mem_cons_of_mem _ hx)) memA
    refine ⟨{ fa with aux := aux2 } :: rest2, memB, ?_, ?_⟩
    · rw [scene_tick_forces, hf]
      simp only []
      rw [hr]
    · intro p
      exact ⟨(hB p).1.trans (hA p).1, (hB p).2.trans (hA p).2⟩

/-- Deleting a member from a list without repetition shortens it by one. -/
theorem length_filter_ne (l : List body_ptr) (hn : l.Nodup) (a : body_ptr) (ha : a ∈ l) :
    (l.filter (fun p => p != a)).length + 1 = l.length := by
  rw [← List.Nodup.erase_eq_filter hn a, List.length_erase_of_mem ha]
  have : 0 < l.length := List.length_pos_of_mem ha
  omega

/-- Deleting two different members from a list without repetition shortens it by two. -/
theorem length_filter_ne_ne (l : List body_ptr) (hn : l.Nodup) (a b : body_ptr) (ha : a ∈ l)
    (hb : b ∈ l) (hab : a ≠ b) :
    (l.filter (fun p => p != a && p != b)).length + 2 = l.length := by
  have h1 := length_filter_ne l hn a ha
  have hb2 : b ∈ l.filter (fun p => p != a) := by
    rw [List.mem_filter]
    exact ⟨hb, by simpa using (Ne.symm hab)⟩
  have h2 := length_filter_ne _ (hn.filter _) b hb2
  rw [List.filter_filter] at h2
  have e : (fun p : body_ptr => p != b && p != a) = (fun p => p != a && p != b) := by
    funext p
    exact Bool.and_comm _ _
  rw [e] at h2
  omega

/-- C13, amended: in a scene with a destructive collision (flag `collided_last_tick`
false) between two different bodies of the scene whose shapes (with an edge) overlap,
where no body is flagged removed, the list of bodies has no pointer twice, every other
force creator has a list of bodies, and the calls of the force creators registered before
it (`pre`) and after it (`post`) return in this tick and change no shape and no removed
flag, one `scene_tick` deletes exactly the two bodies, so `scene_bodies` decreases by 2,
and leaves no force creator that depends on either. -/
theorem destructive_collision_tick (sqrt : K → K) (s : scene_t K) (dt : K)
    (b1 b2 : body_ptr) (pre post pre2 post2 : List (force_applier_t K))
    (memA memC : body_mem K)
    (hfa : s.force_appliers = pre ++ destructive_collision_applier sqrt b1 b2 :: post)
    (hlists : ∀ fa ∈ pre ++ post, fa.bodies ≠ none)
    (hpre : scene_tick_forces pre s.mem = some (pre2, memA))
    (hA : ∀ p, (memA p).shape = (s.mem p).shape ∧ (memA p).is_removed = (s.mem p).is_removed)
    (hpost : scene_tick_forces post
        (Function.update (Function.update memA b1 (body_remove (memA b1))) b2
          (body_remove (memA b2))) = some (post2, memC))
    (hC : ∀ p, (memC p).is_removed
      = (Function.update (Function.update memA b1 (body_remove (memA b1))) b2
          (body_remove (memA b2)) p).is_removed)
    (hnodup : s.bodies.Nodup) (h1 : b1 ∈ s.bodies) (h2 : b2 ∈ s.bodies) (hne : b1 ≠ b2)
    (hcol : (find_collision sqrt (s.mem b1).shape (s.mem b2).shape).collided = true)
    (hshape : 0 < (s.mem b1).shape.length + (s.mem b2).shape.length)
    (hflags : ∀ p ∈ s.bodies, body_is_removed (s.mem p) = false) :
    ∃ s2, scene_tick s dt = some s2 ∧ scene_bodies s2 + 2 = scene_bodies s ∧
      s2.bodies = s.bodies.filter (fun p => p != b1 && p != b2) ∧
      ∀ fa ∈ s2.force_appliers, depends_on fa b1 = false ∧ depends_on fa b2 = false := by
  have hcolA : (find_collision sqrt (memA b1).shape (memA b2).shape).collided = true := by
    rw [(hA b1).1, (hA b2).1]; exact hcol
  obtain ⟨axis, hax⟩ := find_collision_axis_some sqrt _ _ hcolA
    (by rw [(hA b1).1, (hA b2).1]; exact hshape)
  obtain ⟨d2, hd⟩ : ∃ d2,
      scene_tick_forces [destructive_collision_applier sqrt b1 b2] memA
        = some (d2, Function.update (Function.update memA b1 (body_remove (memA b1))) b2
            (body_remove (memA b2))) := by
    refine ⟨[⟨apply_collision_forcer sqrt,
        ⟨0, b1, b2, some destructive_collision_handler, true⟩, some [b1, b2]⟩], ?_⟩
    simp [scene_tick_forces, destructive_collision_applier, apply_collision_forcer,
      apply_collision, hcolA, hax, destructive_collision_handler]
  have hB : ∀ p, (Function.update (Function.update memA b1 (body_remove (memA b1))) b2
        (body_remove (memA b2)) p).is_removed
      = (decide (p = b1) || decide (p = b2) || (memA p).is_removed) := by
    intro p
    by_cases hp2 : p = b2
    · subst hp2; simp [body_remove]
    · by_cases hp1 : p = b1
      · subst hp1; simp [Function.update_noteq hp2, body_remove]
      · simp [Function.update_noteq hp2, Function.update_noteq hp1, hp1, hp2]
  have hforce : scene_tick_forces s.force_appliers s.mem
      = some (pre2 ++ (d2 ++ post2), memC) := by
    rw [hfa]
    exact scene_tick_forces_append pre ([destructive_collision_applier sqrt b1 b2] ++ post)
      pre2 (d2 ++ post2) s.mem memA memC hpre
      (scene_tick_forces_append _ post d2 post2 memA _ memC hd hpost)
  have hflagC : ∀ p ∈ s.bodies,
      body_is_removed (memC p) = (decide (p = b1) || decide (p = b2)) := by
    intro p hp
    have h0 : (s.mem p).is_removed = false := hflags p hp
    rw [body_is_removed, hC p, hB p, (hA p).2, h0]
    simp
  have hdeps : ∀ fa ∈ s.force_appliers, fa.bodies ≠ none := by
    intro fa hfa2
    rw [hfa] at hfa2
    rcases List.mem_append.mp hfa2 with h | h
    · exact hlists fa (List.mem_append_left _ h)
    · rcases List.mem_cons.mp h with rfl | h
      · simp [destructive_collision_applier]
      · exact hlists fa (List.mem_append_right _ h)
  obtain ⟨s2, hs2, hbod, -, hfas, -, -⟩ := scene_tick_bodies_spec dt s.bodies []
    { s with force_appliers := pre2 ++ (d2 ++ post2), mem := memC } (by simp) hnodup
    (fun _ => scene_tick_forces_bodies _ _ _ _ hforce hdeps)
  have hbod2 : s2.bodies = s.bodies.filter (fun p => p != b1 && p != b2) := by
    rw [hbod, List.append_nil]
    apply List.filter_congr
    intro p hp
    simp only []
    rw [hflagC p hp]
    by_cases e1 : p = b1 <;> by_cases e2 : p = b2 <;> simp [e1, e2]
  refine ⟨s2, ?_, ?_, hbod2, ?_⟩
  · rw [scene_tick, hforce]
    exact hs2
  · rw [scene_bodies, scene_bodies, hbod2]
    exact length_filter_ne_ne s.bodies hnodup b1 b2 h1 h2 hne
  · intro fa hfa2
    rw [hfas, List.mem_filter] at hfa2
    have hrd : removed_dependency memC s.bodies fa = false := by simpa using hfa2.2
    simp only [removed_dependency, List.any_eq_false, Bool.and_eq_true, not_and,
      Bool.not_eq_true] at hrd
    constructor
    · exact hrd b1 h1 (by rw [hflagC b1 h1]; simp)
    · exact hrd b2 h2 (by rw [hflagC b2 h2]; simp)

/-- A spring keeps the shape and the removed flag of every body. -/
theorem keeps_spring (aux0 : force_aux_t K) (bodies : Option (List body_ptr)) :
    keeps_shapes_and_flags (⟨apply_spring, aux0, bodies⟩ : force_applier_t K) := by
  intro aux mem
  refine ⟨aux, _, rfl, ?_⟩
  intro p
  by_cases h2 : p = aux.body2
  · subst h2
    by_cases h1 : aux.body2 = aux.body1
    · simp [Function.update, h1, body_add_force]
    · simp [Function.update, h1, body_add_force]
  · by_cases h1 : p = aux.body1
    · subst h1; simp [Function.update, h2, body_add_force]
    · simp [Function.update, h1, h2]

/-- Witness of C13 on the overlap scene: the two overlapping squares are deleted. -/
theorem destructive_collision_tick_witness :
    ∃ s2, scene_tick overlap_scene 1 = some s2 ∧
      scene_bodies s2 + 2 = scene_bodies overlap_scene := by
  have hs : sqrt_table 4 = 2 := by norm_num [sqrt_table]
  have hcol : (find_collision sqrt_table (overlap_scene.mem 0).shape
      (overlap_scene.mem 1).shape).collided = true := by
    have e0 : (overlap_scene.mem 0).shape = make_shape := rfl
    have e1 : (overlap_scene.mem 1).shape = square_at (-1) := left_square_body_shape
    rw [e0, e1, find_collision_squares sqrt_table hs (-1), if_neg (by norm_num),
      if_neg (by norm_num)]
  obtain ⟨pre2, memA, hpre, hA⟩ := scene_tick_forces_keeps
    [(⟨apply_spring, ⟨2, 0, 2, none, false⟩, some [0, 2]⟩ : force_applier_t ℚ)]
    (by
      intro fa hfa
      simp only [List.mem_singleton] at hfa
      subst hfa
      exact keeps_spring _ _) overlap_scene.mem
  obtain ⟨s2, h1, h2, -, -⟩ := destructive_collision_tick sqrt_table overlap_scene 1 0 1
    [⟨apply_spring, ⟨2, 0, 2, none, false⟩, some [0, 2]⟩] [] pre2 [] memA _ rfl
    (by
      intro fa hfa
      simp only [List.append_nil, List.mem_singleton] at hfa
      subst hfa
      simp)
    hpre hA rfl (fun _ => rfl)
    (by decide) (by decide) (by decide) (by decide) hcol
    (by
      have e0 : (overlap_scene.mem 0).shape = make_shape := rfl
      rw [e0]
      simp [make_shape])
    (by
      intro p _
      simp only [overlap_scene, create_destructive_collision, create_collision,
        create_spring, scene_add_bodies_force_creator, scene_add_body, scene_init,
        overlap_mem]
      split_ifs <;> rfl)
  exact ⟨s2, h1, h2⟩

/-! ## Rising edge of collisions -/

/-- One call of `apply_collision` on two bodies with an edge: the stored flag is the
result of the test, and the handler runs exactly on a rising edge. -/
theorem apply_collision_step (sqrt : K → K)
    (handler : body_t K → body_t K → vector_t K → body_t K × body_t K)
    (b1 b2 : body_t K) (last : Bool) (hshape : 0 < b1.shape.length + b2.shape.length) :
    apply_collision sqrt handler b1 b2 last
      = some ((handler_output sqrt handler (b1, b2)
            ((find_collision sqrt b1.shape b2.shape).collided && !last)).1,
          (handler_output sqrt handler (b1, b2)
            ((find_collision sqrt b1.shape b2.shape).collided && !last)).2,
          (find_collision sqrt b1.shape b2.shape).collided) := by
  cases hc : (find_collision sqrt b1.shape b2.shape).collided with
  | false => simp [apply_collision, handler_output, hc]
  | true =>
    obtain ⟨axis, hax⟩ := find_collision_axis_some sqrt _ _ hc hshape
    cases last <;> simp [apply_collision, handler_output, hc, hax]

/-- A rising edge is never followed at once by another one. -/
theorem rising_edges_chain (l : List Bool) (prev : Bool) :
    List.Chain' (fun a b => ¬ (a = true ∧ b = true)) (rising_edges l prev) := by
  induction l generalizing prev with
  | nil => simp [rising_edges]
  | cons s rest ih =>
    cases rest with
    | nil => simp [rising_edges]
    | cons s2 rest2 =>
      have := ih s
      simp only [rising_edges] at this ⊢
      refine List.Chain'.cons ?_ this
      cases s <;> cases s2 <;> cases prev <;> simp

/-- The last element of a list with a head does not depend on the default. -/
theorem getLast_getD_cons (x : Bool) (l : List Bool) (a b : Bool) :
    (x :: l).getLast?.getD a = (x :: l).getLast?.getD b := by
  rw [List.getLast?_eq_getLast _ (List.cons_ne_nil _ _)]
  rfl

/-- C14: over any sequence of ticks on bodies with an edge, starting from the flag false
of `create_collision`, `apply_collision` calls the handler on a tick exactly when the
test is true on it and false on the previous one, and leaves the bodies alone otherwise;
the stored flag is the last test result, and the handler never fires on two consecutive
ticks. -/
theorem apply_collision_rising_edge (sqrt : K → K)
    (handler : body_t K → body_t K → vector_t K → body_t K × body_t K)
    (ticks : List (body_t K × body_t K))
    (hshape : ∀ t ∈ ticks, 0 < t.1.shape.length + t.2.shape.length) :
    apply_collision_ticks sqrt handler ticks false
      = some (List.zipWith (handler_output sqrt handler) ticks
            (rising_edges (sat_results sqrt ticks) false),
          (sat_results sqrt ticks).getLast?.getD false) ∧
    List.Chain' (fun a b => ¬ (a = true ∧ b = true))
      (rising_edges (sat_results sqrt ticks) false) := by
  refine ⟨?_, rising_edges_chain _ _⟩
  have key : ∀ (ticks : List (body_t K × body_t K)) (last : Bool),
      (∀ t ∈ ticks, 0 < t.1.shape.length + t.2.shape.length) →
      apply_collision_ticks sqrt handler ticks last
        = some (List.zipWith (handler_output sqrt handler) ticks
              (rising_edges (sat_results sqrt ticks) last),
            (sat_results sqrt ticks).getLast?.getD last) := by
    intro ticks
    induction ticks with
    | nil => intro last _; simp [apply_collision_ticks, sat_results, rising_edges]
    | cons t rest ih =>
      intro last hs
      obtain ⟨b1, b2⟩ := t
      have h1 := apply_collision_step sqrt handler b1 b2 last
        (hs (b1, b2) (List.mem_cons_self _ _))
      have h2 := ih (find_collision sqrt b1.shape b2.shape).collided
        (fun t ht => hs t (List.mem_cons_of_mem _ ht))
      rw [apply_collision_ticks, h1]
      simp only []
      rw [h2]
      simp only [sat_results, List.map_cons, rising_edges, List.zipWith_cons_cons,
        Option.some.injEq, Prod.mk.injEq, true_and]
      cases rest with
      | nil => simp
      | cons t2 rest2 =>
        simp only [List.map_cons, List.getLast?_cons_cons]
        exact getLast_getD_cons _ _ _ _
  exact key ticks false hshape

/-! ## Elastic collisions -/

/-- The handler on two finite masses with non-zero sum. -/
theorem physics_collision_handler_finite (b1 b2 : body_t K) (axis : vector_t K) (e m1 m2 : K)
    (h1 : b1.mass = Mass.finite m1) (h2 : b2.mass = Mass.finite m2) (hs : m1 + m2 ≠ 0) :
    physics_collision_handler b1 b2 axis e
      = some (body_add_impulse b1 (collision_impulse b1 b2 axis e (m1 * m2 / (m1 + m2))),
          body_add_impulse b2
            (vec_negate (collision_impulse b1 b2 axis e (m1 * m2 / (m1 + m2))))) := by
  simp [physics_collision_handler, reduced_mass, h1, h2, hs, collision_impulse]

/-- The handler when the first mass is infinite. -/
theorem physics_collision_handler_left (b1 b2 : body_t K) (axis : vector_t K) (e m2 : K)
    (h1 : b1.mass = Mass.infinity) (h2 : b2.mass = Mass.finite m2) :
    physics_collision_handler b1 b2 axis e
      = some (body_add_impulse b1 (collision_impulse b1 b2 axis e m2),
          body_add_impulse b2 (vec_negate (collision_impulse b1 b2 axis e m2))) := by
  simp [physics_collision_handler, reduced_mass, h1, h2, collision_impulse]

/-- The handler when the second mass is infinite. -/
theorem physics_collision_handler_right (b1 b2 : body_t K) (axis : vector_t K) (e m1 : K)
    (h1 : b1.mass = Mass.finite m1) (h2 : b2.mass = Mass.infinity) :
    physics_collision_handler b1 b2 axis e
      = some (body_add_impulse b1 (collision_impulse b1 b2 axis e m1),
          body_add_impulse b2 (vec_negate (collision_impulse b1 b2 axis e m1))) := by
  simp [physics_collision_handler, reduced_mass, h1, h2, collision_impulse]

/-- C15: `physics_collision_handler` adds the impulse `J * axis` to the first body and
`-J * axis` to the second and changes nothing else, where `J = mu * (1 + e) * (u2 - u1)`
and `mu` is the mass of the second body if the first is infinite, the mass of the first
if the second is infinite, and `m1 * m2 / (m1 + m2)` for two finite masses (with non-zero
sum). -/
theorem physics_collision_handler_spec (b1 b2 : body_t K) (axis : vector_t K) (e : K) :
    (∀ m1 m2, b1.mass = Mass.finite m1 → b2.mass = Mass.finite m2 → m1 + m2 ≠ 0 →
      physics_collision_handler b1 b2 axis e
        = some (body_add_impulse b1 (collision_impulse b1 b2 axis e (m1 * m2 / (m1 + m2))),
            body_add_impulse b2
              (vec_negate (collision_impulse b1 b2 axis e (m1 * m2 / (m1 + m2)))))) ∧
    (∀ m2, b1.mass = Mass.infinity → b2.mass = Mass.finite m2 →
      physics_collision_handler b1 b2 axis e
        = some (body_add_impulse b1 (collision_impulse b1 b2 axis e m2),
            body_add_impulse b2 (vec_negate (collision_impulse b1 b2 axis e m2)))) ∧
    (∀ m1, b1.mass = Mass.finite m1 → b2.mass = Mass.infinity →
      physics_collision_handler b1 b2 axis e
        = some (body_add_impulse b1 (collision_impulse b1 b2 axis e m1),
            body_add_impulse b2 (vec_negate (collision_impulse b1 b2 axis e m1)))) ∧
    (∀ (b : body_t K) (j : vector_t K), (body_add_impulse b j).impulse = vec_add b.impulse j ∧
      (body_add_impulse b j).shape = b.shape ∧ (body_add_impulse b j).mass = b.mass ∧
      (body_add_impulse b j).vel = b.vel ∧ (body_add_impulse b j).centroid = b.centroid ∧
      (body_add_impulse b j).force = b.force ∧
      (body_add_impulse b j).is_removed = b.is_removed ∧
      (body_add_impulse b j).rotation = b.rotation) := by
  exact ⟨fun m1 m2 h1 h2 hs => physics_collision_handler_finite b1 b2 axis e m1 m2 h1 h2 hs,
    fun m2 h1 h2 => physics_collision_handler_left b1 b2 axis e m2 h1 h2,
    fun m1 h1 h2 => physics_collision_handler_right b1 b2 axis e m1 h1 h2,
    fun _ _ => ⟨rfl, rfl, rfl, rfl, rfl, rfl, rfl, rfl⟩⟩

/-- The velocity after a tick of a body of finite non-zero mass with no force. -/
theorem body_tick_vel_impulse (b : body_t K) (m dt : K) (hm : b.mass = Mass.finite m)
    (hf : b.force = ⟨0, 0⟩) :
    (body_tick b dt).vel = vec_add b.vel (vec_multiply (1 / m) b.impulse) := by
  ext <;> simp [body_tick, body_set_centroid, body_set_velocity, vec_add, vec_multiply, hm,
    hf, inv_mass]

/-- The velocity after a tick of a body of infinite mass. -/
theorem body_tick_vel_infinite (b : body_t K) (dt : K) (hm : b.mass = Mass.infinity) :
    (body_tick b dt).vel = b.vel := by
  ext <;> simp [body_tick, body_set_centroid, body_set_velocity, vec_add, vec_multiply, hm,
    inv_mass]

/-- C16: for two bodies with empty accumulators, of non-zero masses of which at most one
is infinite (finite ones with non-zero sum), and a unit axis, `physics_collision_handler`
followed by a tick of both bodies reverses the relative velocity along the axis and
scales it by the elasticity. -/
theorem physics_collision_restitution (b1 b2 : body_t K) (axis : vector_t K) (e dt : K)
    (haxis : vec_dot axis axis = 1)
    (hf1 : b1.force = ⟨0, 0⟩) (hi1 : b1.impulse = ⟨0, 0⟩)
    (hf2 : b2.force = ⟨0, 0⟩) (hi2 : b2.impulse = ⟨0, 0⟩)
    (hmass : (∃ m1 m2, b1.mass = Mass.finite m1 ∧ b2.mass = Mass.finite m2 ∧ m1 ≠ 0 ∧
        m2 ≠ 0 ∧ m1 + m2 ≠ 0) ∨
      (∃ m2, b1.mass = Mass.infinity ∧ b2.mass = Mass.finite m2 ∧ m2 ≠ 0) ∨
      (∃ m1, b1.mass = Mass.finite m1 ∧ b2.mass = Mass.infinity ∧ m1 ≠ 0)) :
    ∃ r1 r2, physics_collision_handler b1 b2 axis e = some (r1, r2) ∧
      vec_dot (vec_subtract (body_tick r2 dt).vel (body_tick r1 dt).vel) axis
        = -e * vec_dot (vec_subtract b2.vel b1.vel) axis := by
  simp only [vec_dot] at haxis
  rcases hmass with ⟨m1, m2, h1, h2, hm1, hm2, hs⟩ | ⟨m2, h1, h2, hm2⟩ | ⟨m1, h1, h2, hm1⟩
  · refine ⟨_, _, physics_collision_handler_finite b1 b2 axis e m1 m2 h1 h2 hs, ?_⟩
    rw [body_tick_vel_impulse (body_add_impulse b1 _) m1 dt h1 hf1,
      body_tick_vel_impulse (body_add_impulse b2 _) m2 dt h2 hf2]
    simp only [body_add_impulse, hi1, hi2, collision_impulse, vec_dot, vec_subtract, vec_add,
      vec_multiply, vec_negate]
    have hJ : (m1 * m2 / (m1 + m2)) * (1 / m1 + 1 / m2) = 1 := by field_simp; ring
    linear_combination
      (-(1 + e) *
        (b2.vel.x * axis.x + b2.vel.y * axis.y - (b1.vel.x * axis.x + b1.vel.y * axis.y)))
        * haxis
      + (-(1 + e) *
        (b2.vel.x * axis.x + b2.vel.y * axis.y - (b1.vel.x * axis.x + b1.vel.y * axis.y))
        * (axis.x * axis.x + axis.y * axis.y)) * hJ
  · refine ⟨_, _, physics_collision_handler_left b1 b2 axis e m2 h1 h2, ?_⟩
    rw [body_tick_vel_infinite (body_add_impulse b1 _) dt h1,
      body_tick_vel_impulse (body_add_impulse b2 _) m2 dt h2 hf2]
    simp only [body_add_impulse, hi1, hi2, collision_impulse, vec_dot, vec_subtract, vec_add,
      vec_multiply, vec_negate]
    have hJ : m2 * (1 / m2) = 1 := by field_simp
    linear_combination
      (-(1 + e) *
        (b2.vel.x * axis.x + b2.vel.y * axis.y - (b1.vel.x * axis.x + b1.vel.y * axis.y)))
        * haxis
      + (-(1 + e) *
        (b2.vel.x * axis.x + b2.vel.y * axis.y - (b1.vel.x * axis.x + b1.vel.y * axis.y))
        * (axis.x * axis.x + axis.y * axis.y)) * hJ
  · refine ⟨_, _, physics_collision_handler_right b1 b2 axis e m1 h1 h2, ?_⟩
    rw [body_tick_vel_impulse (body_add_impulse b1 _) m1 dt h1 hf1,
      body_tick_vel_infinite (body_add_impulse b2 _) dt h2]
    simp only [body_add_impulse, hi1, hi2, collision_impulse, vec_dot, vec_subtract, vec_add,
      vec_multiply, vec_negate]
    have hJ : m1 * (1 / m1) = 1 := by field_simp
    linear_combination
      (-(1 + e) *
        (b2.vel.x * axis.x + b2.vel.y * axis.y - (b1.vel.x * axis.x + b1.vel.y * axis.y)))
        * haxis
      + (-(1 + e) *
        (b2.vel.x * axis.x + b2.vel.y * axis.y - (b1.vel.x * axis.x + b1.vel.y * axis.y))
        * (axis.x * axis.x + axis.y * axis.y)) * hJ

/-! ## Force laws -/

/-- The call of `apply_newtonian_gravity` on two finite masses at distance at least 5. -/
theorem apply_newtonian_gravity_far (sqrt : K → K) (aux : force_aux_t K) (mem : body_mem K)
    (mA mB : K) (hA : (mem aux.body1).mass = Mass.finite mA)
    (hB : (mem aux.body2).mass = Mass.finite mB) (hne : aux.body1 ≠ aux.body2)
    (hd : 5 ≤ centroid_distance sqrt (mem aux.body1).centroid (mem aux.body2).centroid) :
    apply_newtonian_gravity sqrt aux mem
      = some (aux, Function.update
          (Function.update mem aux.body1 (body_add_force (mem aux.body1)
            (snap_small (gravity_vector sqrt aux.force_constant mA mB
              (mem aux.body1).centroid (mem aux.body2).centroid))))
          aux.body2 (body_add_force (mem aux.body2)
            (vec_negate (snap_small (gravity_vector sqrt aux.force_constant mA mB
              (mem aux.body1).centroid (mem aux.body2).centroid))))) := by
  have hd2 : sqrt (vec_dot (vec_subtract (mem aux.body2).centroid (mem aux.body1).centroid)
      (vec_subtract (mem aux.body2).centroid (mem aux.body1).centroid)) ≥ 5 := hd
  have ex : ∀ (g d a : K), a * (1 / d) * (g / d ^ 2) = g / d ^ 2 * (a / d) := by
    intro g d a; ring
  simp only [apply_newtonian_gravity, MINIMUM_DISTANCE, GRAVITY_FORCE_THRESHOLD]
  rw [if_pos hd2, hA, hB]
  simp only [snap_small, gravity_vector, centroid_distance, vec_multiply, vec_subtract, ex,
    Function.update_noteq (Ne.symm hne)]

/-- The call of `apply_newtonian_gravity` at distance below 5. -/
theorem apply_newtonian_gravity_near (sqrt : K → K) (aux : force_aux_t K) (mem : body_mem K)
    (hd : centroid_distance sqrt (mem aux.body1).centroid (mem aux.body2).centroid < 5) :
    apply_newtonian_gravity sqrt aux mem = some (aux, mem) := by
  have hd2 : ¬ (sqrt (vec_dot (vec_subtract (mem aux.body2).centroid (mem aux.body1).centroid)
      (vec_subtract (mem aux.body2).centroid (mem aux.body1).centroid)) ≥ 5) :=
    not_le.mpr hd
  simp only [apply_newtonian_gravity, MINIMUM_DISTANCE]
  rw [if_neg hd2]

/-- C17: for two different bodies A, B of finite masses, `apply_newtonian_gravity` adds no
force when the distance of the centroids is below 5, and otherwise adds to A the vector
`(G * mA * mB / d^2) * (cB - cA) / d` with every component of absolute value below 100
replaced by 0, and to B its negation; no other body changes. -/
theorem apply_newtonian_gravity_spec (sqrt : K → K) (aux : force_aux_t K) (mem : body_mem K)
    (mA mB : K) (hA : (mem aux.body1).mass = Mass.finite mA)
    (hB : (mem aux.body2).mass = Mass.finite mB) (hne : aux.body1 ≠ aux.body2) :
    (centroid_distance sqrt (mem aux.body1).centroid (mem aux.body2).centroid < 5 →
      apply_newtonian_gravity sqrt aux mem = some (aux, mem)) ∧
    (5 ≤ centroid_distance sqrt (mem aux.body1).centroid (mem aux.body2).centroid →
      ∃ mem2, apply_newtonian_gravity sqrt aux mem = some (aux, mem2) ∧
        mem2 aux.body1 = body_add_force (mem aux.body1)
          (snap_small (gravity_vector sqrt aux.force_constant mA mB
            (mem aux.body1).centroid (mem aux.body2).centroid)) ∧
        mem2 aux.body2 = body_add_force (mem aux.body2)
          (vec_negate (snap_small (gravity_vector sqrt aux.force_constant mA mB
            (mem aux.body1).centroid (mem aux.body2).centroid))) ∧
        ∀ p, p ≠ aux.body1 → p ≠ aux.body2 → mem2 p = mem p) := by
  refine ⟨apply_newtonian_gravity_near sqrt aux mem, ?_⟩
  intro hd
  refine ⟨_, apply_newtonian_gravity_far sqrt aux mem mA mB hA hB hne hd, ?_, ?_, ?_⟩
  · rw [Function.update_noteq hne, Function.update_same]
  · rw [Function.update_same]
  · intro p h1 h2
    rw [Function.update_noteq h2, Function.update_noteq h1]

/-- C18: on two different bodies A, B, `apply_spring` adds the force `k * (cB - cA)` to A
and its negation `k * (cA - cB)` to B, and changes no other body; the force is zero
exactly when the centroids coincide or `k = 0`. -/
theorem apply_spring_spec (aux : force_aux_t K) (mem : body_mem K)
    (hne : aux.body1 ≠ aux.body2) :
    (∃ mem2, apply_spring aux mem = some (aux, mem2) ∧
      mem2 aux.body1 = body_add_force (mem aux.body1)
        (vec_multiply aux.force_constant
          (vec_subtract (mem aux.body2).centroid (mem aux.body1).centroid)) ∧
      mem2 aux.body2 = body_add_force (mem aux.body2)
        (vec_multiply aux.force_constant
          (vec_subtract (mem aux.body1).centroid (mem aux.body2).centroid)) ∧
      ∀ p, p ≠ aux.body1 → p ≠ aux.body2 → mem2 p = mem p) ∧
    (vec_multiply aux.force_constant
        (vec_subtract (mem aux.body2).centroid (mem aux.body1).centroid) = ⟨0, 0⟩
      ↔ (mem aux.body1).centroid = (mem aux.body2).centroid ∨ aux.force_constant = 0) := by
  constructor
  · refine ⟨_, rfl, ?_, ?_, ?_⟩
    · rw [Function.update_noteq hne, Function.update_same]
    · rw [Function.update_same, Function.update_noteq (Ne.symm hne)]
      congr 1
      ext <;> simp only [vec_negate, vec_multiply, vec_subtract] <;> ring
    · intro p h1 h2
      rw [Function.update_noteq h2, Function.update_noteq h1]
  · simp only [vec_multiply, vec_subtract, vector_t.mk.injEq, mul_eq_zero, sub_eq_zero]
    constructor
    · rintro ⟨hx | hx, hy | hy⟩
      · left; ext <;> [exact hx.symm; exact hy.symm]
      · right; exact hy
      · right; exact hx
      · right; exact hx
    · rintro (h | h)
      · rw [h]; exact ⟨Or.inl rfl, Or.inl rfl⟩
      · exact ⟨Or.inr h, Or.inr h⟩

/-! ## Drag -/

/-- One `scene_tick` of a drag scene gives a drag scene in which the velocity of the body
is scaled by `1 - gamma * dt / m`. -/
theorem drag_scene_tick (s : scene_t K) (dt gamma m : K) (p : body_ptr)
    (hs : drag_scene s gamma m p) :
    ∃ s2, scene_tick s dt = some s2 ∧ drag_scene s2 gamma m p ∧
      (s2.mem p).vel = vec_multiply (1 - gamma * dt / m) (s.mem p).vel := by
  obtain ⟨hb, hfa, hm, hf, hi, hr⟩ := hs
  refine ⟨{ s with
      mem := Function.update
              (Function.update s.mem p
                (body_add_force (s.mem p) (vec_multiply (-gamma) (s.mem p).vel)))
              p (body_tick
                (body_add_force (s.mem p) (vec_multiply (-gamma) (s.mem p).vel)) dt) },
    ?_, ⟨hb, hfa, ?_, ?_, ?_, ?_⟩, ?_⟩
  · simp [scene_tick, hfa, hb, scene_tick_forces, drag_applier, apply_drag, scene_tick_bodies,
      body_is_removed, body_add_force, hr]
  · simpa [body_tick, body_add_force, body_set_centroid, body_set_velocity] using hm
  · simp [body_tick]
  · simp [body_tick]
  · simpa [body_tick, body_add_force, body_set_centroid, body_set_velocity] using hr
  · ext <;>
      simp [body_tick, body_add_force, body_set_centroid, body_set_velocity, vec_add,
        vec_multiply, hm, hf, hi, inv_mass] <;> ring

/-- Any number of ticks of a drag scene succeeds and gives a drag scene. -/
theorem drag_scene_ticks (dt gamma m : K) (p : body_ptr) (n : Nat) (s : scene_t K)
    (hs : drag_scene s gamma m p) :
    ∃ s2, scene_ticks dt n s = some s2 ∧ drag_scene s2 gamma m p := by
  induction n generalizing s with
  | zero => exact ⟨s, rfl, hs⟩
  | succ n ih =>
    obtain ⟨s1, h1, hs1, -⟩ := drag_scene_tick s dt gamma m p hs
    obtain ⟨s2, h2, hs2⟩ := ih s1 hs1
    exact ⟨s2, by rw [scene_ticks, h1]; exact h2, hs2⟩

/-- C19: in a scene with one body of finite mass `m > 0` and drag with constant `gamma`
as only force creator, after any number of ticks one more `scene_tick` multiplies the
kinetic energy by `(1 - gamma * dt / m)^2`; the energy does not increase when
`0 <= gamma * dt / m <= 2`, and for `gamma = 0.99`, `m = 1`, `dt = 1e-6` the factor lies
in `[1 - 2e-5, 1]`. -/
theorem drag_energy_decay (s : scene_t K) (dt gamma m : K) (p : body_ptr) (n : Nat)
    (hs : drag_scene s gamma m p) (hm : 0 < m) :
    ∃ s1 s2 E, scene_ticks dt n s = some s1 ∧ scene_tick s1 dt = some s2 ∧
      kinetic_energy (s1.mem p) = some E ∧ 0 ≤ E ∧
      kinetic_energy (s2.mem p) = some ((1 - gamma * dt / m) ^ 2 * E) ∧
      (0 ≤ gamma * dt / m → gamma * dt / m ≤ 2 → (1 - gamma * dt / m) ^ 2 * E ≤ E) ∧
      (gamma = 99 / 100 → m = 1 → dt = 1 / 1000000 →
        1 - 2 / 100000 ≤ (1 - gamma * dt / m) ^ 2 ∧ (1 - gamma * dt / m) ^ 2 ≤ 1) := by
  obtain ⟨s1, h1, hs1⟩ := drag_scene_ticks dt gamma m p n s hs
  obtain ⟨s2, h2, hs2, hv⟩ := drag_scene_tick s1 dt gamma m p hs1
  have hm1 : (s1.mem p).mass = Mass.finite m := hs1.2.2.1
  have hm2 : (s2.mem p).mass = Mass.finite m := hs2.2.2.1
  have hE : 0 ≤ m * vec_dot (s1.mem p).vel (s1.mem p).vel / 2 := by
    have : 0 ≤ vec_dot (s1.mem p).vel (s1.mem p).vel := by
      simp only [vec_dot]
      nlinarith [mul_self_nonneg (s1.mem p).vel.x, mul_self_nonneg (s1.mem p).vel.y]
    positivity
  refine ⟨s1, s2, m * vec_dot (s1.mem p).vel (s1.mem p).vel / 2, h1, h2, ?_, hE, ?_, ?_, ?_⟩
  · simp [kinetic_energy, hm1]
  · simp only [kinetic_energy, hm2, hv, vec_dot, vec_multiply, Option.some.injEq]
    ring
  · intro h0 h2'
    have hsq : (1 - gamma * dt / m) ^ 2 ≤ 1 := by nlinarith
    calc (1 - gamma * dt / m) ^ 2 * (m * vec_dot (s1.mem p).vel (s1.mem p).vel / 2)
        ≤ 1 * (m * vec_dot (s1.mem p).vel (s1.mem p).vel / 2) :=
          mul_le_mul_of_nonneg_right hsq hE
      _ = m * vec_dot (s1.mem p).vel (s1.mem p).vel / 2 := one_mul _
  · intro hg hm' hdt
    rw [hg, hm', hdt]
    constructor <;> norm_num

/-! ## The three-body test -/

/-- A component of the gravity vector is below the threshold when the distance is at
least `L` and the numerator is below `100 * L^3`. -/
theorem gravity_component_small (g a d L : K) (hL : 0 < L) (hd : L ≤ d)
    (h : |g * a| < 100 * L ^ 3) : |g / d ^ 2 * (a / d)| < 100 := by
  have hd0 : 0 < d := lt_of_lt_of_le hL hd
  have e : g / d ^ 2 * (a / d) = g * a / d ^ 3 := by
    rw [div_mul_div_comm]
    congr 1
    ring
  have h3 : L ^ 3 ≤ d ^ 3 := pow_le_pow_left₀ hL.le hd 3
  rw [e, abs_div, abs_of_pos (pow_pos hd0 3), div_lt_iff₀ (pow_pos hd0 3)]
  linarith

/-- Adding the zero force leaves a body as it is. -/
theorem body_add_force_zero (b : body_t K) : body_add_force b ⟨0, 0⟩ = b := by
  cases b
  simp [body_add_force, vec_add]

/-- A body at rest with empty accumulators is left as it is by `body_tick`. -/
theorem body_tick_rest (b : body_t K) (dt : K) (hv : b.vel = ⟨0, 0⟩) (hf : b.force = ⟨0, 0⟩)
    (hi : b.impulse = ⟨0, 0⟩) : body_tick b dt = b := by
  cases b
  simp only at hv hf hi
  subst hv hf hi
  simp [body_tick, body_set_centroid, body_set_velocity, polygon_translate, vec_add,
    vec_multiply, vec_subtract]

/-- A call of `apply_newtonian_gravity` whose force is snapped to zero leaves the memory
as it is. -/
theorem apply_newtonian_gravity_snapped (sqrt : K → K) (aux : force_aux_t K)
    (mem : body_mem K) (mA mB : K) (hA : (mem aux.body1).mass = Mass.finite mA)
    (hB : (mem aux.body2).mass = Mass.finite mB) (hne : aux.body1 ≠ aux.body2)
    (hsnap : snap_small (gravity_vector sqrt aux.force_constant mA mB
      (mem aux.body1).centroid (mem aux.body2).centroid) = ⟨0, 0⟩) :
    apply_newtonian_gravity sqrt aux mem = some (aux, mem) := by
  by_cases hd : centroid_distance sqrt (mem aux.body1).centroid (mem aux.body2).centroid < 5
  · exact apply_newtonian_gravity_near sqrt aux mem hd
  · rw [apply_newtonian_gravity_far sqrt aux mem mA mB hA hB hne (not_lt.mp hd), hsnap]
    have hz : vec_negate (⟨0, 0⟩ : vector_t K) = ⟨0, 0⟩ := by simp [vec_negate, vec_multiply]
    rw [hz, body_add_force_zero, body_add_force_zero, Function.update_eq_self,
      Function.update_eq_self]

/-- The gravity vector is snapped to zero when the distance is at least `L` and both
numerators are below `100 * L^3`. -/
theorem snap_small_gravity (sqrt : K → K) (G mA mB L : K) (cA cB : vector_t K) (hL : 0 < L)
    (hd : L ≤ centroid_distance sqrt cA cB)
    (hx : |G * mA * mB * (cB.x - cA.x)| < 100 * L ^ 3)
    (hy : |G * mA * mB * (cB.y - cA.y)| < 100 * L ^ 3) :
    snap_small (gravity_vector sqrt G mA mB cA cB) = ⟨0, 0⟩ := by
  simp only [snap_small, gravity_vector]
  rw [if_pos (gravity_component_small _ _ _ L hL hd hx),
    if_pos (gravity_component_small _ _ _ L hL hd hy)]

/-- One `scene_tick` of the three-body scene leaves it as it is: every gravity force is
below the threshold and snapped to zero, so no body moves. -/
theorem three_body_tick (sqrt : K → K) (dt : K) (h1 : 31 ≤ sqrt 1000) (h2 : 46 ≤ sqrt 2125)
    (h3 : 20 ≤ sqrt 425) (s : scene_t K) (hs : three_body_state sqrt s) :
    ∃ s2, scene_tick s dt = some s2 ∧ three_body_state sqrt s2 := by
  obtain ⟨hb, hfa, hmem⟩ := hs
  have c0 : (three_body_mem (K := K) 0).centroid = ⟨0, 50⟩ := rfl
  have c1 : (three_body_mem (K := K) 1).centroid = ⟨10, 20⟩ := rfl
  have c2 : (three_body_mem (K := K) 2).centroid = ⟨30, 15⟩ := rfl
  have g01 : apply_newtonian_gravity sqrt ⟨1000, 0, 1, none, false⟩ three_body_mem
      = some (⟨1000, 0, 1, none, false⟩, three_body_mem) := by
    apply apply_newtonian_gravity_snapped sqrt (⟨1000, 0, 1, none, false⟩ : force_aux_t K)
      three_body_mem 8 (37 / 10) rfl rfl (by simp)
    apply snap_small_gravity sqrt _ _ _ 31 _ _ (by norm_num)
    · simp only [c0, c1, centroid_distance, vec_dot, vec_subtract]
      norm_num
      exact h1
    · simp only [c0, c1]; norm_num [abs_lt]
    · simp only [c0, c1]; norm_num [abs_lt]
  have g02 : apply_newtonian_gravity sqrt ⟨1000, 0, 2, none, false⟩ three_body_mem
      = some (⟨1000, 0, 2, none, false⟩, three_body_mem) := by
    apply apply_newtonian_gravity_snapped sqrt (⟨1000, 0, 2, none, false⟩ : force_aux_t K)
      three_body_mem 8 (11 / 2) rfl rfl (by simp)
    apply snap_small_gravity sqrt _ _ _ 46 _ _ (by norm_num)
    · simp only [c0, c2, centroid_distance, vec_dot, vec_subtract]
      norm_num
      exact h2
    · simp only [c0, c2]; norm_num [abs_lt]
    · simp only [c0, c2]; norm_num [abs_lt]
  have g12 : apply_newtonian_gravity sqrt ⟨1000, 1, 2, none, false⟩ three_body_mem
      = some (⟨1000, 1, 2, none, false⟩, three_body_mem) := by
    apply apply_newtonian_gravity_snapped sqrt (⟨1000, 1, 2, none, false⟩ : force_aux_t K)
      three_body_mem (37 / 10) (11 / 2) rfl rfl (by simp)
    apply snap_small_gravity sqrt _ _ _ 20 _ _ (by norm_num)
    · simp only [c1, c2, centroid_distance, vec_dot, vec_subtract]
      norm_num
      exact h3
    · simp only [c1, c2]; norm_num [abs_lt]
    · simp only [c1, c2]; norm_num [abs_lt]
  have hrest : ∀ p, body_tick (three_body_mem (K := K) p) dt = three_body_mem p := by
    intro p
    apply body_tick_rest
    · simp only [three_body_mem]; split_ifs <;> rfl
    · simp only [three_body_mem]; split_ifs <;> rfl
    · simp only [three_body_mem]; split_ifs <;> rfl
  have hrem : ∀ p, body_is_removed (three_body_mem (K := K) p) = false := by
    intro p
    simp only [three_body_mem]; split_ifs <;> rfl
  refine ⟨{ s with mem := three_body_mem }, ?_, hb, hfa, rfl⟩
  have hforce : scene_tick_forces s.force_appliers s.mem
      = some (s.force_appliers, three_body_mem) := by
    rw [hfa, hmem]
    simp [three_body_scene, create_newtonian_gravity, scene_add_bodies_force_creator,
      scene_add_body, scene_init, scene_tick_forces, g01, g02, g12]
  rw [scene_tick, hforce]
  simp [scene_tick_bodies, hb, hrest, hrem, Function.update_eq_self]

/-- Any number of ticks of the three-body scene leaves it as it is. -/
theorem three_body_ticks (sqrt : K → K) (dt : K) (h1 : 31 ≤ sqrt 1000) (h2 : 46 ≤ sqrt 2125)
    (h3 : 20 ≤ sqrt 425) (k : Nat) (s : scene_t K) (hs : three_body_state sqrt s) :
    ∃ s2, scene_ticks dt k s = some s2 ∧ three_body_state sqrt s2 := by
  induction k generalizing s with
  | zero => exact ⟨s, rfl, hs⟩
  | succ k ih =>
    obtain ⟨s1, e1, hs1⟩ := three_body_tick sqrt dt h1 h2 h3 s hs
    obtain ⟨s2, e2, hs2⟩ := ih s1 hs1
    exact ⟨s2, by rw [scene_ticks, e1]; exact e2, hs2⟩

/-- C20: in the three-body scene of the test, with square roots of the squared distances
1000, 2125 and 425 at least 31, 46 and 20, after any number of ticks of any step the
total energy of the test differs from the initial energy by at most 1e-4 (it is equal:
every gravity force is snapped to zero). -/
theorem three_body_energy (sqrt : K → K) (dt : K) (h1 : 31 ≤ sqrt 1000)
    (h2 : 46 ≤ sqrt 2125) (h3 : 20 ≤ sqrt 425) (k : Nat) :
    ∃ s E0 Ek, scene_ticks dt k (three_body_scene sqrt) = some s ∧
      test_initial_energy sqrt 1000 (three_body_scene sqrt).mem = some E0 ∧
      test_total_energy sqrt 1000 s.mem = some Ek ∧ |E0 - Ek| ≤ 1 / 10000 := by
  obtain ⟨s, e1, -, -, hmem⟩ := three_body_ticks sqrt dt h1 h2 h3 k (three_body_scene sqrt)
    ⟨rfl, rfl, rfl⟩
  have hk : ∀ p, kinetic_energy (three_body_mem (K := K) p) = some 0 := by
    intro p
    simp only [three_body_mem]
    split_ifs <;> simp [kinetic_energy, body_set_centroid, body_init, vec_dot]
  have hm0 : (three_body_mem (K := K) 0).mass = Mass.finite 8 := rfl
  have hm1 : (three_body_mem (K := K) 1).mass = Mass.finite (37 / 10) := rfl
  have hm2 : (three_body_mem (K := K) 2).mass = Mass.finite (11 / 2) := rfl
  have hmem0 : (three_body_scene sqrt).mem = three_body_mem := rfl
  have hU : ∃ E0, test_initial_energy sqrt 1000 (three_body_mem (K := K)) = some E0 ∧
      test_total_energy sqrt 1000 (three_body_mem (K := K)) = some E0 := by
    simp only [test_initial_energy, test_total_energy, gravity_potential, hm0, hm1, hm2, hk]
    exact ⟨_, rfl, by simp⟩
  obtain ⟨E0, hE0, hEk⟩ := hU
  refine ⟨s, E0, E0, e1, ?_, ?_, ?_⟩
  · rw [hmem0]; exact hE0
  · rw [hmem]; exact hEk
  · simp

/-! ## Witnesses on the test bodies -/

/-- The unit square at the origin and the one at (-1, 0) collide along (1, 0). -/
theorem find_collision_left_square :
    find_collision sqrt_table unit_square_body.shape left_square_body.shape
      = ⟨true, some ⟨1, 0⟩⟩ := by
  have hs : sqrt_table 4 = 2 := by norm_num [sqrt_table]
  have e0 : unit_square_body.shape = make_shape := rfl
  rw [left_square_body_shape, e0, find_collision_squares sqrt_table hs (-1),
    if_neg (by norm_num), if_neg (by norm_num)]

/-- Witness of C14: over two ticks of continued overlap the destructive handler runs on
the first tick only. -/
theorem apply_collision_rising_edge_witness :
    apply_collision_ticks sqrt_table destructive_collision_handler
        [(unit_square_body, left_square_body), (unit_square_body, left_square_body)] false
      = some ([(body_remove unit_square_body, body_remove left_square_body),
          (unit_square_body, left_square_body)], true) := by
  have h := (apply_collision_rising_edge sqrt_table destructive_collision_handler
    [(unit_square_body, left_square_body), (unit_square_body, left_square_body)]
    (by
      intro t ht
      have e0 : unit_square_body.shape = make_shape := rfl
      simp only [List.mem_cons, List.mem_singleton, List.not_mem_nil, or_false, or_self] at ht
      subst ht
      simp [e0, make_shape])).1
  rw [h]
  simp [sat_results, rising_edges, handler_output, find_collision_left_square,
    destructive_collision_handler]

/-- Witness of C15 on two unit square bodies of mass 1. -/
theorem physics_collision_handler_spec_witness :
    physics_collision_handler unit_square_body unit_square_body ⟨1, 0⟩ 1
      = some (body_add_impulse unit_square_body
          (collision_impulse unit_square_body unit_square_body ⟨1, 0⟩ 1 (1 * 1 / (1 + 1))),
        body_add_impulse unit_square_body
          (vec_negate
            (collision_impulse unit_square_body unit_square_body ⟨1, 0⟩ 1 (1 * 1 / (1 + 1))))) :=
  (physics_collision_handler_spec unit_square_body unit_square_body ⟨1, 0⟩ 1).1 1 1 rfl rfl
    (by norm_num)

/-- Witness of C16: a unit square body moving along x hits one at rest, elasticity 1/2. -/
theorem physics_collision_restitution_witness :
    ∃ r1 r2, physics_collision_handler (body_set_velocity unit_square_body ⟨1, 0⟩)
        unit_square_body ⟨1, 0⟩ (1 / 2) = some (r1, r2) ∧
      vec_dot (vec_subtract (body_tick r2 1).vel (body_tick r1 1).vel) ⟨1, 0⟩
        = -(1 / 2) * vec_dot (vec_subtract unit_square_body.vel
            (body_set_velocity unit_square_body ⟨1, 0⟩).vel) ⟨1, 0⟩ :=
  physics_collision_restitution (body_set_velocity unit_square_body ⟨1, 0⟩) unit_square_body
    ⟨1, 0⟩ (1 / 2) 1 (by norm_num [vec_dot]) rfl rfl rfl rfl
    (Or.inl ⟨1, 1, rfl, rfl, by norm_num, by norm_num, by norm_num⟩)

/-- Witness of C17 on the first two bodies of the three-body test. -/
theorem apply_newtonian_gravity_spec_witness :
    ∃ mem2, apply_newtonian_gravity sqrt_lower ⟨1000, 0, 1, none, false⟩ three_body_mem
        = some (⟨1000, 0, 1, none, false⟩, mem2) ∧
      ∀ p, p ≠ 0 → p ≠ 1 → mem2 p = three_body_mem p := by
  obtain ⟨mem2, h, -, -, h4⟩ := (apply_newtonian_gravity_spec sqrt_lower
    (⟨1000, 0, 1, none, false⟩ : force_aux_t ℚ) three_body_mem 8 (37 / 10) rfl rfl
    (by simp)).2 (by
      have c0 : (three_body_mem (K := ℚ) 0).centroid = ⟨0, 50⟩ := rfl
      have c1 : (three_body_mem (K := ℚ) 1).centroid = ⟨10, 20⟩ := rfl
      simp only [c0, c1, centroid_distance, vec_dot, vec_subtract]
      norm_num [sqrt_lower])
  exact ⟨mem2, h, h4⟩

/-- Witness of C18 on the first two bodies of the three-body test. -/
theorem apply_spring_spec_witness :
    ∃ mem2, apply_spring ⟨2, 0, 1, none, false⟩ (three_body_mem (K := ℚ))
        = some (⟨2, 0, 1, none, false⟩, mem2) ∧
      ∀ p, p ≠ 0 → p ≠ 1 → mem2 p = three_body_mem p := by
  obtain ⟨mem2, h, -, -, h4⟩ := (apply_spring_spec (⟨2, 0, 1, none, false⟩ : force_aux_t ℚ)
    three_body_mem (by simp)).1
  exact ⟨mem2, h, h4⟩

/-- Witness of C19 on the scene of the drag test: the fourth tick. -/
theorem drag_energy_decay_witness :
    ∃ s1 s2 E, scene_ticks (1 / 1000000) 3 drag_test_scene = some s1 ∧
      scene_tick s1 (1 / 1000000) = some s2 ∧ kinetic_energy (s1.mem 0) = some E ∧
      kinetic_energy (s2.mem 0) = some ((1 - 99 / 100 * (1 / 1000000) / 1) ^ 2 * E) := by
  obtain ⟨s1, s2, E, h1, h2, h3, -, h5, -, -⟩ := drag_energy_decay drag_test_scene
    (1 / 1000000) (99 / 100) 1 0 3 ⟨rfl, rfl, rfl, rfl, rfl, rfl⟩ (by norm_num)
  exact ⟨s1, s2, E, h1, h2, h3, h5⟩

/-- Witness of C20 with the lower bounds 31, 46, 20 for the square roots: step 100000 of
the test. -/
theorem three_body_energy_witness :
    ∃ s E0 Ek, scene_ticks (1 / 1000000) 100000 (three_body_scene sqrt_lower) = some s ∧
      test_initial_energy sqrt_lower 1000 (three_body_scene sqrt_lower).mem = some E0 ∧
      test_total_energy sqrt_lower 1000 s.mem = some Ek ∧ |E0 - Ek| ≤ 1 / 10000 :=
  three_body_energy sqrt_lower (1 / 1000000) (by norm_num [sqrt_lower])
    (by norm_num [sqrt_lower]) (by norm_num [sqrt_lower]) 100000

/-! ## Translation round trip -/

/-- In exact arithmetic translating a polygon by `v` and then by `vec_negate v` restores
every vertex; the number of vertices and their order are those of the original list. -/
theorem polygon_translate_round_trip (polygon : List (vector_t K)) (v : vector_t K) :
    polygon_translate (polygon_translate polygon v) (vec_negate v) = polygon
      ∧ (polygon_translate polygon v).length = polygon.length
      ∧ ∀ i, list_get (polygon_translate polygon v) i
          = if i < polygon.length then vec_add (list_get polygon i) v else VEC_ZERO := by
  refine ⟨?_, by simp [polygon_translate], ?_⟩
  · simp only [polygon_translate, List.map_map]
    conv_rhs => rw [← List.map_id polygon]
    apply List.map_congr_left
    intro a _
    ext <;> simp [vec_add, vec_negate, vec_multiply]
  · intro i
    by_cases h : i < polygon.length
    · simp [polygon_translate, list_get, List.getD_eq_getElem?_getD, h]
    · simp [polygon_translate, list_get, List.getD_eq_getElem?_getD, h]
      rw [List.getElem?_eq_none (by omega)]
      rfl

/-! ## Rotation about a pivot -/

/-- C24: `body_set_rotation_around_point` with angle `t` and pivot `p` adds `t` to the
rotation accumulator and maps every vertex `v` to `p + R(t)(v - p)`; velocity, mass, the
force and impulse accumulators and the removed flag are unchanged.  When the cosine is
even and the sine odd at `t` and `cos t ^ 2 + sin t ^ 2 = 1`, a second call with `-t`
about the same pivot restores the accumulator and every vertex. -/
theorem body_set_rotation_around_point_spec (cos sin : K → K) (body : body_t K) (t : K)
    (p : vector_t K) (hcos : cos (-t) = cos t) (hsin : sin (-t) = -sin t)
    (hunit : cos t ^ 2 + sin t ^ 2 = 1) :
    (body_set_rotation_around_point cos sin body t p).rotation = body.rotation + t
      ∧ (body_set_rotation_around_point cos sin body t p).shape
          = body.shape.map (fun v => vec_add p (vec_rotate cos sin (vec_subtract v p) t))
      ∧ (body_set_rotation_around_point cos sin body t p).vel = body.vel
      ∧ (body_set_rotation_around_point cos sin body t p).mass = body.mass
      ∧ (body_set_rotation_around_point cos sin body t p).force = body.force
      ∧ (body_set_rotation_around_point cos sin body t p).impulse = body.impulse
      ∧ (body_set_rotation_around_point cos sin body t p).is_removed = body.is_removed
      ∧ (body_set_rotation_around_point cos sin
          (body_set_rotation_around_point cos sin body t p) (-t) p).rotation = body.rotation
      ∧ (body_set_rotation_around_point cos sin
          (body_set_rotation_around_point cos sin body t p) (-t) p).shape = body.shape := by
  refine ⟨rfl, ?_, rfl, rfl, rfl, rfl, rfl, ?_, ?_⟩
  · simp only [body_set_rotation_around_point, polygon_rotate, polygon_translate, List.map_map]
    apply List.map_congr_left
    intro a _
    ext <;> simp [vec_add, vec_negate, vec_multiply, vec_rotate, vec_subtract] <;> ring
  · simp [body_set_rotation_around_point]
  · simp only [body_set_rotation_around_point, polygon_rotate, polygon_translate, List.map_map]
    conv_rhs => rw [← List.map_id body.shape]
    apply List.map_congr_left
    intro a _
    have hx : ∀ u w : K, (u * cos t - w * sin t) * cos t + (u * sin t + w * cos t) * sin t
        = u := by
      intro u w
      linear_combination u * hunit
    have hy : ∀ u w : K, -((u * cos t - w * sin t) * sin t) + (u * sin t + w * cos t) * cos t
        = w := by
      intro u w
      linear_combination w * hunit
    ext
    · simp only [Function.comp, vec_add, vec_negate, vec_multiply, vec_rotate, hcos, hsin, id]
      linear_combination hx (a.x - p.x) (a.y - p.y)
    · simp only [Function.comp, vec_add, vec_negate, vec_multiply, vec_rotate, hcos, hsin, id]
      linear_combination hy (a.x - p.x) (a.y - p.y)

/-- Witness of C24: the unit square body turned about the pivot (1, 2) by an angle with
cosine 3/5 and sine 4/5, and back. -/
theorem body_set_rotation_around_point_spec_witness :
    (body_set_rotation_around_point pyth_cos pyth_sin unit_square_body 1 ⟨1, 2⟩).shape
        = (unit_square_body.shape.map
            (fun v => vec_add ⟨1, 2⟩ (vec_rotate pyth_cos pyth_sin (vec_subtract v ⟨1, 2⟩) 1)))
      ∧ (body_set_rotation_around_point pyth_cos pyth_sin
          (body_set_rotation_around_point pyth_cos pyth_sin unit_square_body 1 ⟨1, 2⟩)
          (-1) ⟨1, 2⟩).shape = unit_square_body.shape := by
  have h := body_set_rotation_around_point_spec pyth_cos pyth_sin unit_square_body 1 ⟨1, 2⟩
    (by norm_num [pyth_cos]) (by norm_num [pyth_sin]) (by norm_num [pyth_cos, pyth_sin])
  exact ⟨h.2.1, h.2.2.2.2.2.2.2.2⟩

/-! ## Soft removal -/

/-- C25: for a valid index, `scene_remove_body` succeeds and only sets the removed flag of
the body at that index: every other field of that body and every other body are
unchanged, `scene_bodies` and `scene_get_body` at every index are unchanged, and the
force creators and the freed lists are unchanged.  A body is not removed after
`body_init` and any sequence of ticks, forces and impulses, and is removed after
`body_remove`. -/
theorem scene_remove_body_soft (scene : scene_t K) (index : Nat)
    (h : index < scene_bodies scene) :
    ∃ body scene1, scene_get_body scene index = some body
      ∧ scene_remove_body scene index = some scene1
      ∧ scene1.mem body = { scene.mem body with is_removed := true }
      ∧ body_is_removed (scene1.mem body) = true
      ∧ (∀ p, p ≠ body → scene1.mem p = scene.mem p)
      ∧ scene_bodies scene1 = scene_bodies scene
      ∧ (∀ i, scene_get_body scene1 i = scene_get_body scene i)
      ∧ scene1.force_appliers = scene.force_appliers
      ∧ scene1.freed_bodies = scene.freed_bodies
      ∧ scene1.freed_appliers = scene.freed_appliers
      ∧ (∀ (shape : List (vector_t K)) (mass : Mass K) (calls : List (body_call K)),
          body_is_removed (run_calls calls (body_init shape mass)) = false)
      ∧ (∀ b : body_t K, body_is_removed (body_remove b) = true) := by
  have hidx : index < scene.bodies.length := h
  refine ⟨scene.bodies[index],
    { scene with mem := Function.update scene.mem scene.bodies[index]
                          (body_remove (scene.mem scene.bodies[index])) },
    ?_, ?_, ?_, ?_, ?_, rfl, fun _ => rfl, rfl, rfl, rfl, ?_, fun _ => rfl⟩
  · simp [scene_get_body, hidx]
  · simp only [scene_remove_body, scene_get_body, List.get?_eq_getElem?,
      List.getElem?_eq_getElem hidx]
  · simp [body_remove]
  · simp [body_remove, body_is_removed]
  · intro p hp
    simp [Function.update_noteq hp]
  · intro shape mass calls
    have key : ∀ (cs : List (body_call K)) (b : body_t K),
        (run_calls cs b).is_removed = b.is_removed := by
      intro cs
      induction cs with
      | nil => intro b; rfl
      | cons c cs ih =>
        intro b
        have hc : (c.run b).is_removed = b.is_removed := by cases c <;> rfl
        have e : run_calls (c :: cs) b = run_calls cs (c.run b) := rfl
        rw [e, ih, hc]
    exact key calls _

/-- Witness of C25: removing the body at index 0 of the demo scene. -/
theorem scene_remove_body_soft_witness :
    ∃ body scene1, scene_get_body demo_scene 0 = some body
      ∧ scene_remove_body demo_scene 0 = some scene1
      ∧ body_is_removed (scene1.mem body) = true
      ∧ scene_bodies scene1 = scene_bodies demo_scene
      ∧ scene1.force_appliers = demo_scene.force_appliers := by
  obtain ⟨body, scene1, h1, h2, _, h4, _, h6, _, h8, _⟩ :=
    scene_remove_body_soft demo_scene 0 (by
      simp [scene_bodies, demo_scene, create_drag, create_spring,
        scene_add_bodies_force_creator, scene_add_body, scene_init])
  exact ⟨body, scene1, h1, h2, h4, h6, h8⟩

/-! ## Index assertions -/

/-- C27: `scene_get_body` and `scene_remove_body` fail on the assertion of `list_get`
exactly for the indices at or above `scene_bodies`; below it both return. -/
theorem scene_index_assertion (scene : scene_t K) (i : Nat) :
    (scene_get_body scene i = none ↔ scene_bodies scene ≤ i)
      ∧ (scene_remove_body scene i = none ↔ scene_bodies scene ≤ i)
      ∧ ((scene_get_body scene i).isSome ↔ i < scene_bodies scene)
      ∧ ((scene_remove_body scene i).isSome ↔ i < scene_bodies scene) := by
  have h1 : scene_get_body scene i = none ↔ scene_bodies scene ≤ i := by
    simp [scene_get_body, scene_bodies]
  have h2 : scene_remove_body scene i = none ↔ scene_bodies scene ≤ i := by
    rw [← h1]
    unfold scene_remove_body
    cases scene_get_body scene i <;> simp
  refine ⟨h1, h2, ?_, ?_⟩
  · rw [← not_le, ← h1, Option.isSome_iff_ne_none]
  · rw [← not_le, ← h2, Option.isSome_iff_ne_none]

/-! ## Body creation and the mass -/

/-- C28, the code at the failing input: `body_init` with mass zero returns a body, and
its mass is zero. -/
theorem body_init_zero_mass :
    (body_init (make_shape : List (vector_t ℚ)) (Mass.finite 0)).mass = Mass.finite 0 := rfl

/-- C28, as the code has it: `body_init` checks nothing about the mass; for every shape
and every mass, zero and negative masses included, it returns a body with that mass,
with the given shape, at rest, with empty accumulators, not removed. -/
theorem body_init_any_mass (shape : List (vector_t K)) (mass : Mass K) :
    (body_init shape mass).mass = mass
      ∧ (body_init shape mass).shape = shape
      ∧ (body_init shape mass).vel = ⟨0, 0⟩
      ∧ (body_init shape mass).force = ⟨0, 0⟩
      ∧ (body_init shape mass).impulse = ⟨0, 0⟩
      ∧ body_is_removed (body_init shape mass) = false :=
  ⟨rfl, rfl, rfl, rfl, rfl, rfl⟩

/-! ## Normal force -/

/-- The clamp `if x < 0 then 0 else x` is the maximum with zero. -/
theorem clamp_eq_max (x : K) : (if x < 0 then 0 else x) = max x 0 := by
  split_ifs with h
  · exact (max_eq_right h.le).symm
  · exact (max_eq_left (not_lt.mp h)).symm

/-- The oriented axis is the axis or its negation; it keeps the squared length and has a
non-negative product with the direction from the first to the second centroid. -/
theorem oriented_axis_facts (c1 c2 axis : vector_t K) :
    vec_dot (oriented_axis c1 c2 axis) (oriented_axis c1 c2 axis) = vec_dot axis axis
      ∧ 0 ≤ vec_dot (oriented_axis c1 c2 axis) (vec_subtract c2 c1) := by
  unfold oriented_axis
  split_ifs with h
  · constructor
    · simp only [vec_dot, vec_negate, vec_multiply]; ring
    · simp only [vec_dot, vec_negate, vec_multiply, vec_subtract] at h ⊢
      linarith
  · constructor
    · rfl
    · simp only [vec_dot, vec_subtract] at h ⊢
      linarith

/-- C22: for two distinct bodies A (`body1`) and B (`body2`): when the shapes do not
overlap, `apply_normal_force` adds no force.  When they overlap, the teleport flag is
absent or false and the axis `a`, oriented so that `a . (cB - cA) >= 0`, is a unit vector,
it adds `-max(fA . a, 0) a` to A and `max(fB . (-a), 0) a` to B and changes no other body;
afterwards the force of A along `a` is `min(fA . a, 0)`, the force of B along `-a` is
`min(fB . (-a), 0)`, and the components perpendicular to `a` are those of `fA` and `fB`. -/
theorem apply_normal_force_spec (sqrt : K → K) (is_teleporting : Option Bool)
    (aux : force_aux_t K) (mem : body_mem K) (hne : aux.body1 ≠ aux.body2) :
    ((find_collision sqrt (mem aux.body1).shape (mem aux.body2).shape).collided = false →
        apply_normal_force sqrt is_teleporting aux mem = some (aux, mem))
      ∧ ∀ axis a : vector_t K,
        (is_teleporting = none ∨ is_teleporting = some false) →
        find_collision sqrt (mem aux.body1).shape (mem aux.body2).shape = ⟨true, some axis⟩ →
        a = oriented_axis (mem aux.body1).centroid (mem aux.body2).centroid axis →
        vec_dot a a = 1 →
        0 ≤ vec_dot a (vec_subtract (mem aux.body2).centroid (mem aux.body1).centroid)
          ∧ (∃ mem1, apply_normal_force sqrt is_teleporting aux mem = some (aux, mem1)
            ∧ mem1 aux.body1 = body_add_force (mem aux.body1)
                (vec_multiply (-(max (vec_dot (mem aux.body1).force a) 0)) a)
            ∧ mem1 aux.body2 = body_add_force (mem aux.body2)
                (vec_multiply (max (vec_dot (mem aux.body2).force (vec_negate a)) 0) a)
            ∧ (∀ p, p ≠ aux.body1 → p ≠ aux.body2 → mem1 p = mem p)
            ∧ vec_dot (mem1 aux.body1).force a = min (vec_dot (mem aux.body1).force a) 0
            ∧ vec_dot (mem1 aux.body2).force (vec_negate a)
                = min (vec_dot (mem aux.body2).force (vec_negate a)) 0
            ∧ vec_dot (mem1 aux.body1).force ⟨-a.y, a.x⟩
                = vec_dot (mem aux.body1).force ⟨-a.y, a.x⟩
            ∧ vec_dot (mem1 aux.body2).force ⟨-a.y, a.x⟩
                = vec_dot (mem aux.body2).force ⟨-a.y, a.x⟩) := by
  constructor
  · intro hcol
    unfold apply_normal_force
    cases is_teleporting <;> simp [hcol]
  · intro axis a hflag hfc ha hunit
    have hfacts := oriented_axis_facts (mem aux.body1).centroid (mem aux.body2).centroid axis
    rw [← ha] at hfacts
    refine ⟨hfacts.2, ?_⟩
    have hrun : apply_normal_force sqrt is_teleporting aux mem
        = some (aux, Function.update
            (Function.update mem aux.body1 (body_add_force (mem aux.body1)
              (vec_multiply (max (vec_dot (mem aux.body1).force a) 0) (vec_negate a))))
            aux.body2 (body_add_force (mem aux.body2)
              (vec_multiply (max (vec_dot (mem aux.body2).force (vec_negate a)) 0) a))) := by
      rcases hflag with h | h <;> subst h <;>
        simp only [apply_normal_force, hfc, Bool.not_false, Bool.and_self, if_true,
          clamp_eq_max] <;>
        rw [ha, oriented_axis, Function.update_noteq (Ne.symm hne)]
    have e1 : vec_multiply (max (vec_dot (mem aux.body1).force a) 0) (vec_negate a)
        = vec_multiply (-(max (vec_dot (mem aux.body1).force a) 0)) a := by
      ext <;> simp [vec_multiply, vec_negate]
    have hu : a.x * a.x + a.y * a.y = 1 := hunit
    refine ⟨_, hrun, ?_, ?_, ?_, ?_, ?_, ?_, ?_⟩
    · rw [Function.update_noteq hne, Function.update_same, e1]
    · rw [Function.update_same]
    · intro p h1 h2
      rw [Function.update_noteq h2, Function.update_noteq h1]
    · rw [Function.update_noteq hne, Function.update_same]
      have hmm := min_add_max (vec_dot (mem aux.body1).force a) 0
      simp only [body_add_force, vec_add, vec_multiply, vec_negate, vec_dot] at hmm ⊢
      linear_combination (-1 : K) * hmm
        - (max ((mem aux.body1).force.x * a.x + (mem aux.body1).force.y * a.y) 0) * hu
    · rw [Function.update_same]
      have hmm := min_add_max (vec_dot (mem aux.body2).force (vec_negate a)) 0
      simp only [body_add_force, vec_add, vec_multiply, vec_negate, vec_dot] at hmm ⊢
      linear_combination (-1 : K) * hmm
        - (max ((mem aux.body2).force.x * (a.x * -1) + (mem aux.body2).force.y * (a.y * -1)) 0)
          * hu
    · rw [Function.update_noteq hne, Function.update_same]
      simp only [body_add_force, vec_add, vec_multiply, vec_negate, vec_dot]
      ring
    · rw [Function.update_same]
      simp only [body_add_force, vec_add, vec_multiply, vec_negate, vec_dot]
      ring

/-- The centroid of the unit square body is the origin. -/
theorem unit_square_body_centroid : unit_square_body.centroid = ⟨0, 0⟩ := by
  simp [unit_square_body, body_init, polygon_centroid, polygon_area, make_shape, list_get,
    List.range_succ]
  norm_num

/-- Witness of C22: the square at the origin pushed left with (-2, 5) against the square
at (-1, 0) pushed right with (3, 1); the oriented axis is (-1, 0) and both forces lose
their component along the axis. -/
theorem apply_normal_force_spec_witness :
    ∃ mem1, apply_normal_force sqrt_table none ⟨0, 0, 1, none, false⟩ pressed_mem
        = some (⟨0, 0, 1, none, false⟩, mem1)
      ∧ (mem1 0).force = ⟨0, 5⟩ ∧ (mem1 1).force = ⟨0, 1⟩ := by
  have hfc : find_collision sqrt_table (pressed_mem 0).shape (pressed_mem 1).shape
      = ⟨true, some ⟨1, 0⟩⟩ := find_collision_left_square
  have hc0 : (pressed_mem 0).centroid = ⟨0, 0⟩ := unit_square_body_centroid
  have hc1 : (pressed_mem 1).centroid = ⟨-1, 0⟩ := rfl
  have hf0 : (pressed_mem 0).force = ⟨-2, 5⟩ := by
    simp [pressed_mem, body_add_force, unit_square_body, body_init, vec_add]
  have hf1 : (pressed_mem 1).force = ⟨3, 1⟩ := by
    simp [pressed_mem, body_add_force, left_square_body, body_set_centroid, unit_square_body,
      body_init, vec_add]
  obtain ⟨_, mem1, hrun, h1, h2, _⟩ :=
    (apply_normal_force_spec sqrt_table none (⟨0, 0, 1, none, false⟩ : force_aux_t ℚ)
      pressed_mem (by decide)).2 ⟨1, 0⟩ ⟨-1, 0⟩ (Or.inl rfl) hfc
      (by
        show (⟨-1, 0⟩ : vector_t ℚ) = oriented_axis (pressed_mem 0).centroid
          (pressed_mem 1).centroid ⟨1, 0⟩
        rw [hc0, hc1]
        simp [oriented_axis, vec_dot, vec_subtract, vec_negate, vec_multiply])
      (by norm_num [vec_dot])
  refine ⟨mem1, hrun, ?_, ?_⟩
  · have e : (mem1 0).force = vec_add (pressed_mem 0).force
        (vec_multiply (-(max (vec_dot (pressed_mem 0).force ⟨-1, 0⟩) 0)) ⟨-1, 0⟩) := by
      rw [show mem1 0 = _ from h1]; rfl
    rw [e, hf0]
    norm_num [vec_add, vec_multiply, vec_dot]
  · have e : (mem1 1).force = vec_add (pressed_mem 1).force
        (vec_multiply (max (vec_dot (pressed_mem 1).force (vec_negate ⟨-1, 0⟩)) 0) ⟨-1, 0⟩) := by
      rw [show mem1 1 = _ from h2]; rfl
    rw [e, hf1]
    norm_num [vec_add, vec_multiply, vec_dot, vec_negate]

/-! ## Jump -/

/-- C23, the code at the failing input: the jumping square at the origin overlaps the
stationary square at (-1, 0), the flag is set and the two centroids have the same y
coordinate, the jumping one not being strictly above; the velocity is overwritten with
(0, 7) and the flag is cleared. -/
theorem apply_jump_force_equal_height :
    ¬ ((overlap_mem 1).centroid.y < (overlap_mem 0).centroid.y)
      ∧ (apply_jump_force sqrt_table true ⟨7, 0, 1, none, false⟩ overlap_mem).1 = false
      ∧ ((apply_jump_force sqrt_table true ⟨7, 0, 1, none, false⟩ overlap_mem).2.2 0).vel
          = ⟨0, 7⟩
      ∧ (overlap_mem 0).vel = ⟨0, 0⟩ := by
  have hfc : find_collision sqrt_table (overlap_mem 0).shape (overlap_mem 1).shape
      = ⟨true, some ⟨1, 0⟩⟩ := find_collision_left_square
  have hc0 : (overlap_mem 0).centroid = ⟨0, 0⟩ := unit_square_body_centroid
  have hc1 : (overlap_mem 1).centroid = ⟨-1, 0⟩ := rfl
  have hv : (overlap_mem 0).vel = ⟨0, 0⟩ := rfl
  refine ⟨by rw [hc0, hc1]; norm_num, ?_, ?_, hv⟩
  · simp [apply_jump_force, hfc, hc0, hc1]
  · simp [apply_jump_force, hfc, hc0, hc1, hv, body_set_velocity]

/-- C23, as the code has it: `apply_jump_force` overwrites the velocity of the jumping
body with (old x velocity, jump speed) and clears the flag exactly when the two shapes
overlap, the flag is set and the centroid of the jumping body is at least as high as that
of the stationary body (`>=`); in every other case the flag and the memory are as before.
In all cases the x velocity, the centroid, the shape, the mass and the accumulators of
the jumping body, every other body and the `force_aux_t` are unchanged. -/
theorem apply_jump_force_spec (sqrt : K → K) (is_jumping : Bool) (aux : force_aux_t K)
    (mem : body_mem K) :
    (((find_collision sqrt (mem aux.body1).shape (mem aux.body2).shape).collided = true
          ∧ is_jumping = true ∧ (mem aux.body2).centroid.y ≤ (mem aux.body1).centroid.y) →
        apply_jump_force sqrt is_jumping aux mem
          = (false, aux, Function.update mem aux.body1
              { mem aux.body1 with vel := ⟨(mem aux.body1).vel.x, aux.force_constant⟩ }))
      ∧ (¬ ((find_collision sqrt (mem aux.body1).shape (mem aux.body2).shape).collided = true
          ∧ is_jumping = true ∧ (mem aux.body2).centroid.y ≤ (mem aux.body1).centroid.y) →
        apply_jump_force sqrt is_jumping aux mem = (is_jumping, aux, mem))
      ∧ ((apply_jump_force sqrt is_jumping aux mem).2.2 aux.body1).vel.x
          = (mem aux.body1).vel.x
      ∧ ((apply_jump_force sqrt is_jumping aux mem).2.2 aux.body1).centroid
          = (mem aux.body1).centroid
      ∧ ((apply_jump_force sqrt is_jumping aux mem).2.2 aux.body1).shape
          = (mem aux.body1).shape
      ∧ ((apply_jump_force sqrt is_jumping aux mem).2.2 aux.body1).mass
          = (mem aux.body1).mass
      ∧ ((apply_jump_force sqrt is_jumping aux mem).2.2 aux.body1).force
          = (mem aux.body1).force
      ∧ ((apply_jump_force sqrt is_jumping aux mem).2.2 aux.body1).impulse
          = (mem aux.body1).impulse
      ∧ (∀ p, p ≠ aux.body1 → (apply_jump_force sqrt is_jumping aux mem).2.2 p = mem p)
      ∧ (apply_jump_force sqrt is_jumping aux mem).2.1 = aux := by
  by_cases hfire : (find_collision sqrt (mem aux.body1).shape (mem aux.body2).shape).collided
      = true ∧ is_jumping = true ∧ (mem aux.body2).centroid.y ≤ (mem aux.body1).centroid.y
  · have hrun : apply_jump_force sqrt is_jumping aux mem
        = (false, aux, Function.update mem aux.body1
            { mem aux.body1 with vel := ⟨(mem aux.body1).vel.x, aux.force_constant⟩ }) := by
      obtain ⟨h1, h2, h3⟩ := hfire
      simp [apply_jump_force, h1, h2, h3, body_set_velocity]
    refine ⟨fun _ => hrun, fun h => absurd hfire h, ?_, ?_, ?_, ?_, ?_, ?_, ?_, ?_⟩ <;>
      simp [hrun]
    intro p hp
    exact Function.update_noteq hp _ _
  · have hrun : apply_jump_force sqrt is_jumping aux mem = (is_jumping, aux, mem) := by
      unfold apply_jump_force
      rw [if_neg]
      intro h
      apply hfire
      simpa [Bool.and_eq_true, and_assoc] using h
    refine ⟨fun h => absurd h hfire, fun _ => hrun, ?_, ?_, ?_, ?_, ?_, ?_, ?_, ?_⟩ <;>
      simp [hrun]

/-- Witness of C23: the jumping square at the origin on the stationary square at (-1, 0)
with the flag set and jump speed 5. -/
theorem apply_jump_force_spec_witness :
    apply_jump_force sqrt_table true ⟨5, 0, 1, none, false⟩ overlap_mem
      = (false, ⟨5, 0, 1, none, false⟩, Function.update overlap_mem 0
          { overlap_mem 0 with vel := ⟨(overlap_mem 0).vel.x, 5⟩ }) := by
  have hfc : find_collision sqrt_table (overlap_mem 0).shape (overlap_mem 1).shape
      = ⟨true, some ⟨1, 0⟩⟩ := find_collision_left_square
  have hc0 : (overlap_mem 0).centroid = ⟨0, 0⟩ := unit_square_body_centroid
  have hc1 : (overlap_mem 1).centroid = ⟨-1, 0⟩ := rfl
  exact (apply_jump_force_spec sqrt_table true (⟨5, 0, 1, none, false⟩ : force_aux_t ℚ)
    overlap_mem).1
    ⟨by rw [show ((⟨5, 0, 1, none, false⟩ : force_aux_t ℚ)).body1 = 0 from rfl,
          show ((⟨5, 0, 1, none, false⟩ : force_aux_t ℚ)).body2 = 1 from rfl, hfc],
      rfl,
      by rw [show ((⟨5, 0, 1, none, false⟩ : force_aux_t ℚ)).body1 = 0 from rfl,
          show ((⟨5, 0, 1, none, false⟩ : force_aux_t ℚ)).body2 = 1 from rfl, hc0, hc1]⟩

/-! ## Shoelace area -/

/-- The area as half the cyclic sum of the cross products of successive vertices. -/
theorem polygon_area_cross (l : List (vector_t K)) :
    polygon_area l = cyc_sum vec_cross l / 2 := by
  rw [polygon_area_eq, cyc_sum_tele area_term vec_cross vec_cross 0 (fun w => -(w.x * w.y))]
  · ring
  · intro u v
    simp only [area_term, vec_cross]
    ring

/-- A vertex of the reversed polygon. -/
theorem list_get_reverse (l : List (vector_t K)) (i : Nat) (h : i < l.length) :
    list_get l.reverse i = list_get l (l.length - 1 - i) := by
  have h2 : l.length - 1 - i < l.length := by omega
  simp [list_get, List.getD_eq_getElem?_getD, h, h2, List.getElem_reverse]

/-- The cyclic sum over the reversed polygon visits every pair of successive vertices in
the opposite direction. -/
theorem cyc_sum_reverse (f : vector_t K → vector_t K → K) (l : List (vector_t K)) :
    cyc_sum f l.reverse = cyc_sum (fun u v => f v u) l := by
  unfold cyc_sum
  rw [List.length_reverse]
  cases hn : l.length with
  | zero => simp
  | succ m =>
    rw [Finset.sum_range_succ, Finset.sum_range_succ]
    have e1 : (m + 1) % (m + 1) = 0 := Nat.mod_self _
    have last1 : f (list_get l.reverse m) (list_get l.reverse ((m + 1) % (m + 1)))
        = f (list_get l 0) (list_get l m) := by
      rw [e1, list_get_reverse l m (by omega), list_get_reverse l 0 (by omega), hn]
      simp
    have last2 : f (list_get l ((m + 1) % (m + 1))) (list_get l m)
        = f (list_get l 0) (list_get l m) := by rw [e1]
    beta_reduce
    rw [last1, last2]
    congr 1
    have e3 : ∑ x in Finset.range m, f (list_get l ((x + 1) % (m + 1))) (list_get l x)
        = ∑ x in Finset.range m, f (list_get l (x + 1)) (list_get l x) := by
      apply Finset.sum_congr rfl
      intro i hi
      have hi1 : i < m := Finset.mem_range.mp hi
      rw [Nat.mod_eq_of_lt (by omega)]
    rw [e3, ← Finset.sum_range_reflect (fun j => f (list_get l (j + 1)) (list_get l j)) m]
    apply Finset.sum_congr rfl
    intro i hi
    have hi1 : i < m := Finset.mem_range.mp hi
    rw [list_get_reverse l i (by omega), list_get_reverse l _ (by
      rw [hn]; exact Nat.mod_lt _ (by omega)), hn, Nat.mod_eq_of_lt (by omega : i + 1 < m + 1)]
    have a1 : m + 1 - 1 - i = m - 1 - i + 1 := by omega
    have a2 : m + 1 - 1 - (i + 1) = m - 1 - i := by omega
    rw [a1, a2]

/-- The area is half the cyclic sum of the cross products of the vertices seen from any
point. -/
theorem polygon_area_seen_from (l : List (vector_t K)) (w : vector_t K) :
    polygon_area l
      = cyc_sum (fun u v => vec_cross (vec_subtract u w) (vec_subtract v w)) l / 2 := by
  rw [polygon_area_cross,
    cyc_sum_tele (fun u v => vec_cross (vec_subtract u w) (vec_subtract v w)) vec_cross
      vec_cross 0 (fun z => -(vec_cross w z))]
  · ring
  · intro u v
    simp only [vec_cross, vec_subtract]
    ring

/-- C30: `polygon_area` equals the shoelace sum, half the sum over `i` of
`x_i * y_(i+1) - x_(i+1) * y_i` with indices wrapping; reversing the vertex order changes
its sign; it is positive when the vertices run counter-clockwise around some point `w`
(every edge is seen from `w` with a non-negative cross product, and one with a positive
one); the square of `make_shape` has area 4. -/
theorem polygon_area_shoelace (polygon : List (vector_t K)) :
    polygon_area polygon
        = (∑ i in Finset.range polygon.length,
            ((list_get polygon i).x * (list_get polygon ((i + 1) % polygon.length)).y
              - (list_get polygon ((i + 1) % polygon.length)).x * (list_get polygon i).y)) / 2
      ∧ polygon_area polygon.reverse = -polygon_area polygon
      ∧ (∀ w : vector_t K,
          (∀ i, i < polygon.length →
            0 ≤ vec_cross (vec_subtract (list_get polygon i) w)
              (vec_subtract (list_get polygon ((i + 1) % polygon.length)) w)) →
          (∃ i, i < polygon.length ∧
            0 < vec_cross (vec_subtract (list_get polygon i) w)
              (vec_subtract (list_get polygon ((i + 1) % polygon.length)) w)) →
          0 < polygon_area polygon)
      ∧ polygon_area (make_shape : List (vector_t K)) = 4 := by
  refine ⟨?_, ?_, ?_, polygon_area_make_shape⟩
  · rw [polygon_area_cross, cyc_sum]
    congr 1
    apply Finset.sum_congr rfl
    intro i _
    simp only [vec_cross]
    ring
  · rw [polygon_area_cross, polygon_area_cross, cyc_sum_reverse]
    have e : cyc_sum (fun u v => vec_cross v u) polygon = -cyc_sum vec_cross polygon := by
      unfold cyc_sum
      rw [← Finset.sum_neg_distrib]
      apply Finset.sum_congr rfl
      intro i _
      simp only [vec_cross]
      ring
    rw [e]
    ring
  · intro w hall hsome
    rw [polygon_area_seen_from polygon w, cyc_sum]
    apply div_pos _ (by norm_num)
    obtain ⟨i, hi, hpos⟩ := hsome
    exact Finset.sum_pos' (fun j hj => hall j (Finset.mem_range.mp hj))
      ⟨i, Finset.mem_range.mpr hi, hpos⟩

/-- Witness of C30: the square of `make_shape` runs counter-clockwise around the origin
and its area is positive. -/
theorem polygon_area_shoelace_witness :
    0 < polygon_area (make_shape : List (vector_t ℚ)) :=
  (polygon_area_shoelace (make_shape : List (vector_t ℚ))).2.2.1 ⟨0, 0⟩
    (by
      intro i hi
      have hi4 : i < 4 := hi
      interval_cases i <;>
        norm_num [make_shape, list_get, vec_cross, vec_subtract])
    ⟨0, by simp [make_shape], by norm_num [make_shape, list_get, vec_cross, vec_subtract]⟩

/-! ## Growth of the list of bodies -/

/-- A fresh list holds no value. -/
theorem list_init_holds {α : Type} (capacity : Nat) :
    (list_init capacity : list_t α).holds [] := by
  unfold list_init list_t.holds
  refine ⟨by simp, ?_, rfl, Nat.zero_le _, fun i hi => absurd hi (Nat.not_lt_zero i)⟩
  simp only
  split_ifs <;> omega

/-- A slot below the size of a list that holds `xs` reads the value of `xs`. -/
theorem list_get_holds {α : Type} (lst : list_t α) (xs : List α) (h : lst.holds xs) (i : Nat) :
    lst.list_get i = xs.get? i := by
  obtain ⟨_, _, hsize, _, hget⟩ := h
  unfold list_t.list_get list_t.list_size
  split_ifs with hi
  · exact hget i hi
  · rw [hsize] at hi
    simp only [List.get?_eq_getElem?]
    rw [List.getElem?_eq_none (by omega)]

/-- The function `list_add` on a list that holds `xs` succeeds, also when the array is
full, and the list then holds `xs` followed by the new value. -/
theorem list_add_holds {α : Type} (lst : list_t α) (xs : List α) (x : α) (h : lst.holds xs) :
    ∃ lst1, lst.list_add x = some lst1 ∧ lst1.holds (xs ++ [x]) := by
  obtain ⟨hlen, hcap, hsize, hle, hget⟩ := h
  have hens : lst.list_ensure_capacity.arr.length = lst.list_ensure_capacity.capacity
      ∧ lst.list_ensure_capacity.size = lst.size
      ∧ lst.size < lst.list_ensure_capacity.capacity
      ∧ ∀ i, i < lst.size → lst.list_ensure_capacity.arr.getD i none = lst.arr.getD i none := by
    unfold list_t.list_ensure_capacity list_t.list_size
    split_ifs with hfull
    · refine ⟨?_, rfl, ?_, ?_⟩
      · simp [GROWTH_FACTOR, hlen, hfull]
        omega
      · simp only [GROWTH_FACTOR]
        omega
      · intro i hi
        simp only [List.getD_eq_getElem?_getD]
        rw [List.getElem?_append_left (by simp [hlen, hfull]; omega), List.getElem?_take, if_pos hi]
    · exact ⟨hlen, rfl, by omega, fun _ _ => rfl⟩
  obtain ⟨elen, esize, elt, eget⟩ := hens
  have hrun : lst.list_add x = some
      { lst.list_ensure_capacity with
        arr := lst.list_ensure_capacity.arr.set lst.list_ensure_capacity.list_size (some x),
        size := lst.list_ensure_capacity.size + 1 } := by
    unfold list_t.list_add
    simp only [list_t.list_size, esize, elt, if_true]
  refine ⟨_, hrun, ?_, ?_, ?_, ?_, ?_⟩
  · simp [elen]
  · show 1 ≤ lst.list_ensure_capacity.capacity
    omega
  · simp [esize, hsize]
  · show lst.list_ensure_capacity.size + 1 ≤ lst.list_ensure_capacity.capacity
    omega
  · intro i hi
    have hi2 : i < lst.size + 1 := by simpa [esize] using hi
    simp only [list_t.list_size, esize, List.getD_eq_getElem?_getD, List.get?_eq_getElem?]
    by_cases hlast : i = lst.size
    · subst hlast
      rw [List.getElem?_set_self (by omega), hsize]
      simp
    · have hlt : i < lst.size := by omega
      rw [List.getElem?_set_ne (Ne.symm hlast), List.getElem?_append_left (by omega)]
      have e1 := eget i hlt
      have e2 := hget i hlt
      simp only [List.getD_eq_getElem?_getD, List.get?_eq_getElem?] at e1 e2
      rw [e1, e2]

/-- Calls of `list_add` with the values `ys` on a list that holds `xs` succeed, and the
list then holds `xs` followed by `ys`. -/
theorem list_add_all_holds {α : Type} (ys : List α) (lst : list_t α) (xs : List α)
    (h : lst.holds xs) :
    ∃ lst1, lst.list_add_all ys = some lst1 ∧ lst1.holds (xs ++ ys) := by
  induction ys generalizing lst xs with
  | nil => exact ⟨lst, rfl, by simpa using h⟩
  | cons y ys ih =>
    obtain ⟨lst1, h1, hh1⟩ := list_add_holds lst xs y h
    obtain ⟨lst2, h2, hh2⟩ := ih lst1 (xs ++ [y]) hh1
    refine ⟨lst2, ?_, by simpa using hh2⟩
    simp only [list_t.list_add_all, h1]
    exact h2

/-- The list of bodies of a scene after calls of `scene_add_body`. -/
theorem scene_add_body_foldl (values : List body_ptr) (scene : scene_t K) :
    (values.foldl scene_add_body scene).bodies = scene.bodies ++ values := by
  induction values generalizing scene with
  | nil => simp
  | cons v vs ih => rw [List.foldl_cons, ih]; simp [scene_add_body]

/-- C26: the bodies `values` added in order by `scene_add_body` to a fresh scene, any
number of them: on the array of list.c with initial capacity 10 every `list_add`
succeeds, the size is the number of bodies and `list_get` at `i` returns the `i`-th
body added; `scene_bodies` and `scene_get_body` of the scene return the same. -/
theorem scene_add_body_growth (values : List body_ptr) (mem : body_mem K) :
    (∃ lst, (list_init INITIAL_NUM_BODIES).list_add_all values = some lst
        ∧ lst.list_size = values.length
        ∧ ∀ i, lst.list_get i = values.get? i)
      ∧ scene_bodies (values.foldl scene_add_body (scene_init mem)) = values.length
      ∧ ∀ i, scene_get_body (values.foldl scene_add_body (scene_init mem)) i
          = values.get? i := by
  refine ⟨?_, ?_, ?_⟩
  · obtain ⟨lst, h1, h2⟩ := list_add_all_holds values (list_init INITIAL_NUM_BODIES) []
      (list_init_holds INITIAL_NUM_BODIES)
    rw [List.nil_append] at h2
    exact ⟨lst, h1, h2.2.2.1, list_get_holds lst values h2⟩
  · simp [scene_bodies, scene_add_body_foldl, scene_init]
  · intro i
    simp [scene_get_body, scene_add_body_foldl, scene_init]

/-! ## Spring test -/

/-- The centroid of the square of `make_shape` is the origin. -/
theorem polygon_centroid_make_shape :
    polygon_centroid (make_shape : List (vector_t K)) = ⟨0, 0⟩ := by
  simp [polygon_centroid, polygon_area, make_shape, list_get, List.range_succ]
  norm_num

/-- The spring scene of the test stands in its initial state. -/
theorem spring_scene_state : spring_state (spring_scene : scene_t K) 3 0 := by
  refine ⟨rfl, rfl, ⟨rfl, rfl, rfl, rfl, rfl, rfl⟩, ⟨rfl, ?_, rfl, rfl, rfl, rfl⟩⟩
  exact polygon_centroid_make_shape

/-- One `scene_tick` of the spring scene: the anchor stays, the mass moves by one step. -/
theorem spring_scene_tick (s : scene_t K) (dt x v : K) (hs : spring_state s x v) :
    ∃ s2, scene_tick s dt = some s2
      ∧ spring_state s2 (spring_step dt (x, v)).1 (spring_step dt (x, v)).2 := by
  obtain ⟨hb, hfa, ⟨hm0, hc0, hv0, hf0, hi0, hr0⟩, ⟨hm1, hc1, hv1, hf1, hi1, hr1⟩⟩ := hs
  have h01 : (0 : body_ptr) ≠ 1 := by decide
  have h10 : (1 : body_ptr) ≠ 0 := by decide
  have r0 : ∀ f, (body_add_force (s.mem 0) f).is_removed = false := fun _ => hr0
  have r1 : ∀ f, (body_add_force (s.mem 1) f).is_removed = false := fun _ => hr1
  refine ⟨{ s with
      mem := Function.update
        (Function.update
          (Function.update
            (Function.update s.mem 0 (body_add_force (s.mem 0)
              (vec_multiply 2 (vec_subtract (s.mem 1).centroid (s.mem 0).centroid))))
            1 (body_add_force (s.mem 1)
              (vec_negate (vec_multiply 2 (vec_subtract (s.mem 1).centroid (s.mem 0).centroid)))))
          1 (body_tick (body_add_force (s.mem 1)
              (vec_negate (vec_multiply 2 (vec_subtract (s.mem 1).centroid (s.mem 0).centroid))))
            dt))
        0 (body_tick (body_add_force (s.mem 0)
            (vec_multiply 2 (vec_subtract (s.mem 1).centroid (s.mem 0).centroid))) dt) },
    ?_, hb, hfa, ?_, ?_⟩
  · simp [scene_tick, hfa, hb, scene_tick_forces, spring_applier, apply_spring,
      scene_tick_bodies, body_is_removed, r0, r1, Function.update_noteq h10,
      Function.update_noteq h01]
  · simp only [Function.update_same]
    refine ⟨?_, ?_, ?_, ?_, ?_, ?_⟩
    · simpa [body_tick, body_add_force, body_set_centroid, body_set_velocity] using hm0
    · ext
      · simp [body_tick, body_add_force, body_set_centroid, body_set_velocity, vec_add,
          vec_multiply, vec_subtract, hm0, hc0, hc1, hv0, hf0, hi0, inv_mass, spring_step]
        ring
      · simp [body_tick, body_add_force, body_set_centroid, body_set_velocity, vec_add,
          vec_multiply, vec_subtract, hm0, hc0, hc1, hv0, hf0, hi0, inv_mass, spring_step]
    · ext
      · simp [body_tick, body_add_force, body_set_centroid, body_set_velocity, vec_add,
          vec_multiply, vec_subtract, hm0, hc0, hc1, hv0, hf0, hi0, inv_mass, spring_step]
        ring
      · simp [body_tick, body_add_force, body_set_centroid, body_set_velocity, vec_add,
          vec_multiply, vec_subtract, hm0, hc0, hc1, hv0, hf0, hi0, inv_mass, spring_step]
    · simp [body_tick]
    · simp [body_tick]
    · simpa [body_tick, body_add_force, body_set_centroid, body_set_velocity] using hr0
  · simp only [Function.update_noteq h10, Function.update_same]
    refine ⟨?_, ?_, ?_, ?_, ?_, ?_⟩
    · simpa [body_tick, body_add_force, body_set_centroid, body_set_velocity] using hm1
    · ext <;>
        simp [body_tick, body_add_force, body_set_centroid, body_set_velocity, vec_add,
          vec_multiply, hm1, hc1, hv1, hf1, hi1, inv_mass]
    · ext <;>
        simp [body_tick, body_add_force, body_set_centroid, body_set_velocity, vec_add,
          vec_multiply, hm1, hc1, hv1, hf1, hi1, inv_mass]
    · simp [body_tick]
    · simp [body_tick]
    · simpa [body_tick, body_add_force, body_set_centroid, body_set_velocity] using hr1

/-- Any number of ticks of the spring scene succeeds; the mass follows `spring_orbit` and
the anchor stays at the origin. -/
theorem spring_scene_ticks (dt : K) (n : Nat) :
    ∃ s, scene_ticks dt n (spring_scene : scene_t K) = some s
      ∧ spring_state s (spring_orbit dt n).1 (spring_orbit dt n).2 := by
  have key : ∀ (n : Nat) (s : scene_t K) (x v : K), spring_state s x v →
      ∃ s2, scene_ticks dt n s = some s2
        ∧ spring_state s2 ((spring_step dt)^[n] (x, v)).1 ((spring_step dt)^[n] (x, v)).2 := by
    intro n
    induction n with
    | zero => intro s x v hs; exact ⟨s, rfl, hs⟩
    | succ n ih =>
      intro s x v hs
      obtain ⟨s1, h1, hs1⟩ := spring_scene_tick s dt x v hs
      obtain ⟨s2, h2, hs2⟩ := ih s1 _ _ hs1
      refine ⟨s2, by rw [scene_ticks, h1]; exact h2, ?_⟩
      rw [Function.iterate_succ_apply]
      exact hs2
  have horbit : ∀ n, spring_orbit dt n = (spring_step dt)^[n] (3, 0) := by
    intro n
    induction n with
    | zero => rfl
    | succ n ih => rw [spring_orbit, ih, Function.iterate_succ_apply']
  obtain ⟨s, h1, h2⟩ := key n spring_scene 3 0 spring_scene_state
  exact ⟨s, h1, by rw [horbit]; exact h2⟩

/-- The absolute value of a sum of four terms. -/
theorem abs_add_four (p q r s : ℝ) : |p + q + r + s| ≤ |p| + |q| + |r| + |s| := by
  have h1 := abs_add (p + q + r) s
  have h2 := abs_add (p + q) r
  have h3 := abs_add p q
  linarith

/-- One step of the error of the spring orbit against the harmonic motion. -/
theorem spring_step_bound (a b c sn cθ sθ ω dt h : ℝ) (hh : h = ω * dt) (hω : 0 ≤ ω)
    (hdt : 0 ≤ dt) (hh0 : 0 ≤ h) (hh1 : h ≤ 1)
    (hc1 : |1 - h ^ 2 / 2 - c| ≤ h ^ 2 / 2) (hc2 : |1 - c| ≤ h ^ 2 / 2)
    (hs : |h - sn| ≤ h ^ 3 / 4) (hcθ : |cθ| ≤ 1) (hsθ : |sθ| ≤ 1) :
    ω * |(1 - h ^ 2 / 2) * a + dt * b + 3 * (1 - h ^ 2 / 2 - c) * cθ - 3 * (h - sn) * sθ|
        + |b - ω * h * a - 3 * ω * cθ * (h - sn) - 3 * ω * sθ * (1 - c)|
      ≤ (1 + h) * (ω * |a| + |b|) + 3 * ω * (h ^ 2 + h ^ 3 / 2) := by
  have h3 : (0 : ℝ) ≤ h ^ 3 := by positivity
  have t1 : |(1 - h ^ 2 / 2) * a| ≤ |a| := by
    rw [abs_mul]
    have e : |1 - h ^ 2 / 2| ≤ 1 := by
      rw [abs_le]
      constructor <;> nlinarith
    calc |1 - h ^ 2 / 2| * |a| ≤ 1 * |a| := by gcongr
      _ = |a| := one_mul _
  have t2 : |dt * b| = dt * |b| := by rw [abs_mul, abs_of_nonneg hdt]
  have t3 : |3 * (1 - h ^ 2 / 2 - c) * cθ| ≤ 3 * (h ^ 2 / 2) := by
    rw [abs_mul, abs_mul, abs_of_pos (by norm_num : (0 : ℝ) < 3)]
    calc 3 * |1 - h ^ 2 / 2 - c| * |cθ| ≤ 3 * (h ^ 2 / 2) * 1 := by gcongr
      _ = 3 * (h ^ 2 / 2) := mul_one _
  have t4 : |-(3 * (h - sn) * sθ)| ≤ 3 * (h ^ 3 / 4) := by
    rw [abs_neg, abs_mul, abs_mul, abs_of_pos (by norm_num : (0 : ℝ) < 3)]
    calc 3 * |h - sn| * |sθ| ≤ 3 * (h ^ 3 / 4) * 1 := by gcongr
      _ = 3 * (h ^ 3 / 4) := mul_one _
  have u2 : |-(ω * h * a)| = ω * h * |a| := by
    rw [abs_neg, abs_mul, abs_of_nonneg (mul_nonneg hω hh0)]
  have u3 : |-(3 * ω * cθ * (h - sn))| ≤ 3 * ω * (h ^ 3 / 4) := by
    rw [abs_neg, abs_mul, abs_mul, abs_of_nonneg (by positivity : (0 : ℝ) ≤ 3 * ω)]
    calc 3 * ω * |cθ| * |h - sn| ≤ 3 * ω * 1 * (h ^ 3 / 4) := by gcongr
      _ = 3 * ω * (h ^ 3 / 4) := by ring
  have u4 : |-(3 * ω * sθ * (1 - c))| ≤ 3 * ω * (h ^ 2 / 2) := by
    rw [abs_neg, abs_mul, abs_mul, abs_of_nonneg (by positivity : (0 : ℝ) ≤ 3 * ω)]
    calc 3 * ω * |sθ| * |1 - c| ≤ 3 * ω * 1 * (h ^ 2 / 2) := by gcongr
      _ = 3 * ω * (h ^ 2 / 2) := by ring
  have A := abs_add_four ((1 - h ^ 2 / 2) * a) (dt * b) (3 * (1 - h ^ 2 / 2 - c) * cθ)
    (-(3 * (h - sn) * sθ))
  have B := abs_add_four b (-(ω * h * a)) (-(3 * ω * cθ * (h - sn)))
    (-(3 * ω * sθ * (1 - c)))
  have eA : (1 - h ^ 2 / 2) * a + dt * b + 3 * (1 - h ^ 2 / 2 - c) * cθ - 3 * (h - sn) * sθ
      = (1 - h ^ 2 / 2) * a + dt * b + 3 * (1 - h ^ 2 / 2 - c) * cθ + -(3 * (h - sn) * sθ) := by
    ring
  have eB : b - ω * h * a - 3 * ω * cθ * (h - sn) - 3 * ω * sθ * (1 - c)
      = b + -(ω * h * a) + -(3 * ω * cθ * (h - sn)) + -(3 * ω * sθ * (1 - c)) := by ring
  rw [eA, eB]
  have A2 : |(1 - h ^ 2 / 2) * a + dt * b + 3 * (1 - h ^ 2 / 2 - c) * cθ + -(3 * (h - sn) * sθ)|
      ≤ |a| + dt * |b| + 3 * (h ^ 2 / 2) + 3 * (h ^ 3 / 4) := by linarith
  have B2 : |b + -(ω * h * a) + -(3 * ω * cθ * (h - sn)) + -(3 * ω * sθ * (1 - c))|
      ≤ |b| + ω * h * |a| + 3 * ω * (h ^ 3 / 4) + 3 * ω * (h ^ 2 / 2) := by linarith
  have A3 := mul_le_mul_of_nonneg_left A2 hω
  have e : ω * dt = h := hh.symm
  calc ω * |(1 - h ^ 2 / 2) * a + dt * b + 3 * (1 - h ^ 2 / 2 - c) * cθ + -(3 * (h - sn) * sθ)|
        + |b + -(ω * h * a) + -(3 * ω * cθ * (h - sn)) + -(3 * ω * sθ * (1 - c))|
      ≤ ω * (|a| + dt * |b| + 3 * (h ^ 2 / 2) + 3 * (h ^ 3 / 4))
        + (|b| + ω * h * |a| + 3 * ω * (h ^ 3 / 4) + 3 * ω * (h ^ 2 / 2)) := add_le_add A3 B2
    _ = (1 + h) * (ω * |a| + |b|) + 3 * ω * (h ^ 2 + h ^ 3 / 2) := by
      rw [hh]; ring

/-- The velocity of the mass of the spring scene after `i ≤ 100000` ticks of a
microsecond against the harmonic motion of amplitude 3 and angular frequency
`sqrt (2 / 10)`. -/
theorem spring_orbit_error (i : ℕ) (hi : i ≤ 100000) :
    |(spring_orbit (1 / 1000000 : ℝ) i).2
        - -3 * Real.sqrt (2 / 10) * Real.sin (Real.sqrt (2 / 10) * (i : ℝ) * (1 / 1000000))|
      ≤ 1 / 10000000 := by
  have hω0 : 0 ≤ Real.sqrt (2 / 10) := Real.sqrt_nonneg _
  have hω2 : Real.sqrt (2 / 10) ^ 2 = 1 / 5 := by
    rw [Real.sq_sqrt (by norm_num)]; norm_num
  generalize Real.sqrt (2 / 10) = ω at hω0 hω2
  have hω1 : ω ≤ 9 / 20 := by nlinarith
  have hωpos : 0 < ω := by
    rcases hω0.lt_or_eq with h | h
    · exact h
    · rw [← h] at hω2; norm_num at hω2
  have hh0 : 0 < ω * (1 / 1000000) := by positivity
  have hhle : ω * (1 / 1000000) ≤ 9 / 20000000 := by linarith
  have hh2 : (ω * (1 / 1000000)) ^ 2 = 1 / 5000000000000 := by
    rw [mul_pow, hω2]; norm_num
  have hh3 : (ω * (1 / 1000000)) ^ 3 ≤ 1 / 5000000000000 * (9 / 20000000) := by
    rw [pow_succ, hh2]
    exact mul_le_mul_of_nonneg_left hhle (by norm_num)
  have hc0 : Real.cos (ω * (1 / 1000000)) ≤ 1 := Real.cos_le_one _
  have hc3 := Real.one_sub_sq_div_two_le_cos (x := ω * (1 / 1000000))
  have hs0 : Real.sin (ω * (1 / 1000000)) < ω * (1 / 1000000) := Real.sin_lt hh0
  have hs3 := Real.sin_gt_sub_cube hh0 (by linarith)
  have hc1 : |1 - (ω * (1 / 1000000)) ^ 2 / 2 - Real.cos (ω * (1 / 1000000))|
      ≤ (ω * (1 / 1000000)) ^ 2 / 2 := by
    rw [abs_le]; constructor <;> linarith
  have hc2 : |1 - Real.cos (ω * (1 / 1000000))| ≤ (ω * (1 / 1000000)) ^ 2 / 2 := by
    rw [abs_le]; constructor <;> linarith
  have hs : |ω * (1 / 1000000) - Real.sin (ω * (1 / 1000000))|
      ≤ (ω * (1 / 1000000)) ^ 3 / 4 := by
    rw [abs_le]; constructor <;> linarith [pow_pos hh0 3]
  have key : ∀ n : ℕ, n ≤ 100000 →
      ω * |(spring_orbit (1 / 1000000 : ℝ) n).1 - 3 * Real.cos (ω * (n : ℝ) * (1 / 1000000))|
        + |(spring_orbit (1 / 1000000 : ℝ) n).2
            - -3 * ω * Real.sin (ω * (n : ℝ) * (1 / 1000000))|
        ≤ (n : ℝ) * (5 / 10000000000000) := by
    intro n
    induction n with
    | zero =>
      intro _
      simp [spring_orbit]
    | succ n ih =>
      intro hn
      have ihn := ih (by omega)
      have hnR : (n : ℝ) ≤ 100000 := by
        have : n ≤ 100000 := by omega
        exact_mod_cast this
      have hθ : ω * ((n + 1 : ℕ) : ℝ) * (1 / 1000000)
          = ω * (n : ℝ) * (1 / 1000000) + ω * (1 / 1000000) := by
        push_cast; ring
      have step := spring_step_bound
        ((spring_orbit (1 / 1000000 : ℝ) n).1 - 3 * Real.cos (ω * (n : ℝ) * (1 / 1000000)))
        ((spring_orbit (1 / 1000000 : ℝ) n).2
          - -3 * ω * Real.sin (ω * (n : ℝ) * (1 / 1000000)))
        (Real.cos (ω * (1 / 1000000))) (Real.sin (ω * (1 / 1000000)))
        (Real.cos (ω * (n : ℝ) * (1 / 1000000))) (Real.sin (ω * (n : ℝ) * (1 / 1000000)))
        ω (1 / 1000000) (ω * (1 / 1000000)) rfl hωpos.le (by norm_num) hh0.le (by linarith)
        hc1 hc2 hs (Real.abs_cos_le_one _) (Real.abs_sin_le_one _)
      have ea : (spring_orbit (1 / 1000000 : ℝ) (n + 1)).1
            - 3 * Real.cos (ω * ((n + 1 : ℕ) : ℝ) * (1 / 1000000))
          = (1 - (ω * (1 / 1000000)) ^ 2 / 2)
              * ((spring_orbit (1 / 1000000 : ℝ) n).1
                - 3 * Real.cos (ω * (n : ℝ) * (1 / 1000000)))
            + 1 / 1000000 * ((spring_orbit (1 / 1000000 : ℝ) n).2
                - -3 * ω * Real.sin (ω * (n : ℝ) * (1 / 1000000)))
            + 3 * (1 - (ω * (1 / 1000000)) ^ 2 / 2 - Real.cos (ω * (1 / 1000000)))
              * Real.cos (ω * (n : ℝ) * (1 / 1000000))
            - 3 * (ω * (1 / 1000000) - Real.sin (ω * (1 / 1000000)))
              * Real.sin (ω * (n : ℝ) * (1 / 1000000)) := by
        rw [hθ, Real.cos_add]
        simp only [spring_orbit, spring_step]
        linear_combination
          ((1 / 1000000 : ℝ) ^ 2 * (spring_orbit (1 / 1000000 : ℝ) n).1 / 2) * hω2
      have eb : (spring_orbit (1 / 1000000 : ℝ) (n + 1)).2
            - -3 * ω * Real.sin (ω * ((n + 1 : ℕ) : ℝ) * (1 / 1000000))
          = ((spring_orbit (1 / 1000000 : ℝ) n).2
                - -3 * ω * Real.sin (ω * (n : ℝ) * (1 / 1000000)))
            - ω * (ω * (1 / 1000000)) * ((spring_orbit (1 / 1000000 : ℝ) n).1
                - 3 * Real.cos (ω * (n : ℝ) * (1 / 1000000)))
            - 3 * ω * Real.cos (ω * (n : ℝ) * (1 / 1000000))
              * (ω * (1 / 1000000) - Real.sin (ω * (1 / 1000000)))
            - 3 * ω * Real.sin (ω * (n : ℝ) * (1 / 1000000))
              * (1 - Real.cos (ω * (1 / 1000000))) := by
        rw [hθ, Real.sin_add]
        simp only [spring_orbit, spring_step]
        linear_combination
          ((1 / 1000000 : ℝ) * (spring_orbit (1 / 1000000 : ℝ) n).1) * hω2
      rw [ea, eb]
      refine le_trans step ?_
      have hT0 : 0 ≤ (n : ℝ) * (5 / 10000000000000) := by positivity
      have hprod : ω * (1 / 1000000) * ((n : ℝ) * (5 / 10000000000000))
          ≤ 9 / 20000000 * (100000 * (5 / 10000000000000)) := by
        apply mul_le_mul hhle _ hT0 (by norm_num)
        exact mul_le_mul_of_nonneg_right hnR (by norm_num)
      have hE : 3 * ω * ((ω * (1 / 1000000)) ^ 2 + (ω * (1 / 1000000)) ^ 3 / 2)
          ≤ 3 * (9 / 20) * (1 / 5000000000000 + 1 / 5000000000000 * (9 / 20000000) / 2) := by
        have hnn : 0 ≤ (ω * (1 / 1000000)) ^ 2 + (ω * (1 / 1000000)) ^ 3 / 2 := by positivity
        apply mul_le_mul _ _ hnn (by norm_num)
        · linarith
        · linarith
      have hmul : (1 + ω * (1 / 1000000))
          * (ω * |(spring_orbit (1 / 1000000 : ℝ) n).1
                - 3 * Real.cos (ω * (n : ℝ) * (1 / 1000000))|
            + |(spring_orbit (1 / 1000000 : ℝ) n).2
                - -3 * ω * Real.sin (ω * (n : ℝ) * (1 / 1000000))|)
          ≤ (1 + ω * (1 / 1000000)) * ((n : ℝ) * (5 / 10000000000000)) :=
        mul_le_mul_of_nonneg_left ihn (by linarith)
      push_cast
      have hnum : (9 : ℝ) / 20000000 * (100000 * (5 / 10000000000000))
          + 3 * (9 / 20) * (1 / 5000000000000 + 1 / 5000000000000 * (9 / 20000000) / 2)
          ≤ 5 / 10000000000000 := by norm_num
      linarith
  have hk := key i hi
  have hiR : (i : ℝ) ≤ 100000 := by exact_mod_cast hi
  have hnn : 0 ≤ ω * |(spring_orbit (1 / 1000000 : ℝ) i).1
      - 3 * Real.cos (ω * (i : ℝ) * (1 / 1000000))| := by positivity
  have hfin : (i : ℝ) * (5 / 10000000000000) ≤ 1 / 10000000 := by linarith
  linarith

/-- C21: in the spring scene of the test (mass 10 released at rest from (3, 0), spring
constant 2, anchor of infinite mass at the origin, time step 1e-6), for every
`i ≤ 100000` the first `i` calls of `scene_tick` succeed, the centroid of the anchor is
then exactly (0, 0), and the velocity of the mass is within 1e-7 per component of
`(-1 * 3 * sqrt (2 / 10) * sin (sqrt (2 / 10) * i * 1e-6), 0)`. -/
theorem spring_velocity_test (i : ℕ) (hi : i ≤ 100000) :
    ∃ s, scene_ticks (1 / 1000000 : ℝ) i spring_scene = some s
      ∧ (s.mem 1).centroid = ⟨0, 0⟩
      ∧ |(s.mem 0).vel.x - -1 * 3 * Real.sqrt (2 / 10)
            * Real.sin (Real.sqrt (2 / 10) * (i : ℝ) * (1 / 1000000))| ≤ 1 / 10000000
      ∧ |(s.mem 0).vel.y - 0| ≤ 1 / 10000000 := by
  obtain ⟨s, h1, _, _, ⟨_, _, hv0, _⟩, ⟨_, hc1, _⟩⟩ := spring_scene_ticks (1 / 1000000 : ℝ) i
  refine ⟨s, h1, hc1, ?_, ?_⟩
  · rw [hv0]
    have h := spring_orbit_error i hi
    have e : (-1 : ℝ) * 3 = -3 := by norm_num
    rw [e]
    exact h
  · rw [hv0]
    norm_num

/-- Witness of C21: the last step, `i = 100000`. -/
theorem spring_velocity_test_witness :
    ∃ s, scene_ticks (1 / 1000000 : ℝ) 100000 spring_scene = some s
      ∧ (s.mem 1).centroid = ⟨0, 0⟩
      ∧ |(s.mem 0).vel.x - -1 * 3 * Real.sqrt (2 / 10)
            * Real.sin (Real.sqrt (2 / 10) * ((100000 : ℕ) : ℝ) * (1 / 1000000))|
          ≤ 1 / 10000000
      ∧ |(s.mem 0).vel.y - 0| ≤ 1 / 10000000 :=
  spring_velocity_test 100000 (le_refl _)

/-- Witness of C28: a body created with the negative mass -1 has that mass. -/
theorem body_init_any_mass_witness :
    (body_init (make_shape : List (vector_t ℚ)) (Mass.finite (-1))).mass = Mass.finite (-1) :=
  (body_init_any_mass (make_shape : List (vector_t ℚ)) (Mass.finite (-1))).1

/-! ## Rotation of a vector -/

/-- C33: `vec_rotate` with the cosine and sine of the reals is the standard rotation:
`vec_rotate v a = (x cos a - y sin a, x sin a + y cos a)`, rotating by `a` and then by
`b` is rotating by `a + b`, and `vec_dot v v` is preserved. -/
theorem vec_rotate_standard (v : vector_t ℝ) (a b : ℝ) :
    vec_rotate Real.cos Real.sin v a
        = ⟨v.x * Real.cos a - v.y * Real.sin a, v.x * Real.sin a + v.y * Real.cos a⟩
      ∧ vec_rotate Real.cos Real.sin (vec_rotate Real.cos Real.sin v a) b
          = vec_rotate Real.cos Real.sin v (a + b)
      ∧ vec_dot (vec_rotate Real.cos Real.sin v a) (vec_rotate Real.cos Real.sin v a)
          = vec_dot v v := by
  refine ⟨rfl, ?_, ?_⟩
  · ext
    · simp only [vec_rotate, Real.cos_add, Real.sin_add]; ring
    · simp only [vec_rotate, Real.cos_add, Real.sin_add]; ring
  · simp only [vec_rotate, vec_dot]
    linear_combination (v.x ^ 2 + v.y ^ 2) * Real.cos_sq_add_sin_sq a

/-! ## Centroid of a rectangle -/

/-- C40: for non-zero `w` and `h` the rectangle `(x0, y0)`, `(x0 + w, y0)`,
`(x0 + w, y0 + h)`, `(x0, y0 + h)` has `polygon_centroid` `(x0 + w / 2, y0 + h / 2)`, the
shape of `make_rect_shape w h` has centroid `(w / 2, h / 2)`, and a body created from the
square of `make_shape` has centroid exactly (0, 0). -/
theorem polygon_centroid_rectangle (x0 y0 w h : K) (hw : w ≠ 0) (hh : h ≠ 0) (mass : Mass K) :
    polygon_centroid (rectangle x0 y0 w h) = ⟨x0 + w / 2, y0 + h / 2⟩
      ∧ polygon_centroid (make_rect_shape w h) = ⟨w / 2, h / 2⟩
      ∧ (body_init (make_shape : List (vector_t K)) mass).centroid = ⟨0, 0⟩ := by
  have key : ∀ a b : K, polygon_centroid (rectangle a b w h) = ⟨a + w / 2, b + h / 2⟩ := by
    intro a b
    have harea : polygon_area (rectangle a b w h) = w * h := by
      simp [polygon_area, rectangle, list_get, List.range_succ]
      ring
    unfold polygon_centroid
    rw [harea]
    ext
    · simp [rectangle, list_get, List.range_succ]
      field_simp
      ring
    · simp [rectangle, list_get, List.range_succ]
      field_simp
      ring
  refine ⟨key x0 y0, ?_, ?_⟩
  · have e : make_rect_shape w h = rectangle 0 0 w h := by simp [make_rect_shape, rectangle]
    rw [e, key 0 0]
    simp
  · show polygon_centroid (make_shape : List (vector_t K)) = ⟨0, 0⟩
    exact polygon_centroid_make_shape

/-- Witness of C40: the rectangle with corner (1, 2), width 4 and height 6. -/
theorem polygon_centroid_rectangle_witness :
    polygon_centroid (rectangle (1 : ℚ) 2 4 6) = ⟨1 + 4 / 2, 2 + 6 / 2⟩ :=
  (polygon_centroid_rectangle (1 : ℚ) 2 4 6 (by norm_num) (by norm_num) Mass.infinity).1

/-! ## Argument order of the separating axis test -/

/-- The interval test of an edge of the first shape is the test the swapped call makes
for the same edge. -/
theorem edge_test_swap_left (sqrt : K → K) (s1 s2 : List (vector_t K)) (i : Nat)
    (hi : i < s1.length) :
    edge_test sqrt s2 s1 (s2.length + i) = edge_test sqrt s1 s2 i := by
  have h1 : ¬ (s2.length + i < s2.length) := by omega
  simp only [edge_test, edge_normal, edge_ends, hi, h1, if_true, if_false,
    Nat.add_sub_cancel_left]

/-- The interval test of an edge of the second shape is the test the swapped call makes
for the same edge. -/
theorem edge_test_swap_right (sqrt : K → K) (s1 s2 : List (vector_t K)) (i : Nat)
    (hi : i < s2.length) :
    edge_test sqrt s2 s1 i = edge_test sqrt s1 s2 (s1.length + i) := by
  have h1 : ¬ (s1.length + i < s1.length) := by omega
  simp only [edge_test, edge_normal, edge_ends, hi, h1, if_true, if_false,
    Nat.add_sub_cancel_left]

/-- Some edge of the two shapes has disjoint intervals in one argument order exactly when
one has in the other. -/
theorem edge_test_none_swap (sqrt : K → K) (s1 s2 : List (vector_t K))
    (h : ∃ i ∈ List.range (s1.length + s2.length), edge_test sqrt s1 s2 i = none) :
    ∃ i ∈ List.range (s2.length + s1.length), edge_test sqrt s2 s1 i = none := by
  obtain ⟨i, hi, he⟩ := h
  rw [List.mem_range] at hi
  by_cases h1 : i < s1.length
  · refine ⟨s2.length + i, by rw [List.mem_range]; omega, ?_⟩
    rw [edge_test_swap_left sqrt s1 s2 i h1, he]
  · refine ⟨i - s1.length, by rw [List.mem_range]; omega, ?_⟩
    rw [edge_test_swap_right sqrt s1 s2 (i - s1.length) (by omega)]
    have e : s1.length + (i - s1.length) = i := by omega
    rw [e, he]

/-- C38: the verdict of `find_collision` does not depend on the order of its two
arguments. -/
theorem find_collision_symmetric (sqrt : K → K) (shape1 shape2 : List (vector_t K)) :
    (find_collision sqrt shape1 shape2).collided
      = (find_collision sqrt shape2 shape1).collided := by
  have h12 := find_collision_loop_collided sqrt shape1 shape2
    (List.range (shape1.length + shape2.length)) none none
  have h21 := find_collision_loop_collided sqrt shape2 shape1
    (List.range (shape2.length + shape1.length)) none none
  have hiff : (find_collision sqrt shape1 shape2).collided = false
      ↔ (find_collision sqrt shape2 shape1).collided = false := by
    unfold find_collision
    rw [h12, h21]
    exact ⟨edge_test_none_swap sqrt shape1 shape2, edge_test_none_swap sqrt shape2 shape1⟩
  cases ha : (find_collision sqrt shape1 shape2).collided <;>
    cases hb : (find_collision sqrt shape2 shape1).collided <;> simp_all

/-! ## Frame of the force laws -/

/-- C34: `apply_spring` and `apply_drag` always return, `apply_newtonian_gravity` returns
for two finite masses and whenever the distance is below 5, and each of the three,
when it returns, leaves the `force_aux_t` and the centroid, velocity, impulse
accumulator, shape, mass, removed flag and rotation of every body unchanged, and the
force accumulator of every body other than its own one or two bodies. -/
theorem force_laws_frame (sqrt : K → K) (aux : force_aux_t K) (mem : body_mem K) :
    (∃ mem2, apply_spring aux mem = some (aux, mem2)
        ∧ only_forces mem mem2 [aux.body1, aux.body2])
      ∧ (∃ mem2, apply_drag aux mem = some (aux, mem2) ∧ only_forces mem mem2 [aux.body1])
      ∧ (∀ aux2 mem2, apply_newtonian_gravity sqrt aux mem = some (aux2, mem2) →
          aux2 = aux ∧ only_forces mem mem2 [aux.body1, aux.body2])
      ∧ ((∃ mA mB, (mem aux.body1).mass = Mass.finite mA
            ∧ (mem aux.body2).mass = Mass.finite mB)
          ∨ centroid_distance sqrt (mem aux.body1).centroid (mem aux.body2).centroid < 5 →
          ∃ mem2, apply_newtonian_gravity sqrt aux mem = some (aux, mem2)) := by
  have frame2 : ∀ f g : vector_t K, only_forces mem
      (Function.update (Function.update mem aux.body1 (body_add_force (mem aux.body1) f))
        aux.body2 (body_add_force
          (Function.update mem aux.body1 (body_add_force (mem aux.body1) f) aux.body2) g))
      [aux.body1, aux.body2] := by
    intro f g p
    by_cases h2 : p = aux.body2
    · subst h2
      rw [Function.update_same]
      by_cases h1 : aux.body2 = aux.body1
      · rw [h1, Function.update_same]
        simp [body_add_force]
      · rw [Function.update_noteq h1]
        simp [body_add_force]
    · rw [Function.update_noteq h2]
      by_cases h1 : p = aux.body1
      · subst h1
        rw [Function.update_same]
        simp [body_add_force]
      · rw [Function.update_noteq h1]
        simp [h1, h2]
  refine ⟨⟨_, rfl, frame2 _ _⟩, ⟨_, rfl, ?_⟩, ?_, ?_⟩
  · intro p
    by_cases h1 : p = aux.body1
    · subst h1
      rw [Function.update_same]
      simp [body_add_force]
    · rw [Function.update_noteq h1]
      simp [h1]
  · intro aux2 mem2 h
    unfold apply_newtonian_gravity at h
    simp only [] at h
    split_ifs at h with hd
    · cases hA : (mem aux.body1).mass with
      | infinity => rw [hA] at h; simp at h
      | finite mA =>
        cases hB : (mem aux.body2).mass with
        | infinity => rw [hA, hB] at h; simp at h
        | finite mB =>
          rw [hA, hB] at h
          simp only [Option.some.injEq, Prod.mk.injEq] at h
          obtain ⟨h1, h2⟩ := h
          refine ⟨h1.symm, ?_⟩
          rw [← h2]
          exact frame2 _ _
    · simp only [Option.some.injEq, Prod.mk.injEq] at h
      obtain ⟨h1, h2⟩ := h
      refine ⟨h1.symm, ?_⟩
      rw [← h2]
      intro p
      simp
  · intro h
    by_cases hd : centroid_distance sqrt (mem aux.body1).centroid (mem aux.body2).centroid < 5
    · exact ⟨mem, apply_newtonian_gravity_near sqrt aux mem hd⟩
    · rcases h with ⟨mA, mB, hA, hB⟩ | h
      · have hd2 : sqrt (vec_dot (vec_subtract (mem aux.body2).centroid
            (mem aux.body1).centroid) (vec_subtract (mem aux.body2).centroid
            (mem aux.body1).centroid)) ≥ 5 := not_lt.mp hd
        simp only [apply_newtonian_gravity, MINIMUM_DISTANCE, if_pos hd2, hA, hB]
        exact ⟨_, rfl⟩
      · exact absurd h hd

/-! ## Direction angle -/

/-- The arc tangent of a positive number is positive. -/
theorem arctan_pos_of_pos (t : ℝ) (ht : 0 < t) : 0 < Real.arctan t := by
  have h := Real.arctan_strictMono ht
  rwa [Real.arctan_zero] at h

/-- The arc tangent of a negative number is negative. -/
theorem arctan_neg_of_neg (t : ℝ) (ht : t < 0) : Real.arctan t < 0 := by
  have h := Real.arctan_strictMono ht
  rwa [Real.arctan_zero] at h

/-- The direction angle in terms of the components as the function reads them. -/
theorem vec_direction_angle_snap (atan : K → K) (pi : K) (v : vector_t K) :
    vec_direction_angle atan pi v
      = if snap_component v.x ≥ 0 then
          if snap_component v.y > 0 then atan_div atan pi (snap_component v.y) (snap_component v.x)
          else if snap_component v.y < 0 then
            2 * pi + atan_div atan pi (snap_component v.y) (snap_component v.x)
          else 0
        else
          if snap_component v.y > 0 then
            pi + atan_div atan pi (snap_component v.y) (snap_component v.x)
          else if snap_component v.y < 0 then
            pi + atan_div atan pi (snap_component v.y) (snap_component v.x)
          else pi := rfl

/-- The value of `atan(y / x)` as the function computes it lies between `-pi / 2` and
`pi / 2`; for `x ≥ 0` it has the sign of `y`, for `x < 0` the opposite sign. -/
theorem atan_div_bounds (y x : ℝ) (hy : y ≠ 0) :
    -(Real.pi / 2) ≤ atan_div Real.arctan Real.pi y x
      ∧ atan_div Real.arctan Real.pi y x ≤ Real.pi / 2
      ∧ (0 ≤ x → 0 < y → 0 < atan_div Real.arctan Real.pi y x)
      ∧ (0 ≤ x → y < 0 → atan_div Real.arctan Real.pi y x < 0)
      ∧ (x < 0 → 0 < y → atan_div Real.arctan Real.pi y x < 0)
      ∧ (x < 0 → y < 0 → 0 < atan_div Real.arctan Real.pi y x) := by
  have hpi := Real.pi_pos
  unfold atan_div
  by_cases hx : x = 0
  · subst hx
    simp only [if_true]
    by_cases hy0 : 0 < y
    · rw [if_pos hy0]
      refine ⟨by linarith, le_refl _, fun _ _ => by linarith, fun _ h => absurd h (not_lt.mpr hy0.le),
        fun h => absurd h (lt_irrefl _), fun h => absurd h (lt_irrefl _)⟩
    · rw [if_neg hy0]
      have hy1 : y < 0 := lt_of_le_of_ne (not_lt.mp hy0) hy
      refine ⟨le_refl _, by linarith, fun _ h => absurd h hy0, fun _ _ => by linarith,
        fun h => absurd h (lt_irrefl _), fun h => absurd h (lt_irrefl _)⟩
  · simp only [hx, if_false]
    have hlt := Real.arctan_lt_pi_div_two (y / x)
    have hgt := Real.neg_pi_div_two_lt_arctan (y / x)
    refine ⟨hgt.le, hlt.le, ?_, ?_, ?_, ?_⟩
    · intro h0 hy0
      exact arctan_pos_of_pos _ (div_pos hy0 (lt_of_le_of_ne h0 (Ne.symm hx)))
    · intro h0 hy0
      exact arctan_neg_of_neg _ (div_neg_of_neg_of_pos hy0 (lt_of_le_of_ne h0 (Ne.symm hx)))
    · intro h0 hy0
      exact arctan_neg_of_neg _ (div_neg_of_pos_of_neg hy0 h0)
    · intro h0 hy0
      exact arctan_pos_of_pos _ (div_pos_of_neg_of_neg hy0 h0)

/-- C31: over the reals, with the arc tangent and the number pi, `vec_direction_angle`
of every vector lies in the half-open interval from 0 to `2 * pi`, and the angle of the
zero vector is 0. -/
theorem vec_direction_angle_range (v : vector_t ℝ) :
    0 ≤ vec_direction_angle Real.arctan Real.pi v
      ∧ vec_direction_angle Real.arctan Real.pi v < 2 * Real.pi
      ∧ vec_direction_angle Real.arctan Real.pi ⟨0, 0⟩ = 0 := by
  have hpi := Real.pi_pos
  have hz : vec_direction_angle Real.arctan Real.pi ⟨0, 0⟩ = 0 := by
    simp [vec_direction_angle]
  rw [vec_direction_angle_snap]
  generalize snap_component v.x = x
  generalize snap_component v.y = y
  have key : 0 ≤ (if x ≥ 0 then
          if y > 0 then atan_div Real.arctan Real.pi y x
          else if y < 0 then 2 * Real.pi + atan_div Real.arctan Real.pi y x
          else 0
        else
          if y > 0 then Real.pi + atan_div Real.arctan Real.pi y x
          else if y < 0 then Real.pi + atan_div Real.arctan Real.pi y x
          else Real.pi)
      ∧ (if x ≥ 0 then
          if y > 0 then atan_div Real.arctan Real.pi y x
          else if y < 0 then 2 * Real.pi + atan_div Real.arctan Real.pi y x
          else 0
        else
          if y > 0 then Real.pi + atan_div Real.arctan Real.pi y x
          else if y < 0 then Real.pi + atan_div Real.arctan Real.pi y x
          else Real.pi) < 2 * Real.pi := by
    rcases lt_trichotomy y 0 with hy | hy | hy
    · obtain ⟨b1, b2, -, b4, -, b6⟩ := atan_div_bounds y x hy.ne
      have hy2 : ¬ (y > 0) := not_lt.mpr hy.le
      by_cases hx : x ≥ 0
      · simp only [hx, hy, hy2, if_true, if_false]
        have := b4 hx hy
        constructor <;> linarith
      · simp only [hx, hy, hy2, if_true, if_false]
        have := b6 (not_le.mp hx) hy
        constructor <;> linarith
    · subst hy
      by_cases hx : x ≥ 0
      · simp only [hx, lt_irrefl, gt_iff_lt, if_true, if_false]
        constructor <;> linarith
      · simp only [hx, lt_irrefl, gt_iff_lt, if_true, if_false]
        constructor <;> linarith
    · obtain ⟨b1, b2, b3, -, b5, -⟩ := atan_div_bounds y x hy.ne'
      have hy2 : y > 0 := hy
      by_cases hx : x ≥ 0
      · simp only [hx, hy2, if_true]
        have := b3 hx hy
        constructor <;> linarith
      · simp only [hx, hy2, if_true, if_false]
        have := b5 (not_le.mp hx) hy
        constructor <;> linarith
  exact ⟨key.1, key.2, hz⟩

/-- The argument of a complex number with positive real part is the arc tangent of the
quotient of its parts. -/
theorem arg_of_re_pos (x y : ℝ) (hx : 0 < x) :
    Complex.arg ⟨x, y⟩ = Real.arctan (y / x) := by
  rw [Complex.arg_of_re_nonneg (by exact hx.le), Real.arctan_eq_arcsin, Complex.abs_apply,
    Complex.normSq_apply]
  congr 1
  have hpos : 0 < x * x + y * y := by nlinarith [mul_self_nonneg y, mul_pos hx hx]
  have e : 1 + (y / x) ^ 2 = (x * x + y * y) / x ^ 2 := by
    field_simp
    ring
  rw [e, Real.sqrt_div hpos.le, Real.sqrt_sq hx.le]
  have hs : 0 < Real.sqrt (x * x + y * y) := Real.sqrt_pos.mpr hpos
  field_simp

/-- The argument of a complex number with negative real part. -/
theorem arg_of_re_neg (x y : ℝ) (hx : x < 0) :
    Complex.arg ⟨x, y⟩
      = if 0 ≤ y then Real.arctan (y / x) + Real.pi else Real.arctan (y / x) - Real.pi := by
  have h := arg_of_re_pos (-x) (-y) (by linarith)
  have hq : -y / -x = y / x := neg_div_neg_eq y x
  have habs : Complex.abs ⟨x, y⟩ = Complex.abs ⟨-x, -y⟩ := by
    rw [Complex.abs_apply, Complex.abs_apply, Complex.normSq_apply, Complex.normSq_apply]
    congr 1
    ring
  rw [Complex.arg_of_re_nonneg (by show (0 : ℝ) ≤ -x; linarith), hq] at h
  split_ifs with hy
  · rw [Complex.arg_of_re_neg_of_im_nonneg (by exact hx) (by exact hy), habs, ← h]
    rfl
  · rw [Complex.arg_of_re_neg_of_im_neg (by exact hx) (by exact not_le.mp hy), habs, ← h]
    rfl

/-- C32, the code at the failing input: both components of (1/2000, 1/2000) are at most
1e-3, the function reads the zero vector and returns 0, while `atan2` of the vector is
`pi / 4`. -/
theorem vec_direction_angle_small :
    vec_direction_angle Real.arctan Real.pi ⟨1 / 2000, 1 / 2000⟩ = 0
      ∧ Complex.arg ⟨1 / 2000, 1 / 2000⟩ = Real.pi / 4 := by
  constructor
  · have h : |(1 / 2000 : ℝ)| ≤ 1 / 1000 := by
      rw [abs_of_pos (by norm_num)]; norm_num
    have hs : snap_component (1 / 2000 : ℝ) = 0 := by
      unfold snap_component
      rw [if_pos h]
    rw [vec_direction_angle_snap]
    simp only [hs]
    simp
  · rw [arg_of_re_pos _ _ (by norm_num), div_self (by norm_num), Real.arctan_one]

/-- C32, as the code has it: over the reals, for every vector whose components, read
with every component of absolute value at most 1e-3 replaced by 0, are not both zero,
`vec_direction_angle` is `atan2` of the components so read (the argument of the complex
number with these parts), plus `2 * pi` when that is negative. -/
theorem vec_direction_angle_atan2 (v : vector_t ℝ)
    (hne : snap_component v.x ≠ 0 ∨ snap_component v.y ≠ 0) :
    vec_direction_angle Real.arctan Real.pi v
      = if Complex.arg ⟨snap_component v.x, snap_component v.y⟩ < 0 then
          Complex.arg ⟨snap_component v.x, snap_component v.y⟩ + 2 * Real.pi
        else Complex.arg ⟨snap_component v.x, snap_component v.y⟩ := by
  have hpi := Real.pi_pos
  rw [vec_direction_angle_snap]
  generalize snap_component v.x = x at hne ⊢
  generalize snap_component v.y = y at hne ⊢
  have hlt := Real.arctan_lt_pi_div_two (y / x)
  have hgt := Real.neg_pi_div_two_lt_arctan (y / x)
  rcases lt_trichotomy x 0 with hx | hx | hx
  · have hx1 : ¬ (x ≥ 0) := not_le.mpr hx
    have hx0 : x ≠ 0 := hx.ne
    rw [if_neg hx1, arg_of_re_neg x y hx]
    rcases lt_trichotomy y 0 with hy | hy | hy
    · have hy1 : ¬ (y > 0) := not_lt.mpr hy.le
      have hy2 : ¬ (0 ≤ y) := not_le.mpr hy
      rw [if_neg hy1, if_pos hy, if_neg hy2, if_pos (by linarith)]
      simp only [atan_div, hx0, if_false]
      ring
    · subst hy
      rw [if_neg (lt_irrefl _), if_neg (lt_irrefl _), if_pos (le_refl _)]
      simp only [zero_div, Real.arctan_zero, zero_add]
      rw [if_neg (by linarith)]
    · have hy2 : 0 ≤ y := hy.le
      rw [if_pos hy, if_pos hy2, if_neg (by linarith)]
      simp only [atan_div, hx0, if_false]
      ring
  · subst hx
    have hy0 : y ≠ 0 := by
      rcases hne with h | h
      · exact absurd rfl h
      · exact h
    rw [if_pos (le_refl _)]
    rcases lt_or_gt_of_ne hy0 with hy | hy
    · have hy1 : ¬ (y > 0) := not_lt.mpr hy.le
      have harg : Complex.arg ⟨0, y⟩ = -(Real.pi / 2) :=
        Complex.arg_eq_neg_pi_div_two_iff.mpr ⟨rfl, hy⟩
      rw [if_neg hy1, if_pos hy, harg, if_pos (by linarith)]
      simp only [atan_div, if_true]
      rw [if_neg (not_lt.mpr hy.le)]
      ring
    · have harg : Complex.arg ⟨0, y⟩ = Real.pi / 2 :=
        Complex.arg_eq_pi_div_two_iff.mpr ⟨rfl, hy⟩
      rw [if_pos hy, harg, if_neg (by linarith)]
      simp only [atan_div, if_true]
      rw [if_pos hy]
  · have hx1 : x ≥ 0 := hx.le
    have hx0 : x ≠ 0 := hx.ne'
    rw [if_pos hx1, arg_of_re_pos x y hx]
    rcases lt_trichotomy y 0 with hy | hy | hy
    · have hy1 : ¬ (y > 0) := not_lt.mpr hy.le
      have := arctan_neg_of_neg _ (div_neg_of_neg_of_pos hy hx)
      rw [if_neg hy1, if_pos hy, if_pos this]
      simp only [atan_div, hx0, if_false]
      ring
    · subst hy
      rw [if_neg (lt_irrefl _), if_neg (lt_irrefl _)]
      simp
    · have := arctan_pos_of_pos _ (div_pos hy hx)
      rw [if_pos hy, if_neg (by linarith)]
      simp only [atan_div, hx0, if_false]

/-- Witness of C32: the vector (-1, -1), in the third quadrant. -/
theorem vec_direction_angle_atan2_witness :
    vec_direction_angle Real.arctan Real.pi ⟨-1, -1⟩
      = if Complex.arg ⟨snap_component (-1), snap_component (-1)⟩ < 0 then
          Complex.arg ⟨snap_component (-1), snap_component (-1)⟩ + 2 * Real.pi
        else Complex.arg ⟨snap_component (-1), snap_component (-1)⟩ :=
  vec_direction_angle_atan2 ⟨-1, -1⟩ (Or.inl (by norm_num [snap_component]))

/-- Witness of C34: gravity between the first two bodies of the three-body test touches
force accumulators only, and only theirs. -/
theorem force_laws_frame_witness :
    ∃ mem2, apply_newtonian_gravity sqrt_lower ⟨1000, 0, 1, none, false⟩ three_body_mem
        = some (⟨1000, 0, 1, none, false⟩, mem2)
      ∧ only_forces (three_body_mem : body_mem ℚ) mem2 [0, 1] := by
  have h := force_laws_frame sqrt_lower (⟨1000, 0, 1, none, false⟩ : force_aux_t ℚ)
    three_body_mem
  obtain ⟨mem2, h2⟩ := h.2.2.2 (Or.inl ⟨8, 37 / 10, rfl, rfl⟩)
  exact ⟨mem2, h2, (h.2.2.1 _ mem2 h2).2⟩

/-! ## Cleanup invariant -/

/-- The first loop keeps, for every force applier, a list of bodies that lies in a given
list. -/
theorem scene_tick_forces_deps (l : List (force_applier_t K)) (mem : body_mem K)
    (l2 : List (force_applier_t K)) (mem2 : body_mem K) (bodies : List body_ptr)
    (h : scene_tick_forces l mem = some (l2, mem2))
    (hdeps : ∀ fa ∈ l, ∃ deps, fa.bodies = some deps ∧ ∀ p ∈ deps, p ∈ bodies) :
    ∀ fa ∈ l2, ∃ deps, fa.bodies = some deps ∧ ∀ p ∈ deps, p ∈ bodies := by
  have hf := scene_tick_forces_same l mem l2 mem2 h
  clear h
  induction hf with
  | nil => simp
  | cons hab _ ih =>
    intro fa hfa
    rcases List.mem_cons.mp hfa with rfl | hfa
    · rw [hab.2]
      exact hdeps _ (List.mem_cons_self _ _)
    · exact ih (fun x hx => hdeps x (List.mem_cons_of_mem _ hx)) fa hfa

/-- C35: in a scene whose list of bodies has no pointer twice and whose force creators all
have a list of bodies, every body of which is in the scene, when the force-creator phase
succeeds `scene_tick` succeeds; afterwards no body of the scene is flagged removed, and
every body in the list of every remaining force creator is still in the scene. -/
theorem scene_tick_cleanup (s : scene_t K) (dt : K) (fas : List (force_applier_t K))
    (mem1 : body_mem K)
    (hforce : scene_tick_forces s.force_appliers s.mem = some (fas, mem1))
    (hnodup : s.bodies.Nodup)
    (hdeps : ∀ fa ∈ s.force_appliers,
      ∃ deps, fa.bodies = some deps ∧ ∀ p ∈ deps, p ∈ s.bodies) :
    ∃ s2, scene_tick s dt = some s2
      ∧ (∀ p ∈ s2.bodies, body_is_removed (s2.mem p) = false)
      ∧ (∀ fa ∈ s2.force_appliers,
          ∃ deps, fa.bodies = some deps ∧ ∀ p ∈ deps, p ∈ s2.bodies)
      ∧ (∀ p ∈ s2.bodies, p ∈ s.bodies) := by
  have hsome : ∀ fa ∈ s.force_appliers, fa.bodies ≠ none := by
    intro fa hfa
    obtain ⟨deps, hd, -⟩ := hdeps fa hfa
    rw [hd]
    simp
  have hfas := scene_tick_forces_deps _ _ _ _ s.bodies hforce hdeps
  obtain ⟨s2, hs2, hbod, hmem, hfa, -, -⟩ := scene_tick_bodies_spec dt s.bodies []
    { s with force_appliers := fas, mem := mem1 } (by simp) hnodup
    (fun _ => scene_tick_forces_bodies _ _ _ _ hforce hsome)
  rw [List.append_nil] at hbod
  simp only [] at hbod hmem hfa
  refine ⟨s2, ?_, ?_, ?_, ?_⟩
  · rw [scene_tick, hforce]
    exact hs2
  · intro p hp
    rw [hbod, List.mem_filter] at hp
    have hr : body_is_removed (mem1 p) = false := by simpa using hp.2
    rw [hmem p, if_pos ⟨hp.1, hr⟩]
    exact hr
  · intro fa hfa2
    rw [hfa, List.mem_filter] at hfa2
    obtain ⟨deps, hd, hin⟩ := hfas fa hfa2.1
    refine ⟨deps, hd, ?_⟩
    intro p hp
    rw [hbod, List.mem_filter]
    refine ⟨hin p hp, ?_⟩
    have hnot : removed_dependency mem1 s.bodies fa = false := by simpa using hfa2.2
    unfold removed_dependency at hnot
    rw [List.any_eq_false] at hnot
    have h1 := hnot p (hin p hp)
    have hdep : depends_on fa p = true := by
      simp [depends_on, hd, hp]
    rw [hdep] at h1
    simpa using h1
  · intro p hp
    rw [hbod, List.mem_filter] at hp
    exact hp.1

/-- Witness of C35 on the demo scene, in which body 1 is flagged removed, the spring
depends on the bodies 0 and 1 and the drag on body 2. -/
theorem scene_tick_cleanup_witness :
    ∃ s2, scene_tick demo_scene 1 = some s2
      ∧ (∀ p ∈ s2.bodies, body_is_removed (s2.mem p) = false)
      ∧ (∀ fa ∈ s2.force_appliers,
          ∃ deps, fa.bodies = some deps ∧ ∀ p ∈ deps, p ∈ s2.bodies) := by
  obtain ⟨mem1, hf, -⟩ := demo_scene_forces
  obtain ⟨s2, h1, h2, h3, -⟩ := scene_tick_cleanup demo_scene 1 _ mem1 hf (by decide)
    (fun fa hfa => by
      simp [demo_scene, scene_init, scene_add_body, create_spring, create_drag,
        scene_add_bodies_force_creator] at hfa
      rcases hfa with rfl | rfl
      · exact ⟨[0, 1], rfl, by decide⟩
      · exact ⟨[2], rfl, by decide⟩)
  exact ⟨s2, h1, h2, h3⟩

/-! ## Force creators without a list of bodies -/

/-- The loop over the force appliers of a removed body fails when it reaches a force
applier without a list of bodies. -/
theorem scene_tick_appliers_null (body : body_ptr) (n : Nat) (l freed : List (force_applier_t K))
    (h : ∃ j, j < n ∧ ∃ fa, l.get? j = some fa ∧ fa.bodies = none) :
    scene_tick_appliers body n l freed = none := by
  induction n generalizing l freed with
  | zero =>
    obtain ⟨j, hj, -⟩ := h
    exact absurd hj (Nat.not_lt_zero j)
  | succ n ih =>
    obtain ⟨j, hj, fa, hget, hnone⟩ := h
    rw [scene_tick_appliers]
    cases hn : l.get? n with
    | none => rfl
    | some fa2 =>
      simp only []
      cases hb : fa2.bodies with
      | none => rfl
      | some bodies =>
        simp only []
        have hjn : j ≠ n := by
          rintro rfl
          rw [hget] at hn
          cases hn
          rw [hnone] at hb
          cases hb
        have hlt : j < n := by omega
        split_ifs
        · apply ih
          refine ⟨j, hlt, fa, ?_, hnone⟩
          rw [List.get?_eq_getElem?, List.getElem?_eraseIdx, if_pos hlt,
            ← List.get?_eq_getElem?]
          exact hget
        · exact ih l freed ⟨j, hlt, fa, hget, hnone⟩

/-- The loop over the bodies fails when a body it reaches is flagged removed and some
force applier has no list of bodies. -/
theorem scene_tick_bodies_null (dt : K) (n : Nat) (s : scene_t K)
    (hfa : ∃ fa ∈ s.force_appliers, fa.bodies = none)
    (hb : ∃ i, i < n ∧ ∃ p, s.bodies.get? i = some p ∧ body_is_removed (s.mem p) = true) :
    scene_tick_bodies dt n s = none := by
  induction n generalizing s with
  | zero =>
    obtain ⟨i, hi, -⟩ := hb
    exact absurd hi (Nat.not_lt_zero i)
  | succ n ih =>
    obtain ⟨i, hi, p, hget, hrem⟩ := hb
    rw [scene_tick_bodies]
    cases hn : s.bodies.get? n with
    | none => rfl
    | some body =>
      simp only []
      by_cases hr : body_is_removed (s.mem body) = true
      · rw [if_pos hr]
        obtain ⟨fa, hmem, hnone⟩ := hfa
        obtain ⟨j, hj, hjget⟩ := List.getElem_of_mem hmem
        rw [scene_tick_appliers_null body _ _ _
          ⟨j, hj, fa, by rw [List.get?_eq_getElem?, List.getElem?_eq_getElem hj, hjget],
            hnone⟩]
      · rw [if_neg hr]
        have hin : i ≠ n := by
          rintro rfl
          rw [hget] at hn
          cases hn
          exact hr hrem
        have hpb : p ≠ body := by
          rintro rfl
          exact hr hrem
        apply ih
        · exact hfa
        · refine ⟨i, by omega, p, hget, ?_⟩
          show body_is_removed (Function.update s.mem body (body_tick (s.mem body) dt) p) = true
          rw [Function.update_noteq hpb]
          exact hrem

/-- The first loop keeps a force applier without a list of bodies. -/
theorem scene_tick_forces_null (l : List (force_applier_t K)) (mem : body_mem K)
    (l2 : List (force_applier_t K)) (mem2 : body_mem K)
    (h : scene_tick_forces l mem = some (l2, mem2)) (hfa : ∃ fa ∈ l, fa.bodies = none) :
    ∃ fa ∈ l2, fa.bodies = none := by
  have hf := scene_tick_forces_same l mem l2 mem2 h
  clear h
  induction hf with
  | nil =>
    obtain ⟨fa, hmem, -⟩ := hfa
    simp at hmem
  | cons hab _ ih =>
    obtain ⟨fa, hmem, hnone⟩ := hfa
    rcases List.mem_cons.mp hmem with rfl | hmem
    · exact ⟨_, List.mem_cons_self _ _, by rw [hab.2]; exact hnone⟩
    · obtain ⟨fa2, h2, h3⟩ := ih ⟨fa, hmem, hnone⟩
      exact ⟨fa2, List.mem_cons_of_mem _ h2, h3⟩

/-- C36, as the code has it: in a scene that holds a force creator without a list of
bodies, as `scene_add_force_creator` registers it, `scene_tick` fails whenever a body
of the scene is flagged removed when the loop over the bodies starts: the loop over the
force creators of that body reads the size of the `NULL` list. -/
theorem scene_tick_null_list (s : scene_t K) (dt : K)
    (hfa : ∃ fa ∈ s.force_appliers, fa.bodies = none)
    (hb : ∀ fas mem1, scene_tick_forces s.force_appliers s.mem = some (fas, mem1) →
      ∃ p ∈ s.bodies, body_is_removed (mem1 p) = true) :
    scene_tick s dt = none := by
  rw [scene_tick]
  cases hf : scene_tick_forces s.force_appliers s.mem with
  | none => rfl
  | some r =>
    obtain ⟨fas, mem1⟩ := r
    simp only []
    apply scene_tick_bodies_null
    · exact scene_tick_forces_null _ _ _ _ hf hfa
    · obtain ⟨p, hp, hrem⟩ := hb fas mem1 hf
      obtain ⟨i, hi, hget⟩ := List.getElem_of_mem hp
      exact ⟨i, hi, p, by
        show s.bodies.get? i = some p
        rw [List.get?_eq_getElem?, List.getElem?_eq_getElem hi, hget], hrem⟩

/-- C36, the code at the failing input: the scene with the one body flagged removed and
a drag force creator registered by `scene_add_force_creator`; `scene_tick` fails. -/
theorem scene_tick_null_list_witness : scene_tick null_list_scene 1 = none :=
  scene_tick_null_list null_list_scene 1
    ⟨⟨apply_drag, ⟨1, 1, 0, none, false⟩, none⟩, by
      simp [null_list_scene, scene_add_force_creator, scene_add_bodies_force_creator,
        scene_add_body, scene_init], rfl⟩
    (fun fas mem1 h => by
      refine ⟨1, by simp [null_list_scene, scene_add_force_creator,
        scene_add_bodies_force_creator, scene_add_body, scene_init], ?_⟩
      simp only [null_list_scene, scene_add_force_creator, scene_add_bodies_force_creator,
        scene_add_body, scene_init, List.nil_append, scene_tick_forces, apply_drag,
        Option.some.injEq, Prod.mk.injEq] at h
      rw [← h.2]
      simp [body_is_removed, body_add_force, demo_mem, body_remove])

/-! ## Conservation of momentum -/

/-- Two bodies of finite non-zero masses that carry opposite forces and opposite impulses
have the same total momentum after one `body_tick` each. -/
theorem momentum_body_tick (b1 b2 : body_t K) (m1 m2 dt : K) (f j : vector_t K)
    (h1 : b1.mass = Mass.finite m1) (h2 : b2.mass = Mass.finite m2) (hm1 : m1 ≠ 0)
    (hm2 : m2 ≠ 0) (hf1 : b1.force = f) (hf2 : b2.force = vec_negate f)
    (hj1 : b1.impulse = j) (hj2 : b2.impulse = vec_negate j) :
    vec_add (vec_multiply m1 (body_tick b1 dt).vel) (vec_multiply m2 (body_tick b2 dt).vel)
      = vec_add (vec_multiply m1 b1.vel) (vec_multiply m2 b2.vel) := by
  ext
  · simp only [body_tick, body_set_centroid, body_set_velocity, vec_add, vec_multiply,
      vec_negate, h1, h2, hf1, hf2, hj1, hj2, inv_mass]
    field_simp
    ring
  · simp only [body_tick, body_set_centroid, body_set_velocity, vec_add, vec_multiply,
      vec_negate, h1, h2, hf1, hf2, hj1, hj2, inv_mass]
    field_simp
    ring

/-- One `scene_tick` of a scene of two live bodies with one force creator whose call
leaves opposite forces and opposite impulses on them conserves the total momentum. -/
theorem pair_tick_momentum (s : scene_t K) (dt : K) (p1 p2 : body_ptr) (m1 m2 : K)
    (fa : force_applier_t K) (aux2 : force_aux_t K) (mem1 : body_mem K) (f j : vector_t K)
    (hne : p1 ≠ p2) (hm1 : m1 ≠ 0) (hm2 : m2 ≠ 0) (hb : s.bodies = [p1, p2])
    (hfa : s.force_appliers = [fa])
    (hrun : fa.forcer fa.aux s.mem = some (aux2, mem1))
    (h1 : (mem1 p1).mass = Mass.finite m1 ∧ (mem1 p1).vel = (s.mem p1).vel
      ∧ (mem1 p1).force = f ∧ (mem1 p1).impulse = j ∧ (mem1 p1).is_removed = false)
    (h2 : (mem1 p2).mass = Mass.finite m2 ∧ (mem1 p2).vel = (s.mem p2).vel
      ∧ (mem1 p2).force = vec_negate f ∧ (mem1 p2).impulse = vec_negate j
      ∧ (mem1 p2).is_removed = false) :
    ∃ s2, scene_tick s dt = some s2
      ∧ momentum m1 m2 s2.mem p1 p2 = momentum m1 m2 s.mem p1 p2 := by
  have hforce : scene_tick_forces s.force_appliers s.mem
      = some ([{ fa with aux := aux2 }], mem1) := by
    rw [hfa]
    simp [scene_tick_forces, hrun]
  have hflag : ¬ ∃ p ∈ [p1, p2], body_is_removed (mem1 p) = true := by
    rintro ⟨p, hp, hr⟩
    simp only [List.mem_cons, List.mem_singleton, List.not_mem_nil, or_false] at hp
    rcases hp with rfl | rfl
    · rw [body_is_removed, h1.2.2.2.2] at hr
      cases hr
    · rw [body_is_removed, h2.2.2.2.2] at hr
      cases hr
  obtain ⟨s2, hs2, -, hmem, -, -, -⟩ := scene_tick_bodies_spec dt [p1, p2] []
    { s with force_appliers := [{ fa with aux := aux2 }], mem := mem1, bodies := [p1, p2] }
    (by simp)
    (by simp [hne]) (fun h => absurd h hflag)
  simp only [] at hmem
  refine ⟨s2, ?_, ?_⟩
  · rw [scene_tick, hforce]
    simp only []
    rw [hb]
    exact hs2
  · have e1 : s2.mem p1 = body_tick (mem1 p1) dt := by
      rw [hmem p1, if_pos ⟨by simp, h1.2.2.2.2⟩]
    have e2 : s2.mem p2 = body_tick (mem1 p2) dt := by
      rw [hmem p2, if_pos ⟨by simp, h2.2.2.2.2⟩]
    unfold momentum
    rw [e1, e2, momentum_body_tick (mem1 p1) (mem1 p2) m1 m2 dt f j h1.1 h2.1 hm1 hm2
      h1.2.2.1 h2.2.2.1 h1.2.2.2.1 h2.2.2.2.1, h1.2.1, h2.2.1]

/-- The negation of the zero vector. -/
theorem vec_negate_zero : vec_negate (⟨0, 0⟩ : vector_t K) = ⟨0, 0⟩ := by
  ext <;> simp [vec_negate, vec_multiply]

/-- A memory after opposite forces were added to two different bodies with empty force
accumulators. -/
theorem opposite_forces_state (mem : body_mem K) (p1 p2 : body_ptr) (m1 m2 : K)
    (f : vector_t K) (hne : p1 ≠ p2)
    (h1 : (mem p1).mass = Mass.finite m1 ∧ (mem p1).force = ⟨0, 0⟩
      ∧ (mem p1).impulse = ⟨0, 0⟩ ∧ (mem p1).is_removed = false)
    (h2 : (mem p2).mass = Mass.finite m2 ∧ (mem p2).force = ⟨0, 0⟩
      ∧ (mem p2).impulse = ⟨0, 0⟩ ∧ (mem p2).is_removed = false) :
    ((Function.update (Function.update mem p1 (body_add_force (mem p1) f)) p2
          (body_add_force (mem p2) (vec_negate f)) p1).mass = Mass.finite m1
      ∧ (Function.update (Function.update mem p1 (body_add_force (mem p1) f)) p2
          (body_add_force (mem p2) (vec_negate f)) p1).vel = (mem p1).vel
      ∧ (Function.update (Function.update mem p1 (body_add_force (mem p1) f)) p2
          (body_add_force (mem p2) (vec_negate f)) p1).force = f
      ∧ (Function.update (Function.update mem p1 (body_add_force (mem p1) f)) p2
          (body_add_force (mem p2) (vec_negate f)) p1).impulse = ⟨0, 0⟩
      ∧ (Function.update (Function.update mem p1 (body_add_force (mem p1) f)) p2
          (body_add_force (mem p2) (vec_negate f)) p1).is_removed = false)
    ∧ ((Function.update (Function.update mem p1 (body_add_force (mem p1) f)) p2
          (body_add_force (mem p2) (vec_negate f)) p2).mass = Mass.finite m2
      ∧ (Function.update (Function.update mem p1 (body_add_force (mem p1) f)) p2
          (body_add_force (mem p2) (vec_negate f)) p2).vel = (mem p2).vel
      ∧ (Function.update (Function.update mem p1 (body_add_force (mem p1) f)) p2
          (body_add_force (mem p2) (vec_negate f)) p2).force = vec_negate f
      ∧ (Function.update (Function.update mem p1 (body_add_force (mem p1) f)) p2
          (body_add_force (mem p2) (vec_negate f)) p2).impulse = vec_negate ⟨0, 0⟩
      ∧ (Function.update (Function.update mem p1 (body_add_force (mem p1) f)) p2
          (body_add_force (mem p2) (vec_negate f)) p2).is_removed = false) := by
  rw [Function.update_noteq hne, Function.update_same, Function.update_same]
  refine ⟨⟨h1.1, rfl, ?_, h1.2.2.1, h1.2.2.2⟩, ⟨h2.1, rfl, ?_, ?_, h2.2.2.2⟩⟩
  · ext <;> simp [body_add_force, vec_add, h1.2.1]
  · ext <;> simp [body_add_force, vec_add, h2.2.1]
  · rw [vec_negate_zero]
    exact h2.2.2.1

/-- C39: in a scene of two different live bodies of finite non-zero masses `m1`, `m2`
with empty accumulators whose only force creator is one spring, one Newtonian gravity or
one physics collision (masses with non-zero sum, shapes not both without vertices)
between them, one `scene_tick` with any time step succeeds and leaves `m1 v1 + m2 v2`
unchanged. -/
theorem pairwise_momentum (sqrt : K → K) (s : scene_t K) (dt : K) (p1 p2 : body_ptr)
    (m1 m2 : K) (hne : p1 ≠ p2) (hm1 : m1 ≠ 0) (hm2 : m2 ≠ 0)
    (hs : pair_state s p1 p2 m1 m2) :
    (∀ k, s.force_appliers = [spring_applier k p1 p2] →
        ∃ s2, scene_tick s dt = some s2
          ∧ momentum m1 m2 s2.mem p1 p2 = momentum m1 m2 s.mem p1 p2)
      ∧ (∀ G, s.force_appliers = [gravity_applier sqrt G p1 p2] →
        ∃ s2, scene_tick s dt = some s2
          ∧ momentum m1 m2 s2.mem p1 p2 = momentum m1 m2 s.mem p1 p2)
      ∧ (∀ e flag, s.force_appliers = [physics_applier sqrt e p1 p2 flag] →
        m1 + m2 ≠ 0 → 0 < (s.mem p1).shape.length + (s.mem p2).shape.length →
        ∃ s2, scene_tick s dt = some s2
          ∧ momentum m1 m2 s2.mem p1 p2 = momentum m1 m2 s.mem p1 p2) := by
  obtain ⟨hb, h1, h2⟩ := hs
  have hrest1 : (s.mem p1).mass = Mass.finite m1 ∧ (s.mem p1).vel = (s.mem p1).vel
      ∧ (s.mem p1).force = ⟨0, 0⟩ ∧ (s.mem p1).impulse = ⟨0, 0⟩
      ∧ (s.mem p1).is_removed = false := ⟨h1.1, rfl, h1.2.1, h1.2.2.1, h1.2.2.2⟩
  have hrest2 : (s.mem p2).mass = Mass.finite m2 ∧ (s.mem p2).vel = (s.mem p2).vel
      ∧ (s.mem p2).force = vec_negate ⟨0, 0⟩ ∧ (s.mem p2).impulse = vec_negate ⟨0, 0⟩
      ∧ (s.mem p2).is_removed = false := by
    rw [vec_negate_zero]
    exact ⟨h2.1, rfl, h2.2.1, h2.2.2.1, h2.2.2.2⟩
  refine ⟨?_, ?_, ?_⟩
  · intro k hfa
    have hst := opposite_forces_state s.mem p1 p2 m1 m2
      (vec_multiply k (vec_subtract (s.mem p2).centroid (s.mem p1).centroid)) hne h1 h2
    have hrun : (spring_applier k p1 p2).forcer (spring_applier k p1 p2).aux s.mem
        = some (⟨k, p1, p2, none, false⟩,
            Function.update (Function.update s.mem p1 (body_add_force (s.mem p1)
              (vec_multiply k (vec_subtract (s.mem p2).centroid (s.mem p1).centroid))))
              p2 (body_add_force (s.mem p2) (vec_negate
                (vec_multiply k (vec_subtract (s.mem p2).centroid (s.mem p1).centroid))))) := by
      simp only [spring_applier, apply_spring, Function.update_noteq (Ne.symm hne)]
    exact pair_tick_momentum s dt p1 p2 m1 m2 (spring_applier k p1 p2) _ _ _ ⟨0, 0⟩ hne hm1
      hm2 hb hfa hrun hst.1 hst.2
  · intro G hfa
    by_cases hd : centroid_distance sqrt (s.mem p1).centroid (s.mem p2).centroid < 5
    · exact pair_tick_momentum s dt p1 p2 m1 m2 (gravity_applier sqrt G p1 p2) _ _ _ ⟨0, 0⟩
        hne hm1 hm2 hb hfa
        (apply_newtonian_gravity_near sqrt ⟨G, p1, p2, none, false⟩ s.mem hd) hrest1 hrest2
    · have hst := opposite_forces_state s.mem p1 p2 m1 m2
        (snap_small (gravity_vector sqrt G m1 m2 (s.mem p1).centroid (s.mem p2).centroid))
        hne h1 h2
      exact pair_tick_momentum s dt p1 p2 m1 m2 (gravity_applier sqrt G p1 p2) _ _ _ ⟨0, 0⟩
        hne hm1 hm2 hb hfa
        (apply_newtonian_gravity_far sqrt ⟨G, p1, p2, none, false⟩ s.mem m1 m2 h1.1 h2.1 hne
          (not_lt.mp hd)) hst.1 hst.2
  · intro e flag hfa hsum hlen
    by_cases hfire : ((find_collision sqrt (s.mem p1).shape (s.mem p2).shape).collided
        && !flag) = true
    · have hcol : (find_collision sqrt (s.mem p1).shape (s.mem p2).shape).collided = true := by
        simp only [Bool.and_eq_true] at hfire
        exact hfire.1
      obtain ⟨axis, haxis⟩ := find_collision_axis_some sqrt _ _ hcol hlen
      have hrun : (physics_applier sqrt e p1 p2 flag).forcer
          (physics_applier sqrt e p1 p2 flag).aux s.mem
          = some ({ (physics_applier sqrt e p1 p2 flag).aux with collided_last_tick := true },
              Function.update (Function.update s.mem p1
                (body_add_impulse (s.mem p1)
                  (collision_impulse (s.mem p1) (s.mem p2) axis e (m1 * m2 / (m1 + m2)))))
                p2 (body_add_impulse (s.mem p2) (vec_negate
                  (collision_impulse (s.mem p1) (s.mem p2) axis e
                    (m1 * m2 / (m1 + m2)))))) := by
        simp only [physics_applier, apply_physics_collision]
        rw [if_pos hfire, haxis]
        simp only [physics_collision_handler_finite (s.mem p1) (s.mem p2) axis e m1 m2 h1.1
          h2.1 hsum]
      refine pair_tick_momentum s dt p1 p2 m1 m2 (physics_applier sqrt e p1 p2 flag) _ _
        ⟨0, 0⟩ (collision_impulse (s.mem p1) (s.mem p2) axis e (m1 * m2 / (m1 + m2)))
        hne hm1 hm2 hb hfa hrun ?_ ?_
      · rw [Function.update_noteq hne, Function.update_same]
        refine ⟨h1.1, rfl, h1.2.1, ?_, h1.2.2.2⟩
        ext <;> simp [body_add_impulse, vec_add, h1.2.2.1]
      · rw [Function.update_same, vec_negate_zero]
        refine ⟨h2.1, rfl, h2.2.1, ?_, h2.2.2.2⟩
        ext <;> simp [body_add_impulse, vec_add, h2.2.2.1]
    · have hrun : ∃ aux2, (physics_applier sqrt e p1 p2 flag).forcer
          (physics_applier sqrt e p1 p2 flag).aux s.mem = some (aux2, s.mem) := by
        simp only [physics_applier, apply_physics_collision]
        rw [if_neg hfire]
        split_ifs
        · exact ⟨_, rfl⟩
        · exact ⟨_, rfl⟩
      obtain ⟨aux2, hrun⟩ := hrun
      exact pair_tick_momentum s dt p1 p2 m1 m2 (physics_applier sqrt e p1 p2 flag) aux2 _
        ⟨0, 0⟩ ⟨0, 0⟩ hne hm1 hm2 hb hfa hrun hrest1 hrest2

/-- Witness of C39: two overlapping unit squares of mass 1 joined by a spring of
constant 2, ticked by one time unit. -/
theorem pairwise_momentum_witness :
    ∃ s2, scene_tick pair_spring_scene 1 = some s2
      ∧ momentum 1 1 s2.mem 0 1 = momentum 1 1 pair_spring_scene.mem 0 1 :=
  (pairwise_momentum sqrt_table pair_spring_scene 1 0 1 1 1 (by decide) (by norm_num)
    (by norm_num) ⟨rfl, ⟨rfl, rfl, rfl, rfl⟩, ⟨rfl, rfl, rfl, rfl⟩⟩).1 2 rfl

/-! ## Completeness of the separating axis test -/

/-- A vector of the plane in terms of two others: `(a × b) w = (w × b) a + (a × w) b`,
read along any direction `z`. -/
theorem cross_dot_identity (a b w z : vector_t ℝ) :
    vec_cross a b * vec_dot w z
      = vec_cross w b * vec_dot a z + vec_cross a w * vec_dot b z := by
  simp only [vec_cross, vec_dot]
  ring

/-- The same identity read through the cross product with any vector `z`. -/
theorem cross_cross_identity (a b w z : vector_t ℝ) :
    vec_cross a b * vec_cross w z
      = vec_cross w b * vec_cross a z + vec_cross a w * vec_cross b z := by
  simp only [vec_cross]
  ring

/-- Two cones of directions around a common direction `u`, one spanned by `n1`, `n2` and
one by `k1`, `k2`, both in counter-clockwise order: when the first two do not increase
along any vector of `A`, the last two do not decrease along any vector of `B`, and `u`
increases along `g`, then one of the four spanning directions has all three
properties. -/
theorem cone_candidate (A B : Set (vector_t ℝ)) (n1 n2 k1 k2 u g : vector_t ℝ)
    (hn1 : ∀ w ∈ A, vec_dot n1 w ≤ 0) (hn2 : ∀ w ∈ A, vec_dot n2 w ≤ 0)
    (hu1 : ∀ w ∈ A, vec_dot u w ≤ 0)
    (hk1 : ∀ w ∈ B, 0 ≤ vec_dot k1 w) (hk2 : ∀ w ∈ B, 0 ≤ vec_dot k2 w)
    (hu2 : ∀ w ∈ B, 0 ≤ vec_dot u w) (hg : 0 < vec_dot u g)
    (hDn : 0 < vec_cross n1 n2) (hA1 : 0 ≤ vec_cross n1 u) (hA2 : 0 ≤ vec_cross u n2)
    (hDk : 0 < vec_cross k1 k2) (hB1 : 0 ≤ vec_cross k1 u) (hB2 : 0 ≤ vec_cross u k2) :
    ∃ c, (c = n1 ∨ c = n2 ∨ c = k1 ∨ c = k2) ∧ (∀ w ∈ A, vec_dot c w ≤ 0)
      ∧ (∀ w ∈ B, 0 ≤ vec_dot c w) ∧ 0 < vec_dot c g := by
  -- a direction `c` with `t (c . z) = s (u . z)` for all `z`, `s, t > 0`, is as good as `u`
  have multiple : ∀ c : vector_t ℝ, ∀ s t : ℝ, 0 < s → 0 ≤ t →
      (∀ z, t * vec_dot c z = s * vec_dot u z) →
      (∀ w ∈ A, vec_dot c w ≤ 0) ∧ (∀ w ∈ B, 0 ≤ vec_dot c w) ∧ 0 < vec_dot c g := by
    intro c s t hs ht h
    have htg : 0 < t * vec_dot c g := by rw [h g]; exact mul_pos hs hg
    have htpos : 0 < t := by
      rcases ht.lt_or_eq with h1 | h1
      · exact h1
      · rw [← h1, zero_mul] at htg
        exact absurd htg (lt_irrefl _)
    refine ⟨?_, ?_, ?_⟩
    · intro w hw
      have h1 : t * vec_dot c w ≤ 0 := by
        rw [h w]
        exact mul_nonpos_of_nonneg_of_nonpos hs.le (hu1 w hw)
      by_contra hc
      have := mul_pos htpos (not_le.mp hc)
      linarith
    · intro w hw
      have h1 : 0 ≤ t * vec_dot c w := by
        rw [h w]
        exact mul_nonneg hs.le (hu2 w hw)
      by_contra hc
      have := mul_neg_of_pos_of_neg htpos (not_le.mp hc)
      linarith
    · by_contra hc
      have := mul_nonpos_of_nonneg_of_nonpos htpos.le (not_lt.mp hc)
      linarith
  rcases hA1.lt_or_eq with hA1 | hA1
  swap
  · -- `u` is a multiple of `n1`
    refine ⟨n1, Or.inl rfl, multiple n1 (vec_cross n1 n2) (vec_cross u n2) hDn hA2 ?_⟩
    intro z
    have h := cross_dot_identity n1 n2 u z
    rw [← hA1, zero_mul, add_zero] at h
    exact h.symm
  rcases hA2.lt_or_eq with hA2 | hA2
  swap
  · refine ⟨n2, Or.inr (Or.inl rfl), multiple n2 (vec_cross n1 n2) (vec_cross n1 u) hDn hA1.le ?_⟩
    intro z
    have h := cross_dot_identity n1 n2 u z
    rw [← hA2, zero_mul, zero_add] at h
    exact h.symm
  rcases hB1.lt_or_eq with hB1 | hB1
  swap
  · refine ⟨k1, Or.inr (Or.inr (Or.inl rfl)),
      multiple k1 (vec_cross k1 k2) (vec_cross u k2) hDk hB2 ?_⟩
    intro z
    have h := cross_dot_identity k1 k2 u z
    rw [← hB1, zero_mul, add_zero] at h
    exact h.symm
  rcases hB2.lt_or_eq with hB2 | hB2
  swap
  · refine ⟨k2, Or.inr (Or.inr (Or.inr rfl)),
      multiple k2 (vec_cross k1 k2) (vec_cross k1 u) hDk hB1.le ?_⟩
    intro z
    have h := cross_dot_identity k1 k2 u z
    rw [← hB2, zero_mul, zero_add] at h
    exact h.symm
  -- from here on `u` lies strictly inside both cones
  have neg_cross : ∀ a b : vector_t ℝ, vec_cross a b = -vec_cross b a := by
    intro a b
    simp only [vec_cross]
    ring
  have vq_n1 : 0 ≤ vec_cross k1 n1 → ∀ w ∈ B, 0 ≤ vec_dot n1 w := by
    intro hc w hw
    have h := cross_dot_identity k1 u n1 w
    have h1 := mul_nonneg hA1.le (hk1 w hw)
    have h2 := mul_nonneg hc (hu2 w hw)
    by_contra hneg
    have := mul_neg_of_pos_of_neg hB1 (not_le.mp hneg)
    linarith
  have vp_k1 : vec_cross k1 n1 < 0 → ∀ w ∈ A, vec_dot k1 w ≤ 0 := by
    intro hc w hw
    have hc2 : 0 < vec_cross n1 k1 := by linarith [neg_cross n1 k1]
    have h := cross_dot_identity n1 u k1 w
    have h1 := mul_nonpos_of_nonneg_of_nonpos hB1.le (hn1 w hw)
    have h2 := mul_nonpos_of_nonneg_of_nonpos hc2.le (hu1 w hw)
    by_contra hpos
    have := mul_pos hA1 (not_le.mp hpos)
    linarith
  have vq_n2 : 0 ≤ vec_cross n2 k2 → ∀ w ∈ B, 0 ≤ vec_dot n2 w := by
    intro hc w hw
    have h := cross_dot_identity u k2 n2 w
    have h1 := mul_nonneg hc (hu2 w hw)
    have h2 := mul_nonneg hA2.le (hk2 w hw)
    by_contra hneg
    have := mul_neg_of_pos_of_neg hB2 (not_le.mp hneg)
    linarith
  have vp_k2 : vec_cross n2 k2 < 0 → ∀ w ∈ A, vec_dot k2 w ≤ 0 := by
    intro hc w hw
    have hc2 : 0 < vec_cross k2 n2 := by linarith [neg_cross k2 n2]
    have h := cross_dot_identity u n2 k2 w
    have h1 := mul_nonpos_of_nonneg_of_nonpos hc2.le (hu1 w hw)
    have h2 := mul_nonpos_of_nonneg_of_nonpos hB2.le (hn2 w hw)
    by_contra hpos
    have := mul_pos hA2 (not_le.mp hpos)
    linarith
  -- two directions on either side of `u` that span less than a half turn
  have finish : ∀ lo hi : vector_t ℝ, (∀ w ∈ A, vec_dot lo w ≤ 0) → (∀ w ∈ B, 0 ≤ vec_dot lo w) →
      (∀ w ∈ A, vec_dot hi w ≤ 0) → (∀ w ∈ B, 0 ≤ vec_dot hi w) →
      0 < vec_cross lo u → 0 < vec_cross u hi → 0 < vec_cross lo hi →
      ∃ c, (c = lo ∨ c = hi) ∧ (∀ w ∈ A, vec_dot c w ≤ 0)
        ∧ (∀ w ∈ B, 0 ≤ vec_dot c w) ∧ 0 < vec_dot c g := by
    intro lo hi hloA hloB hhiA hhiB h1 h2 h3
    have h := cross_dot_identity lo hi u g
    have hpos := mul_pos h3 hg
    by_cases hc : 0 < vec_dot lo g
    · exact ⟨lo, Or.inl rfl, hloA, hloB, hc⟩
    · refine ⟨hi, Or.inr rfl, hhiA, hhiB, ?_⟩
      have h4 := mul_nonpos_of_nonneg_of_nonpos h2.le (not_lt.mp hc)
      by_contra hc2
      have h5 := mul_nonpos_of_nonneg_of_nonpos h1.le (not_lt.mp hc2)
      linarith
  by_cases hc1 : 0 ≤ vec_cross k1 n1
  · by_cases hc2 : 0 ≤ vec_cross n2 k2
    · obtain ⟨c, hc, h⟩ := finish n1 n2 hn1 (vq_n1 hc1) hn2 (vq_n2 hc2) hA1 hA2 hDn
      rcases hc with rfl | rfl
      · exact ⟨_, Or.inl rfl, h⟩
      · exact ⟨_, Or.inr (Or.inl rfl), h⟩
    · have hc2n : vec_cross n2 k2 < 0 := not_le.mp hc2
      have hcr : 0 < vec_cross n1 k2 := by
        have h := cross_cross_identity u n2 k2 n1
        have e1 := neg_cross k2 n1
        have e2 := neg_cross k2 n2
        have e3 := neg_cross u n1
        have e4 := neg_cross n2 n1
        have p1 : 0 < vec_cross k2 n2 * vec_cross n1 u := mul_pos (by linarith) hA1
        have p2 : 0 < vec_cross u k2 * vec_cross n1 n2 := mul_pos hB2 hDn
        by_contra hneg
        have p3 := mul_nonpos_of_nonneg_of_nonpos hA2.le (not_lt.mp hneg)
        rw [e1, e3, e4] at h
        nlinarith
      obtain ⟨c, hc, h⟩ := finish n1 k2 hn1 (vq_n1 hc1) (vp_k2 hc2n) hk2 hA1 hB2 hcr
      rcases hc with rfl | rfl
      · exact ⟨_, Or.inl rfl, h⟩
      · exact ⟨_, Or.inr (Or.inr (Or.inr rfl)), h⟩
  · have hc1n : vec_cross k1 n1 < 0 := not_le.mp hc1
    by_cases hc2 : 0 ≤ vec_cross n2 k2
    · have hcr : 0 < vec_cross k1 n2 := by
        have h := cross_cross_identity n1 u k1 n2
        have e1 := neg_cross n1 k1
        have p1 : 0 < vec_cross k1 u * vec_cross n1 n2 := mul_pos hB1 hDn
        have p2 : 0 < vec_cross n1 k1 * vec_cross u n2 := mul_pos (by linarith) hA2
        by_contra hneg
        have p3 := mul_nonpos_of_nonneg_of_nonpos hA1.le (not_lt.mp hneg)
        linarith
      obtain ⟨c, hc, h⟩ := finish k1 n2 (vp_k1 hc1n) hk1 hn2 (vq_n2 hc2) hB1 hA2 hcr
      rcases hc with rfl | rfl
      · exact ⟨_, Or.inr (Or.inr (Or.inl rfl)), h⟩
      · exact ⟨_, Or.inr (Or.inl rfl), h⟩
    · have hc2n : vec_cross n2 k2 < 0 := not_le.mp hc2
      obtain ⟨c, hc, h⟩ := finish k1 k2 (vp_k1 hc1n) hk1 (vp_k2 hc2n) hk2 hB1 hB2 hDk
      rcases hc with rfl | rfl
      · exact ⟨_, Or.inr (Or.inr (Or.inl rfl)), h⟩
      · exact ⟨_, Or.inr (Or.inr (Or.inr rfl)), h⟩

/-- The index before `a` on a cycle of length `n`. -/
theorem cyclic_pred (a n : Nat) (ha : a < n) :
    (a + n - 1) % n < n ∧ ((a + n - 1) % n + 1) % n = a := by
  have hn : 0 < n := by omega
  refine ⟨Nat.mod_lt _ hn, ?_⟩
  rcases Nat.eq_zero_or_pos a with rfl | hpos
  · have e : (0 + n - 1) % n = n - 1 := by
      rw [Nat.zero_add]
      exact Nat.mod_eq_of_lt (by omega)
    rw [e]
    have e2 : n - 1 + 1 = n := by omega
    rw [e2, Nat.mod_self]
  · have e : (a + n - 1) % n = a - 1 := by
      have e1 : a + n - 1 = a - 1 + n := by omega
      rw [e1, Nat.add_mod_right]
      exact Nat.mod_eq_of_lt (by omega)
    rw [e]
    have e2 : a - 1 + 1 = a := by omega
    rw [e2]
    exact Nat.mod_eq_of_lt ha

/-- The product of a scaled quarter turn of `e` with a vector. -/
theorem perp_dot (σ : ℝ) (e w : vector_t ℝ) :
    vec_dot (vec_multiply σ (edge_perp e)) w = -(σ * vec_cross e w) := by
  simp only [vec_dot, vec_multiply, edge_perp, vec_cross]
  ring

/-- The cross product of a scaled quarter turn of `e` with a vector. -/
theorem perp_cross (σ : ℝ) (e w : vector_t ℝ) :
    vec_cross (vec_multiply σ (edge_perp e)) w = σ * vec_dot e w := by
  simp only [vec_dot, vec_multiply, edge_perp, vec_cross]
  ring

/-- The cross product of two scaled quarter turns. -/
theorem perp_cross_perp (σ τ : ℝ) (e f : vector_t ℝ) :
    vec_cross (vec_multiply σ (edge_perp e)) (vec_multiply τ (edge_perp f))
      = σ * τ * vec_cross e f := by
  simp only [vec_multiply, edge_perp, vec_cross]
  ring

/-- A vector other than the zero vector has a positive square. -/
theorem vec_dot_self_pos (e : vector_t ℝ) (he : e ≠ VEC_ZERO) : 0 < vec_dot e e := by
  have hnn : 0 ≤ vec_dot e e := by
    simp only [vec_dot]
    nlinarith [mul_self_nonneg e.x, mul_self_nonneg e.y]
  rcases hnn.lt_or_eq with hpos | hzero
  · exact hpos
  · exfalso
    simp only [vec_dot] at hzero
    have hx : e.x = 0 := by nlinarith [mul_self_nonneg e.x, mul_self_nonneg e.y]
    have hy : e.y = 0 := by nlinarith [mul_self_nonneg e.x, mul_self_nonneg e.y]
    apply he
    ext
    · simpa [VEC_ZERO] using hx
    · simpa [VEC_ZERO] using hy

/-- When `e2` lies on the line of `e1`, every linear reading of `e2` is that of `e1`
scaled by `e1 . e2 / e1 . e1`. -/
theorem parallel_edges (e1 e2 z : vector_t ℝ) (h0 : vec_cross e1 e2 = 0) :
    vec_dot z e2 * vec_dot e1 e1 = vec_dot z e1 * vec_dot e1 e2
      ∧ vec_cross z e2 * vec_dot e1 e1 = vec_cross z e1 * vec_dot e1 e2 := by
  simp only [vec_cross, vec_dot] at h0 ⊢
  constructor
  · linear_combination (z.y * e1.x - z.x * e1.y) * h0
  · linear_combination (z.x * e1.x + z.y * e1.y) * h0

/-- A polygon whose vertices all lie on one line has area zero. -/
theorem polygon_area_collinear (P : List (vector_t ℝ)) (p e : vector_t ℝ)
    (he : 0 < vec_dot e e)
    (h : ∀ j, j < P.length → vec_cross e (vec_subtract (list_get P j) p) = 0) :
    polygon_area P = 0 := by
  rw [polygon_area_seen_from P p, cyc_sum, Finset.sum_eq_zero, zero_div]
  intro i hi
  have hi1 : i < P.length := Finset.mem_range.mp hi
  have h1 := h i hi1
  have h2 := h ((i + 1) % P.length) (Nat.mod_lt _ (by omega))
  generalize vec_subtract (list_get P i) p = x at h1 ⊢
  generalize vec_subtract (list_get P ((i + 1) % P.length)) p = y at h2 ⊢
  have key : vec_cross x y * vec_dot e e
      = vec_dot e x * vec_cross e y - vec_dot e y * vec_cross e x := by
    simp only [vec_cross, vec_dot]
    ring
  rw [h1, h2, mul_zero, mul_zero, sub_zero] at key
  exact (mul_eq_zero.mp key).resolve_right he.ne'

/-- The greatest value of a function on the indices below a positive bound is taken. -/
theorem exists_max_index (f : ℕ → ℝ) (n : ℕ) (hn : 0 < n) :
    ∃ a, a < n ∧ ∀ i, i < n → f i ≤ f a := by
  obtain ⟨a, ha, hmax⟩ := Finset.exists_max_image (Finset.range n) f
    ⟨0, Finset.mem_range.mpr hn⟩
  exact ⟨a, Finset.mem_range.mp ha, fun i hi => hmax i (Finset.mem_range.mpr hi)⟩

/-- Among the indices where a first function is greatest, one where a second function is
greatest. -/
theorem exists_lex_max_index (f g : ℕ → ℝ) (n : ℕ) (hn : 0 < n) :
    ∃ a, a < n ∧ (∀ i, i < n → f i ≤ f a) ∧ (∀ i, i < n → f i = f a → g i ≤ g a) := by
  classical
  obtain ⟨a0, ha0, hmax0⟩ := exists_max_index f n hn
  obtain ⟨a, ha, hmax⟩ := Finset.exists_max_image
    ((Finset.range n).filter (fun i => f i = f a0)) g
    ⟨a0, Finset.mem_filter.mpr ⟨Finset.mem_range.mpr ha0, rfl⟩⟩
  rw [Finset.mem_filter, Finset.mem_range] at ha
  refine ⟨a, ha.1, fun i hi => ?_, fun i hi hfi => ?_⟩
  · rw [ha.2]
    exact hmax0 i hi
  · exact hmax i (Finset.mem_filter.mpr ⟨Finset.mem_range.mpr hi, by rw [hfi, ha.2]⟩)

/-- The boundary of a convex polygon turns strictly at a vertex `a` that is greatest along
a direction `u` and, among the vertices greatest along `u`, greatest across it: were the
two edges at `a` on one line, either a neighbour would be greater, or all vertices would
lie on that line. -/
theorem strict_turn (P : List (vector_t ℝ)) (σ : ℝ) (hσ : σ = 1 ∨ σ = -1)
    (harea : polygon_area P ≠ 0)
    (hside : ∀ i j, i < P.length → j < P.length →
      0 ≤ σ * vec_cross (edge_vec P i) (vec_subtract (list_get P j) (list_get P i)))
    (u : vector_t ℝ) (hu : 0 < vec_dot u u) (a b : Nat) (ha : a < P.length)
    (hb : b < P.length) (hba : (b + 1) % P.length = a)
    (he1 : 0 < vec_dot (edge_vec P b) (edge_vec P b))
    (he2 : 0 < vec_dot (edge_vec P a) (edge_vec P a))
    (hmax : ∀ i, i < P.length → vec_dot u (list_get P i) ≤ vec_dot u (list_get P a))
    (htie : ∀ i, i < P.length → vec_dot u (list_get P i) = vec_dot u (list_get P a) →
      vec_cross u (list_get P i) ≤ vec_cross u (list_get P a)) :
    0 < σ * vec_cross (edge_vec P b) (edge_vec P a) := by
  have hnext : (a + 1) % P.length < P.length := Nat.mod_lt _ (by omega)
  have hE1 : edge_vec P b = vec_subtract (list_get P a) (list_get P b) := by
    rw [edge_vec, hba]
  have hE2 : edge_vec P a = vec_subtract (list_get P ((a + 1) % P.length)) (list_get P a) :=
    rfl
  have hσ0 : σ ≠ 0 := by rcases hσ with rfl | rfl <;> norm_num
  have hnn : 0 ≤ σ * vec_cross (edge_vec P b) (edge_vec P a) := by
    have h := hside b _ hb hnext
    have e : vec_cross (edge_vec P b)
          (vec_subtract (list_get P ((a + 1) % P.length)) (list_get P b))
        = vec_cross (edge_vec P b) (edge_vec P a) := by
      rw [hE2, hE1]
      simp only [vec_cross, vec_subtract]
      ring
    rwa [e] at h
  rcases hnn.lt_or_eq with hpos | hzero
  · exact hpos
  exfalso
  have h0 : vec_cross (edge_vec P b) (edge_vec P a) = 0 :=
    (mul_eq_zero.mp hzero.symm).resolve_left hσ0
  -- the readings along and across `u` at the two neighbours
  have hu1 : 0 ≤ vec_dot u (edge_vec P b) := by
    have h := hmax b hb
    rw [hE1]
    simp only [vec_dot, vec_subtract] at h ⊢
    linarith
  have hu2 : vec_dot u (edge_vec P a) ≤ 0 := by
    have h := hmax _ hnext
    rw [hE2]
    simp only [vec_dot, vec_subtract] at h ⊢
    linarith
  have hsq : vec_dot (edge_vec P b) (edge_vec P a) * vec_dot (edge_vec P b) (edge_vec P a)
      = vec_dot (edge_vec P b) (edge_vec P b) * vec_dot (edge_vec P a) (edge_vec P a) := by
    have e : vec_dot (edge_vec P b) (edge_vec P a) * vec_dot (edge_vec P b) (edge_vec P a)
        + vec_cross (edge_vec P b) (edge_vec P a) * vec_cross (edge_vec P b) (edge_vec P a)
        = vec_dot (edge_vec P b) (edge_vec P b) * vec_dot (edge_vec P a) (edge_vec P a) := by
      simp only [vec_dot, vec_cross]
      ring
    rw [h0, mul_zero, add_zero] at e
    exact e
  have hd0 : vec_dot (edge_vec P b) (edge_vec P a) ≠ 0 := by
    intro h
    rw [h, mul_zero] at hsq
    exact (mul_pos he1 he2).ne hsq
  obtain ⟨I1, I2⟩ := parallel_edges (edge_vec P b) (edge_vec P a) u h0
  rcases lt_or_gt_of_ne hd0 with hd | hd
  · -- the edges point in opposite directions: all vertices lie on their line
    apply harea
    apply polygon_area_collinear P (list_get P a) (edge_vec P b) he1
    intro j hj
    have hA : 0 ≤ σ * vec_cross (edge_vec P b)
        (vec_subtract (list_get P j) (list_get P a)) := by
      have h := hside b j hb hj
      have e : vec_cross (edge_vec P b) (vec_subtract (list_get P j) (list_get P b))
          = vec_cross (edge_vec P b) (vec_subtract (list_get P j) (list_get P a)) := by
        rw [hE1]
        simp only [vec_cross, vec_subtract]
        ring
      rwa [e] at h
    have hB := hside a j ha hj
    obtain ⟨-, J2⟩ := parallel_edges (edge_vec P b) (edge_vec P a)
      (vec_subtract (list_get P j) (list_get P a)) h0
    generalize vec_subtract (list_get P j) (list_get P a) = w at hA hB J2 ⊢
    have flip : ∀ x y : vector_t ℝ, vec_cross x y = -vec_cross y x := by
      intro x y
      simp only [vec_cross]
      ring
    rw [flip w (edge_vec P a), flip w (edge_vec P b)] at J2
    have h1 : 0 ≤ σ * vec_cross (edge_vec P a) w * vec_dot (edge_vec P b) (edge_vec P b) :=
      mul_nonneg hB he1.le
    have h2 : σ * vec_cross (edge_vec P b) w * vec_dot (edge_vec P b) (edge_vec P a) ≤ 0 := by
      have := mul_nonneg hA (neg_pos.mpr hd).le
      linarith
    have h3 : σ * vec_cross (edge_vec P b) w * vec_dot (edge_vec P b) (edge_vec P a) = 0 := by
      have e : σ * vec_cross (edge_vec P b) w * vec_dot (edge_vec P b) (edge_vec P a)
          = σ * vec_cross (edge_vec P a) w * vec_dot (edge_vec P b) (edge_vec P b) := by
        linear_combination σ * J2
      linarith
    have h4 := (mul_eq_zero.mp h3).resolve_right hd0
    exact (mul_eq_zero.mp h4).resolve_left hσ0
  · -- the edges point in the same direction: both neighbours are as great along `u`
    have h1 : 0 ≤ vec_dot u (edge_vec P b) * vec_dot (edge_vec P b) (edge_vec P a) :=
      mul_nonneg hu1 hd.le
    have h2 : 0 ≤ -vec_dot u (edge_vec P a) * vec_dot (edge_vec P b) (edge_vec P b) :=
      mul_nonneg (by linarith) he1.le
    have h3 : vec_dot u (edge_vec P b) * vec_dot (edge_vec P b) (edge_vec P a) = 0 := by
      linarith
    have hub : vec_dot u (edge_vec P b) = 0 := (mul_eq_zero.mp h3).resolve_right hd0
    have hua : vec_dot u (edge_vec P a) = 0 := by
      rw [hub, zero_mul] at I1
      exact (mul_eq_zero.mp I1).resolve_right he1.ne'
    have hc1 : 0 ≤ vec_cross u (edge_vec P b) := by
      have h := htie b hb (by
        rw [hE1] at hub
        simp only [vec_dot, vec_subtract] at hub ⊢
        linarith)
      rw [hE1]
      simp only [vec_cross, vec_subtract] at h ⊢
      linarith
    have hc2 : vec_cross u (edge_vec P a) ≤ 0 := by
      have h := htie _ hnext (by
        rw [hE2] at hua
        simp only [vec_dot, vec_subtract] at hua ⊢
        linarith)
      rw [hE2]
      simp only [vec_cross, vec_subtract] at h ⊢
      linarith
    have k1 : 0 ≤ vec_cross u (edge_vec P b) * vec_dot (edge_vec P b) (edge_vec P a) :=
      mul_nonneg hc1 hd.le
    have k2 : 0 ≤ -vec_cross u (edge_vec P a) * vec_dot (edge_vec P b) (edge_vec P b) :=
      mul_nonneg (by linarith) he1.le
    have k3 : vec_cross u (edge_vec P b) * vec_dot (edge_vec P b) (edge_vec P a) = 0 := by
      linarith
    have hcb : vec_cross u (edge_vec P b) = 0 := (mul_eq_zero.mp k3).resolve_right hd0
    have e : vec_dot u (edge_vec P b) * vec_dot u (edge_vec P b)
        + vec_cross u (edge_vec P b) * vec_cross u (edge_vec P b)
        = vec_dot u u * vec_dot (edge_vec P b) (edge_vec P b) := by
      simp only [vec_dot, vec_cross]
      ring
    rw [hub, hcb, mul_zero, add_zero] at e
    exact (mul_pos hu he1).ne e

/-- A convex polygon has a vertex where a direction `u` is greatest and at which the
outward normals of the two edges that meet there, taken in counter-clockwise order, are
greatest as well, are not on one line and have `u` between them. -/
theorem corner_normals (P : List (vector_t ℝ)) (hP : convex_polygon P) (u : vector_t ℝ)
    (hu : 0 < vec_dot u u) :
    ∃ a, a < P.length
      ∧ (∀ i, i < P.length → vec_dot u (list_get P i) ≤ vec_dot u (list_get P a))
      ∧ ∃ n1 n2 : vector_t ℝ, is_edge_normal P n1 ∧ is_edge_normal P n2
      ∧ (∀ i, i < P.length →
          vec_dot n1 (vec_subtract (list_get P i) (list_get P a)) ≤ 0)
      ∧ (∀ i, i < P.length →
          vec_dot n2 (vec_subtract (list_get P i) (list_get P a)) ≤ 0)
      ∧ 0 < vec_cross n1 n2 ∧ 0 ≤ vec_cross n1 u ∧ 0 ≤ vec_cross u n2 := by
  obtain ⟨hlen, harea, hedge, σ, hσ, hside⟩ := hP
  obtain ⟨a, ha, hmax, htie⟩ := exists_lex_max_index
    (fun i => vec_dot u (list_get P i)) (fun i => vec_cross u (list_get P i)) P.length
    (by omega)
  refine ⟨a, ha, hmax, ?_⟩
  obtain ⟨hb, hba⟩ := cyclic_pred a P.length ha
  have hnext : (a + 1) % P.length < P.length := Nat.mod_lt _ (by omega)
  -- the edge that ends at the vertex and the edge that starts there
  have he1 : edge_vec P ((a + P.length - 1) % P.length)
      = vec_subtract (list_get P a) (list_get P ((a + P.length - 1) % P.length)) := by
    rw [edge_vec, hba]
  have he2 : edge_vec P a = vec_subtract (list_get P ((a + 1) % P.length)) (list_get P a) :=
    rfl
  have t1 : 0 < σ * vec_cross (edge_vec P ((a + P.length - 1) % P.length)) (edge_vec P a) :=
    strict_turn P σ hσ harea hside u hu a _ ha hb hba
      (vec_dot_self_pos _ (hedge _ hb)) (vec_dot_self_pos _ (hedge _ ha)) hmax htie
  have d1 : 0 ≤ vec_dot (edge_vec P ((a + P.length - 1) % P.length)) u := by
    have h := hmax _ hb
    rw [he1]
    simp only [vec_dot, vec_subtract] at h ⊢
    linarith
  have d2 : vec_dot (edge_vec P a) u ≤ 0 := by
    have h := hmax _ hnext
    rw [he2]
    simp only [vec_dot, vec_subtract] at h ⊢
    linarith
  have s1 : ∀ i, i < P.length →
      0 ≤ σ * vec_cross (edge_vec P ((a + P.length - 1) % P.length))
        (vec_subtract (list_get P i) (list_get P a)) := by
    intro i hi
    have h := hside _ i hb hi
    have e : vec_cross (edge_vec P ((a + P.length - 1) % P.length))
          (vec_subtract (list_get P i) (list_get P a))
        = vec_cross (edge_vec P ((a + P.length - 1) % P.length))
          (vec_subtract (list_get P i) (list_get P ((a + P.length - 1) % P.length))) := by
      rw [he1]
      simp only [vec_cross, vec_subtract]
      ring
    rw [e]
    exact h
  have s2 : ∀ i, i < P.length →
      0 ≤ σ * vec_cross (edge_vec P a) (vec_subtract (list_get P i) (list_get P a)) :=
    fun i hi => hside a i ha hi
  have np : is_edge_normal P
      (vec_multiply σ (edge_perp (edge_vec P ((a + P.length - 1) % P.length)))) :=
    ⟨_, hb, σ, hσ, rfl⟩
  have nn : is_edge_normal P (vec_multiply σ (edge_perp (edge_vec P a))) :=
    ⟨_, ha, σ, hσ, rfl⟩
  have vp : ∀ i, i < P.length →
      vec_dot (vec_multiply σ (edge_perp (edge_vec P ((a + P.length - 1) % P.length))))
        (vec_subtract (list_get P i) (list_get P a)) ≤ 0 := by
    intro i hi
    rw [perp_dot]
    linarith [s1 i hi]
  have vn : ∀ i, i < P.length →
      vec_dot (vec_multiply σ (edge_perp (edge_vec P a)))
        (vec_subtract (list_get P i) (list_get P a)) ≤ 0 := by
    intro i hi
    rw [perp_dot]
    linarith [s2 i hi]
  have flip : ∀ a b : vector_t ℝ, vec_cross a b = -vec_cross b a := by
    intro a b
    simp only [vec_cross]
    ring
  rcases hσ with hσ | hσ
  · -- counter-clockwise: the edge that ends at the vertex comes first
    refine ⟨_, _, np, nn, vp, vn, ?_, ?_, ?_⟩
    · rw [perp_cross_perp, hσ]
      rw [hσ] at t1
      linarith
    · rw [perp_cross, hσ]
      linarith
    · rw [flip, perp_cross, hσ]
      linarith
  · -- clockwise: the edge that starts at the vertex comes first
    refine ⟨_, _, nn, np, vn, vp, ?_, ?_, ?_⟩
    · rw [flip, perp_cross_perp, hσ]
      rw [hσ] at t1
      linarith
    · rw [perp_cross, hσ]
      linarith
    · rw [flip, perp_cross, hσ]
      linarith

/-- A direction that separates the vertices of two convex polygons strictly can be replaced
by a direction normal to an edge of one of them. -/
theorem separating_edge_direction (P Q : List (vector_t ℝ)) (hP : convex_polygon P)
    (hQ : convex_polygon Q) (u : vector_t ℝ)
    (hsep : ∀ i j, i < P.length → j < Q.length →
      vec_dot u (list_get P i) < vec_dot u (list_get Q j)) :
    ∃ c, (is_edge_normal P c ∨ is_edge_normal Q c)
      ∧ ∀ i j, i < P.length → j < Q.length →
          vec_dot c (list_get P i) < vec_dot c (list_get Q j) := by
  have hnP : 0 < P.length := by have := hP.1; omega
  have hnQ : 0 < Q.length := by have := hQ.1; omega
  have hu : 0 < vec_dot u u := by
    have h := hsep 0 0 hnP hnQ
    have hnn : 0 ≤ vec_dot u u := by
      simp only [vec_dot]
      nlinarith [mul_self_nonneg u.x, mul_self_nonneg u.y]
    rcases hnn.lt_or_eq with hpos | hzero
    · exact hpos
    · exfalso
      simp only [vec_dot] at hzero h
      have hx : u.x = 0 := by nlinarith [mul_self_nonneg u.x, mul_self_nonneg u.y]
      have hy : u.y = 0 := by nlinarith [mul_self_nonneg u.x, mul_self_nonneg u.y]
      rw [hx, hy] at h
      simp at h
  have hu2 : 0 < vec_dot (vec_negate u) (vec_negate u) := by
    have e : vec_dot (vec_negate u) (vec_negate u) = vec_dot u u := by
      simp only [vec_dot, vec_negate, vec_multiply]
      ring
    rw [e]
    exact hu
  obtain ⟨a, ha, hmaxP, n1, n2, en1, en2, vn1, vn2, hDn, hA1, hA2⟩ :=
    corner_normals P hP u hu
  obtain ⟨b, hb, hmaxQ, m1, m2, em1, em2, vm1, vm2, hDm, hM1, hM2⟩ :=
    corner_normals Q hQ (vec_negate u) hu2
  have neg_dot : ∀ c w : vector_t ℝ, vec_dot (vec_negate c) w = -vec_dot c w := by
    intro c w
    simp only [vec_dot, vec_negate, vec_multiply]
    ring
  have neg_edge : ∀ m, is_edge_normal Q m → is_edge_normal Q (vec_negate m) := by
    rintro m ⟨i, hi, τ, hτ, rfl⟩
    refine ⟨i, hi, -τ, ?_, ?_⟩
    · rcases hτ with rfl | rfl
      · exact Or.inr rfl
      · exact Or.inl (by norm_num)
    · ext <;> simp [vec_negate, vec_multiply]
  obtain ⟨c, hc, hcA, hcB, hcg⟩ := cone_candidate
    {w | ∃ i, i < P.length ∧ w = vec_subtract (list_get P i) (list_get P a)}
    {w | ∃ j, j < Q.length ∧ w = vec_subtract (list_get Q j) (list_get Q b)}
    n1 n2 (vec_negate m1) (vec_negate m2) u
    (vec_subtract (list_get Q b) (list_get P a))
    (by rintro w ⟨i, hi, rfl⟩; exact vn1 i hi)
    (by rintro w ⟨i, hi, rfl⟩; exact vn2 i hi)
    (by
      rintro w ⟨i, hi, rfl⟩
      have h := hmaxP i hi
      simp only [vec_dot, vec_subtract] at h ⊢
      linarith)
    (by rintro w ⟨j, hj, rfl⟩; rw [neg_dot]; linarith [vm1 j hj])
    (by rintro w ⟨j, hj, rfl⟩; rw [neg_dot]; linarith [vm2 j hj])
    (by
      rintro w ⟨j, hj, rfl⟩
      have h := hmaxQ j hj
      simp only [vec_dot, vec_subtract, vec_negate, vec_multiply] at h ⊢
      linarith)
    (by
      have h := hsep a b ha hb
      simp only [vec_dot, vec_subtract] at h ⊢
      linarith)
    hDn hA1 hA2
    (by simp only [vec_cross, vec_negate, vec_multiply] at hDm ⊢; linarith)
    (by simp only [vec_cross, vec_negate, vec_multiply] at hM1 ⊢; linarith)
    (by simp only [vec_cross, vec_negate, vec_multiply] at hM2 ⊢; linarith)
  refine ⟨c, ?_, ?_⟩
  · rcases hc with rfl | rfl | rfl | rfl
    · exact Or.inl en1
    · exact Or.inl en2
    · exact Or.inr (neg_edge m1 em1)
    · exact Or.inr (neg_edge m2 em2)
  · intro i j hi hj
    have h1 := hcA _ ⟨i, hi, rfl⟩
    have h2 := hcB _ ⟨j, hj, rfl⟩
    simp only [vec_dot, vec_subtract] at h1 h2 hcg ⊢
    linarith

/-- Continuing the interval loop from given bounds: each final bound is the old one or the
projection of a further vertex. -/
theorem interval_foldl_attained (normal : vector_t K) (shape : List (vector_t K)) (lo hi : K) :
    ∃ lo2 hi2,
      shape.foldl
        (fun interval v =>
          match interval with
          | none => some (vec_dot v normal, vec_dot v normal)
          | some (lo, hi) =>
            some (if vec_dot v normal < lo then vec_dot v normal else lo,
              if vec_dot v normal > hi then vec_dot v normal else hi))
        (some (lo, hi)) = some (lo2, hi2) ∧
      (lo2 = lo ∨ ∃ v ∈ shape, vec_dot v normal = lo2) ∧
      (hi2 = hi ∨ ∃ v ∈ shape, vec_dot v normal = hi2) := by
  induction shape generalizing lo hi with
  | nil => exact ⟨lo, hi, rfl, Or.inl rfl, Or.inl rfl⟩
  | cons v rest ih =>
    simp only [List.foldl_cons]
    obtain ⟨lo2, hi2, he, hlo, hhi⟩ :=
      ih (if vec_dot v normal < lo then vec_dot v normal else lo)
        (if vec_dot v normal > hi then vec_dot v normal else hi)
    refine ⟨lo2, hi2, he, ?_, ?_⟩
    · rcases hlo with h | ⟨w, hw, h⟩
      · split_ifs at h with hc
        · exact Or.inr ⟨v, List.mem_cons_self _ _, h.symm⟩
        · exact Or.inl h
      · exact Or.inr ⟨w, List.mem_cons_of_mem _ hw, h⟩
    · rcases hhi with h | ⟨w, hw, h⟩
      · split_ifs at h with hc
        · exact Or.inr ⟨v, List.mem_cons_self _ _, h.symm⟩
        · exact Or.inl h
      · exact Or.inr ⟨w, List.mem_cons_of_mem _ hw, h⟩

/-- The bounds of the interval of a shape with a vertex are projections of vertices. -/
theorem find_min_max_interval_attained (normal : vector_t K) (shape : List (vector_t K))
    (hne : shape ≠ []) :
    ∃ lo hi, find_min_max_interval shape normal = some (lo, hi) ∧
      (∃ v ∈ shape, vec_dot v normal = lo) ∧ (∃ v ∈ shape, vec_dot v normal = hi) := by
  cases shape with
  | nil => exact absurd rfl hne
  | cons v rest =>
    obtain ⟨lo2, hi2, he, hlo, hhi⟩ :=
      interval_foldl_attained normal rest (vec_dot v normal) (vec_dot v normal)
    refine ⟨lo2, hi2, ?_, ?_, ?_⟩
    · simpa [find_min_max_interval] using he
    · rcases hlo with h | ⟨w, hw, h⟩
      · exact ⟨v, List.mem_cons_self _ _, h.symm⟩
      · exact ⟨w, List.mem_cons_of_mem _ hw, h⟩
    · rcases hhi with h | ⟨w, hw, h⟩
      · exact ⟨v, List.mem_cons_self _ _, h.symm⟩
      · exact ⟨w, List.mem_cons_of_mem _ hw, h⟩

/-- The intervals of two shapes are disjoint on a normal along which every vertex of one
lies strictly before every vertex of the other. -/
theorem separating_of_strict (s1 s2 : List (vector_t K)) (normal : vector_t K)
    (hne1 : s1 ≠ []) (hne2 : s2 ≠ [])
    (h : (∀ p ∈ s1, ∀ q ∈ s2, vec_dot p normal < vec_dot q normal)
      ∨ (∀ p ∈ s1, ∀ q ∈ s2, vec_dot q normal < vec_dot p normal)) :
    separating s1 s2 normal = true := by
  obtain ⟨lo1, hi1, e1, ⟨a1, ha1, rfl⟩, ⟨b1, hb1, rfl⟩⟩ :=
    find_min_max_interval_attained normal s1 hne1
  obtain ⟨lo2, hi2, e2, ⟨a2, ha2, rfl⟩, ⟨b2, hb2, rfl⟩⟩ :=
    find_min_max_interval_attained normal s2 hne2
  simp only [separating, e1, e2, decide_eq_true_eq]
  rcases h with h | h
  · exact Or.inl (h b1 hb1 a2 ha2)
  · exact Or.inr (h a1 ha1 b2 hb2)

/-- The normal that `find_collision` computes for an edge of the first shape. -/
theorem edge_normal_left (sqrt : K → K) (s1 s2 : List (vector_t K)) (i : Nat)
    (hi : i < s1.length) :
    edge_normal sqrt s1 s2 i
      = vec_multiply (1 / sqrt (vec_dot (edge_vec s1 i) (edge_vec s1 i)))
          (edge_perp (edge_vec s1 i)) := by
  have e : vec_dot (vec_subtract (list_get s1 i) (list_get s1 ((i + 1) % s1.length)))
        (vec_subtract (list_get s1 i) (list_get s1 ((i + 1) % s1.length)))
      = vec_dot (edge_vec s1 i) (edge_vec s1 i) := by
    simp only [vec_dot, vec_subtract, edge_vec]
    ring
  simp only [edge_normal, edge_ends, hi, if_true, compute_normal, e]
  ext
  · simp [vec_multiply, vec_subtract, edge_perp, edge_vec]
    ring
  · simp [vec_multiply, vec_subtract, edge_perp, edge_vec]

/-- The normal that `find_collision` computes for an edge of the second shape. -/
theorem edge_normal_right (sqrt : K → K) (s1 s2 : List (vector_t K)) (i : Nat) :
    edge_normal sqrt s1 s2 (s1.length + i)
      = vec_multiply (1 / sqrt (vec_dot (edge_vec s2 i) (edge_vec s2 i)))
          (edge_perp (edge_vec s2 i)) := by
  have h1 : ¬ (s1.length + i < s1.length) := by omega
  have e : vec_dot (vec_subtract (list_get s2 i) (list_get s2 ((i + 1) % s2.length)))
        (vec_subtract (list_get s2 i) (list_get s2 ((i + 1) % s2.length)))
      = vec_dot (edge_vec s2 i) (edge_vec s2 i) := by
    simp only [vec_dot, vec_subtract, edge_vec]
    ring
  simp only [edge_normal, edge_ends, h1, if_false, Nat.add_sub_cancel_left, compute_normal, e]
  ext
  · simp [vec_multiply, vec_subtract, edge_perp, edge_vec]
    ring
  · simp [vec_multiply, vec_subtract, edge_perp, edge_vec]

/-- No edge of a convex polygon has zero length. -/
theorem convex_polygon_edge (P : List (vector_t ℝ)) (hP : convex_polygon P) (i : Nat)
    (hi : i < P.length) : 0 < vec_dot (edge_vec P i) (edge_vec P i) :=
  vec_dot_self_pos _ (hP.2.2.1 i hi)

/-- A direction normal to an edge that separates the vertices of two convex polygons
strictly makes the interval test of that edge in `find_collision` find disjoint
intervals. -/
theorem edge_normal_separates (P Q : List (vector_t ℝ)) (hP : convex_polygon P)
    (hQ : convex_polygon Q) (c : vector_t ℝ)
    (hc : is_edge_normal P c ∨ is_edge_normal Q c)
    (hsep : ∀ p ∈ P, ∀ q ∈ Q, vec_dot c p < vec_dot c q) :
    ∃ k, k < P.length + Q.length ∧ separating P Q (edge_normal Real.sqrt P Q k) = true := by
  have hneP : P ≠ [] := by
    intro h
    have := hP.1
    rw [h] at this
    simp at this
  have hneQ : Q ≠ [] := by
    intro h
    have := hQ.1
    rw [h] at this
    simp at this
  -- along a scaled quarter turn of an edge the vertices stay separated
  have key : ∀ (e : vector_t ℝ) (τ : ℝ), (τ = 1 ∨ τ = -1) → 0 < vec_dot e e →
      c = vec_multiply τ (edge_perp e) →
      separating P Q (vec_multiply (1 / Real.sqrt (vec_dot e e)) (edge_perp e)) = true := by
    intro e τ hτ he hce
    have hd : 0 < Real.sqrt (vec_dot e e) := Real.sqrt_pos.mpr he
    have hinv : 0 < 1 / Real.sqrt (vec_dot e e) := one_div_pos.mpr hd
    have hval : ∀ w : vector_t ℝ,
        vec_dot w (vec_multiply (1 / Real.sqrt (vec_dot e e)) (edge_perp e))
          = τ * (1 / Real.sqrt (vec_dot e e)) * vec_dot c w := by
      intro w
      rw [hce]
      have hτ2 : τ * τ = 1 := by rcases hτ with rfl | rfl <;> norm_num
      generalize 1 / Real.sqrt (vec_dot e e) = r
      simp only [vec_dot, vec_multiply, edge_perp]
      linear_combination (-r * (e.y * w.x - e.x * w.y)) * hτ2
    apply separating_of_strict P Q _ hneP hneQ
    rcases hτ with rfl | rfl
    · left
      intro p hp q hq
      rw [hval, hval]
      have := hsep p hp q hq
      nlinarith
    · right
      intro p hp q hq
      rw [hval, hval]
      have := hsep p hp q hq
      nlinarith
  rcases hc with ⟨i, hi, τ, hτ, hce⟩ | ⟨i, hi, τ, hτ, hce⟩
  · refine ⟨i, by omega, ?_⟩
    rw [edge_normal_left Real.sqrt P Q i hi]
    exact key _ τ hτ (convex_polygon_edge P hP i hi) hce
  · refine ⟨P.length + i, by omega, ?_⟩
    rw [edge_normal_right Real.sqrt P Q i]
    exact key _ τ hτ (convex_polygon_edge Q hQ i hi) hce

/-- A combination with all weights zero is the zero vector. -/
theorem weighted_sum_zero (n : Nat) (shape : List (vector_t K)) :
    weighted_sum (List.replicate n (0 : K)) shape = VEC_ZERO := by
  induction n generalizing shape with
  | zero => simp [weighted_sum]
  | succ n ih =>
    cases shape with
    | nil => simp [weighted_sum, List.replicate]
    | cons v vs =>
      simp only [List.replicate, weighted_sum, ih]
      ext <;> simp [vec_add, vec_multiply, VEC_ZERO]

/-- Every vertex of a shape is a point of its hull. -/
theorem in_hull_vertex (shape : List (vector_t K)) (v : vector_t K) (hv : v ∈ shape) :
    in_hull v shape := by
  induction shape with
  | nil => simp at hv
  | cons a rest ih =>
    rcases List.mem_cons.mp hv with rfl | hmem
    · refine ⟨1 :: List.replicate rest.length 0, by simp, ?_, by simp, ?_⟩
      · intro x hx
        rcases List.mem_cons.mp hx with rfl | hx
        · exact zero_le_one
        · rw [List.eq_of_mem_replicate hx]
      · simp only [weighted_sum, weighted_sum_zero]
        ext <;> simp [vec_add, vec_multiply, VEC_ZERO]
    · obtain ⟨w, hl, hnn, hs, hp⟩ := ih hmem
      refine ⟨0 :: w, by simp [hl], ?_, by simp [hs], ?_⟩
      · intro x hx
        rcases List.mem_cons.mp hx with rfl | hx
        · exact le_refl _
        · exact hnn x hx
      · simp only [weighted_sum, hp]
        ext <;> simp [vec_add, vec_multiply]

/-- The weights of a combination of two combinations. -/
theorem weighted_sum_combine (a b : K) (ha : 0 ≤ a) (hb : 0 ≤ b) (shape : List (vector_t K))
    (w1 w2 : List K) (h1 : w1.length = shape.length) (h2 : w2.length = shape.length)
    (n1 : ∀ x ∈ w1, 0 ≤ x) (n2 : ∀ x ∈ w2, 0 ≤ x) :
    (List.zipWith (fun s t => a * s + b * t) w1 w2).length = shape.length
      ∧ (∀ x ∈ List.zipWith (fun s t => a * s + b * t) w1 w2, 0 ≤ x)
      ∧ (List.zipWith (fun s t => a * s + b * t) w1 w2).sum = a * w1.sum + b * w2.sum
      ∧ weighted_sum (List.zipWith (fun s t => a * s + b * t) w1 w2) shape
          = vec_add (vec_multiply a (weighted_sum w1 shape))
              (vec_multiply b (weighted_sum w2 shape)) := by
  induction shape generalizing w1 w2 with
  | nil =>
    have e1 : w1 = [] := List.length_eq_zero.mp (by simpa using h1)
    have e2 : w2 = [] := List.length_eq_zero.mp (by simpa using h2)
    subst e1 e2
    refine ⟨rfl, by simp, by simp, ?_⟩
    ext <;> simp [weighted_sum, vec_add, vec_multiply, VEC_ZERO]
  | cons v vs ih =>
    cases w1 with
    | nil => simp at h1
    | cons s ws =>
      cases w2 with
      | nil => simp at h2
      | cons t wt =>
        obtain ⟨i1, i2, i3, i4⟩ := ih ws wt (by simpa using h1) (by simpa using h2)
          (fun x hx => n1 x (List.mem_cons_of_mem _ hx))
          (fun x hx => n2 x (List.mem_cons_of_mem _ hx))
        have hs : 0 ≤ s := n1 s (List.mem_cons_self _ _)
        have ht : 0 ≤ t := n2 t (List.mem_cons_self _ _)
        refine ⟨by simp [i1], ?_, ?_, ?_⟩
        · intro x hx
          simp only [List.zipWith_cons_cons, List.mem_cons] at hx
          rcases hx with rfl | hx
          · exact add_nonneg (mul_nonneg ha hs) (mul_nonneg hb ht)
          · exact i2 x hx
        · simp only [List.zipWith_cons_cons, List.sum_cons, i3]
          ring
        · simp only [List.zipWith_cons_cons, weighted_sum, i4]
          ext <;> simp [vec_add, vec_multiply] <;> ring

/-- The hull of a shape is convex. -/
theorem in_hull_combine (shape : List (vector_t K)) (x y : vector_t K) (a b : K)
    (hx : in_hull x shape) (hy : in_hull y shape) (ha : 0 ≤ a) (hb : 0 ≤ b) (hab : a + b = 1) :
    in_hull (vec_add (vec_multiply a x) (vec_multiply b y)) shape := by
  obtain ⟨w1, l1, n1, s1, p1⟩ := hx
  obtain ⟨w2, l2, n2, s2, p2⟩ := hy
  obtain ⟨c1, c2, c3, c4⟩ := weighted_sum_combine a b ha hb shape w1 w2 l1 l2 n1 n2
  refine ⟨_, c1, c2, ?_, ?_⟩
  · rw [c3, s1, s2, mul_one, mul_one, hab]
  · rw [c4, p1, p2]

/-- Two shapes whose hulls have no point in common are separated strictly by some
direction. -/
theorem exists_separating_direction (P Q : List (vector_t ℝ))
    (hdisj : ∀ x, ¬ (in_hull x P ∧ in_hull x Q)) :
    ∃ u : vector_t ℝ, ∀ p ∈ P, ∀ q ∈ Q, vec_dot u p < vec_dot u q := by
  have hull_sub : ∀ S : List (vector_t ℝ),
      convexHull ℝ ((fun v : vector_t ℝ => (v.x, v.y)) '' {p | p ∈ S})
        ⊆ {z : ℝ × ℝ | in_hull ⟨z.1, z.2⟩ S} := by
    intro S
    apply convexHull_min
    · rintro z ⟨p, hp, rfl⟩
      exact in_hull_vertex S p hp
    · intro x hx y hy a b ha hb hab
      have h := in_hull_combine S ⟨x.1, x.2⟩ ⟨y.1, y.2⟩ a b hx hy ha hb hab
      have e : (⟨(a • x + b • y).1, (a • x + b • y).2⟩ : vector_t ℝ)
          = vec_add (vec_multiply a ⟨x.1, x.2⟩) (vec_multiply b ⟨y.1, y.2⟩) := by
        ext <;> simp [vec_add, vec_multiply] <;> ring
      show in_hull ⟨(a • x + b • y).1, (a • x + b • y).2⟩ S
      rw [e]
      exact h
  have hfin : ∀ S : List (vector_t ℝ),
      ((fun v : vector_t ℝ => (v.x, v.y)) '' {p | p ∈ S}).Finite :=
    fun S => (List.finite_toSet S).image _
  have hd : Disjoint
      (convexHull ℝ ((fun v : vector_t ℝ => (v.x, v.y)) '' {p | p ∈ P}))
      (convexHull ℝ ((fun v : vector_t ℝ => (v.x, v.y)) '' {q | q ∈ Q})) := by
    rw [Set.disjoint_left]
    intro z h1 h2
    exact hdisj ⟨z.1, z.2⟩ ⟨hull_sub P h1, hull_sub Q h2⟩
  obtain ⟨f, s, t, hs, hst, ht⟩ := geometric_hahn_banach_compact_closed
    (convex_convexHull ℝ _) (hfin P).isCompact_convexHull (convex_convexHull ℝ _)
    (hfin Q).isClosed_convexHull hd
  have hf : ∀ v : vector_t ℝ, f (v.x, v.y) = vec_dot ⟨f (1, 0), f (0, 1)⟩ v := by
    intro v
    have e : ((v.x, v.y) : ℝ × ℝ) = v.x • ((1, 0) : ℝ × ℝ) + v.y • ((0, 1) : ℝ × ℝ) := by
      ext <;> simp
    rw [e, map_add, map_smul, map_smul]
    simp only [vec_dot, smul_eq_mul]
    ring
  refine ⟨⟨f (1, 0), f (0, 1)⟩, ?_⟩
  intro p hp q hq
  have h1 := hs _ (subset_convexHull ℝ _ ⟨p, hp, rfl⟩)
  have h2 := ht _ (subset_convexHull ℝ _ ⟨q, hq, rfl⟩)
  rw [← hf p, ← hf q]
  linarith

/-- The vertex of a polygon at an index below its length is one of its members. -/
theorem list_get_mem (polygon : List (vector_t K)) (i : Nat) (hi : i < polygon.length) :
    list_get polygon i ∈ polygon := by
  simp only [list_get, List.getD_eq_getElem?_getD, List.getElem?_eq_getElem hi,
    Option.getD_some]
  exact List.getElem_mem _

/-- C37, amended: in exact arithmetic, over the reals with the square root of the reals:
when `find_collision` returns `collided = true` for two convex polygons (at least three
vertices, `polygon_area` not zero, no edge of zero length, all vertices on the inner side
of every edge line or on it), some point is a convex combination of the vertices of both:
the two filled polygons, boundaries included, have a point in common. -/
theorem find_collision_convex (P Q : List (vector_t ℝ)) (hP : convex_polygon P)
    (hQ : convex_polygon Q) (hcol : (find_collision Real.sqrt P Q).collided = true) :
    ∃ x, in_hull x P ∧ in_hull x Q := by
  by_contra hno
  have hdisj : ∀ x, ¬ (in_hull x P ∧ in_hull x Q) := fun x hx => hno ⟨x, hx⟩
  obtain ⟨u, hu⟩ := exists_separating_direction P Q hdisj
  obtain ⟨c, hc, hsep⟩ := separating_edge_direction P Q hP hQ u
    (fun i j hi hj => hu _ (list_get_mem P i hi) _ (list_get_mem Q j hj))
  have hsep2 : ∀ p ∈ P, ∀ q ∈ Q, vec_dot c p < vec_dot c q := by
    intro p hp q hq
    obtain ⟨i, hi, rfl⟩ := List.getElem_of_mem hp
    obtain ⟨j, hj, rfl⟩ := List.getElem_of_mem hq
    have h := hsep i j hi hj
    simpa [list_get, List.getD_eq_getElem?_getD, List.getElem?_eq_getElem hi,
      List.getElem?_eq_getElem hj] using h
  obtain ⟨k, hk, hk2⟩ := edge_normal_separates P Q hP hQ c hc hsep2
  have hfalse : (find_collision Real.sqrt P Q).collided = false := by
    rw [find_collision, find_collision_loop_collided]
    refine ⟨k, List.mem_range.mpr hk, ?_⟩
    rw [edge_test_eq, if_pos hk2]
  rw [hcol] at hfalse
  cases hfalse

/-- The square of `make_shape` is a convex polygon, listed counter-clockwise. -/
theorem convex_polygon_make_shape : convex_polygon (make_shape : List (vector_t ℝ)) := by
  refine ⟨by simp [make_shape], ?_, ?_, 1, Or.inl rfl, ?_⟩
  · rw [polygon_area_make_shape]
    norm_num
  · intro i hi
    have hi4 : i < 4 := hi
    interval_cases i <;>
      norm_num [make_shape, edge_vec, list_get, vec_subtract, VEC_ZERO]
  · intro i j hi hj
    have hi4 : i < 4 := hi
    have hj4 : j < 4 := hj
    interval_cases i <;> interval_cases j <;>
      norm_num [make_shape, edge_vec, list_get, vec_cross, vec_subtract]

/-- The square of `make_shape` moved by one unit along x is a convex polygon. -/
theorem convex_polygon_square_at : convex_polygon (square_at (1 : ℝ)) := by
  refine ⟨by simp [square_at, polygon_translate, make_shape], ?_, ?_, 1, Or.inl rfl, ?_⟩
  · rw [square_at, polygon_area_translate, polygon_area_make_shape]
    norm_num
  · intro i hi
    have hi4 : i < 4 := by simpa [square_at, polygon_translate, make_shape] using hi
    interval_cases i <;>
      norm_num [square_at, polygon_translate, make_shape, edge_vec, list_get, vec_subtract,
        vec_add, VEC_ZERO]
  · intro i j hi hj
    have hi4 : i < 4 := by simpa [square_at, polygon_translate, make_shape] using hi
    have hj4 : j < 4 := by simpa [square_at, polygon_translate, make_shape] using hj
    interval_cases i <;> interval_cases j <;>
      norm_num [square_at, polygon_translate, make_shape, edge_vec, list_get, vec_cross,
        vec_subtract, vec_add]

/-- Witness of C37: the square of `make_shape` and its copy moved by one unit along x are
reported as colliding, and have a point in common. -/
theorem find_collision_convex_witness :
    ∃ x, in_hull x (make_shape : List (vector_t ℝ)) ∧ in_hull x (square_at (1 : ℝ)) := by
  have hs : Real.sqrt 4 = 2 := by
    rw [show (4 : ℝ) = 2 ^ 2 by norm_num, Real.sqrt_sq (by norm_num)]
  have hcol : (find_collision Real.sqrt make_shape (square_at (1 : ℝ))).collided = true := by
    rw [find_collision_squares Real.sqrt hs 1, if_neg (by norm_num), if_neg (by norm_num)]
  exact find_collision_convex make_shape (square_at 1) convex_polygon_make_shape
    convex_polygon_square_at hcol

/-! ## Rounded arithmetic: the error of one rounding -/

/-- Zero has no binary digit. -/
theorem bit_length_zero (fuel : Nat) : bit_length fuel 0 = 0 := by
  cases fuel <;> simp [bit_length]

/-- With enough fuel `bit_length` is the number of binary digits:
`2 ^ (b - 1) ≤ n < 2 ^ b`. -/
theorem bit_length_spec (fuel n : Nat) (h : n ≤ fuel) (hn : 0 < n) :
    n < 2 ^ bit_length fuel n ∧ 2 ^ bit_length fuel n ≤ 2 * n := by
  induction fuel generalizing n with
  | zero => omega
  | succ fuel ih =>
    rw [bit_length, if_neg (by omega)]
    rcases Nat.eq_zero_or_pos (n / 2) with h0 | hpos
    · rw [h0, bit_length_zero]
      have : n = 1 := by omega
      subst this
      simp
    · obtain ⟨h1, h2⟩ := ih (n / 2) (by omega) hpos
      rw [pow_succ]
      generalize 2 ^ bit_length fuel (n / 2) = P at h1 h2 ⊢
      constructor <;> omega

/-- A power of two with an integer exponent as a quotient of two powers with natural
exponents. -/
theorem two_zpow_split (k : ℤ) : (2 : ℚ) ^ k = 2 ^ k.toNat / 2 ^ (-k).toNat := by
  rcases le_or_lt 0 k with h | h
  · have e1 : (-k).toNat = 0 := Int.toNat_eq_zero.mpr (by omega)
    have e2 : (k.toNat : ℤ) = k := Int.toNat_of_nonneg h
    rw [e1, pow_zero, div_one, ← zpow_natCast, e2]
  · have e1 : k.toNat = 0 := Int.toNat_eq_zero.mpr (by omega)
    have e2 : ((-k).toNat : ℤ) = -k := Int.toNat_of_nonneg (by omega)
    rw [e1, pow_zero, one_div, ← zpow_natCast, e2, zpow_neg, inv_inv]

/-- The power of two with exponent `floor_log2 n d` is at most `n / d`. -/
theorem floor_log2_le (n d : Nat) (hn : 0 < n) (hd : 0 < d) :
    (2 : ℚ) ^ floor_log2 n d ≤ (n : ℚ) / d := by
  have hdq : (0 : ℚ) < d := by exact_mod_cast hd
  unfold floor_log2
  simp only []
  split_ifs with hc
  · rw [two_zpow_split, div_le_div_iff₀ (by positivity) hdq]
    have hq : ((d * 2 ^ ((bit_length n n : ℤ) - (bit_length d d : ℤ)).toNat : ℕ) : ℚ)
        ≤ ((n * 2 ^ (-((bit_length n n : ℤ) - (bit_length d d : ℤ))).toNat : ℕ) : ℚ) := by
      exact_mod_cast hc
    push_cast at hq
    linarith
  · obtain ⟨-, n2⟩ := bit_length_spec n n le_rfl hn
    obtain ⟨d1, -⟩ := bit_length_spec d d le_rfl hd
    have n2q : ((2 : ℚ) ^ bit_length n n) ≤ 2 * n := by exact_mod_cast n2
    have d1q : (d : ℚ) ≤ 2 ^ bit_length d d := by exact_mod_cast d1.le
    have e : (2 : ℚ) ^ ((bit_length n n : ℤ) - (bit_length d d : ℤ) - 1)
        = 2 ^ bit_length n n / (2 ^ bit_length d d * 2) := by
      rw [zpow_sub₀ (by norm_num), zpow_sub₀ (by norm_num), zpow_natCast, zpow_natCast,
        zpow_one, div_div]
    rw [e, div_le_div_iff₀ (by positivity) hdq]
    have hp : (0 : ℚ) < 2 ^ bit_length d d := by positivity
    have hnq : (0 : ℚ) ≤ n := by positivity
    nlinarith [mul_le_mul n2q d1q hdq.le (by positivity : (0 : ℚ) ≤ 2 * n)]

/-- The quotient of two positive integers rounded to the nearest integer, ties to even,
is within one half of it. -/
theorem nearest_integer (N D : Nat) (hD : 0 < D) :
    |(((if 2 * (N % D) < D then N / D
        else if 2 * (N % D) = D then N / D + N / D % 2 else N / D + 1 : ℕ) : ℚ))
      - (N : ℚ) / D| ≤ 1 / 2 := by
  have hDq : (0 : ℚ) < D := by exact_mod_cast hD
  have hdm : ((D * (N / D) + N % D : ℕ) : ℚ) = N := by exact_mod_cast Nat.div_add_mod N D
  push_cast at hdm
  have hrlt : ((N % D : ℕ) : ℚ) < D := by exact_mod_cast Nat.mod_lt N hD
  have hr0 : (0 : ℚ) ≤ ((N % D : ℕ) : ℚ) := by positivity
  have hND : (N : ℚ) / D = ((N / D : ℕ) : ℚ) + ((N % D : ℕ) : ℚ) / D := by
    field_simp
    linarith
  rw [hND, abs_le]
  have hfrac0 : (0 : ℚ) ≤ ((N % D : ℕ) : ℚ) / D := div_nonneg hr0 hDq.le
  have hfrac1 : ((N % D : ℕ) : ℚ) / D < 1 := (div_lt_one hDq).mpr hrlt
  split_ifs with h1 h2
  · have h1q : (2 : ℚ) * ((N % D : ℕ) : ℚ) < D := by exact_mod_cast h1
    have : ((N % D : ℕ) : ℚ) / D < 1 / 2 := by
      rw [div_lt_iff₀ hDq]
      linarith
    constructor <;> linarith
  · have h2q : (2 : ℚ) * ((N % D : ℕ) : ℚ) = D := by exact_mod_cast h2
    have : ((N % D : ℕ) : ℚ) / D = 1 / 2 := by
      rw [div_eq_iff hDq.ne']
      linarith
    rcases Nat.mod_two_eq_zero_or_one (N / D) with h | h
    · rw [h]
      push_cast
      constructor <;> linarith
    · rw [h]
      push_cast
      constructor <;> linarith
  · have h3 : D < 2 * (N % D) := by omega
    have h3q : (D : ℚ) < 2 * ((N % D : ℕ) : ℚ) := by exact_mod_cast h3
    have : 1 / 2 < ((N % D : ℕ) : ℚ) / D := by
      rw [lt_div_iff₀ hDq]
      linarith
    push_cast
    constructor <;> linarith

/-- The relative error of rounding a positive quotient is at most `2 ^ -53`. -/
theorem round64_pos_error (n d : Nat) (hn : 0 < n) (hd : 0 < d) :
    |round64_pos n d - (n : ℚ) / d| ≤ (n : ℚ) / d / 2 ^ 53 := by
  have hl := floor_log2_le n d hn hd
  have hdq : (0 : ℚ) < d := by exact_mod_cast hd
  unfold round64_pos
  simp only []
  generalize floor_log2 n d = l at hl ⊢
  have hP : (0 : ℚ) < 2 ^ (-(l - 52)).toNat := by positivity
  have hQ : (0 : ℚ) < 2 ^ (l - 52).toNat := by positivity
  have hD : 0 < d * 2 ^ (l - 52).toNat := Nat.mul_pos hd (by positivity)
  have hm := nearest_integer (n * 2 ^ (-(l - 52)).toNat) (d * 2 ^ (l - 52).toNat) hD
  generalize (if 2 * (n * 2 ^ (-(l - 52)).toNat % (d * 2 ^ (l - 52).toNat))
      < d * 2 ^ (l - 52).toNat then n * 2 ^ (-(l - 52)).toNat / (d * 2 ^ (l - 52).toNat)
    else if 2 * (n * 2 ^ (-(l - 52)).toNat % (d * 2 ^ (l - 52).toNat))
      = d * 2 ^ (l - 52).toNat then
      n * 2 ^ (-(l - 52)).toNat / (d * 2 ^ (l - 52).toNat)
        + n * 2 ^ (-(l - 52)).toNat / (d * 2 ^ (l - 52).toNat) % 2
    else n * 2 ^ (-(l - 52)).toNat / (d * 2 ^ (l - 52).toNat) + 1) = m at hm ⊢
  have hres : mkRat ((m * 2 ^ (l - 52).toNat : ℕ) : ℤ) (2 ^ (-(l - 52)).toNat)
      = (m : ℚ) * (2 ^ (l - 52).toNat / 2 ^ (-(l - 52)).toNat) := by
    rw [Rat.mkRat_eq_div]
    push_cast
    ring
  have hsplit := two_zpow_split (l - 52)
  rw [hres, ← hsplit]
  have hscale : ((n * 2 ^ (-(l - 52)).toNat : ℕ) : ℚ) / ((d * 2 ^ (l - 52).toNat : ℕ) : ℚ)
      = (n : ℚ) / d / 2 ^ (l - 52) := by
    rw [hsplit]
    push_cast
    field_simp
  rw [hscale] at hm
  have hE : (0 : ℚ) < 2 ^ (l - 52) := by positivity
  have key : (m : ℚ) * 2 ^ (l - 52) - (n : ℚ) / d
      = ((m : ℚ) - (n : ℚ) / d / 2 ^ (l - 52)) * 2 ^ (l - 52) := by
    field_simp
    ring
  rw [key, abs_mul, abs_of_pos hE]
  have hl2 : (2 : ℚ) ^ (l - 52) = 2 ^ l / 2 ^ 52 := by
    rw [zpow_sub₀ (by norm_num)]
    norm_num
  calc |(m : ℚ) - (n : ℚ) / d / 2 ^ (l - 52)| * 2 ^ (l - 52)
      ≤ 1 / 2 * 2 ^ (l - 52) := mul_le_mul_of_nonneg_right hm hE.le
    _ = 2 ^ l / 2 ^ 53 := by rw [hl2]; ring
    _ ≤ (n : ℚ) / d / 2 ^ 53 := div_le_div_of_nonneg_right hl (by positivity)

/-- The relative error of one rounding to binary64 is at most `2 ^ -53`. -/
theorem round64_error (x : ℚ) : |round64 x - x| ≤ |x| / 2 ^ 53 := by
  have hden : 0 < x.den := x.den_pos
  have hx : ((x.num : ℤ) : ℚ) / (x.den : ℚ) = x := Rat.num_div_den x
  unfold round64
  rcases lt_trichotomy x.num 0 with h | h | h
  · have hna : 0 < x.num.natAbs := Int.natAbs_pos.mpr (by omega)
    have e := round64_pos_error x.num.natAbs x.den hna hden
    have hcast : ((x.num.natAbs : ℕ) : ℚ) = -((x.num : ℤ) : ℚ) := by
      have : ((x.num.natAbs : ℕ) : ℤ) = -x.num := by omega
      rw [← Int.cast_natCast, this, Int.cast_neg]
    have hval : ((x.num.natAbs : ℕ) : ℚ) / (x.den : ℚ) = -x := by
      rw [hcast, neg_div, hx]
    rw [hval] at e
    have hxneg : x < 0 := Rat.num_neg.mp h
    rw [if_neg (by omega), if_neg (by omega), abs_of_neg hxneg]
    have : -round64_pos x.num.natAbs x.den - x = -(round64_pos x.num.natAbs x.den - -x) := by
      ring
    rw [this, abs_neg]
    exact e
  · have hx0 : x = 0 := Rat.zero_of_num_zero h
    rw [if_pos h, hx0]
    simp
  · have hna : 0 < x.num.natAbs := Int.natAbs_pos.mpr (by omega)
    have e := round64_pos_error x.num.natAbs x.den hna hden
    have hcast : ((x.num.natAbs : ℕ) : ℚ) = ((x.num : ℤ) : ℚ) := by
      have : ((x.num.natAbs : ℕ) : ℤ) = x.num := by omega
      rw [← Int.cast_natCast, this]
    have hval : ((x.num.natAbs : ℕ) : ℚ) / (x.den : ℚ) = x := by
      rw [hcast, hx]
    rw [hval] at e
    have hxpos : 0 < x := Rat.num_pos.mp h
    rw [if_neg (by omega), if_pos h, abs_of_pos hxpos]
    exact e

/-! ## Rounded arithmetic: translation there and back -/

/-- Rounding commutes with negation. -/
theorem round64_neg (x : ℚ) : round64 (-x) = -round64 x := by
  unfold round64
  rw [Rat.neg_num, Rat.neg_den]
  rcases lt_trichotomy x.num 0 with h | h | h
  · have h1 : ¬ (-x.num = 0) := by omega
    have h2 : (0 : ℤ) < -x.num := by omega
    have h3 : ¬ (x.num = 0) := by omega
    have h4 : ¬ ((0 : ℤ) < x.num) := by omega
    rw [if_neg h1, if_pos h2, if_neg h3, if_neg h4, Int.natAbs_neg, neg_neg]
  · simp [h]
  · have h1 : ¬ (-x.num = 0) := by omega
    have h2 : ¬ ((0 : ℤ) < -x.num) := by omega
    have h3 : ¬ (x.num = 0) := by omega
    rw [if_neg h1, if_neg h2, if_neg h3, if_pos h, Int.natAbs_neg]

/-- A vertex whose coordinates and whose sums with the translation are doubles comes back
from the translation there and back. -/
theorem vec_add_round_trip (p v : vector_t ℚ)
    (hv : round64 v.x = v.x ∧ round64 v.y = v.y)
    (hp : round64 p.x = p.x ∧ round64 p.y = p.y)
    (hs : round64 (p.x + v.x) = p.x + v.x ∧ round64 (p.y + v.y) = p.y + v.y) :
    Binary64.vec_add (Binary64.vec_add p v) (Binary64.vec_negate v) = p := by
  have nx : round64 (v.x * -1) = -v.x := by
    rw [mul_neg, mul_one, round64_neg, hv.1]
  have ny : round64 (v.y * -1) = -v.y := by
    rw [mul_neg, mul_one, round64_neg, hv.2]
  ext
  · simp only [Binary64.vec_add, Binary64.vec_negate, Binary64.vec_multiply]
    rw [hs.1, nx, add_neg_cancel_right, hp.1]
  · simp only [Binary64.vec_add, Binary64.vec_negate, Binary64.vec_multiply]
    rw [hs.2, ny, add_neg_cancel_right, hp.2]

/-- A coordinate `x` translated by `v` and back on doubles lies within
`2 ^ -51 * (|x| + |v|)` of `x`: three roundings, each of relative error at most
`2 ^ -53`. -/
theorem round_trip_error (x v : ℚ) :
    |round64 (round64 (x + v) + round64 (v * -1)) - x| ≤ (|x| + |v|) / 2 ^ 51 := by
  have hb : round64 (v * -1) = -round64 v := by rw [mul_neg, mul_one, round64_neg]
  rw [hb]
  have h1 := round64_error (x + v)
  have h2 := round64_error v
  have h3 := round64_error (round64 (x + v) + -round64 v)
  have t1 : |x + v| ≤ |x| + |v| := abs_add x v
  have t2 : |round64 (x + v) + -round64 v|
      ≤ |x| + (|round64 (x + v) - (x + v)| + |round64 v - v|) := by
    have e : round64 (x + v) + -round64 v
        = x + ((round64 (x + v) - (x + v)) + -(round64 v - v)) := by ring
    calc |round64 (x + v) + -round64 v|
        = |x + ((round64 (x + v) - (x + v)) + -(round64 v - v))| := by rw [← e]
      _ ≤ |x| + |(round64 (x + v) - (x + v)) + -(round64 v - v)| := abs_add _ _
      _ ≤ |x| + (|round64 (x + v) - (x + v)| + |-(round64 v - v)|) :=
          add_le_add_left (abs_add _ _) _
      _ = |x| + (|round64 (x + v) - (x + v)| + |round64 v - v|) := by rw [abs_neg]
  have t3 : |round64 (round64 (x + v) + -round64 v) - x|
      ≤ |round64 (round64 (x + v) + -round64 v) - (round64 (x + v) + -round64 v)|
        + (|round64 (x + v) - (x + v)| + |round64 v - v|) := by
    have e : round64 (round64 (x + v) + -round64 v) - x
        = (round64 (round64 (x + v) + -round64 v) - (round64 (x + v) + -round64 v))
          + ((round64 (x + v) - (x + v)) + -(round64 v - v)) := by ring
    calc |round64 (round64 (x + v) + -round64 v) - x|
        = |(round64 (round64 (x + v) + -round64 v) - (round64 (x + v) + -round64 v))
          + ((round64 (x + v) - (x + v)) + -(round64 v - v))| := by rw [← e]
      _ ≤ |round64 (round64 (x + v) + -round64 v) - (round64 (x + v) + -round64 v)|
          + |(round64 (x + v) - (x + v)) + -(round64 v - v)| := abs_add _ _
      _ ≤ |round64 (round64 (x + v) + -round64 v) - (round64 (x + v) + -round64 v)|
          + (|round64 (x + v) - (x + v)| + |-(round64 v - v)|) :=
          add_le_add_left (abs_add _ _) _
      _ = _ := by rw [abs_neg]
  have hx : 0 ≤ |x| := abs_nonneg x
  have hv : 0 ≤ |v| := abs_nonneg v
  generalize |round64 (round64 (x + v) + -round64 v) - x| = E at t3 ⊢
  generalize |round64 (round64 (x + v) + -round64 v) - (round64 (x + v) + -round64 v)| = E3
    at h3 t3
  generalize |round64 (x + v) + -round64 v| = W at h3 t2
  generalize |round64 (x + v) - (x + v)| = E1 at h1 t2 t3
  generalize |round64 v - v| = E2 at h2 t2 t3
  generalize |x + v| = S at h1 t1
  generalize |x| = A at *
  generalize |v| = B at *
  have p53 : (0 : ℚ) < 2 ^ 53 := by positivity
  rw [le_div_iff₀ p53] at h1 h2 h3
  rw [le_div_iff₀ (by positivity : (0 : ℚ) < 2 ^ 51)]
  norm_num at h1 h2 h3 ⊢
  nlinarith

/-- C29, amended: in exact arithmetic translating a polygon by `v` and then by
`vec_negate v` restores every vertex; on doubles the number of vertices and their order
are kept, every coordinate `x` comes back within `2 ^ -51 * (|x| + |v|)` of its value,
`v` the matching coordinate of the translation, and every vertex is restored exactly when
the coordinates of the polygon and of `v` are doubles and no coordinate sum is rounded. -/
theorem polygon_translate_round_trip_rounded (polygon : List (vector_t ℚ)) (v : vector_t ℚ) :
    polygon_translate (polygon_translate polygon v) (vec_negate v) = polygon
      ∧ (Binary64.polygon_translate (Binary64.polygon_translate polygon v)
          (Binary64.vec_negate v)).length = polygon.length
      ∧ (∀ i, i < polygon.length →
          |(list_get (Binary64.polygon_translate (Binary64.polygon_translate polygon v)
              (Binary64.vec_negate v)) i).x - (list_get polygon i).x|
            ≤ (|(list_get polygon i).x| + |v.x|) / 2 ^ 51
          ∧ |(list_get (Binary64.polygon_translate (Binary64.polygon_translate polygon v)
              (Binary64.vec_negate v)) i).y - (list_get polygon i).y|
            ≤ (|(list_get polygon i).y| + |v.y|) / 2 ^ 51)
      ∧ ((round64 v.x = v.x ∧ round64 v.y = v.y) →
          (∀ p ∈ polygon, (round64 p.x = p.x ∧ round64 p.y = p.y)
            ∧ round64 (p.x + v.x) = p.x + v.x ∧ round64 (p.y + v.y) = p.y + v.y) →
          Binary64.polygon_translate (Binary64.polygon_translate polygon v)
            (Binary64.vec_negate v) = polygon) := by
  refine ⟨(polygon_translate_round_trip polygon v).1, by simp [Binary64.polygon_translate],
    ?_, ?_⟩
  · intro i hi
    have e : list_get (Binary64.polygon_translate (Binary64.polygon_translate polygon v)
          (Binary64.vec_negate v)) i
        = Binary64.vec_add (Binary64.vec_add (list_get polygon i) v)
            (Binary64.vec_negate v) := by
      simp [Binary64.polygon_translate, list_get, List.getD_eq_getElem?_getD, hi]
    rw [e]
    exact ⟨round_trip_error _ _, round_trip_error _ _⟩
  · intro hv hp
    simp only [Binary64.polygon_translate, List.map_map]
    conv_rhs => rw [← List.map_id polygon]
    apply List.map_congr_left
    intro p hmem
    exact vec_add_round_trip p v hv (hp p hmem).1 (hp p hmem).2

set_option maxRecDepth 100000 in
/-- Witness of C29: the square of `make_shape` translated by (1, 0) and back, on
doubles. -/
theorem polygon_translate_round_trip_rounded_witness :
    Binary64.polygon_translate (Binary64.polygon_translate make_shape ⟨1, 0⟩)
      (Binary64.vec_negate ⟨1, 0⟩) = make_shape :=
  (polygon_translate_round_trip_rounded make_shape ⟨1, 0⟩).2.2.2 (by decide!) (by decide!)

set_option maxRecDepth 100000 in
/-- C29, the code on doubles at the failing input: the square with first vertex
`(2 ^ -60, 0)`, whose coordinates are doubles, translated by (1, 0) and then by
`vec_negate` of (1, 0) comes back with first vertex (0, 0): the sum `2 ^ -60 + 1` is
rounded to 1. -/
theorem polygon_translate_round_trip_rounds :
    (∀ p ∈ near_square, round64 p.x = p.x ∧ round64 p.y = p.y)
      ∧ list_get near_square 0 = ⟨1 / 2 ^ 60, 0⟩
      ∧ list_get (Binary64.polygon_translate (Binary64.polygon_translate near_square ⟨1, 0⟩)
          (Binary64.vec_negate ⟨1, 0⟩)) 0 = ⟨0, 0⟩
      ∧ Binary64.polygon_translate (Binary64.polygon_translate near_square ⟨1, 0⟩)
          (Binary64.vec_negate ⟨1, 0⟩) ≠ near_square := by
  decide!

set_option maxRecDepth 100000 in
/-- C5, the code on doubles at the failing input: the body of the tests, whose centroid
field is `polygon_centroid` of its shape and whose area is 4, after `body_set_centroid`
to `(0.1, 0.2)`: the x coordinate of the centroid field is `0x1.999999999999ap-4`, that
of `polygon_centroid` of the shape is `0x1.999999999999cp-4`, two units in the last place
more; the centroid of the stored shape in exact arithmetic differs from the field as
well. -/
theorem centroid_invariant_rounds :
    rounded_square_body.centroid = Binary64.polygon_centroid rounded_square_body.shape
      ∧ Binary64.polygon_area rounded_square_body.shape = 4
      ∧ (Binary64.body_set_centroid rounded_square_body tenth_point).centroid.x
          = 3602879701896397 / 2 ^ 55
      ∧ (Binary64.polygon_centroid
          (Binary64.body_set_centroid rounded_square_body tenth_point).shape).x
          = 1801439850948199 / 2 ^ 54
      ∧ (Binary64.body_set_centroid rounded_square_body tenth_point).centroid
          ≠ Binary64.polygon_centroid
              (Binary64.body_set_centroid rounded_square_body tenth_point).shape
      ∧ (Binary64.body_set_centroid rounded_square_body tenth_point).centroid
          ≠ polygon_centroid
              (Binary64.body_set_centroid rounded_square_body tenth_point).shape := by
  decide!

set_option maxRecDepth 100000 in
/-- The verdicts of `find_collision` on doubles for the two triangles that touch. -/
theorem find_collision_touching_rounded :
    (∀ p ∈ (triangle_12_9 : List (vector_t ℚ)), round64 p.x = p.x ∧ round64 p.y = p.y)
      ∧ (∀ p ∈ (triangle_touching : List (vector_t ℚ)),
          round64 p.x = p.x ∧ round64 p.y = p.y)
      ∧ (Binary64.find_collision triangle_12_9 triangle_touching).collided = false
      ∧ (Binary64.find_collision triangle_touching triangle_12_9).collided = false := by
  decide!

/-- C8, the code on doubles at the failing input: the triangles (0,0), (12,0), (0,9) and
(4,6), (16,15), (17,15) have no edge of zero length and share the point (4,6), which lies
on the hypotenuse of the first and is a vertex of the second; on the normal of the
hypotenuse the projections of the first end at `7.2` and those of the second start one
unit in the last place above, and `find_collision` returns `collided = false`, in either
order of the arguments. -/
theorem find_collision_misses_touching :
    in_hull (⟨4, 6⟩ : vector_t ℚ) triangle_12_9
      ∧ in_hull (⟨4, 6⟩ : vector_t ℚ) triangle_touching
      ∧ (∀ i, i < 6 → (edge_ends (triangle_12_9 : List (vector_t ℚ)) triangle_touching i).1
          ≠ (edge_ends (triangle_12_9 : List (vector_t ℚ)) triangle_touching i).2)
      ∧ (∀ p ∈ (triangle_12_9 : List (vector_t ℚ)), round64 p.x = p.x ∧ round64 p.y = p.y)
      ∧ (∀ p ∈ (triangle_touching : List (vector_t ℚ)),
          round64 p.x = p.x ∧ round64 p.y = p.y)
      ∧ (Binary64.find_collision triangle_12_9 triangle_touching).collided = false
      ∧ (Binary64.find_collision triangle_touching triangle_12_9).collided = false := by
  refine ⟨⟨[0, 1 / 3, 2 / 3], rfl, ?_, by norm_num, ?_⟩,
    ⟨[1, 0, 0], rfl, ?_, by norm_num, ?_⟩, ?_, find_collision_touching_rounded⟩
  · intro a ha
    simp only [List.mem_cons, List.mem_singleton, List.not_mem_nil, or_false] at ha
    rcases ha with rfl | rfl | rfl <;> norm_num
  · simp [weighted_sum, triangle_12_9, vec_add, vec_multiply, VEC_ZERO]
    norm_num
  · intro a ha
    simp only [List.mem_cons, List.mem_singleton, List.not_mem_nil, or_false] at ha
    rcases ha with rfl | rfl | rfl <;> norm_num
  · simp [weighted_sum, triangle_touching, vec_add, vec_multiply, VEC_ZERO]
  · intro i hi
    interval_cases i <;>
      simp [edge_ends, triangle_12_9, triangle_touching, list_get]

set_option maxRecDepth 100000 in
/-- The verdicts of `find_collision` on doubles for the two triangles that are apart. -/
theorem find_collision_apart_rounded :
    (∀ p ∈ (triangle_3_3 : List (vector_t ℚ)), round64 p.x = p.x ∧ round64 p.y = p.y)
      ∧ (∀ p ∈ (triangle_beyond : List (vector_t ℚ)),
          round64 p.x = p.x ∧ round64 p.y = p.y)
      ∧ (Binary64.find_collision triangle_3_3 triangle_beyond).collided = true
      ∧ (Binary64.find_collision triangle_beyond triangle_3_3).collided = true := by
  decide!

/-- The triangle with legs 3 and 3 is a convex polygon. -/
theorem convex_polygon_triangle_3_3 : convex_polygon (triangle_3_3 : List (vector_t ℝ)) := by
  refine ⟨by simp [triangle_3_3], ?_, ?_, 1, Or.inl rfl, ?_⟩
  · simp [polygon_area, triangle_3_3, list_get, List.range_succ]
  · intro i hi
    have hi3 : i < 3 := hi
    interval_cases i <;>
      norm_num [triangle_3_3, edge_vec, list_get, vec_subtract, VEC_ZERO]
  · intro i j hi hj
    have hi3 : i < 3 := hi
    have hj3 : j < 3 := hj
    interval_cases i <;> interval_cases j <;>
      norm_num [triangle_3_3, edge_vec, list_get, vec_cross, vec_subtract]

/-- The triangle beyond the hypotenuse is a convex polygon. -/
theorem convex_polygon_triangle_beyond :
    convex_polygon (triangle_beyond : List (vector_t ℝ)) := by
  refine ⟨by simp [triangle_beyond], ?_, ?_, -1, Or.inr rfl, ?_⟩
  · simp [polygon_area, triangle_beyond, list_get, List.range_succ]
    norm_num
  · intro i hi
    have hi3 : i < 3 := hi
    interval_cases i <;>
      norm_num [triangle_beyond, edge_vec, list_get, vec_subtract, VEC_ZERO]
  · intro i j hi hj
    have hi3 : i < 3 := hi
    have hj3 : j < 3 := hj
    interval_cases i <;> interval_cases j <;>
      norm_num [triangle_beyond, edge_vec, list_get, vec_cross, vec_subtract]

/-- C37, the code on doubles at the failing input: the triangles (0,0), (3,0), (0,3) and
`(1 + 2 ^ -51, 2)`, (4,5), (5,5) are convex polygons with coordinates that are doubles
and have no point in common (`x + y` is at most 3 on the first and more than 3 on the
second); on the normal of the hypotenuse the projections of the two nearest vertices
round to the same double, no edge separates, and `find_collision` returns
`collided = true`, in either order of the arguments. -/
theorem find_collision_reports_disjoint :
    convex_polygon (triangle_3_3 : List (vector_t ℝ))
      ∧ convex_polygon (triangle_beyond : List (vector_t ℝ))
      ∧ (¬ ∃ x : vector_t ℝ, in_hull x triangle_3_3 ∧ in_hull x triangle_beyond)
      ∧ (∀ p ∈ (triangle_3_3 : List (vector_t ℚ)), round64 p.x = p.x ∧ round64 p.y = p.y)
      ∧ (∀ p ∈ (triangle_beyond : List (vector_t ℚ)),
          round64 p.x = p.x ∧ round64 p.y = p.y)
      ∧ (Binary64.find_collision triangle_3_3 triangle_beyond).collided = true
      ∧ (Binary64.find_collision triangle_beyond triangle_3_3).collided = true := by
  refine ⟨convex_polygon_triangle_3_3, convex_polygon_triangle_beyond, ?_,
    find_collision_apart_rounded⟩
  rintro ⟨x, h1, h2⟩
  have h := separating_of_common_point (triangle_3_3 : List (vector_t ℝ)) triangle_beyond x
    ⟨1, 1⟩ h1 h2
  have e : separating (triangle_3_3 : List (vector_t ℝ)) triangle_beyond ⟨1, 1⟩ = true := by
    simp [separating, find_min_max_interval, triangle_3_3, triangle_beyond, vec_dot]
    norm_num
  rw [e] at h
  cases h

/-! ## Two destructive collisions on one body -/

/-- The shape of the unit square body moved to (1, 0). -/
theorem right_square_body_shape : right_square_body.shape = square_at 1 := by
  have hc : unit_square_body.centroid = ⟨0, 0⟩ := by
    simp [unit_square_body, body_init, polygon_centroid, polygon_area, make_shape, list_get,
      List.range_succ]
    norm_num
  simp only [right_square_body, body_set_centroid, hc, square_at]
  simp [unit_square_body, body_init, vec_subtract]

/-- The force-creator phase on the scene with two destructive collisions flags all
three bodies. -/
theorem chain_scene_forces :
    ∃ fas mem2, scene_tick_forces chain_scene.force_appliers chain_scene.mem = some (fas, mem2)
      ∧ (∀ fa ∈ fas, fa.bodies ≠ none)
      ∧ ∀ p, p < 3 → body_is_removed (mem2 p) = true := by
  have hs : sqrt_table 4 = 2 := by norm_num [sqrt_table]
  have c1 : find_collision sqrt_table make_shape (square_at (-1 : ℚ))
      = ⟨true, some ⟨1, 0⟩⟩ := by
    rw [find_collision_squares sqrt_table hs (-1), if_neg (by norm_num), if_neg (by norm_num)]
  have c2 : find_collision sqrt_table make_shape (square_at (1 : ℚ))
      = ⟨true, some ⟨1, 0⟩⟩ := by
    rw [find_collision_squares sqrt_table hs 1, if_neg (by norm_num), if_neg (by norm_num)]
  have e0 : unit_square_body.shape = make_shape := rfl
  have e1 := left_square_body_shape
  have e2 := right_square_body_shape
  refine ⟨[⟨apply_collision_forcer sqrt_table,
        ⟨0, 0, 1, some destructive_collision_handler, true⟩, some [0, 1]⟩,
      ⟨apply_collision_forcer sqrt_table,
        ⟨0, 0, 2, some destructive_collision_handler, true⟩, some [0, 2]⟩],
    Function.update (Function.update
      (Function.update (Function.update chain_mem 0 (body_remove unit_square_body)) 1
        (body_remove left_square_body)) 0 (body_remove (body_remove unit_square_body))) 2
      (body_remove right_square_body), ?_, ?_, ?_⟩
  · simp [chain_scene, create_destructive_collision, create_collision,
      scene_add_bodies_force_creator, scene_add_body, scene_init, scene_tick_forces,
      apply_collision_forcer, apply_collision, chain_mem, destructive_collision_handler,
      e0, e1, e2, c1, c2, body_remove, Function.update]
  · intro fa hfa
    simp only [List.mem_cons, List.mem_singleton, List.not_mem_nil, or_false] at hfa
    rcases hfa with rfl | rfl <;> simp
  · intro p hp
    interval_cases p <;> simp [Function.update, body_is_removed, body_remove]

/-- C13, the code at the failing input, a scene with a second destructive collision: the
squares at (0,0), (-1,0) and (1,0), none flagged removed, with destructive collisions on
the first and the second and on the first and the third, both pairs overlapping; one
`scene_tick` deletes all three bodies, so `scene_bodies` decreases by 3 and the third
body does not stay. -/
theorem destructive_collision_chain :
    (find_collision sqrt_table (chain_scene.mem 0).shape (chain_scene.mem 1).shape).collided
        = true
      ∧ destructive_collision_applier sqrt_table 0 1 ∈ chain_scene.force_appliers
      ∧ chain_scene.bodies = [0, 1, 2]
      ∧ (∀ p ∈ chain_scene.bodies, body_is_removed (chain_scene.mem p) = false)
      ∧ ∃ s2, scene_tick chain_scene 1 = some s2 ∧ s2.bodies = []
          ∧ scene_bodies s2 + 3 = scene_bodies chain_scene := by
  have hs : sqrt_table 4 = 2 := by norm_num [sqrt_table]
  obtain ⟨fas, mem2, hforce, hdeps, hflags⟩ := chain_scene_forces
  refine ⟨?_, ?_, rfl, ?_, ?_⟩
  · have e0 : (chain_scene.mem 0).shape = make_shape := rfl
    have e1 : (chain_scene.mem 1).shape = square_at (-1) := left_square_body_shape
    rw [e0, e1, find_collision_squares sqrt_table hs (-1), if_neg (by norm_num),
      if_neg (by norm_num)]
  · simp [chain_scene, create_destructive_collision, create_collision,
      scene_add_bodies_force_creator, scene_add_body, scene_init,
      destructive_collision_applier]
  · intro p hp
    have hp3 : p = 0 ∨ p = 1 ∨ p = 2 := by
      simpa [chain_scene, create_destructive_collision, create_collision,
        scene_add_bodies_force_creator, scene_add_body, scene_init] using hp
    rcases hp3 with rfl | rfl | rfl <;> rfl
  · obtain ⟨s2, hs2, hbod, -⟩ := scene_tick_bodies_spec (1 : ℚ) chain_scene.bodies []
      { chain_scene with force_appliers := fas, mem := mem2 } (by simp) (by decide)
      (fun _ => hdeps)
    refine ⟨s2, ?_, ?_, ?_⟩
    · rw [scene_tick, hforce]
      exact hs2
    · rw [hbod]
      simp only [List.append_nil]
      have hb : chain_scene.bodies = [0, 1, 2] := rfl
      rw [hb]
      simp [hflags]
    · rw [scene_bodies, scene_bodies, hbod]
      have hb : chain_scene.bodies = [0, 1, 2] := rfl
      rw [hb]
      simp [hflags]

end PortalGame
